import Mathlib

/-!
# entree: decision-tree ensembles

A shallow embedding of the column-subset generator (`subsets.cpp`), the compact tree
(`train.cpp`), the predictor (`predict.cpp`), the tree builder (`train.cpp`, `prune.cpp`) and
the value utilities (`format.cpp`: category maps, selections, sorting, imputation, conversion
between cells and values) and the line reader (`csv.cpp`) of the entree library, followed by
the properties proved about them.

Conventions of the embedding:
* `size_t` values are natural numbers and `index_t` values are integers; the places where the
  source relies on unsigned wrap-around (`n - k` in `nChooseK`) reduce modulo `2 ^ 64` explicitly;
* `double` values are rationals; the two library functions `log` and `sqrt` are parameters;
* `LOGIC_ERROR_IF` / `RUNTIME_ERROR_IF` become `Except.error`; an out-of-range `operator[]`
  access, a division of a `size_t` by zero and a null dereference become errors as well;
* loops that the source bounds by a counter are structural recursions on that counter; the
  `while` loop of `predictOne` takes explicit fuel;
* a `std::string` is a `String`, whose order is the lexicographic order of `std::string`; a
  `std::map` is an association list; the conversions between a `double` and text are
  parameters.
-/

namespace Entree

/-! ## Common types (format.h) -/

/-- The failures of the embedding: the two exception macros of the source, and the undefined
behaviours (bad subscript, integer division by zero, null dereference) that the model records
instead of performing. -/
inductive Error where
  | logicError (msg : String)
  | runtimeError (msg : String)
  | outOfRange
  | divideByZero
  | nullDereference
  | outOfFuel
  deriving DecidableEq, Repr

deriving instance DecidableEq for Except

/-- `const index_t NO_INDEX = -1;` -/
def NO_INDEX : Int := -1

/-- The modulus of `size_t` arithmetic. -/
def sizeModulus : Nat := 2 ^ 64

/-- Subtraction of two `size_t` values, wrapping around as unsigned arithmetic does. -/
def sizeSub (a b : Nat) : Nat := (a + sizeModulus - b % sizeModulus) % sizeModulus

/-- Conversion `(index_t) x` of a `double`: truncation toward zero. -/
def truncToIndex (x : ℚ) : Int := if 0 ≤ x then ⌊x⌋ else ⌈x⌉

/-! ## subsets.cpp -/

/-- First loop of `nChooseK`: `for (size_t i = n; i > k; i--) result *= i;`,
the loop variable being the first argument. -/
def nChooseKMul (k : Nat) : Nat → ℚ → ℚ
  | 0, result => result
  | i + 1, result => if i + 1 > k then nChooseKMul k i (result * ((i + 1 : Nat) : ℚ)) else result

/-- Second loop of `nChooseK`: `for (size_t i = n - k; i > 1; i--) result /= i;`. -/
def nChooseKDiv : Nat → ℚ → ℚ
  | 0, result => result
  | i + 1, result => if i + 1 > 1 then nChooseKDiv i (result / ((i + 1 : Nat) : ℚ)) else result

/-- `double nChooseK(size_t n, size_t k)`: number of combinations of k items out of n. -/
def nChooseK (n k : Nat) : ℚ :=
  let k1 := if sizeSub n k > k then sizeSub n k else k
  let result := nChooseKMul k1 n 1
  nChooseKDiv (sizeSub n k1) result

/-- The guard `limit == NO_INDEX || (index_t)count < limit` of `iterateCombinations`. -/
def underLimit (count : Nat) (limit : Int) : Bool :=
  decide (limit = NO_INDEX) || decide ((count : Int) < limit)

/-- `iterateCombinations(n, k, append, combinations, count, limit)`: the combinations generated
in this pass (those the call inserts at the end of `combinations`) and the updated `count`. -/
def iterateCombinations : Nat → Nat → Int → Nat → Int → List (List Nat) × Nat
  | 0, _, _, count, _ => ([], count)
  | n + 1, k, append, count, limit =>
    let pass : List (List Nat) × Nat :=
      if k = 0 then
        if underLimit count limit then ([[]], count + 1) else ([], count)
      else if n + 1 = k then
        if underLimit count limit then ([List.range k], count + 1) else ([], count)
      else
        let r1 : List (List Nat) × Nat :=
          if underLimit count limit then iterateCombinations n k NO_INDEX count limit
          else ([], count)
        let r2 : List (List Nat) × Nat :=
          if underLimit r1.2 limit then iterateCombinations n (k - 1) (n : Int) r1.2 limit
          else ([], r1.2)
        (r1.1 ++ r2.1, r2.2)
    (if append ≠ NO_INDEX then pass.1.map (fun c => c ++ [append.toNat]) else pass.1, pass.2)

/-- `compareUsagePair`: pairs are (column index, usage count); ascending usage, ties broken by
ascending column index. -/
def compareUsagePair (i j : Nat × Nat) : Bool :=
  if i.2 < j.2 then true
  else if i.2 > j.2 then false
  else if i.1 < j.1 then true
  else false

/-- The group layout that `makeSelectColSubsets` settles on (its "most-recent successful
trial" variables). -/
structure GroupLayout where
  nFullGroups : Nat
  columnsPerFullGroup : Nat
  columnsPerShortGroup : Nat
  kChoose : Nat
  specialCaseShortGroup : Bool
  deriving DecidableEq, Repr

/-- One trial of the `while (!done)` loop of `makeSelectColSubsets` for the already decremented
group size `g`: the trial layout and its `comboCount`. -/
def trialLayout (columnsCount columnsPerSubset g : Nat) : GroupLayout × Int :=
  let nFullGroupsNext := columnsCount / g
  let columnsPerShortGroupNext := columnsCount - nFullGroupsNext * g
  let kChooseNext := (columnsPerSubset + g - 1) / g
  let specialCaseShortGroupNext : Bool :=
    decide (columnsPerShortGroupNext ≠ 0) &&
      decide ((kChooseNext - 1) * g + columnsPerShortGroupNext < columnsPerSubset)
  let comboCount : Int :=
    if specialCaseShortGroupNext then truncToIndex (2 * nChooseK nFullGroupsNext kChooseNext)
    else if columnsPerShortGroupNext ≠ 0 then truncToIndex (nChooseK (nFullGroupsNext + 1) kChooseNext)
    else truncToIndex (nChooseK nFullGroupsNext kChooseNext)
  (⟨nFullGroupsNext, g, columnsPerShortGroupNext, kChooseNext, specialCaseShortGroupNext⟩,
    comboCount)

/-- The `while (!done)` loop of `makeSelectColSubsets`. The first argument is
`columnsPerFullGroupNext` on entry to an iteration; the iteration decrements it, divides by it,
keeps the trial when it is within `maxSubsets`, and stops at group size 1 or at the limit. -/
def groupSearch (columnsCount columnsPerSubset : Nat) (maxSubsets : Int) :
    Nat → GroupLayout → Except Error GroupLayout
  | 0, _ => .error .divideByZero
  | g + 1, saved =>
    if g = 0 then .error .divideByZero
    else
      let trial := trialLayout columnsCount columnsPerSubset g
      let limitOK : Bool := decide (trial.2 ≤ maxSubsets)
      let saved1 := if limitOK then trial.1 else saved
      if saved1.columnsPerFullGroup = 1 ∨ trial.2 ≥ maxSubsets then .ok saved1
      else groupSearch columnsCount columnsPerSubset maxSubsets g saved1

/-- The columns of one group: `for (colIndex = groupIndex * g; colIndex < (groupIndex + 1) * g
&& colIndex < columnsCount; colIndex++)`. -/
def groupColumns (columnsCount g groupIndex : Nat) : List Nat :=
  (List.range' (groupIndex * g) g).takeWhile (fun colIndex => decide (colIndex < columnsCount))

/-- `usagePairs[index].second++`; `index` is the first component of a pair read from
`usagePairs`, where pair number `k` carries column `k`. -/
def incrementUsage : List (Nat × Nat) → Nat → List (Nat × Nat)
  | [], _ => []
  | p :: ps, 0 => (p.1, p.2 + 1) :: ps
  | p :: ps, index + 1 => p :: incrementUsage ps index

/-- `std::sort(nextUsagePairs.begin(), nextUsagePairs.end(), compareUsagePair)`. -/
def sortUsagePairs (l : List (Nat × Nat)) : List (Nat × Nat) :=
  l.insertionSort (fun a b => compareUsagePair a b = true)

/-- The reads `usagePairs[colIndex]` for a list of column indexes, in order. -/
def usagePairsAt (usagePairs : List (Nat × Nat)) : List Nat → Except Error (List (Nat × Nat))
  | [] => .ok []
  | colIndex :: rest =>
    match usagePairs[colIndex]? with
    | none => .error .outOfRange
    | some p =>
      match usagePairsAt usagePairs rest with
      | .error e => .error e
      | .ok ps => .ok (p :: ps)

/-- Body of the loop over `combinations` in `makeSelectColSubsets`: the subset made from one
combination and the updated usage pairs. -/
def nextSubsetOf (columnsCount columnsPerSubset g : Nat) (usagePairs : List (Nat × Nat))
    (combination : List Nat) : Except Error (List Nat × List (Nat × Nat)) := do
  let cols := combination.flatMap (groupColumns columnsCount g)
  let nextUsagePairs ← usagePairsAt usagePairs cols
  let sorted := sortUsagePairs nextUsagePairs
  if sorted.length < columnsPerSubset then
    throw (Error.logicError "broken")
  else
    let nextSubset := (sorted.take columnsPerSubset).map Prod.fst
    pure (nextSubset, nextSubset.foldl incrementUsage usagePairs)

/-- The loop over `combinations` in `makeSelectColSubsets`. -/
def subsetsLoop (columnsCount columnsPerSubset g : Nat) :
    List (List Nat) → List (Nat × Nat) → Except Error (List (List Nat))
  | [], _ => pure []
  | combination :: rest, usagePairs => do
    let r ← nextSubsetOf columnsCount columnsPerSubset g usagePairs combination
    let more ← subsetsLoop columnsCount columnsPerSubset g rest r.2
    pure (r.1 :: more)

/-- The combinations collected for a layout ("next step, collect iterations"). -/
def collectCombinations (layout : GroupLayout) (maxSubsets : Int) : List (List Nat) :=
  if layout.specialCaseShortGroup then
    let r1 := iterateCombinations layout.nFullGroups layout.kChoose NO_INDEX 0 maxSubsets
    let r2 := iterateCombinations layout.nFullGroups layout.kChoose (layout.nFullGroups : Int)
      r1.2 maxSubsets
    r1.1 ++ r2.1
  else if layout.columnsPerShortGroup ≠ 0 then
    (iterateCombinations (layout.nFullGroups + 1) layout.kChoose NO_INDEX 0 maxSubsets).1
  else
    (iterateCombinations layout.nFullGroups layout.kChoose NO_INDEX 0 maxSubsets).1

/-- The layout chosen by the first step of `makeSelectColSubsets`. -/
def chooseLayout (columnsCount columnsPerSubset : Nat) (maxSubsets : Int) :
    Except Error GroupLayout :=
  if columnsPerSubset = 0 then .error .divideByZero
  else
    let columnsPerFullGroupNext := columnsPerSubset
    let nFullGroupsNext := columnsCount / columnsPerFullGroupNext
    let columnsPerShortGroupNext := columnsCount - nFullGroupsNext * columnsPerFullGroupNext
    let initial : GroupLayout :=
      ⟨nFullGroupsNext, columnsPerFullGroupNext, columnsPerShortGroupNext, 1,
        decide (columnsPerShortGroupNext ≠ 0)⟩
    if columnsPerFullGroupNext ≤ 1 then .ok initial
    else groupSearch columnsCount columnsPerSubset maxSubsets columnsPerFullGroupNext initial

/-- `makeSelectColSubsets(columnsCount, columnsPerSubset, maxSubsets, subsets)`. -/
def makeSelectColSubsets (columnsCount columnsPerSubset : Nat) (maxSubsets : Int) :
    Except Error (List (List Nat)) :=
  if columnsPerSubset > columnsCount then
    .error (.logicError "makeSelectColSubsets: columnsPerSubset > columnsCount")
  else do
    let layout ← chooseLayout columnsCount columnsPerSubset maxSubsets
    let combinations := collectCombinations layout maxSubsets
    let usagePairs := (List.range columnsCount).map (fun k => (k, 0))
    subsetsLoop columnsCount columnsPerSubset layout.columnsPerFullGroup combinations usagePairs


/-! ## Values, categories and selections (format.h, format.cpp) -/

/-- `enum ValueType`. -/
inductive ValueType where
  | kNumeric
  | kCategorical
  deriving DecidableEq, Repr

/-- `union Number { double d; index_t i; }`. The column's `ValueType` tells which member is in
use; the embedding keeps both members side by side. -/
structure Number where
  d : ℚ
  i : Int
  deriving DecidableEq, Repr

/-- `struct Value { Number number; bool na; }`. -/
structure Value where
  number : Number
  na : Bool
  deriving DecidableEq, Repr

/-- `const Value gNaValue = { { 0.0 }, true };` -/
def gNaValue : Value := ⟨⟨0, 0⟩, true⟩

/-- A read `v[index]` (or `v.at(index)`) of a vector; out of range is an error. -/
def vecGet {α : Type} (v : List α) (index : Nat) : Except Error α :=
  match v[index]? with
  | some x => .ok x
  | none => .error .outOfRange

/-- A write `v[index] = x` of a vector; out of range is an error. -/
def vecSet {α : Type} (v : List α) (index : Nat) (x : α) : Except Error (List α) :=
  if index < v.length then .ok (v.set index x) else .error .outOfRange

/-- `(size_t) index` used as a subscript: a negative `index_t` becomes a huge `size_t`, which is
out of range for every vector. -/
def indexToSize (index : Int) : Except Error Nat :=
  if index < 0 then .error .outOfRange else .ok index.toNat

/-- `v.resize(n, fill)`. -/
def vecResize {α : Type} (v : List α) (n : Nat) (fill : α) : List α :=
  v.take n ++ List.replicate (n - v.length) fill

/-- `class CategoryMaps`: the level names in insertion order and the name-to-index map. -/
structure CategoryMaps where
  useNaCategory : Bool
  categories : List String
  categoryToIndex : List (String × Int)
  deriving DecidableEq, Repr

/-- `const string CategoryMaps::naCategory = " <NA> ";` -/
def CategoryMaps.naCategory : String := " <NA> "

/-- `CategoryMaps::findCategoryForIndex`: found flag and category. -/
def CategoryMaps.findCategoryForIndex (m : CategoryMaps) (index : Int) : Bool × String :=
  if index = NO_INDEX ∧ m.useNaCategory = true then (true, CategoryMaps.naCategory)
  else if 0 ≤ index ∧ index < (m.categories.length : Int) then
    (true, m.categories.getD index.toNat CategoryMaps.naCategory)
  else (false, CategoryMaps.naCategory)

/-- `CategoryMaps::getCategoryForIndex`: error if not found. -/
def CategoryMaps.getCategoryForIndex (m : CategoryMaps) (index : Int) : Except Error String :=
  if (m.findCategoryForIndex index).1 then .ok (m.findCategoryForIndex index).2
  else .error (.logicError "getCategoryForIndex: index not found")

/-- `CategoryMaps::beginIndex`. -/
def CategoryMaps.beginIndex (m : CategoryMaps) : Int :=
  if m.useNaCategory then NO_INDEX else 0

/-- `CategoryMaps::endIndex`. -/
def CategoryMaps.endIndex (m : CategoryMaps) : Int := (m.categories.length : Int)

/-- `CategoryMaps::countNamedCategories`. -/
def CategoryMaps.countNamedCategories (m : CategoryMaps) : Nat := m.categories.length

/-- `CategoryMaps::countAllCategories`. -/
def CategoryMaps.countAllCategories (m : CategoryMaps) : Nat :=
  if m.useNaCategory then m.categories.length + 1 else m.categories.length

/-- `class SelectIndexes`. -/
structure SelectIndexes where
  bitMap : List Bool
  indexes : List Nat
  selected : Nat
  deriving DecidableEq, Repr

/-- `SelectIndexes::SelectIndexes(size_t size, bool selectAll)`. -/
def SelectIndexes.create (size : Nat) (selectAll : Bool) : SelectIndexes :=
  ⟨List.replicate size selectAll, if selectAll then List.range size else [],
    if selectAll then size else 0⟩

/-- `SelectIndexes::clear`. -/
def SelectIndexes.clear (_s : SelectIndexes) (size : Nat) : SelectIndexes :=
  ⟨List.replicate size false, [], 0⟩

/-- `SelectIndexes::select`. -/
def SelectIndexes.select (s : SelectIndexes) (index : Nat) : Except Error SelectIndexes :=
  if index ≥ s.bitMap.length then .error (.logicError "SelectIndexes::select out of range")
  else if s.bitMap.getD index false = false then
    .ok ⟨s.bitMap.set index true, s.indexes ++ [index], s.selected + 1⟩
  else .ok s

/-- `SelectIndexes::boolVector`. -/
def SelectIndexes.boolVector (s : SelectIndexes) : List Bool := s.bitMap

/-- `SelectIndexes::indexVector`. -/
def SelectIndexes.indexVector (s : SelectIndexes) : List Nat := s.indexes

/-- `SelectIndexes::countSelected`. -/
def SelectIndexes.countSelected (s : SelectIndexes) : Nat := s.selected

/-! ## Category maps, selections and cell conversion (format.cpp) -/

/-- `CategoryMaps::CategoryMaps()`. -/
def CategoryMaps.create : CategoryMaps := ⟨false, [], []⟩

/-- `CategoryMaps::setUseNaCategory`. -/
def CategoryMaps.setUseNaCategory (m : CategoryMaps) (useNaCategory : Bool) : CategoryMaps :=
  { m with useNaCategory := useNaCategory }

/-- `std::map::insert(make_pair(key, value))`: a key that is present keeps its entry. The
traversal order of the map is used by `dump` only, so the entries stay in insertion order. -/
def mapInsert (entries : List (String × Int)) (key : String) (value : Int) :
    List (String × Int) :=
  match entries.lookup key with
  | some _ => entries
  | none => entries ++ [(key, value)]

/-- `CategoryMaps::findIndexForCategory`: found flag and index. -/
def CategoryMaps.findIndexForCategory (m : CategoryMaps) (category : String) : Bool × Int :=
  match m.categoryToIndex.lookup category with
  | some index => (true, index)
  | none => (false, NO_INDEX)

/-- `CategoryMaps::findOrInsertCategory`: the map afterwards and the index returned. -/
def CategoryMaps.findOrInsertCategory (m : CategoryMaps) (category : String) :
    CategoryMaps × Int :=
  if (m.findIndexForCategory category).1 then (m, (m.findIndexForCategory category).2)
  else
    ({ m with
        categories := m.categories ++ [category]
        categoryToIndex := mapInsert m.categoryToIndex category (m.categoryToIndex.length : Int) },
      (m.categoryToIndex.length : Int))

/-- `CategoryMaps::insertCategory`: the map afterwards, and the index returned or the error
raised. -/
def CategoryMaps.insertCategory (m : CategoryMaps) (category : String) :
    CategoryMaps × Except Error Int :=
  if (m.findIndexForCategory category).1 then
    (m, .error (.runtimeError "insertCategory: duplicate category name"))
  else
    ({ m with
        categories := m.categories ++ [category]
        categoryToIndex := mapInsert m.categoryToIndex category (m.categoryToIndex.length : Int) },
      .ok (m.categoryToIndex.length : Int))

/-- `CategoryMaps::getIndexForCategory`: error if not found. -/
def CategoryMaps.getIndexForCategory (m : CategoryMaps) (category : String) : Except Error Int :=
  if (m.findIndexForCategory category).1 then .ok (m.findIndexForCategory category).2
  else .error (.logicError "getIndexForCategory: category not found")

/-- `CategoryMaps::clear`. -/
def CategoryMaps.clear (m : CategoryMaps) : CategoryMaps :=
  { m with categories := [], categoryToIndex := [] }

/-- `SelectIndexes::SelectIndexes()`. -/
def SelectIndexes.createEmpty : SelectIndexes := ⟨[], [], 0⟩

/-- `SelectIndexes::SelectIndexes(const SelectIndexes& other)`. -/
def SelectIndexes.copy (other : SelectIndexes) : SelectIndexes :=
  ⟨other.bitMap, other.indexes, other.selected⟩

/-- `SelectIndexes::selectAll`. -/
def SelectIndexes.selectAll (_s : SelectIndexes) (size : Nat) : SelectIndexes :=
  ⟨List.replicate size true, List.range size, size⟩

/-- The `while` loop of `SelectIndexes::unselect`: erase the first entry equal to `index`. -/
def unselectLoop (index : Nat) : List Nat → List Nat
  | [] => []
  | entry :: rest => if index = entry then rest else entry :: unselectLoop index rest

/-- `SelectIndexes::unselect`; `selected--` on a zero counter wraps around. -/
def SelectIndexes.unselect (s : SelectIndexes) (index : Nat) : Except Error SelectIndexes :=
  if index ≥ s.bitMap.length then .error (.logicError "SelectIndexes::unselect out of range")
  else if s.bitMap.getD index false = true then
    .ok ⟨s.bitMap.set index false, unselectLoop index s.indexes,
      if s.selected = 0 then sizeModulus - 1 else s.selected - 1⟩
  else .ok s

/-- The two conversions between a `double` and text that the source takes from the stream
library: `iss >> value.number.d` (the number stored and `iss.fail()`), and
`oss << fixed << setprecision(8) << value.number.d`. -/
structure NumberText where
  read : String → ℚ × Bool
  write : ℚ → String

/-- The body of the two loops of `valuesToCells`: the text and the quoted flag of one cell. -/
def valueToCell (numberText : NumberText) (values : List (List Value))
    (valueTypes : List ValueType) (categoryMaps : List CategoryMaps) (writeNA : Bool)
    (naString : String) (row col : Nat) : Except Error (String × Bool) :=
  match vecGet values col with
  | .error e => .error e
  | .ok column =>
    match vecGet column row with
    | .error e => .error e
    | .ok value =>
      if value.na then .ok (if writeNA then naString else "", false)
      else
        match vecGet valueTypes col with
        | .error e => .error e
        | .ok .kCategorical =>
          match vecGet categoryMaps col with
          | .error e => .error e
          | .ok categoryMap =>
            if (categoryMap.findCategoryForIndex value.number.i).1 then
              .ok ((categoryMap.findCategoryForIndex value.number.i).2, true)
            else .ok (if writeNA then naString else "", false)
        | .ok .kNumeric => .ok (numberText.write value.number.d, false)

/-- The loop over the columns in `valuesToCells`, for one row. -/
def valuesToCellsRow (numberText : NumberText) (values : List (List Value))
    (valueTypes : List ValueType) (categoryMaps : List CategoryMaps) (writeNA : Bool)
    (naString : String) (row : Nat) : List Nat → Except Error (List (String × Bool))
  | [] => .ok []
  | col :: rest =>
    match valueToCell numberText values valueTypes categoryMaps writeNA naString row col with
    | .error e => .error e
    | .ok cell =>
      match valuesToCellsRow numberText values valueTypes categoryMaps writeNA naString row
          rest with
      | .error e => .error e
      | .ok more => .ok (cell :: more)

/-- The loop over the rows in `valuesToCells`. -/
def valuesToCellsRows (numberText : NumberText) (values : List (List Value))
    (valueTypes : List ValueType) (categoryMaps : List CategoryMaps) (writeNA : Bool)
    (naString : String) (numCols : Nat) : List Nat → Except Error (List (List (String × Bool)))
  | [] => .ok []
  | row :: rest =>
    match valuesToCellsRow numberText values valueTypes categoryMaps writeNA naString row
        (List.range numCols) with
    | .error e => .error e
    | .ok cellsRow =>
      match valuesToCellsRows numberText values valueTypes categoryMaps writeNA naString numCols
          rest with
      | .error e => .error e
      | .ok more => .ok (cellsRow :: more)

/-- `valuesToCells(values, valueTypes, categoryMaps, writeNA, naString, cells, quoted)`: the
cells and the quoted flags, both as a vector of rows. -/
def valuesToCells (numberText : NumberText) (values : List (List Value))
    (valueTypes : List ValueType) (categoryMaps : List CategoryMaps) (writeNA : Bool)
    (naString : String) : Except Error (List (List String) × List (List Bool)) :=
  match vecGet values 0 with
  | .error e => .error e
  | .ok firstColumn =>
    match valuesToCellsRows numberText values valueTypes categoryMaps writeNA naString
        values.length (List.range firstColumn.length) with
    | .error e => .error e
    | .ok rows =>
      .ok (rows.map (fun cellsRow => cellsRow.map Prod.fst),
        rows.map (fun cellsRow => cellsRow.map Prod.snd))

/-- The reads `cells[row].at(col)` and `quoted[row].at(col)` of `cellsToValues`. -/
def cellAt (cells : List (List String)) (quoted : List (List Bool)) (row col : Nat) :
    Except Error (String × Bool) :=
  match vecGet cells row with
  | .error e => .error e
  | .ok cellsRow =>
    match vecGet cellsRow col with
    | .error e => .error e
    | .ok cell =>
      match vecGet quoted row with
      | .error e => .error e
      | .ok quotedRow =>
        match vecGet quotedRow col with
        | .error e => .error e
        | .ok isQuoted => .ok (cell, isQuoted)

/-- The loop over the rows of a numeric column in `cellsToValues`. -/
def cellsToValuesNumeric (numberText : NumberText) (cells : List (List String))
    (quoted : List (List Bool)) (interpretNA : Bool) (naString : String) (col : Nat) :
    List Nat → Except Error (List Value)
  | [] => .ok []
  | row :: rest =>
    match cellAt cells quoted row col with
    | .error e => .error e
    | .ok (cell, isQuoted) =>
      let value : Value :=
        if interpretNA = true ∧ cell = naString ∧ isQuoted = false then gNaValue
        else if cell.length = 0 ∧ isQuoted = false then gNaValue
        else ⟨⟨(numberText.read cell).1, 0⟩, (numberText.read cell).2⟩
      match cellsToValuesNumeric numberText cells quoted interpretNA naString col rest with
      | .error e => .error e
      | .ok more => .ok (value :: more)

/-- The conversion of one cell of a categorical column in `cellsToValues`: the value and the
category map afterwards. -/
def cellToCategory (interpretNA : Bool) (naString : String) (constCategories : Bool)
    (cell : String) (isQuoted : Bool) (categoryMap : CategoryMaps) :
    Except Error (Value × CategoryMaps) :=
  if interpretNA = true ∧ cell = naString ∧ isQuoted = false then .ok (gNaValue, categoryMap)
  else if cell.length = 0 ∧ isQuoted = false then .ok (gNaValue, categoryMap)
  else if (categoryMap.findIndexForCategory cell).1 then
    .ok (⟨⟨0, (categoryMap.findIndexForCategory cell).2⟩, false⟩, categoryMap)
  else if constCategories then
    .ok (⟨⟨0, (categoryMap.findIndexForCategory cell).2⟩, true⟩, categoryMap)
  else
    match (categoryMap.insertCategory cell).2 with
    | .error e => .error e
    | .ok index => .ok (⟨⟨0, index⟩, false⟩, (categoryMap.insertCategory cell).1)

/-- The loop over the rows of a categorical column in `cellsToValues`. -/
def cellsToValuesCategorical (cells : List (List String)) (quoted : List (List Bool))
    (interpretNA : Bool) (naString : String) (constCategories : Bool) (col : Nat) :
    List Nat → CategoryMaps → Except Error (List Value × CategoryMaps)
  | [], categoryMap => .ok ([], categoryMap)
  | row :: rest, categoryMap =>
    match cellAt cells quoted row col with
    | .error e => .error e
    | .ok (cell, isQuoted) =>
      match cellToCategory interpretNA naString constCategories cell isQuoted categoryMap with
      | .error e => .error e
      | .ok (value, categoryMap1) =>
        match cellsToValuesCategorical cells quoted interpretNA naString constCategories col
            rest categoryMap1 with
        | .error e => .error e
        | .ok (more, categoryMap2) => .ok (value :: more, categoryMap2)

/-- The loop over the columns in `cellsToValues`. -/
def cellsToValuesLoop (numberText : NumberText) (cells : List (List String))
    (quoted : List (List Bool)) (valueTypes : List ValueType) (interpretNA : Bool)
    (naString : String) (constCategories : Bool) (numRows : Nat) :
    List Nat → List CategoryMaps → Except Error (List (List Value) × List CategoryMaps)
  | [], categoryMaps => .ok ([], categoryMaps)
  | col :: rest, categoryMaps =>
    let categoryMaps1 :=
      if categoryMaps.length ≤ col then categoryMaps ++ [CategoryMaps.create] else categoryMaps
    match vecGet categoryMaps1 col with
    | .error e => .error e
    | .ok categoryMap =>
      match vecGet valueTypes col with
      | .error e => .error e
      | .ok .kNumeric =>
        match cellsToValuesNumeric numberText cells quoted interpretNA naString col
            (List.range numRows) with
        | .error e => .error e
        | .ok columnValues =>
          match cellsToValuesLoop numberText cells quoted valueTypes interpretNA naString
              constCategories numRows rest categoryMaps1 with
          | .error e => .error e
          | .ok (more, categoryMaps2) => .ok (columnValues :: more, categoryMaps2)
      | .ok .kCategorical =>
        match cellsToValuesCategorical cells quoted interpretNA naString constCategories col
            (List.range numRows) categoryMap with
        | .error e => .error e
        | .ok (columnValues, categoryMap1) =>
          match cellsToValuesLoop numberText cells quoted valueTypes interpretNA naString
              constCategories numRows rest (categoryMaps1.set col categoryMap1) with
          | .error e => .error e
          | .ok (more, categoryMaps2) => .ok (columnValues :: more, categoryMaps2)

/-- `cellsToValues(cells, quoted, valueTypes, interpretNA, naString, values, constCategories,
categoryMaps)`: the values (a vector of columns) and the category maps afterwards. -/
def cellsToValues (numberText : NumberText) (cells : List (List String))
    (quoted : List (List Bool)) (valueTypes : List ValueType) (interpretNA : Bool)
    (naString : String) (constCategories : Bool) (categoryMaps : List CategoryMaps) :
    Except Error (List (List Value) × List CategoryMaps) :=
  match vecGet cells 0 with
  | .error e => .error e
  | .ok firstRow =>
    if firstRow.length ≠ valueTypes.length then
      .error (.logicError "mismatch valueTypes vs. cells")
    else if constCategories = true ∧ firstRow.length ≠ categoryMaps.length then
      .error (.logicError "mismatch categoryMaps vs. cells")
    else
      cellsToValuesLoop numberText cells quoted valueTypes interpretNA naString constCategories
        cells.length (List.range firstRow.length) categoryMaps

/-! ## The compact tree (train.h, train.cpp) -/

/-- `struct CompactTree`: five parallel vectors. -/
structure CompactTree where
  splitColIndex : List Int
  lessOrEqualIndex : List Int
  greaterOrNotIndex : List Int
  toLessOrEqualIfNA : List Bool
  value : List Number
  deriving DecidableEq, Repr

/-- The members of `struct TreeNode` other than the three node pointers. The anonymous union of
`branchSum2` and `branchCorrectCount` is kept as two members. -/
structure NodeData where
  leafValue : Value
  splitValue : Value
  toLessOrEqualIfNA : Bool
  splitColIndex : Int
  leafLessOrEqualCount : Int
  leafGreaterOrNotCount : Int
  branchSum2 : ℚ
  branchCorrectCount : Int
  selectRows : SelectIndexes
  index : Nat
  deriving DecidableEq, Repr

/-- A `TreeNode *`: `NULL`, or a node with its data and its two owned children
(`lessOrEqualNode`, `greaterOrNotNode`). The non-owning `parentNode` pointer is not stored;
the one function that follows it receives the ancestors as an argument. -/
inductive TreeNode where
  | null : TreeNode
  | node (data : NodeData) (lessOrEqualNode greaterOrNotNode : TreeNode) : TreeNode
  deriving DecidableEq, Repr

/-- `countNodes(nodeP)`; a `NULL` child is not visited and counts for nothing. -/
def countNodes : TreeNode → Nat
  | .null => 0
  | .node _ lessOrEqualNode greaterOrNotNode =>
    1 + countNodes lessOrEqualNode + countNodes greaterOrNotNode

/-- `indexNodes(nodeP)` with the global `gNextIndex` passed in and out; a `NULL` child is not
visited. -/
def indexNodes : TreeNode → Nat → TreeNode × Nat
  | .null, gNextIndex => (.null, gNextIndex)
  | .node data lessOrEqualNode greaterOrNotNode, gNextIndex =>
    let r1 := indexNodes lessOrEqualNode (gNextIndex + 1)
    let r2 := indexNodes greaterOrNotNode r1.2
    (.node { data with index := gNextIndex } r1.1 r2.1, r2.2)

/-- The five assignments `compactTree.xxx[nodeIndex] = ...` of `copyToCompact`. -/
def CompactTree.assign (compactTree : CompactTree) (nodeIndex : Nat) (splitColIndex : Int)
    (lessOrEqualIndex greaterOrNotIndex : Int) (toLessOrEqualIfNA : Bool) (value : Number) :
    CompactTree :=
  { splitColIndex := compactTree.splitColIndex.set nodeIndex splitColIndex
    lessOrEqualIndex := compactTree.lessOrEqualIndex.set nodeIndex lessOrEqualIndex
    greaterOrNotIndex := compactTree.greaterOrNotIndex.set nodeIndex greaterOrNotIndex
    toLessOrEqualIfNA := compactTree.toLessOrEqualIfNA.set nodeIndex toLessOrEqualIfNA
    value := compactTree.value.set nodeIndex value }

/-- `copyToCompact(compactTree, nodeP)`. -/
def copyToCompact : CompactTree → TreeNode → Except Error CompactTree
  | _, .null => .error .nullDereference
  | compactTree, .node data lessOrEqualNode greaterOrNotNode =>
    let nodeIndex := data.index
    if nodeIndex ≥ compactTree.value.length then .error (.logicError "out of range")
    else
      match lessOrEqualNode with
      | .null =>
        .ok (compactTree.assign nodeIndex NO_INDEX NO_INDEX NO_INDEX false data.leafValue.number)
      | .node lessOrEqualData _ _ =>
        match greaterOrNotNode with
        | .null => .error .nullDereference
        | .node greaterOrNotData _ _ =>
          let compactTree1 := compactTree.assign nodeIndex data.splitColIndex
            (lessOrEqualData.index : Int) (greaterOrNotData.index : Int) data.toLessOrEqualIfNA
            data.splitValue.number
          match copyToCompact compactTree1 lessOrEqualNode with
          | .error e => .error e
          | .ok compactTree2 => copyToCompact compactTree2 greaterOrNotNode

/-- `makeCompactTree(compactTree, root)`: renumber the nodes from 0, resize the five vectors to
the node count and copy. `root` is a reference in the source, so `NULL` is not a possible
argument. -/
def makeCompactTree (compactTree : CompactTree) (root : TreeNode) : Except Error CompactTree :=
  match root with
  | .null => .error .nullDereference
  | .node _ _ _ =>
    let indexed := (indexNodes root 0).1
    let count := countNodes indexed
    copyToCompact
      { splitColIndex := vecResize compactTree.splitColIndex count 0
        lessOrEqualIndex := vecResize compactTree.lessOrEqualIndex count 0
        greaterOrNotIndex := vecResize compactTree.greaterOrNotIndex count 0
        toLessOrEqualIfNA := vecResize compactTree.toLessOrEqualIfNA count false
        value := vecResize compactTree.value count ⟨0, 0⟩ }
      indexed

/-! ## Sorting (format.cpp) -/

/-- `SortValueVector::operator()(i, j)`: NA first, then ascending value, ties (and two NAs) by
ascending index. -/
def sortValueVectorLess (valueVector : List Value) (valueType : ValueType) (i j : Nat) : Bool :=
  let vi := valueVector.getD i gNaValue
  let vj := valueVector.getD j gNaValue
  match valueType with
  | .kNumeric =>
    if vi.na && vj.na then decide (i < j)
    else if vi.na && !vj.na then true
    else if !vi.na && vj.na then false
    else if vi.number.d < vj.number.d then true
    else if vi.number.d > vj.number.d then false
    else decide (i < j)
  | .kCategorical =>
    if vi.na && vj.na then decide (i < j)
    else if vi.na && !vj.na then true
    else if !vi.na && vj.na then false
    else if vi.number.i < vj.number.i then true
    else if vi.number.i > vj.number.i then false
    else decide (i < j)

/-- `std::sort(indexVector.begin(), indexVector.end(), *this)`; the comparison is a strict total
order on pairwise distinct indexes, so the sorted vector is unique. -/
def sortIndexes (valueVector : List Value) (valueType : ValueType) (indexVector : List Nat) :
    List Nat :=
  indexVector.insertionSort (fun i j => sortValueVectorLess valueVector valueType i j = true)

/-- `SortValueVector::sort(indexVector)`: sort all items. -/
def SortValueVector.sort (valueVector : List Value) (valueType : ValueType) : List Nat :=
  sortIndexes valueVector valueType (List.range valueVector.length)

/-- `SortValueVector::sort(indexVector, selectIndexes)`: the index vector is a copy of the
selection's index vector whose entries are then overwritten by 0, 1, 2, ... -/
def SortValueVector.sortSelected (valueVector : List Value) (valueType : ValueType)
    (selectIndexes : SelectIndexes) : List Nat :=
  sortIndexes valueVector valueType (List.range selectIndexes.indexVector.length)

/-- The loop over columns of `makeSortedIndexes`. -/
def makeSortedIndexesLoop (values : List (List Value)) (valueTypes : List ValueType)
    (columnIsSelected : List Bool) : Nat → Nat → Except Error (List (List Nat))
  | 0, _ => .ok []
  | remaining + 1, col =>
    match vecGet columnIsSelected col with
    | .error e => .error e
    | .ok selected =>
      let sortedColumn : Except Error (List Nat) :=
        if selected then
          match vecGet values col, vecGet valueTypes col with
          | .ok column, .ok valueType => .ok (SortValueVector.sort column valueType)
          | .error e, _ => .error e
          | _, .error e => .error e
        else .ok []
      match sortedColumn with
      | .error e => .error e
      | .ok sorted =>
        match makeSortedIndexesLoop values valueTypes columnIsSelected remaining (col + 1) with
        | .error e => .error e
        | .ok rest => .ok (sorted :: rest)

/-- `makeSortedIndexes(values, valueTypes, selectColumns, sortedIndexes)`. -/
def makeSortedIndexes (values : List (List Value)) (valueTypes : List ValueType)
    (selectColumns : SelectIndexes) : Except Error (List (List Nat)) :=
  match vecGet values 0 with
  | .error e => .error e
  | .ok _ => makeSortedIndexesLoop values valueTypes selectColumns.boolVector values.length 0

/-- The category indexes `beginCategoryIndex, ..., endCategoryIndex - 1` in loop order. -/
def categoryIndexes (beginCategoryIndex endCategoryIndex : Int) : List Int :=
  (List.range (endCategoryIndex - beginCategoryIndex).toNat).map
    (fun (k : Nat) => beginCategoryIndex + (k : Int))

/-! ## Mean, median, mode and imputation (format.cpp) -/

/-- `enum ImputeOption`. -/
inductive ImputeOption where
  | kNoImpute
  | kToCategory
  | kToMode
  | kToMean
  | kToMedian
  | kToDefault
  deriving DecidableEq, Repr

/-- The loop of `meanValue`: sum and count of the non-NA selected values. -/
def meanValueLoop (valuesColumn : List Value) : List Nat → ℚ × Int → Except Error (ℚ × Int)
  | [], acc => .ok acc
  | row :: rest, (sum, count) =>
    match valuesColumn[row]? with
    | none => .error (.logicError "out of range")
    | some v =>
      if v.na = false then meanValueLoop valuesColumn rest (sum + v.number.d, count + 1)
      else meanValueLoop valuesColumn rest (sum, count)

/-- `meanValue(valuesColumn, selectRows)`. -/
def meanValue (valuesColumn : List Value) (selectRows : SelectIndexes) : Except Error Value :=
  match meanValueLoop valuesColumn selectRows.indexVector (0, 0) with
  | .error e => .error e
  | .ok (sum, count) =>
    if count > 0 then .ok ⟨⟨sum / (count : ℚ), 0⟩, false⟩ else .ok gNaValue

/-- The loop of `medianValue`: the selected non-NA rows in the order of `sortedIndexes`. -/
def medianValueRows (valuesColumn : List Value) (rowSelected : List Bool) :
    List Nat → Except Error (List Nat)
  | [] => .ok []
  | row :: rest =>
    match valuesColumn[row]?, rowSelected[row]? with
    | some v, some selected =>
      match medianValueRows valuesColumn rowSelected rest with
      | .error e => .error e
      | .ok more => if selected && !v.na then .ok (row :: more) else .ok more
    | _, _ => .error (.logicError "out of range")

/-- `medianValue(valuesColumn, selectRows, sortedIndexes)`. -/
def medianValue (valuesColumn : List Value) (selectRows : SelectIndexes)
    (sortedIndexes : List Nat) : Except Error Value :=
  match medianValueRows valuesColumn selectRows.boolVector sortedIndexes with
  | .error e => .error e
  | .ok valueRows =>
    if valueRows.length = 0 then .ok gNaValue
    else
      match vecGet valueRows (valueRows.length / 2) with
      | .error e => .error e
      | .ok row => vecGet valuesColumn row

/-- The tally loop of `modeValue`. -/
def modeValueTally (valuesColumn : List Value) (categoryCount : Nat) (beginCategoryIndex : Int) :
    List Nat → List Nat → Except Error (List Nat)
  | [], counts => .ok counts
  | row :: rest, counts =>
    match valuesColumn[row]? with
    | none => .error (.logicError "out of range")
    | some v =>
      if v.na = false then
        let categoryIndex := v.number.i
        if categoryIndex < 0 then .error (.logicError "out of range")
        else if categoryIndex < (categoryCount : Int) then
          let countsIndex := (categoryIndex - beginCategoryIndex).toNat
          match counts[countsIndex]? with
          | none => .error .outOfRange
          | some n =>
            modeValueTally valuesColumn categoryCount beginCategoryIndex rest
              (counts.set countsIndex (n + 1))
        else modeValueTally valuesColumn categoryCount beginCategoryIndex rest counts
      else modeValueTally valuesColumn categoryCount beginCategoryIndex rest counts

/-- The loop of `modeValue` that picks the biggest count; the state is `value`,
`selectedCount` and `selectedName`. -/
def modeValuePick (categoryMaps : CategoryMaps) (beginCategoryIndex : Int) (counts : List Nat) :
    List Int → Value × Nat × String → Except Error (Value × Nat × String)
  | [], state => .ok state
  | categoryIndex :: rest, (value, selectedCount, selectedName) =>
    match categoryMaps.getCategoryForIndex categoryIndex with
    | .error e => .error e
    | .ok nextName =>
      match counts[(categoryIndex - beginCategoryIndex).toNat]? with
      | none => .error .outOfRange
      | some nextCount =>
        let pickThis : Bool :=
          if nextCount = 0 then false
          else if value.na then true
          else if nextCount > selectedCount then true
          else if nextCount = selectedCount then decide (nextName < selectedName)
          else false
        if pickThis then
          modeValuePick categoryMaps beginCategoryIndex counts rest
            (⟨{ value.number with i := categoryIndex }, false⟩, nextCount, nextName)
        else
          modeValuePick categoryMaps beginCategoryIndex counts rest
            (value, selectedCount, selectedName)

/-- `modeValue(valuesColumn, selectRows, categoryMaps)`. -/
def modeValue (valuesColumn : List Value) (selectRows : SelectIndexes)
    (categoryMaps : CategoryMaps) : Except Error Value :=
  let categoryCount := categoryMaps.countAllCategories
  let beginCategoryIndex := categoryMaps.beginIndex
  let endCategoryIndex := categoryMaps.endIndex
  if valuesColumn.length > 0 ∧ categoryCount > 0 then
    match modeValueTally valuesColumn categoryCount beginCategoryIndex selectRows.indexVector
        (List.replicate categoryCount 0) with
    | .error e => .error e
    | .ok counts =>
      match modeValuePick categoryMaps beginCategoryIndex counts
          (categoryIndexes beginCategoryIndex endCategoryIndex) (gNaValue, 0, "") with
      | .error e => .error e
      | .ok state => .ok state.1
  else .ok gNaValue

/-- `imputedValue(col, convertTypes, values, valueTypes, selectRows, categoryMaps,
sortedIndexes)`. -/
def imputedValue (col : Nat) (convertTypes : List ImputeOption) (values : List (List Value))
    (valueTypes : List ValueType) (selectRows : SelectIndexes) (categoryMaps : List CategoryMaps)
    (sortedIndexes : List (List Nat)) : Except Error Value := do
  if col ≥ values.length then throw (Error.logicError "out of range")
  let valueType ← vecGet valueTypes col
  let convertType ← vecGet convertTypes col
  match valueType, convertType with
  | .kCategorical, .kNoImpute => pure gNaValue
  | .kCategorical, .kToCategory => pure ⟨⟨0, NO_INDEX⟩, false⟩
  | .kCategorical, .kToMode => do
    let column ← vecGet values col
    let map ← vecGet categoryMaps col
    modeValue column selectRows map
  | .kCategorical, .kToMean => throw (Error.runtimeError "invalid NA conversion for categorical type")
  | .kCategorical, .kToMedian =>
    throw (Error.runtimeError "invalid NA conversion for categorical type")
  | .kCategorical, .kToDefault => throw (Error.logicError "unconverted kToDefault")
  | .kNumeric, .kNoImpute => pure gNaValue
  | .kNumeric, .kToCategory => throw (Error.runtimeError "invalid NA conversion for numerical type")
  | .kNumeric, .kToMode => throw (Error.runtimeError "invalid NA conversion for numerical type")
  | .kNumeric, .kToMean => do
    let column ← vecGet values col
    meanValue column selectRows
  | .kNumeric, .kToMedian => do
    let column ← vecGet values col
    let sorted ← vecGet sortedIndexes col
    medianValue column selectRows sorted
  | .kNumeric, .kToDefault => throw (Error.logicError "unconverted kToDefault")

/-- The loop over the selected rows in `imputeValues`: replace the NA cells of one column;
the flag tells whether a cell was replaced. -/
def imputeColumn (imputed : Value) : List Nat → List Value × Bool → Except Error (List Value × Bool)
  | [], acc => .ok acc
  | row :: rest, (column, changedCol) =>
    match column[row]? with
    | none => .error .outOfRange
    | some v =>
      if v.na then imputeColumn imputed rest (column.set row imputed, true)
      else imputeColumn imputed rest (column, changedCol)

/-- The mutable arguments of `imputeValues`. -/
structure ImputeState where
  values : List (List Value)
  categoryMaps : List CategoryMaps
  sortedIndexes : List (List Nat)
  imputedValues : List Value
  deriving DecidableEq, Repr

/-- The loop over the selected columns in `imputeValues`. -/
def imputeValuesLoop (convertTypes : List ImputeOption) (valueTypes : List ValueType)
    (selectRows : SelectIndexes) (selectColumnIndexes : List Nat) (numCols numRows : Nat) :
    List Nat → ImputeState → Except Error ImputeState
  | [], st => .ok st
  | columnIndex :: rest, st => do
    let col ← vecGet selectColumnIndexes columnIndex
    if col ≥ numCols then throw (Error.logicError "out of range")
    let column ← vecGet st.values col
    if numRows ≠ column.length then throw (Error.logicError "size mismatch within values")
    let convertType ← vecGet convertTypes col
    let map ← vecGet st.categoryMaps col
    let categoryMaps1 :=
      if convertType = .kToCategory then st.categoryMaps.set col { map with useNaCategory := true }
      else st.categoryMaps
    if convertType = .kToDefault then throw (Error.logicError "unconverted kToDefault")
    if convertType ≠ .kNoImpute then do
      let imputed ← imputedValue col convertTypes st.values valueTypes selectRows categoryMaps1
        st.sortedIndexes
      let imputedValues1 ← vecSet st.imputedValues col imputed
      let r ← imputeColumn imputed selectRows.indexVector (column, false)
      let values1 := st.values.set col r.1
      let valueType ← vecGet valueTypes col
      let sortedIndexes1 ←
        if r.2 then
          if col < st.sortedIndexes.length then
            pure (st.sortedIndexes.set col (SortValueVector.sortSelected r.1 valueType selectRows))
          else throw Error.outOfRange
        else pure st.sortedIndexes
      imputeValuesLoop convertTypes valueTypes selectRows selectColumnIndexes numCols numRows rest
        ⟨values1, categoryMaps1, sortedIndexes1, imputedValues1⟩
    else
      imputeValuesLoop convertTypes valueTypes selectRows selectColumnIndexes numCols numRows rest
        { st with categoryMaps := categoryMaps1 }

/-- `imputeValues(convertTypes, valueTypes, values, selectRows, selectColumns, categoryMaps,
sortedIndexes, imputedValues)`. -/
def imputeValues (convertTypes : List ImputeOption) (valueTypes : List ValueType)
    (values : List (List Value)) (selectRows selectColumns : SelectIndexes)
    (categoryMaps : List CategoryMaps) (sortedIndexes : List (List Nat)) :
    Except Error ImputeState := do
  let numSelectCols := selectColumns.countSelected
  let numCols := values.length
  let firstColumn ← vecGet values 0
  let numRows := firstColumn.length
  if numCols ≠ valueTypes.length then
    throw (Error.logicError "size mismatch valueTypes vs. values")
  if numCols ≠ convertTypes.length then
    throw (Error.logicError "size mismatch convertTypes vs. values")
  if numCols ≠ sortedIndexes.length then
    throw (Error.logicError "size mismatch sortedIndexes vs. values")
  if numCols ≠ categoryMaps.length then
    throw (Error.logicError "size mismatch categoryMaps vs. values")
  imputeValuesLoop convertTypes valueTypes selectRows selectColumns.indexVector numCols numRows
    (List.range numSelectCols)
    ⟨values, categoryMaps, sortedIndexes, List.replicate numCols gNaValue⟩

/-! ## Impurity measures and split search (train.cpp)

A `double` is embedded as an exact rational, so rounding, infinities and NaN are outside the
embedding; the two `<cmath>` functions used by the trainer are parameters. The `isnan` checks of
`entropyForSplit` and `sdForSplit` can therefore not fire and are left out. An `int` is
embedded as an unbounded integer. The debugging output (`gVerbose` and its variants, all
`false` by default) is not part of the embedding, so `colNames` is not either. -/

/-- The functions `log` and `sqrt` of `<cmath>`. -/
structure Libm where
  log : ℚ → ℚ
  sqrt : ℚ → ℚ

/-- `struct ValueAndMeasure`. -/
structure ValueAndMeasure where
  value : Value
  measure : ℚ
  deriving DecidableEq, Repr

/-- The read `values[col][row]`. -/
def cell (values : List (List Value)) (col row : Nat) : Except Error Value :=
  match vecGet values col with
  | .error e => .error e
  | .ok column => vecGet column row

/-- The loop `total += counts[k]`. -/
def sumCounts (counts : List Int) : Int := counts.foldl (fun total c => total + c) 0

/-- The loop `if (counts[k] > 0) { p = (double)counts[k] / total; entropy += -p * log(p); }`. -/
def entropyTerms (libm : Libm) (total : Int) (counts : List Int) : ℚ :=
  counts.foldl
    (fun entropy c =>
      if c > 0 then entropy + -((c : ℚ) / (total : ℚ)) * libm.log ((c : ℚ) / (total : ℚ))
      else entropy)
    0

/-- `entropyForCounts(targetCategoryCounts)`. -/
def entropyForCounts (libm : Libm) (targetCategoryCounts : List Int) : ℚ :=
  let total := sumCounts targetCategoryCounts
  if total > 0 then entropyTerms libm total targetCategoryCounts else 0

/-- `entropyForSplit(lessThanOrEqualCounts, totalCounts)`. The second loop reads
`totalCounts[k]` for every `k < lessThanOrEqualCounts.size()`. -/
def entropyForSplit (libm : Libm) (lessThanOrEqualCounts totalCounts : List Int) :
    Except Error ℚ :=
  let lessThanOrEqualTotal := sumCounts lessThanOrEqualCounts
  let total := sumCounts totalCounts
  let greaterThanOrNotEqualTotal := total - lessThanOrEqualTotal
  let lessThanOrEqualEntropy : ℚ :=
    if lessThanOrEqualTotal > 0 then entropyTerms libm lessThanOrEqualTotal lessThanOrEqualCounts
    else 0
  if greaterThanOrNotEqualTotal > 0 ∧ totalCounts.length < lessThanOrEqualCounts.length then
    .error .outOfRange
  else
    let greaterThanOrNotEqualEntropy : ℚ :=
      if greaterThanOrNotEqualTotal > 0 then
        entropyTerms libm greaterThanOrNotEqualTotal
          (List.zipWith (fun t l => t - l) totalCounts lessThanOrEqualCounts)
      else 0
    if total > 0 then
      .ok (lessThanOrEqualEntropy * (lessThanOrEqualTotal : ℚ) / (total : ℚ) +
        greaterThanOrNotEqualEntropy * (greaterThanOrNotEqualTotal : ℚ) / (total : ℚ))
    else .ok 0

/-- `stDev(count, sum, sum2)`. -/
def stDev (libm : Libm) (count : Int) (sum sum2 : ℚ) : ℚ :=
  if count > 1 then
    let sd2 := (sum2 - sum * sum / (count : ℚ)) / ((count : ℚ) - 1)
    if sd2 > 0 then libm.sqrt sd2 else 0
  else 0

/-- `sdForSplit(lessThanOrEqualSum, lessThanOrEqualSum2, lessThanOrEqualCount, totalSum,
totalSum2, totalCount)`. -/
def sdForSplit (libm : Libm) (lessThanOrEqualSum lessThanOrEqualSum2 : ℚ)
    (lessThanOrEqualCount : Int) (totalSum totalSum2 : ℚ) (totalCount : Int) : ℚ :=
  let greaterThanOrNotEqualCount := totalCount - lessThanOrEqualCount
  let greaterThanOrNotEqualSum := totalSum - lessThanOrEqualSum
  let greaterThanOrNotEqualSum2 := totalSum2 - lessThanOrEqualSum2
  if lessThanOrEqualCount > 1 ∧ greaterThanOrNotEqualCount > 1 then
    let lessThanOrEqualSd := stDev libm lessThanOrEqualCount lessThanOrEqualSum lessThanOrEqualSum2
    let greaterThanOrNotEqualSd :=
      stDev libm greaterThanOrNotEqualCount greaterThanOrNotEqualSum greaterThanOrNotEqualSum2
    lessThanOrEqualSd * (lessThanOrEqualCount : ℚ) / (totalCount : ℚ) +
      greaterThanOrNotEqualSd * (greaterThanOrNotEqualCount : ℚ) / (totalCount : ℚ)
  else stDev libm totalCount totalSum totalSum2

/-- The loop over the selected rows that adds up `sum`, `sum2` and `count` of the target. -/
def targetSums (values : List (List Value)) (targetColumn : Nat) :
    List Nat → ℚ × ℚ × Int → Except Error (ℚ × ℚ × Int)
  | [], acc => .ok acc
  | row :: rest, (sum, sum2, count) =>
    match cell values targetColumn row with
    | .error e => .error e
    | .ok v =>
      targetSums values targetColumn rest
        (sum + v.number.d, sum2 + v.number.d * v.number.d, count + 1)

/-- The statement `counts[(size_t)(category - beginCategoryIndex)] += by`. -/
def bumpCount (counts : List Int) (category beginCategoryIndex : Int) (delta : Int) :
    Except Error (List Int) :=
  match indexToSize (category - beginCategoryIndex) with
  | .error e => .error e
  | .ok countsIndex =>
    match counts[countsIndex]? with
    | none => .error .outOfRange
    | some n => .ok (counts.set countsIndex (n + delta))

/-- The loop over the selected rows that tallies the target category of each row. -/
def targetTally (values : List (List Value)) (targetColumn : Nat) (beginCategoryIndex : Int) :
    List Nat → List Int → Except Error (List Int)
  | [], counts => .ok counts
  | row :: rest, counts =>
    match cell values targetColumn row with
    | .error e => .error e
    | .ok v =>
      match bumpCount counts v.number.i beginCategoryIndex 1 with
      | .error e => .error e
      | .ok counts1 => targetTally values targetColumn beginCategoryIndex rest counts1

/-- The variables of the descending scan of `getBestNumericalSplit` for a numeric target. -/
structure SdScan where
  first : Bool
  previousValue : ℚ
  lessThanOrEqualSum : ℚ
  lessThanOrEqualSum2 : ℚ
  lessThanOrEqualCount : Int
  bestSplit : ValueAndMeasure

/-- The candidate test shared by both scans of `getBestNumericalSplit`:
`if (bestSplit.value.na || currentMeasure < bestSplit.measure)` take the midpoint. -/
def numericCandidate (bestSplit : ValueAndMeasure) (currentMeasure currentValue previousValue : ℚ) :
    ValueAndMeasure :=
  if bestSplit.value.na = true ∨ currentMeasure < bestSplit.measure then
    ⟨⟨{ bestSplit.value.number with d := (1 / 2 : ℚ) * (currentValue + previousValue) }, false⟩,
      currentMeasure⟩
  else bestSplit

/-- The descending scan of `getBestNumericalSplit` for a numeric target; the rows come in the
order `sortedIndexes[col][numSortedIndexes - 1], ..., sortedIndexes[col][0]`. -/
def sdScan (libm : Libm) (values : List (List Value)) (col targetColumn : Nat)
    (rowSelected : List Bool) (totalSum totalSum2 : ℚ) (totalCount : Int) :
    List Nat → SdScan → Except Error ValueAndMeasure
  | [], st => .ok st.bestSplit
  | row :: rest, st =>
    match vecGet rowSelected row with
    | .error e => .error e
    | .ok false => sdScan libm values col targetColumn rowSelected totalSum totalSum2 totalCount rest st
    | .ok true =>
      match cell values col row, cell values targetColumn row with
      | .error e, _ => .error e
      | .ok splitCell, target =>
        if splitCell.na then .error (.runtimeError "encountered unimputed value")
        else
          let currentValue := splitCell.number.d
          let currentMeasure := sdForSplit libm st.lessThanOrEqualSum st.lessThanOrEqualSum2
            st.lessThanOrEqualCount totalSum totalSum2 totalCount
          let bestSplit :=
            if st.first then st.bestSplit
            else if currentValue < st.previousValue then
              numericCandidate st.bestSplit currentMeasure currentValue st.previousValue
            else st.bestSplit
          match target with
          | .error e => .error e
          | .ok targetCell =>
            let value := targetCell.number.d
            sdScan libm values col targetColumn rowSelected totalSum totalSum2 totalCount rest
              ⟨false, currentValue, st.lessThanOrEqualSum - value,
                st.lessThanOrEqualSum2 - value * value, st.lessThanOrEqualCount - 1, bestSplit⟩

/-- The variables of the descending scan of `getBestNumericalSplit` for a categorical target. -/
structure EntropyScan where
  first : Bool
  previousValue : ℚ
  currentTargetCategoryCounts : List Int
  bestSplit : ValueAndMeasure

/-- The descending scan of `getBestNumericalSplit` for a categorical target. -/
def entropyScan (libm : Libm) (values : List (List Value)) (col targetColumn : Nat)
    (rowSelected : List Bool) (totalTargetCategoryCounts : List Int) (beginCategoryIndex : Int) :
    List Nat → EntropyScan → Except Error ValueAndMeasure
  | [], st => .ok st.bestSplit
  | row :: rest, st =>
    match vecGet rowSelected row with
    | .error e => .error e
    | .ok false =>
      entropyScan libm values col targetColumn rowSelected totalTargetCategoryCounts
        beginCategoryIndex rest st
    | .ok true =>
      match cell values col row with
      | .error e => .error e
      | .ok splitCell =>
        if splitCell.na then .error (.runtimeError "encountered unimputed value")
        else
          let currentValue := splitCell.number.d
          let candidate : Except Error ValueAndMeasure :=
            if st.first then .ok st.bestSplit
            else if currentValue < st.previousValue then
              match entropyForSplit libm st.currentTargetCategoryCounts
                  totalTargetCategoryCounts with
              | .error e => .error e
              | .ok currentMeasure =>
                .ok (numericCandidate st.bestSplit currentMeasure currentValue st.previousValue)
            else .ok st.bestSplit
          match candidate with
          | .error e => .error e
          | .ok bestSplit =>
            match cell values targetColumn row with
            | .error e => .error e
            | .ok targetCell =>
              match bumpCount st.currentTargetCategoryCounts targetCell.number.i
                  beginCategoryIndex (-1) with
              | .error e => .error e
              | .ok counts1 =>
                entropyScan libm values col targetColumn rowSelected totalTargetCategoryCounts
                  beginCategoryIndex rest ⟨false, currentValue, counts1, bestSplit⟩

/-- `getBestNumericalSplit(col, targetColumn, selectRows, values, valueTypes, categoryMaps,
sortedIndexes, colNames)`. The member `measure` is not initialised in the source while
`value` is NA; it is 0 here and is not read in that case. -/
def getBestNumericalSplit (libm : Libm) (col targetColumn : Nat) (selectRows : SelectIndexes)
    (values : List (List Value)) (valueTypes : List ValueType) (categoryMaps : List CategoryMaps)
    (sortedIndexes : List (List Nat)) : Except Error ValueAndMeasure :=
  match vecGet sortedIndexes col with
  | .error _ => .error .outOfRange
  | .ok sortedColumn =>
    match vecGet valueTypes targetColumn with
    | .error e => .error e
    | .ok .kNumeric =>
      match targetSums values targetColumn selectRows.indexVector (0, 0, 0) with
      | .error e => .error e
      | .ok (totalSum, totalSum2, totalCount) =>
        if totalCount ≥ 2 then
          sdScan libm values col targetColumn selectRows.boolVector totalSum totalSum2 totalCount
            sortedColumn.reverse ⟨true, 0, totalSum, totalSum2, totalCount, ⟨gNaValue, 0⟩⟩
        else .ok ⟨gNaValue, 0⟩
    | .ok .kCategorical =>
      match vecGet categoryMaps targetColumn with
      | .error e => .error e
      | .ok targetMap =>
        let numTargetCategories := targetMap.countAllCategories
        let beginCategoryIndex := targetMap.beginIndex
        match targetTally values targetColumn beginCategoryIndex selectRows.indexVector
            (List.replicate numTargetCategories 0) with
        | .error e => .error e
        | .ok totalTargetCategoryCounts =>
          let totalRows : Int := (selectRows.indexVector.length : Int)
          if totalRows ≥ 2 then
            entropyScan libm values col targetColumn selectRows.boolVector
              totalTargetCategoryCounts beginCategoryIndex sortedColumn.reverse
              ⟨true, 0, totalTargetCategoryCounts, ⟨gNaValue, 0⟩⟩
          else .ok ⟨gNaValue, 0⟩

/-- The totals and the per-category sums of `getBestCategoricalSplit` for a numeric target. -/
structure CategoryStats where
  totalSum : ℚ
  totalSum2 : ℚ
  totalCount : Int
  categorySum : List ℚ
  categorySum2 : List ℚ
  categoryCount : List Int

/-- The loop over the selected rows of `getBestCategoricalSplit` for a numeric target. -/
def categoryStatsLoop (values : List (List Value)) (col targetColumn : Nat)
    (beginCategoryIndex : Int) : List Nat → CategoryStats → Except Error CategoryStats
  | [], st => .ok st
  | row :: rest, st =>
    match cell values targetColumn row with
    | .error e => .error e
    | .ok targetCell =>
      let value := targetCell.number.d
      match cell values col row with
      | .error e => .error e
      | .ok splitCell =>
        if splitCell.na then .error (.runtimeError "encountered unimputed value")
        else
          match indexToSize (splitCell.number.i - beginCategoryIndex) with
          | .error e => .error e
          | .ok countsIndex =>
            match st.categorySum[countsIndex]?, st.categorySum2[countsIndex]?,
                st.categoryCount[countsIndex]? with
            | some s, some s2, some n =>
              categoryStatsLoop values col targetColumn beginCategoryIndex rest
                ⟨st.totalSum + value, st.totalSum2 + value * value, st.totalCount + 1,
                  st.categorySum.set countsIndex (s + value),
                  st.categorySum2.set countsIndex (s2 + value * value),
                  st.categoryCount.set countsIndex (n + 1)⟩
            | _, _, _ => .error .outOfRange

/-- The loop over the categories of the split column in `getBestCategoricalSplit` for a numeric
target; the state is `first`, `bestSplit` and `bestSplitName`. -/
def categorySdLoop (libm : Libm) (categoryMap : CategoryMaps) (beginCategoryIndex : Int)
    (stats : CategoryStats) :
    List Int → Bool × ValueAndMeasure × String → Except Error ValueAndMeasure
  | [], st => .ok st.2.1
  | categoryIndex :: rest, (first, bestSplit, bestSplitName) =>
    let countsIndex := (categoryIndex - beginCategoryIndex).toNat
    match stats.categoryCount[countsIndex]? with
    | none => .error .outOfRange
    | some n =>
      if n ≥ 1 then
        match stats.categorySum[countsIndex]?, stats.categorySum2[countsIndex]? with
        | some s, some s2 =>
          let categoryMeasure :=
            sdForSplit libm s s2 n stats.totalSum stats.totalSum2 stats.totalCount
          if first = true ∨ categoryMeasure < bestSplit.measure then
            match categoryMap.getCategoryForIndex categoryIndex with
            | .error e => .error e
            | .ok name =>
              categorySdLoop libm categoryMap beginCategoryIndex stats rest
                (false, ⟨⟨{ bestSplit.value.number with i := categoryIndex }, false⟩,
                  categoryMeasure⟩, name)
          else if categoryMeasure = bestSplit.measure then
            match categoryMap.getCategoryForIndex categoryIndex with
            | .error e => .error e
            | .ok nextName =>
              if nextName < bestSplitName then
                categorySdLoop libm categoryMap beginCategoryIndex stats rest
                  (first, ⟨⟨{ bestSplit.value.number with i := categoryIndex }, false⟩,
                    categoryMeasure⟩, nextName)
              else
                categorySdLoop libm categoryMap beginCategoryIndex stats rest
                  (first, bestSplit, bestSplitName)
          else
            categorySdLoop libm categoryMap beginCategoryIndex stats rest
              (first, bestSplit, bestSplitName)
        | _, _ => .error .outOfRange
      else
        categorySdLoop libm categoryMap beginCategoryIndex stats rest
          (first, bestSplit, bestSplitName)

/-- The variables of the scan of `getBestCategoricalSplit` for a categorical target. -/
structure CategoryScan where
  first : Bool
  previousCategory : Int
  currentCategory : Int
  categoryCount : Int
  currentTargetCategoryCounts : List Int
  bestSplit : ValueAndMeasure
  bestSplitName : String

/-- The call `categoryMaps.at(col).getCategoryForIndex(index)`. -/
def categoryNameAt (categoryMaps : List CategoryMaps) (col : Nat) (index : Int) :
    Except Error String :=
  match vecGet categoryMaps col with
  | .error e => .error e
  | .ok categoryMap => categoryMap.getCategoryForIndex index

/-- The block `if (evaluateCategory) { ... }` of `getBestCategoricalSplit`. -/
def categoryCandidate (categoryMaps : List CategoryMaps) (col : Nat) (bestSplit : ValueAndMeasure)
    (bestSplitName : String) (currentMeasure : ℚ) (previousCategory : Int) :
    Except Error (ValueAndMeasure × String) :=
  if bestSplit.value.na = true ∨ currentMeasure < bestSplit.measure then
    match categoryNameAt categoryMaps col previousCategory with
    | .error e => .error e
    | .ok name =>
      .ok (⟨⟨{ bestSplit.value.number with i := previousCategory }, false⟩, currentMeasure⟩, name)
  else if currentMeasure = bestSplit.measure then
    match categoryNameAt categoryMaps col previousCategory with
    | .error e => .error e
    | .ok nextName =>
      if nextName < bestSplitName then
        .ok (⟨⟨{ bestSplit.value.number with i := previousCategory }, false⟩, currentMeasure⟩,
          nextName)
      else .ok (bestSplit, bestSplitName)
  else .ok (bestSplit, bestSplitName)

/-- The scan `for (index = 0; index <= numSortedIndexes; index++)` of
`getBestCategoricalSplit` for a categorical target. An entry `some row` is
`sortedIndexes[col][index]`; the final `none` is the pass with `index == numSortedIndexes`. -/
def categoryScan (libm : Libm) (values : List (List Value)) (col targetColumn : Nat)
    (rowSelected : List Bool) (categoryMaps : List CategoryMaps) (numTargetCategories : Nat)
    (totalTargetCategoryCounts : List Int) (beginCategoryIndex : Int) :
    List (Option Nat) → CategoryScan → Except Error ValueAndMeasure
  | [], st => .ok st.bestSplit
  | none :: rest, st =>
    match entropyForSplit libm st.currentTargetCategoryCounts totalTargetCategoryCounts with
    | .error e => .error e
    | .ok currentMeasure =>
      if st.categoryCount > 0 then
        match categoryCandidate categoryMaps col st.bestSplit st.bestSplitName currentMeasure
            st.previousCategory with
        | .error e => .error e
        | .ok (bestSplit, bestSplitName) =>
          categoryScan libm values col targetColumn rowSelected categoryMaps numTargetCategories
            totalTargetCategoryCounts beginCategoryIndex rest
            { st with bestSplit := bestSplit, bestSplitName := bestSplitName,
                      previousCategory := st.currentCategory }
      else
        categoryScan libm values col targetColumn rowSelected categoryMaps numTargetCategories
          totalTargetCategoryCounts beginCategoryIndex rest
          { st with previousCategory := st.currentCategory }
  | some row :: rest, st =>
    match vecGet rowSelected row with
    | .error e => .error e
    | .ok false =>
      categoryScan libm values col targetColumn rowSelected categoryMaps numTargetCategories
        totalTargetCategoryCounts beginCategoryIndex rest
        { st with previousCategory := st.currentCategory }
    | .ok true =>
      match cell values col row with
      | .error e => .error e
      | .ok splitCell =>
        if splitCell.na then .error (.runtimeError "encountered unimputed value")
        else
          let currentCategory := splitCell.number.i
          let evaluateCategory : Bool := !st.first && decide (currentCategory ≠ st.previousCategory)
          match (if evaluateCategory then
              entropyForSplit libm st.currentTargetCategoryCounts totalTargetCategoryCounts
            else .ok 0) with
          | .error e => .error e
          | .ok currentMeasure =>
            let categoryCount := if evaluateCategory then 0 else st.categoryCount
            let counts :=
              if evaluateCategory then List.replicate numTargetCategories 0
              else st.currentTargetCategoryCounts
            match cell values targetColumn row with
            | .error e => .error e
            | .ok targetCell =>
              match bumpCount counts targetCell.number.i beginCategoryIndex 1 with
              | .error e => .error e
              | .ok counts1 =>
                match (if evaluateCategory then
                    categoryCandidate categoryMaps col st.bestSplit st.bestSplitName currentMeasure
                      st.previousCategory
                  else .ok (st.bestSplit, st.bestSplitName)) with
                | .error e => .error e
                | .ok (bestSplit, bestSplitName) =>
                  categoryScan libm values col targetColumn rowSelected categoryMaps
                    numTargetCategories totalTargetCategoryCounts beginCategoryIndex rest
                    ⟨false, currentCategory, currentCategory, categoryCount + 1, counts1,
                      bestSplit, bestSplitName⟩

/-- `getBestCategoricalSplit(col, targetColumn, selectRows, values, valueTypes, categoryMaps,
sortedIndexes, colNames)`. -/
def getBestCategoricalSplit (libm : Libm) (col targetColumn : Nat) (selectRows : SelectIndexes)
    (values : List (List Value)) (valueTypes : List ValueType) (categoryMaps : List CategoryMaps)
    (sortedIndexes : List (List Nat)) : Except Error ValueAndMeasure :=
  match vecGet valueTypes targetColumn with
  | .error e => .error e
  | .ok .kNumeric =>
    match vecGet categoryMaps col with
    | .error e => .error e
    | .ok categoryMap =>
      let numCurrentCategories := categoryMap.countAllCategories
      let beginCategoryIndex := categoryMap.beginIndex
      let endCategoryIndex := categoryMap.endIndex
      if numCurrentCategories > 1 then
        match categoryStatsLoop values col targetColumn beginCategoryIndex selectRows.indexVector
            ⟨0, 0, 0, List.replicate numCurrentCategories 0,
              List.replicate numCurrentCategories 0, List.replicate numCurrentCategories 0⟩ with
        | .error e => .error e
        | .ok stats =>
          if stats.totalCount ≥ 2 then
            categorySdLoop libm categoryMap beginCategoryIndex stats
              (categoryIndexes beginCategoryIndex endCategoryIndex) (true, ⟨gNaValue, 0⟩, "")
          else .ok ⟨gNaValue, 0⟩
      else .ok ⟨gNaValue, 0⟩
  | .ok .kCategorical =>
    match vecGet categoryMaps targetColumn with
    | .error e => .error e
    | .ok targetMap =>
      let numTargetCategories := targetMap.countAllCategories
      let beginCategoryIndex := targetMap.beginIndex
      match targetTally values targetColumn beginCategoryIndex selectRows.indexVector
          (List.replicate numTargetCategories 0) with
      | .error e => .error e
      | .ok totalTargetCategoryCounts =>
        let totalRows : Int := (selectRows.indexVector.length : Int)
        if totalRows > 0 then
          match vecGet sortedIndexes col with
          | .error e => .error e
          | .ok sortedColumn =>
            categoryScan libm values col targetColumn selectRows.boolVector categoryMaps
              numTargetCategories totalTargetCategoryCounts beginCategoryIndex
              (sortedColumn.map some ++ [none])
              ⟨true, 0, 0, 0, List.replicate numTargetCategories 0, ⟨gNaValue, 0⟩, ""⟩
        else .ok ⟨gNaValue, 0⟩

/-! ## Growing a tree (train.cpp) -/

/-- One entry each of the local vectors `splitValues`, `lessOrEqualValues`,
`greaterOrNotValues` and `colMeasures` of `improveImperfectLeaf`. -/
structure ColumnSplit where
  splitValue : Value
  lessOrEqualValue : Value
  greaterOrNotValue : Value
  colMeasure : ℚ
  deriving DecidableEq, Repr

/-- The comparison that sends a training row to the less-or-equal side of a split:
`number.i == splitValue.number.i` for a categorical split column,
`number.d <= splitValue.number.d` for a numeric one. -/
def isLessOrEqual (colType : ValueType) (splitValue v : Value) : Bool :=
  match colType with
  | .kCategorical => decide (v.number.i = splitValue.number.i)
  | .kNumeric => decide (v.number.d ≤ splitValue.number.d)

/-- The loop of `improveImperfectLeaf` that fills `selectLessOrEqualTo` and
`selectGreaterThan` for one candidate column; NA cells go to neither side. -/
def splitRows (values : List (List Value)) (col : Nat) (colType : ValueType) (splitValue : Value) :
    List Nat → SelectIndexes × SelectIndexes → Except Error (SelectIndexes × SelectIndexes)
  | [], acc => .ok acc
  | row :: rest, (selectLessOrEqualTo, selectGreaterThan) =>
    match cell values col row with
    | .error e => .error e
    | .ok v =>
      if v.na then
        splitRows values col colType splitValue rest (selectLessOrEqualTo, selectGreaterThan)
      else if isLessOrEqual colType splitValue v then
        match selectLessOrEqualTo.select row with
        | .error e => .error e
        | .ok s => splitRows values col colType splitValue rest (s, selectGreaterThan)
      else
        match selectGreaterThan.select row with
        | .error e => .error e
        | .ok s => splitRows values col colType splitValue rest (selectLessOrEqualTo, s)

/-- The leaf value of a set of rows: `modeValue` of the target for a categorical target,
`meanValue` for a numeric one. -/
def leafValueOf (targetValueType : ValueType) (values : List (List Value))
    (categoryMaps : List CategoryMaps) (targetColumn : Nat) (selectRows : SelectIndexes) :
    Except Error Value :=
  match vecGet values targetColumn with
  | .error e => .error e
  | .ok targetValues =>
    match targetValueType with
    | .kCategorical =>
      match vecGet categoryMaps targetColumn with
      | .error e => .error e
      | .ok targetMap => modeValue targetValues selectRows targetMap
    | .kNumeric => meanValue targetValues selectRows

/-- The walk `while (nextNodeP->parentNode != NULL)` of `improveImperfectLeaf`, counting the
ancestors that split on `col`; `ancestors` lists `splitColIndex` of the parent, the
grandparent, ..., the root. -/
def usageCount (selectColumnIndexes : List Nat) (col : Nat) : List Int → Int → Except Error Int
  | [], count => .ok count
  | splitColIndex :: rest, count =>
    match indexToSize splitColIndex with
    | .error e => .error e
    | .ok columnIndex =>
      match vecGet selectColumnIndexes columnIndex with
      | .error e => .error e
      | .ok nextCol =>
        usageCount selectColumnIndexes col rest (if col = nextCol then count + 1 else count)

/-- The part of the first loop of `improveImperfectLeaf` that follows the search of the best
split of one column: the rows of each side and their leaf values. -/
def sideValues (targetValueType : ValueType) (values : List (List Value))
    (categoryMaps : List CategoryMaps) (targetColumn : Nat) (selectRows : SelectIndexes)
    (numRows col : Nat) (colType : ValueType) (bestSplit : ValueAndMeasure) :
    Except Error ColumnSplit :=
  match splitRows values col colType bestSplit.value selectRows.indexVector
      (SelectIndexes.create numRows false, SelectIndexes.create numRows false) with
  | .error e => .error e
  | .ok (selectLessOrEqualTo, selectGreaterThan) =>
    match leafValueOf targetValueType values categoryMaps targetColumn selectLessOrEqualTo with
    | .error e => .error e
    | .ok lessOrEqualValue =>
      match leafValueOf targetValueType values categoryMaps targetColumn selectGreaterThan with
      | .error e => .error e
      | .ok greaterOrNotValue =>
        .ok ⟨bestSplit.value, lessOrEqualValue, greaterOrNotValue, bestSplit.measure⟩

/-- One pass of the first loop of `improveImperfectLeaf`: the best split of the column
`selectColumnIndexes[columnIndex]`. -/
def columnSplit (libm : Libm) (selectRows : SelectIndexes) (ancestors : List Int)
    (values : List (List Value)) (valueTypes : List ValueType) (categoryMaps : List CategoryMaps)
    (selectColumnIndexes : List Nat) (targetColumn : Nat) (sortedIndexes : List (List Nat))
    (maxSplitsPerNumericAttribute : Int) (targetValueType : ValueType) (numRows : Nat)
    (columnIndex : Nat) : Except Error ColumnSplit :=
  match vecGet selectColumnIndexes columnIndex with
  | .error e => .error e
  | .ok col =>
    match vecGet valueTypes col with
    | .error e => .error e
    | .ok .kCategorical =>
      match getBestCategoricalSplit libm col targetColumn selectRows values valueTypes
          categoryMaps sortedIndexes with
      | .error e => .error e
      | .ok bestSplit =>
        if bestSplit.value.na then .ok ⟨gNaValue, gNaValue, gNaValue, 0⟩
        else
          sideValues targetValueType values categoryMaps targetColumn selectRows numRows col
            .kCategorical bestSplit
    | .ok .kNumeric =>
      let usageCountForThisAttribute : Except Error Int :=
        if maxSplitsPerNumericAttribute ≠ NO_INDEX then
          usageCount selectColumnIndexes col ancestors 0
        else .ok NO_INDEX
      match usageCountForThisAttribute with
      | .error e => .error e
      | .ok usage =>
        let found : Except Error ValueAndMeasure :=
          if usage = NO_INDEX ∨ usage < maxSplitsPerNumericAttribute then
            getBestNumericalSplit libm col targetColumn selectRows values valueTypes categoryMaps
              sortedIndexes
          else .ok ⟨gNaValue, 0⟩
        match found with
        | .error e => .error e
        | .ok bestSplit =>
          if bestSplit.value.na then .ok ⟨gNaValue, gNaValue, gNaValue, -1⟩
          else
            sideValues targetValueType values categoryMaps targetColumn selectRows numRows col
              .kNumeric bestSplit

/-- The first loop of `improveImperfectLeaf`, over `subsetIndexes`. -/
def columnSplits (libm : Libm) (selectRows : SelectIndexes) (ancestors : List Int)
    (values : List (List Value)) (valueTypes : List ValueType) (categoryMaps : List CategoryMaps)
    (selectColumnIndexes : List Nat) (targetColumn : Nat) (sortedIndexes : List (List Nat))
    (maxSplitsPerNumericAttribute : Int) (targetValueType : ValueType) (numRows : Nat) :
    List Nat → Except Error (List ColumnSplit)
  | [] => .ok []
  | columnIndex :: rest =>
    match columnSplit libm selectRows ancestors values valueTypes categoryMaps
        selectColumnIndexes targetColumn sortedIndexes maxSplitsPerNumericAttribute
        targetValueType numRows columnIndex with
    | .error e => .error e
    | .ok split =>
      match columnSplits libm selectRows ancestors values valueTypes categoryMaps
          selectColumnIndexes targetColumn sortedIndexes maxSplitsPerNumericAttribute
          targetValueType numRows rest with
      | .error e => .error e
      | .ok splits => .ok (split :: splits)

/-- The variables `bestSiIndex`, `bestColMeasure` and `foundBestCol` of
`improveImperfectLeaf`. -/
structure BestColumn where
  bestSiIndex : Nat
  bestColMeasure : ℚ
  foundBestCol : Bool
  deriving DecidableEq, Repr

/-- The loop "look at columns with split values, pick best one"; `siIndex` is the index of the
head of the list. -/
def pickBestColumnLoop : List ColumnSplit → Nat → BestColumn → BestColumn
  | [], _, best => best
  | split :: rest, siIndex, best =>
    if split.splitValue.na = false ∧ split.colMeasure < best.bestColMeasure then
      pickBestColumnLoop rest (siIndex + 1) ⟨siIndex, split.colMeasure, true⟩
    else pickBestColumnLoop rest (siIndex + 1) best

/-- The choice of the best column in `improveImperfectLeaf`; it starts from entry 0 of the
vectors. -/
def pickBestColumn (splits : List ColumnSplit) : Except Error BestColumn :=
  match splits with
  | [] => .error .outOfRange
  | first :: _ =>
    .ok (pickBestColumnLoop splits 0 ⟨0, first.colMeasure, !first.splitValue.na⟩)

/-- The impurity of the node's own rows taken as one leaf, as `improveImperfectLeaf` computes
it: `entropyForCounts` of the target tally, or `stDev` of the target. -/
def leafMeasureOf (libm : Libm) (targetValueType : ValueType) (values : List (List Value))
    (categoryMaps : List CategoryMaps) (targetColumn : Nat) (selectRows : SelectIndexes) :
    Except Error ℚ :=
  match targetValueType with
  | .kCategorical =>
    match vecGet categoryMaps targetColumn with
    | .error e => .error e
    | .ok targetMap =>
      match targetTally values targetColumn targetMap.beginIndex selectRows.indexVector
          (List.replicate targetMap.countAllCategories 0) with
      | .error e => .error e
      | .ok leafCounts => .ok (entropyForCounts libm leafCounts)
  | .kNumeric =>
    match targetSums values targetColumn selectRows.indexVector (0, 0, 0) with
    | .error e => .error e
    | .ok (leafSum, leafSum2, leafTotal) => .ok (stDev libm leafTotal leafSum leafSum2)

/-- The block `if (foundBestCol) { ... }` of `improveImperfectLeaf`: the test for improvement
of the split over the existing leaf. -/
def testImprovement (libm : Libm) (targetValueType : ValueType) (values : List (List Value))
    (valueTypes : List ValueType) (categoryMaps : List CategoryMaps)
    (selectColumnIndexes subsetIndexes : List Nat) (targetColumn : Nat)
    (selectRows : SelectIndexes) (minImprovement : ℚ) (best : BestColumn) : Except Error Bool :=
  if best.foundBestCol then
    match leafMeasureOf libm targetValueType values categoryMaps targetColumn selectRows with
    | .error e => .error e
    | .ok leafMeasure =>
      match targetValueType with
      | .kCategorical => .ok (decide (best.bestColMeasure < leafMeasure))
      | .kNumeric =>
        if selectRows.indexVector.length > 0 then
          match vecGet subsetIndexes best.bestSiIndex with
          | .error e => .error e
          | .ok columnIndex =>
            match vecGet selectColumnIndexes columnIndex with
            | .error e => .error e
            | .ok col =>
              match vecGet valueTypes col with
              | .error e => .error e
              | .ok colType =>
                let factor : Except Error Nat :=
                  match colType with
                  | .kCategorical =>
                    match vecGet categoryMaps col with
                    | .error e => .error e
                    | .ok categoryMap => .ok categoryMap.countAllCategories
                  | .kNumeric => .ok 1
                match factor with
                | .error e => .error e
                | .ok factor =>
                  let delta := (leafMeasure - best.bestColMeasure) * (factor : ℚ)
                  .ok (decide (delta ≥ minImprovement * leafMeasure))
        else .ok false
  else .ok false

/-- A fresh child of `improveImperfectLeaf`: `new TreeNode` and the assignments that follow. -/
def newLeaf (leafValue : Value) (numRows index : Nat) : NodeData :=
  { leafValue := leafValue
    splitValue := gNaValue
    toLessOrEqualIfNA := false
    splitColIndex := NO_INDEX
    leafLessOrEqualCount := 0
    leafGreaterOrNotCount := 0
    branchSum2 := 0
    branchCorrectCount := 0
    selectRows := SelectIndexes.clear ⟨[], [], 0⟩ numRows
    index := index }

/-- The update of one child for one training row sent to it in `improveImperfectLeaf`. -/
def countRow (targetValueType : ValueType) (targetCell : Value) (child : NodeData) : NodeData :=
  match targetValueType with
  | .kCategorical =>
    if targetCell.number.i = child.leafValue.number.i then
      { child with branchCorrectCount := child.branchCorrectCount + 1
                   leafLessOrEqualCount := child.leafLessOrEqualCount + 1 }
    else { child with leafGreaterOrNotCount := child.leafGreaterOrNotCount + 1 }
  | .kNumeric =>
    let delta := targetCell.number.d - child.leafValue.number.d
    let child1 := { child with branchSum2 := child.branchSum2 + delta * delta }
    if targetCell.number.d ≤ child.leafValue.number.d then
      { child1 with leafLessOrEqualCount := child1.leafLessOrEqualCount + 1 }
    else { child1 with leafGreaterOrNotCount := child1.leafGreaterOrNotCount + 1 }

/-- The loop of `improveImperfectLeaf` that sends each row of the node to one of the two new
children and updates that child's statistics. -/
def distributeRows (targetValueType : ValueType) (values : List (List Value))
    (valueTypes : List ValueType) (col targetColumn : Nat) (splitValue : Value) :
    List Nat → NodeData × NodeData → Except Error (NodeData × NodeData)
  | [], acc => .ok acc
  | row :: rest, (lessOrEqualNode, greaterOrNotNode) =>
    match vecGet valueTypes col with
    | .error e => .error e
    | .ok colType =>
      match cell values col row with
      | .error e => .error e
      | .ok v =>
        if isLessOrEqual colType splitValue v then
          match lessOrEqualNode.selectRows.select row with
          | .error e => .error e
          | .ok s =>
            match cell values targetColumn row with
            | .error e => .error e
            | .ok targetCell =>
              distributeRows targetValueType values valueTypes col targetColumn splitValue rest
                (countRow targetValueType targetCell { lessOrEqualNode with selectRows := s },
                  greaterOrNotNode)
        else
          match greaterOrNotNode.selectRows.select row with
          | .error e => .error e
          | .ok s =>
            match cell values targetColumn row with
            | .error e => .error e
            | .ok targetCell =>
              distributeRows targetValueType values valueTypes col targetColumn splitValue rest
                (lessOrEqualNode,
                  countRow targetValueType targetCell { greaterOrNotNode with selectRows := s })

/-- The block `if (improved) { ... }` of `improveImperfectLeaf`: make the two children, count
their rows, and keep the split only if both sides have at least `minLeafCount` rows. The two
indexes taken from `gNextIndex` are not given back when the split is backed out. -/
def makeSplit (targetValueType : ValueType) (values : List (List Value))
    (valueTypes : List ValueType) (selectColumnIndexes subsetIndexes : List Nat)
    (targetColumn : Nat) (minLeafCount : Int) (imputedValues : List Value) (numRows : Nat)
    (splits : List ColumnSplit) (best : BestColumn) (data : NodeData)
    (lessOrEqualNode greaterOrNotNode : TreeNode) (gNextIndex : Nat) :
    Except Error (Bool × TreeNode × Nat) :=
  match vecGet splits best.bestSiIndex, vecGet subsetIndexes best.bestSiIndex with
  | .ok split, .ok splitColIndex =>
    match vecGet selectColumnIndexes splitColIndex with
    | .error e => .error e
    | .ok col =>
      match distributeRows targetValueType values valueTypes col targetColumn split.splitValue
          data.selectRows.indexVector
          (newLeaf split.lessOrEqualValue numRows gNextIndex,
            newLeaf split.greaterOrNotValue numRows (gNextIndex + 1)) with
      | .error e => .error e
      | .ok (lessOrEqualData, greaterOrNotData) =>
        let splitLessOrEqualCount :=
          lessOrEqualData.leafLessOrEqualCount + lessOrEqualData.leafGreaterOrNotCount
        let splitGreaterOrNotCount :=
          greaterOrNotData.leafLessOrEqualCount + greaterOrNotData.leafGreaterOrNotCount
        if splitLessOrEqualCount ≥ minLeafCount ∧ splitGreaterOrNotCount ≥ minLeafCount then
          match vecGet imputedValues col, vecGet valueTypes col with
          | .ok imputed, .ok colType =>
            let toLessOrEqualIfNA : Bool :=
              !imputed.na && isLessOrEqual colType split.splitValue imputed
            .ok (true,
              .node { data with splitValue := split.splitValue
                                splitColIndex := (splitColIndex : Int)
                                toLessOrEqualIfNA := toLessOrEqualIfNA }
                (.node lessOrEqualData .null .null) (.node greaterOrNotData .null .null),
              gNextIndex + 2)
          | _, _ => .error .outOfRange
        else .ok (false, .node data lessOrEqualNode greaterOrNotNode, gNextIndex + 2)
  | _, _ => .error .outOfRange

/-- `improveImperfectLeaf(nodeP, subsetIndexes, values, valueTypes, categoryMaps,
selectColumns, targetColumn, sortedIndexes, colNames, minImprovement, minLeafCount,
maxSplitsPerNumericAttribute, imputedValues)`. The result is the returned flag, the node
after the call and the global `gNextIndex` after the call. -/
def improveImperfectLeaf (libm : Libm) (nodeP : TreeNode) (ancestors : List Int)
    (subsetIndexes : List Nat) (values : List (List Value)) (valueTypes : List ValueType)
    (categoryMaps : List CategoryMaps) (selectColumns : SelectIndexes) (targetColumn : Nat)
    (sortedIndexes : List (List Nat)) (minImprovement : ℚ)
    (minLeafCount maxSplitsPerNumericAttribute : Int) (imputedValues : List Value)
    (gNextIndex : Nat) : Except Error (Bool × TreeNode × Nat) :=
  match nodeP with
  | .null => .error .nullDereference
  | .node data lessOrEqualNode greaterOrNotNode =>
    match vecGet valueTypes targetColumn, vecGet values 0 with
    | .ok targetValueType, .ok firstColumn =>
      let numRows := firstColumn.length
      match columnSplits libm data.selectRows ancestors values valueTypes categoryMaps
          selectColumns.indexVector targetColumn sortedIndexes maxSplitsPerNumericAttribute
          targetValueType numRows subsetIndexes with
      | .error e => .error e
      | .ok splits =>
        match pickBestColumn splits with
        | .error e => .error e
        | .ok best =>
          match testImprovement libm targetValueType values valueTypes categoryMaps
              selectColumns.indexVector subsetIndexes targetColumn data.selectRows
              minImprovement best with
          | .error e => .error e
          | .ok true =>
            makeSplit targetValueType values valueTypes selectColumns.indexVector subsetIndexes
              targetColumn minLeafCount imputedValues numRows splits best data lessOrEqualNode
              greaterOrNotNode gNextIndex
          | .ok false => .ok (false, .node data lessOrEqualNode greaterOrNotNode, gNextIndex)
    | _, _ => .error .outOfRange

/-- `improveLeaf(nodeP, ...)`: a perfect leaf is left alone. -/
def improveLeaf (libm : Libm) (nodeP : TreeNode) (ancestors : List Int)
    (subsetIndexes : List Nat) (values : List (List Value)) (valueTypes : List ValueType)
    (categoryMaps : List CategoryMaps) (selectColumns : SelectIndexes) (targetColumn : Nat)
    (sortedIndexes : List (List Nat)) (minImprovement : ℚ)
    (minLeafCount maxSplitsPerNumericAttribute : Int) (imputedValues : List Value)
    (gNextIndex : Nat) : Except Error (Bool × TreeNode × Nat) :=
  match nodeP with
  | .null => .error .nullDereference
  | .node data _ _ =>
    match vecGet valueTypes targetColumn with
    | .error e => .error e
    | .ok targetValueType =>
      let perfect : Bool :=
        match targetValueType with
        | .kCategorical =>
          decide (data.branchCorrectCount = data.leafLessOrEqualCount + data.leafGreaterOrNotCount)
        | .kNumeric => decide (data.branchSum2 = 0)
      if perfect then .ok (false, nodeP, gNextIndex)
      else
        improveImperfectLeaf libm nodeP ancestors subsetIndexes values valueTypes categoryMaps
          selectColumns targetColumn sortedIndexes minImprovement minLeafCount
          maxSplitsPerNumericAttribute imputedValues gNextIndex

/-- The variables that `improveSubtree` updates: the global `gNextIndex` and the reference
parameters `maxDepthUsed` and `finalLeafCount`. -/
structure GrowState where
  gNextIndex : Nat
  maxDepthUsed : Int
  finalLeafCount : Int
  deriving DecidableEq, Repr

/-- `improveSubtree(nodeP, depth, maxDepth, maxNodes, maxDepthUsed, ...)`. The recursion
depth is bounded by `maxDepth - depth`; `fuel` is a bound on it that the caller supplies, and
any `fuel` of at least `maxDepth - depth` gives the same result (`improveSubtree_fuel_add`). -/
def improveSubtree (libm : Libm) (maxDepth maxNodes : Int) (subsetIndexes : List Nat)
    (values : List (List Value)) (valueTypes : List ValueType) (categoryMaps : List CategoryMaps)
    (selectColumns : SelectIndexes) (targetColumn : Nat) (sortedIndexes : List (List Nat))
    (minImprovement : ℚ) (minLeafCount maxSplitsPerNumericAttribute : Int)
    (imputedValues : List Value) :
    Nat → TreeNode → List Int → Int → GrowState → Except Error (TreeNode × GrowState)
  | fuel, nodeP, ancestors, depth, st =>
    if depth < maxDepth ∧ (maxNodes ≤ 0 ∨ (st.gNextIndex : Int) < maxNodes) then
      match fuel with
      | 0 => .error .outOfFuel
      | fuel + 1 =>
        match improveLeaf libm nodeP ancestors subsetIndexes values valueTypes categoryMaps
            selectColumns targetColumn sortedIndexes minImprovement minLeafCount
            maxSplitsPerNumericAttribute imputedValues st.gNextIndex with
        | .error e => .error e
        | .ok (true, .node data lessOrEqualNode greaterOrNotNode, gNextIndex) =>
          let st1 : GrowState :=
            ⟨gNextIndex, if st.maxDepthUsed < depth + 1 then depth + 1 else st.maxDepthUsed,
              st.finalLeafCount⟩
          match improveSubtree libm maxDepth maxNodes subsetIndexes values valueTypes
              categoryMaps selectColumns targetColumn sortedIndexes minImprovement minLeafCount
              maxSplitsPerNumericAttribute imputedValues fuel lessOrEqualNode
              (data.splitColIndex :: ancestors) (depth + 1) st1 with
          | .error e => .error e
          | .ok (lessOrEqualNode1, st2) =>
            match improveSubtree libm maxDepth maxNodes subsetIndexes values valueTypes
                categoryMaps selectColumns targetColumn sortedIndexes minImprovement
                minLeafCount maxSplitsPerNumericAttribute imputedValues fuel greaterOrNotNode
                (data.splitColIndex :: ancestors) (depth + 1) st2 with
            | .error e => .error e
            | .ok (greaterOrNotNode1, st3) =>
              .ok (.node data lessOrEqualNode1 greaterOrNotNode1, st3)
        | .ok (true, .null, _) => .error .nullDereference
        | .ok (false, .node data lessOrEqualNode greaterOrNotNode, gNextIndex) =>
          .ok (.node data lessOrEqualNode greaterOrNotNode,
            ⟨gNextIndex, st.maxDepthUsed,
              st.finalLeafCount + (data.leafLessOrEqualCount + data.leafGreaterOrNotCount)⟩)
        | .ok (false, .null, _) => .error .nullDereference
    else .ok (nodeP, st)

/-- The loop of `evaluateTree` that fills the statistics of the root from the selected
rows. -/
def rootStatistics (targetValueType : ValueType) (values : List (List Value))
    (targetColumn : Nat) : List Nat → NodeData → Except Error NodeData
  | [], root => .ok root
  | row :: rest, root =>
    match cell values targetColumn row with
    | .error e => .error e
    | .ok targetCell =>
      rootStatistics targetValueType values targetColumn rest
        (countRow targetValueType targetCell root)

/-- The first part of `evaluateTree`, up to the call of `improveSubtree` included: the root
with its statistics and the tree grown from it by `improveSubtree`. The result is the working
tree `root` and `maxDepthUsed`. The global `gNextIndex` is set to 0 before the growth, so its
value on entry does not matter. -/
def growTree (libm : Libm) (maxDepth maxNodes : Int) (minImprovement : ℚ)
    (minLeafCount maxSplitsPerNumericAttribute : Int) (values : List (List Value))
    (valueTypes : List ValueType) (categoryMaps : List CategoryMaps) (subsetIndexes : List Nat)
    (selectRows selectColumns : SelectIndexes) (targetColumn : Nat)
    (sortedIndexes : List (List Nat)) (imputedValues : List Value) :
    Except Error (TreeNode × Int) :=
  match vecGet valueTypes targetColumn with
  | .error e => .error e
  | .ok targetValueType =>
    match leafValueOf targetValueType values categoryMaps targetColumn selectRows with
    | .error e => .error e
    | .ok defaultValue =>
      let root : NodeData :=
        { leafValue := defaultValue
          splitValue := gNaValue
          toLessOrEqualIfNA := false
          splitColIndex := NO_INDEX
          leafLessOrEqualCount := 0
          leafGreaterOrNotCount := 0
          branchSum2 := 0
          branchCorrectCount := 0
          selectRows := selectRows
          index := 0 }
      match rootStatistics targetValueType values targetColumn selectRows.indexVector root with
      | .error e => .error e
      | .ok root1 =>
        match improveSubtree libm maxDepth maxNodes subsetIndexes values valueTypes categoryMaps
            selectColumns targetColumn sortedIndexes minImprovement minLeafCount
            maxSplitsPerNumericAttribute imputedValues (maxDepth - 1).toNat
            (.node root1 .null .null) [] 1 ⟨0, 1, 0⟩ with
        | .error e => .error e
        | .ok (tree, st) => .ok (tree, st.maxDepthUsed)

/-! ## Pruning (prune.cpp)

The tests of prune.cpp divide by counts that can be 0 or 1 - 1, and compare the results, so
here a `double` keeps the non-finite values of IEEE 754 arithmetic. Every divisor of these
functions that can be zero is a nonnegative count or a difference `x - 1.0`, hence `+0`. -/

/-- A `double` in prune.cpp: an exact rational, or one of the three non-finite values. -/
inductive Dbl where
  | fin (x : ℚ)
  | posInf
  | negInf
  | nan
  deriving DecidableEq, Repr

/-- Addition of doubles. -/
def Dbl.add : Dbl → Dbl → Dbl
  | .fin a, .fin b => .fin (a + b)
  | .nan, _ => .nan
  | _, .nan => .nan
  | .posInf, .negInf => .nan
  | .negInf, .posInf => .nan
  | .posInf, _ => .posInf
  | _, .posInf => .posInf
  | .negInf, _ => .negInf
  | _, .negInf => .negInf

/-- Negation of a double. -/
def Dbl.neg : Dbl → Dbl
  | .fin a => .fin (-a)
  | .posInf => .negInf
  | .negInf => .posInf
  | .nan => .nan

/-- Subtraction of doubles. -/
def Dbl.sub (a b : Dbl) : Dbl := a.add b.neg

/-- The infinity with the sign of `a`, or NaN for zero: the product of `a` with `+inf`. -/
def Dbl.signedInf (a : ℚ) : Dbl :=
  if a > 0 then .posInf else if a < 0 then .negInf else .nan

/-- Multiplication of doubles. -/
def Dbl.mul : Dbl → Dbl → Dbl
  | .fin a, .fin b => .fin (a * b)
  | .nan, _ => .nan
  | _, .nan => .nan
  | .fin a, .posInf => Dbl.signedInf a
  | .fin a, .negInf => Dbl.signedInf (-a)
  | .posInf, .fin b => Dbl.signedInf b
  | .negInf, .fin b => Dbl.signedInf (-b)
  | .posInf, .posInf => .posInf
  | .negInf, .negInf => .posInf
  | .posInf, .negInf => .negInf
  | .negInf, .posInf => .negInf

/-- Division of doubles; a zero divisor is `+0`. -/
def Dbl.div : Dbl → Dbl → Dbl
  | .fin a, .fin b => if b = 0 then Dbl.signedInf a else .fin (a / b)
  | .nan, _ => .nan
  | _, .nan => .nan
  | .fin _, .posInf => .fin 0
  | .fin _, .negInf => .fin 0
  | .posInf, .fin b => if b < 0 then .negInf else .posInf
  | .negInf, .fin b => if b < 0 then .posInf else .negInf
  | .posInf, .posInf => .nan
  | .posInf, .negInf => .nan
  | .negInf, .posInf => .nan
  | .negInf, .negInf => .nan

/-- The function `sqrt` on doubles. -/
def Dbl.sqrt (libm : Libm) : Dbl → Dbl
  | .fin a => if a < 0 then .nan else .fin (libm.sqrt a)
  | .posInf => .posInf
  | .negInf => .nan
  | .nan => .nan

/-- The comparison `a < b` of doubles; false when either side is NaN. -/
def Dbl.lt : Dbl → Dbl → Bool
  | .fin a, .fin b => decide (a < b)
  | .nan, _ => false
  | _, .nan => false
  | .negInf, .negInf => false
  | .negInf, _ => true
  | .posInf, _ => false
  | .fin _, .posInf => true
  | .fin _, .negInf => false

/-- The function `isnan`. -/
def Dbl.isnan : Dbl → Bool
  | .nan => true
  | _ => false

/-- The conversion of an `index_t` to `double`. -/
def Dbl.ofInt (n : Int) : Dbl := .fin (n : ℚ)

/-- `pessimisticErrorEstimate(categoryCount, totalCount)`, with `z = 0.69`. -/
def pessimisticErrorEstimate (libm : Libm) (categoryCount totalCount : Int) : Except Error Dbl :=
  let z : Dbl := .fin (69 / 100)
  let n : Dbl := Dbl.ofInt totalCount
  let f : Dbl := (n.sub (Dbl.ofInt categoryCount)).div n
  let numerator : Dbl :=
    (f.add ((z.mul z).div ((Dbl.fin 2).mul n))).add
      (z.mul (Dbl.sqrt libm
        (((f.div n).sub ((f.mul f).div n)).add ((z.mul z).div (((Dbl.fin 4).mul n).mul n)))))
  let denominator : Dbl := (Dbl.fin 1).add ((z.mul z).div n)
  let e := numerator.div denominator
  if e.isnan then .error (.logicError "e = nan") else .ok e

/-- `sameCategoryForAllLeaves(nodeP)`. -/
def sameCategoryForAllLeaves : TreeNode → Except Error Int
  | .null => .error .nullDereference
  | .node data .null _ => .ok data.leafValue.number.i
  | .node _ (.node lessOrEqualData l1 l2) greaterOrNotNode =>
    match sameCategoryForAllLeaves (.node lessOrEqualData l1 l2) with
    | .error e => .error e
    | .ok leftResult =>
      if leftResult = NO_INDEX then .ok NO_INDEX
      else
        match sameCategoryForAllLeaves greaterOrNotNode with
        | .error e => .error e
        | .ok rightResult => if leftResult = rightResult then .ok leftResult else .ok NO_INDEX

/-- `testReplaceSubtreeCategorical(nodeP)`. Both `leftNode` and `rightNode` are
`nodeP->lessOrEqualNode` in the source. -/
def testReplaceSubtreeCategorical (libm : Libm) (nodeP : TreeNode) : Except Error Bool :=
  match nodeP with
  | .null => .error .nullDereference
  | .node data lessOrEqualNode _ =>
    let nodeCorrect := data.leafLessOrEqualCount
    let nodeCount := data.leafLessOrEqualCount + data.leafGreaterOrNotCount
    match pessimisticErrorEstimate libm nodeCorrect nodeCount with
    | .error e => .error e
    | .ok nodeEstimate =>
      match lessOrEqualNode with
      | .null => .error .nullDereference
      | .node leftNode _ _ =>
        let leftChildCorrect := leftNode.branchCorrectCount
        let leftChildCount := leftNode.leafLessOrEqualCount + leftNode.leafGreaterOrNotCount
        let leftChildEstimate : Except Error Dbl :=
          if leftChildCount = 0 then .ok (.fin 0)
          else pessimisticErrorEstimate libm leftChildCorrect leftChildCount
        match leftChildEstimate with
        | .error e => .error e
        | .ok leftChildEstimate =>
          let rightNode := leftNode
          let rightChildCorrect := rightNode.branchCorrectCount
          let rightChildCount := rightNode.leafLessOrEqualCount + rightNode.leafGreaterOrNotCount
          let rightChildEstimate : Except Error Dbl :=
            if rightChildCount = 0 then .ok (.fin 0)
            else pessimisticErrorEstimate libm rightChildCorrect rightChildCount
          match rightChildEstimate with
          | .error e => .error e
          | .ok rightChildEstimate =>
            let weightedChildEstimate :=
              ((leftChildEstimate.mul (Dbl.ofInt leftChildCount)).div (Dbl.ofInt nodeCount)).add
                ((rightChildEstimate.mul (Dbl.ofInt rightChildCount)).div (Dbl.ofInt nodeCount))
            if nodeEstimate.lt weightedChildEstimate then .ok true
            else
              match sameCategoryForAllLeaves nodeP with
              | .error e => .error e
              | .ok category => .ok (decide (category ≠ NO_INDEX))

/-- The estimate `factor * rms` of `testReplaceSubtreeNumeric` for one node:
`(count + 1.0) / (count - 1.0) * sqrt(branchSum2 / count)`. -/
def rmsEstimate (libm : Libm) (branchSum2 : ℚ) (count : Int) : Dbl :=
  let rms := Dbl.sqrt libm ((Dbl.fin branchSum2).div (Dbl.ofInt count))
  let factor := ((Dbl.ofInt count).add (.fin 1)).div ((Dbl.ofInt count).sub (.fin 1))
  factor.mul rms

/-- `testReplaceSubtreeNumeric(nodeP)`. Both `leftNode` and `rightNode` are
`nodeP->lessOrEqualNode` in the source. -/
def testReplaceSubtreeNumeric (libm : Libm) (nodeP : TreeNode) : Except Error Bool :=
  match nodeP with
  | .null => .error .nullDereference
  | .node data lessOrEqualNode _ =>
    let nodeCount := data.leafLessOrEqualCount + data.leafGreaterOrNotCount
    let nodeEstimate := rmsEstimate libm data.branchSum2 nodeCount
    match lessOrEqualNode with
    | .null => .error .nullDereference
    | .node leftNode _ _ =>
      let leftCount := leftNode.leafLessOrEqualCount + leftNode.leafGreaterOrNotCount
      let leftEstimate := rmsEstimate libm leftNode.branchSum2 leftCount
      let rightNode := leftNode
      let rightCount := rightNode.leafLessOrEqualCount + rightNode.leafGreaterOrNotCount
      let rightEstimate := rmsEstimate libm rightNode.branchSum2 rightCount
      let weightedChildEstimate :=
        ((leftEstimate.mul (Dbl.ofInt leftCount)).div (Dbl.ofInt nodeCount)).add
          ((rightEstimate.mul (Dbl.ofInt rightCount)).div (Dbl.ofInt nodeCount))
      .ok (nodeEstimate.lt weightedChildEstimate)

/-- `updateBranchCategorical(nodeP)`. -/
def updateBranchCategorical : TreeNode → Except Error TreeNode
  | .null => .error .nullDereference
  | .node data .null greaterOrNotNode => .ok (.node data .null greaterOrNotNode)
  | .node data (.node lessOrEqualData l1 l2) greaterOrNotNode =>
    match updateBranchCategorical (.node lessOrEqualData l1 l2),
        updateBranchCategorical greaterOrNotNode with
    | .ok (.node lessOrEqualData1 l3 l4), .ok (.node greaterOrNotData1 g3 g4) =>
      .ok (.node
        { data with branchCorrectCount :=
            lessOrEqualData1.branchCorrectCount + greaterOrNotData1.branchCorrectCount }
        (.node lessOrEqualData1 l3 l4) (.node greaterOrNotData1 g3 g4))
    | .error e, _ => .error e
    | _, .error e => .error e
    | _, _ => .error .nullDereference

/-- `updateBranchNumeric(nodeP)`. -/
def updateBranchNumeric : TreeNode → Except Error TreeNode
  | .null => .error .nullDereference
  | .node data .null greaterOrNotNode => .ok (.node data .null greaterOrNotNode)
  | .node data (.node lessOrEqualData l1 l2) greaterOrNotNode =>
    match updateBranchNumeric (.node lessOrEqualData l1 l2),
        updateBranchNumeric greaterOrNotNode with
    | .ok (.node lessOrEqualData1 l3 l4), .ok (.node greaterOrNotData1 g3 g4) =>
      .ok (.node
        { data with branchSum2 := lessOrEqualData1.branchSum2 + greaterOrNotData1.branchSum2 }
        (.node lessOrEqualData1 l3 l4) (.node greaterOrNotData1 g3 g4))
    | .error e, _ => .error e
    | _, .error e => .error e
    | _, _ => .error .nullDereference

/-- `findBranchNodes(nodes, depth, nodeP)`; the result is the list of the pairs pushed. A node
pointer is embedded as the path from the root: `false` for `lessOrEqualNode`, `true` for
`greaterOrNotNode`. -/
def findBranchNodes : Int → TreeNode → List Bool → List (Int × List Bool)
  | _, .null, _ => []
  | _, .node _ .null _, _ => []
  | depth, .node _ (.node lessOrEqualData l1 l2) greaterOrNotNode, path =>
    (depth, path) ::
      (findBranchNodes (depth + 1) (.node lessOrEqualData l1 l2) (path ++ [false]) ++
        findBranchNodes (depth + 1) greaterOrNotNode (path ++ [true]))

/-- `compareDepth(i, j)`. -/
def compareDepth (i j : Int × List Bool) : Bool := decide (i.1 > j.1)

/-- `sort(nodes.begin(), nodes.end(), compareDepth)`. The order that `std::sort` gives to nodes
of equal depth is not specified; here they keep their order. -/
def sortByDepth (nodes : List (Int × List Bool)) : List (Int × List Bool) :=
  nodes.insertionSort (fun i j => compareDepth j i = false)

/-- The node that a path from the root leads to. -/
def nodeAt : TreeNode → List Bool → TreeNode
  | t, [] => t
  | .null, _ :: _ => .null
  | .node _ lessOrEqualNode _, false :: rest => nodeAt lessOrEqualNode rest
  | .node _ _ greaterOrNotNode, true :: rest => nodeAt greaterOrNotNode rest

/-- The statements `deleteSubtrees(nextNode); nextNode->splitColIndex = NO_INDEX;` applied to
the node that a path from the root leads to. -/
def replaceWithLeaf : TreeNode → List Bool → TreeNode
  | .null, _ => .null
  | .node data _ _, [] => .node { data with splitColIndex := NO_INDEX } .null .null
  | .node data lessOrEqualNode greaterOrNotNode, false :: rest =>
    .node data (replaceWithLeaf lessOrEqualNode rest) greaterOrNotNode
  | .node data lessOrEqualNode greaterOrNotNode, true :: rest =>
    .node data lessOrEqualNode (replaceWithLeaf greaterOrNotNode rest)

/-- The loop "from bottom up, see if should remove subtrees" of `pruneTree`. -/
def pruneLoop (libm : Libm) (targetValueType : ValueType) :
    List (Int × List Bool) → TreeNode → Except Error TreeNode
  | [], root => .ok root
  | (_, path) :: rest, root =>
    let test : Except Error Bool :=
      match targetValueType with
      | .kCategorical => testReplaceSubtreeCategorical libm (nodeAt root path)
      | .kNumeric => testReplaceSubtreeNumeric libm (nodeAt root path)
    match test with
    | .error e => .error e
    | .ok true => pruneLoop libm targetValueType rest (replaceWithLeaf root path)
    | .ok false => pruneLoop libm targetValueType rest root

/-- `pruneTree(root, values, valueTypes, targetColumn, categoryMaps, sortedIndexes,
colNames)`. -/
def pruneTree (libm : Libm) (root : TreeNode) (valueTypes : List ValueType)
    (targetColumn : Nat) : Except Error TreeNode :=
  match vecGet valueTypes targetColumn with
  | .error e => .error e
  | .ok targetValueType =>
    let updated : Except Error TreeNode :=
      match targetValueType with
      | .kCategorical => updateBranchCategorical root
      | .kNumeric => updateBranchNumeric root
    match updated with
    | .error e => .error e
    | .ok root1 =>
      pruneLoop libm targetValueType (sortByDepth (findBranchNodes 0 root1 [])) root1

/-! ## One tree and the ensemble (train.cpp) -/

/-- The working tree of `evaluateTree` at the call of `makeCompactTree`, and
`maxDepthUsed`: the tree grown from the root, pruned if `doPrune`. -/
def evaluateTreeRoot (libm : Libm) (maxDepth maxNodes : Int) (doPrune : Bool)
    (minImprovement : ℚ) (minLeafCount maxSplitsPerNumericAttribute : Int)
    (values : List (List Value)) (valueTypes : List ValueType) (categoryMaps : List CategoryMaps)
    (subsetIndexes : List Nat) (selectRows selectColumns : SelectIndexes) (targetColumn : Nat)
    (sortedIndexes : List (List Nat)) (imputedValues : List Value) :
    Except Error (TreeNode × Int) :=
  match growTree libm maxDepth maxNodes minImprovement minLeafCount
      maxSplitsPerNumericAttribute values valueTypes categoryMaps subsetIndexes selectRows
      selectColumns targetColumn sortedIndexes imputedValues with
  | .error e => .error e
  | .ok (root, maxDepthUsed) =>
    if doPrune then
      match pruneTree libm root valueTypes targetColumn with
      | .error e => .error e
      | .ok root1 => .ok (root1, maxDepthUsed)
    else .ok (root, maxDepthUsed)

/-- `evaluateTree(compactTree, maxDepth, maxNodes, maxDepthUsed, doPrune, minImprovement,
minLeafCount, maxSplitsPerNumericAttribute, values, valueTypes, categoryMaps, subsetIndexes,
selectRows, selectColumns, targetColumn, sortedIndexes, colNames, imputedValues)`; the result
is `compactTree` and `maxDepthUsed`. -/
def evaluateTree (libm : Libm) (compactTree : CompactTree) (maxDepth maxNodes : Int)
    (doPrune : Bool) (minImprovement : ℚ) (minLeafCount maxSplitsPerNumericAttribute : Int)
    (values : List (List Value)) (valueTypes : List ValueType) (categoryMaps : List CategoryMaps)
    (subsetIndexes : List Nat) (selectRows selectColumns : SelectIndexes) (targetColumn : Nat)
    (sortedIndexes : List (List Nat)) (imputedValues : List Value) :
    Except Error (CompactTree × Int) :=
  match evaluateTreeRoot libm maxDepth maxNodes doPrune minImprovement minLeafCount
      maxSplitsPerNumericAttribute values valueTypes categoryMaps subsetIndexes selectRows
      selectColumns targetColumn sortedIndexes imputedValues with
  | .error e => .error e
  | .ok (root, maxDepthUsed) =>
    match makeCompactTree compactTree root with
    | .error e => .error e
    | .ok compactTree1 => .ok (compactTree1, maxDepthUsed)

/-- `getDefaultImputeOption(valueType)`. -/
def getDefaultImputeOption (valueType : ValueType) : ImputeOption :=
  match valueType with
  | .kCategorical => .kToCategory
  | .kNumeric => .kToMedian

/-- The loop of `train` that converts any `kToDefault` impute option; `col` is the index of the
head of the list. -/
def convertDefaults (valueTypes : List ValueType) :
    List ImputeOption → Nat → Except Error (List ImputeOption)
  | [], _ => .ok []
  | option :: rest, col =>
    let converted : Except Error ImputeOption :=
      if option = .kToDefault then
        match vecGet valueTypes col with
        | .error e => .error e
        | .ok valueType => .ok (getDefaultImputeOption valueType)
      else .ok option
    match converted, convertDefaults valueTypes rest (col + 1) with
    | .ok option1, .ok rest1 => .ok (option1 :: rest1)
    | .error e, _ => .error e
    | _, .error e => .error e

/-- The inner loop of `train` that looks for two different non-NA values in one column; the
state is `variesWithinColumn`, `first` and `firstValue`. -/
def variesLoop (values : List (List Value)) (valueTypes : List ValueType)
    (selectRowIndexes : List Nat) (col : Nat) :
    List Nat → Bool × Bool × Value → Except Error Bool
  | [], st => .ok st.1
  | rowIndex :: rest, (variesWithinColumn, first, firstValue) =>
    if variesWithinColumn then .ok true
    else
      match vecGet selectRowIndexes rowIndex with
      | .error e => .error e
      | .ok row =>
        match cell values col row with
        | .error e => .error e
        | .ok nextValue =>
          if nextValue.na then
            variesLoop values valueTypes selectRowIndexes col rest
              (variesWithinColumn, first, firstValue)
          else if first then
            variesLoop values valueTypes selectRowIndexes col rest (false, false, nextValue)
          else
            match vecGet valueTypes col with
            | .error e => .error e
            | .ok .kCategorical =>
              variesLoop values valueTypes selectRowIndexes col rest
                (decide (firstValue.number.i ≠ nextValue.number.i), first, firstValue)
            | .ok .kNumeric =>
              variesLoop values valueTypes selectRowIndexes col rest
                (decide (firstValue.number.d ≠ nextValue.number.d), first, firstValue)

/-- The loop of `train` that selects the available columns that vary. -/
def candidateColumns (values : List (List Value)) (valueTypes : List ValueType)
    (selectRows : SelectIndexes) (availableColumnIndexes : List Nat) :
    List Nat → SelectIndexes → Except Error SelectIndexes
  | [], selectColumns => .ok selectColumns
  | colIndex :: rest, selectColumns =>
    match vecGet availableColumnIndexes colIndex with
    | .error e => .error e
    | .ok col =>
      match variesLoop values valueTypes selectRows.indexVector col
          (List.range selectRows.countSelected) (false, true, gNaValue) with
      | .error e => .error e
      | .ok true =>
        match selectColumns.select col with
        | .error e => .error e
        | .ok selectColumns1 =>
          candidateColumns values valueTypes selectRows availableColumnIndexes rest selectColumns1
      | .ok false =>
        candidateColumns values valueTypes selectRows availableColumnIndexes rest selectColumns

/-- The conversion `(int) x` of an `index_t`. -/
def intCast (x : Int) : Int := (x + 2 ^ 31) % 2 ^ 32 - 2 ^ 31

/-- The loop of `train` over the column subsets: one tree each, dropped again if it used
fewer than `minDepth` levels. -/
def growTrees (libm : Libm) (maxDepth minDepth : Int) (doPrune : Bool) (minImprovement : ℚ)
    (minLeafCount maxSplitsPerNumericAttribute maxNodes : Int) (values : List (List Value))
    (valueTypes : List ValueType) (categoryMaps : List CategoryMaps)
    (selectRows selectColumns : SelectIndexes) (targetColumn : Nat)
    (sortedIndexes : List (List Nat)) (imputedValues : List Value) :
    List (List Nat) → List CompactTree → Except Error (List CompactTree)
  | [], trees => .ok trees
  | subset :: rest, trees =>
    match evaluateTree libm ⟨[], [], [], [], []⟩ maxDepth (intCast maxNodes) doPrune
        minImprovement minLeafCount maxSplitsPerNumericAttribute values valueTypes categoryMaps
        subset selectRows selectColumns targetColumn sortedIndexes imputedValues with
    | .error e => .error e
    | .ok (compactTree, maxDepthUsed) =>
      growTrees libm maxDepth minDepth doPrune minImprovement minLeafCount
        maxSplitsPerNumericAttribute maxNodes values valueTypes categoryMaps selectRows
        selectColumns targetColumn sortedIndexes imputedValues rest
        (if maxDepthUsed < minDepth then trees else trees ++ [compactTree])

/-- The local variables of `train` at the start of its loop over the column subsets:
`selectColumns`, the arrays as `imputeValues` left them, and `subsets`. -/
structure TrainSetup where
  imputeOptions : List ImputeOption
  selectColumns : SelectIndexes
  values : List (List Value)
  categoryMaps : List CategoryMaps
  sortedIndexes : List (List Nat)
  imputedValues : List Value
  subsets : List (List Nat)
  deriving DecidableEq, Repr

/-- The part of `train` before the loop over the column subsets: convert the impute options,
choose the candidate columns, fix `columnsPerTree`, sort, impute, and make the subsets. -/
def trainSetup (libm : Libm) (columnsPerTree maxTrees : Int)
    (selectRows availableColumns : SelectIndexes) (values : List (List Value))
    (valueTypes : List ValueType) (categoryMaps : List CategoryMaps) (targetColumn : Nat)
    (imputeOptions : List ImputeOption) : Except Error TrainSetup := do
  let imputeOptions1 ← convertDefaults valueTypes imputeOptions 0
  let selectColumns ← candidateColumns values valueTypes selectRows availableColumns.indexVector
    (List.range availableColumns.countSelected)
    (SelectIndexes.clear availableColumns availableColumns.boolVector.length)
  let numSelectedCols := selectColumns.countSelected
  let columnsPerTree1 ←
    if columnsPerTree ≤ 0 then do
      let targetValueType ← vecGet valueTypes targetColumn
      match targetValueType with
      | .kCategorical => pure (⌈libm.sqrt (numSelectedCols : ℚ)⌉ : Int)
      | .kNumeric => pure (⌈(numSelectedCols : ℚ) / 3⌉ : Int)
    else pure columnsPerTree
  if columnsPerTree1 < 1 then throw (Error.runtimeError "no useful columns")
  let columnsPerTree2 :=
    if columnsPerTree1 > (numSelectedCols : Int) then (numSelectedCols : Int) else columnsPerTree1
  let sortedIndexes ← makeSortedIndexes values valueTypes selectColumns
  let imputed ← imputeValues imputeOptions1 valueTypes values selectRows selectColumns
    categoryMaps sortedIndexes
  let subsets ← makeSelectColSubsets numSelectedCols columnsPerTree2.toNat maxTrees
  pure ⟨imputeOptions1, selectColumns, imputed.values, imputed.categoryMaps,
    imputed.sortedIndexes, imputed.imputedValues, subsets⟩

/-- The reference parameters that `train` writes. -/
structure Trained where
  trees : List CompactTree
  selectColumns : SelectIndexes
  values : List (List Value)
  categoryMaps : List CategoryMaps
  imputeOptions : List ImputeOption
  deriving DecidableEq, Repr

/-- `train(trees, columnsPerTree, maxDepth, minDepth, doPrune, minImprovement, minLeafCount,
maxSplitsPerNumericAttribute, maxTrees, maxNodes, selectRows, availableColumns,
selectColumns, values, valueTypes, categoryMaps, targetColumn, colNames, imputeOptions)`. -/
def train (libm : Libm) (columnsPerTree maxDepth minDepth : Int) (doPrune : Bool)
    (minImprovement : ℚ) (minLeafCount maxSplitsPerNumericAttribute maxTrees maxNodes : Int)
    (selectRows availableColumns : SelectIndexes) (values : List (List Value))
    (valueTypes : List ValueType) (categoryMaps : List CategoryMaps) (targetColumn : Nat)
    (imputeOptions : List ImputeOption) : Except Error Trained :=
  match trainSetup libm columnsPerTree maxTrees selectRows availableColumns values valueTypes
      categoryMaps targetColumn imputeOptions with
  | .error e => .error e
  | .ok setup =>
    match growTrees libm maxDepth minDepth doPrune minImprovement minLeafCount
        maxSplitsPerNumericAttribute maxNodes setup.values valueTypes setup.categoryMaps
        selectRows setup.selectColumns targetColumn setup.sortedIndexes setup.imputedValues
        setup.subsets [] with
    | .error e => .error e
    | .ok trees =>
      .ok ⟨trees, setup.selectColumns, setup.values, setup.categoryMaps, setup.imputeOptions⟩

/-- The loop of `compareMatch` over `selectRows.indexVector()`; the state is `result` and
`na`. -/
def compareMatchLoop (values1 values2 : List Value) : List Nat → ℚ × Bool → Except Error (ℚ × Bool)
  | [], state => .ok state
  | row :: rest, (result, na) =>
    match vecGet values1 row, vecGet values2 row with
    | .ok value1, .ok value2 =>
      compareMatchLoop values1 values2 rest
        (if value1.number.i = value2.number.i then result + 1 else result,
          if value1.na = true ∨ value2.na = true then true else na)
    | .error e, _ => .error e
    | _, .error e => .error e

/-- `compareMatch(values1, values2, selectRows)`. -/
def compareMatch (values1 values2 : List Value) (selectRows : SelectIndexes) : Except Error ℚ :=
  if values1.length ≠ values2.length then .ok (-2)
  else if values1.length = 0 then .ok (-1)
  else
    match compareMatchLoop values1 values2 selectRows.indexVector (0, false) with
    | .error e => .error e
    | .ok (result, na) => if na then .ok (-3) else .ok (result / (values1.length : ℚ))

/-! ## The predictor (predict.cpp) -/

/-- The test at one internal node of `predictOne`: which branch the row takes. -/
def useLessOrEqual (values : List (List Value)) (valueTypes : List ValueType)
    (selectColumnIndexes : List Nat) (tree : CompactTree) (numCols row nodeIndex : Nat) :
    Except Error Bool := do
  let splitColIndex ← vecGet tree.splitColIndex nodeIndex
  if splitColIndex < 0 then throw (Error.logicError "out of range")
  let col ← vecGet selectColumnIndexes splitColIndex.toNat
  if col ≥ numCols then throw (Error.logicError "out of range")
  let column ← vecGet values col
  let compareValue ← vecGet column row
  if compareValue.na then
    vecGet tree.toLessOrEqualIfNA nodeIndex
  else do
    let valueType ← vecGet valueTypes col
    let splitValue ← vecGet tree.value nodeIndex
    match valueType with
    | .kCategorical => pure (decide (compareValue.number.i = splitValue.i))
    | .kNumeric => pure (decide (compareValue.number.d ≤ splitValue.d))

/-- The loop `while (tree.lessOrEqualIndex[nodeIndex] != NO_INDEX)` of `predictOne` for one row,
with fuel: the node index at which the loop stops. -/
def predictOneRoute (values : List (List Value)) (valueTypes : List ValueType)
    (selectColumnIndexes : List Nat) (tree : CompactTree) (numCols row : Nat) :
    Nat → Nat → Except Error Nat
  | 0, _ => .error .outOfFuel
  | fuel + 1, nodeIndex => do
    let lessOrEqualIndex ← vecGet tree.lessOrEqualIndex nodeIndex
    if lessOrEqualIndex = NO_INDEX then pure nodeIndex
    else do
      let goLess ← useLessOrEqual values valueTypes selectColumnIndexes tree numCols row nodeIndex
      let nextIndex ←
        if goLess then pure lessOrEqualIndex else vecGet tree.greaterOrNotIndex nodeIndex
      let next ← indexToSize nextIndex
      predictOneRoute values valueTypes selectColumnIndexes tree numCols row fuel next

/-- The loop over the selected rows of `predictOne`. -/
def predictOneRows (fuel : Nat) (values : List (List Value)) (valueTypes : List ValueType)
    (selectColumnIndexes : List Nat) (tree : CompactTree) (numCols numRows : Nat) :
    List Nat → List Value → Except Error (List Value)
  | [], predictVector => .ok predictVector
  | row :: rest, predictVector => do
    if row ≥ numRows then throw (Error.logicError "out of range")
    let nodeIndex ← predictOneRoute values valueTypes selectColumnIndexes tree numCols row fuel 0
    let value ← vecGet tree.value nodeIndex
    let predictVector1 ← vecSet predictVector row ⟨value, false⟩
    predictOneRows fuel values valueTypes selectColumnIndexes tree numCols numRows rest
      predictVector1

/-- `predictOne(values, valueTypes, selectRows, targetColumn, categoryMaps, selectColumns, tree,
predictVector, colNames)`; the arguments used only for tracing are left out. -/
def predictOne (fuel : Nat) (values : List (List Value)) (valueTypes : List ValueType)
    (selectRows selectColumns : SelectIndexes) (tree : CompactTree) (predictVector : List Value) :
    Except Error (List Value) := do
  let numCols := values.length
  let firstColumn ← vecGet values 0
  let numRows := firstColumn.length
  predictOneRows fuel values valueTypes selectColumns.indexVector tree numCols numRows
    selectRows.indexVector (vecResize predictVector numRows gNaValue)

/-- `counts[row][countsIndex]++` for each selected row of one tree's prediction vector. -/
def predictTally (beginCategoryIndex : Int) (onePredictVector : List Value) :
    List Nat → List (List Int) → Except Error (List (List Int))
  | [], counts => .ok counts
  | row :: rest, counts => do
    let one ← vecGet onePredictVector row
    let categoryIndex := one.number.i
    let countsIndex ← indexToSize (categoryIndex - beginCategoryIndex)
    let rowCounts ← vecGet counts row
    let count ← vecGet rowCounts countsIndex
    let rowCounts1 ← vecSet rowCounts countsIndex (count + 1)
    let counts1 ← vecSet counts row rowCounts1
    predictTally beginCategoryIndex onePredictVector rest counts1

/-- The loop over the trees in the categorical case of `predict`. `values` is the array as the
trees see it: its target column is the prediction vector. -/
def predictTallyTrees (fuel : Nat) (values : List (List Value)) (valueTypes : List ValueType)
    (selectRows selectColumns : SelectIndexes) (beginCategoryIndex : Int) :
    List CompactTree → List (List Int) → Except Error (List (List Int))
  | [], counts => .ok counts
  | tree :: rest, counts => do
    let onePredictVector ← predictOne fuel values valueTypes selectRows selectColumns tree []
    let counts1 ← predictTally beginCategoryIndex onePredictVector selectRows.indexVector counts
    predictTallyTrees fuel values valueTypes selectRows selectColumns beginCategoryIndex rest
      counts1

/-- The loop over the category indexes for one row in `predict`: the state is the row's entry
of the prediction vector and `maxCount`. -/
def predictPick (targetMap : CategoryMaps) (beginCategoryIndex : Int) (rowCounts : List Int) :
    List Int → Value × Int → Except Error (Value × Int)
  | [], state => .ok state
  | categoryIndex :: rest, (current, maxCount) => do
    let countsIndex ← indexToSize (categoryIndex - beginCategoryIndex)
    let nextCount ← vecGet rowCounts countsIndex
    if maxCount < nextCount then
      predictPick targetMap beginCategoryIndex rowCounts rest
        (⟨{ current.number with i := categoryIndex }, false⟩, nextCount)
    else if nextCount > 0 ∧ maxCount = nextCount then do
      let currentIndex := current.number.i
      let nextName ← targetMap.getCategoryForIndex categoryIndex
      let currentName ← targetMap.getCategoryForIndex currentIndex
      if nextName < currentName then
        predictPick targetMap beginCategoryIndex rowCounts rest
          (⟨{ current.number with i := categoryIndex }, false⟩, nextCount)
      else predictPick targetMap beginCategoryIndex rowCounts rest (current, maxCount)
    else predictPick targetMap beginCategoryIndex rowCounts rest (current, maxCount)

/-- The loop over the selected rows that picks the most frequent category in `predict`. -/
def predictPickRows (targetMap : CategoryMaps) (beginCategoryIndex endCategoryIndex : Int)
    (counts : List (List Int)) : List Nat → List Value → Except Error (List Value)
  | [], predictVector => .ok predictVector
  | row :: rest, predictVector => do
    let current ← vecGet predictVector row
    let rowCounts ← vecGet counts row
    let picked ← predictPick targetMap beginCategoryIndex rowCounts
      (categoryIndexes beginCategoryIndex endCategoryIndex) (current, 0)
    let predictVector1 ← vecSet predictVector row picked.1
    predictPickRows targetMap beginCategoryIndex endCategoryIndex counts rest predictVector1

/-- `predictVector[row] = zeroValue` for the selected rows (numeric case of `predict`). -/
def predictZeroRows : List Nat → List Value → Except Error (List Value)
  | [], predictVector => .ok predictVector
  | row :: rest, predictVector => do
    let predictVector1 ← vecSet predictVector row ⟨⟨0, 0⟩, false⟩
    predictZeroRows rest predictVector1

/-- `predictVector[row].number.d += onePredictVector[row].number.d` for the selected rows. -/
def predictAddRows (onePredictVector : List Value) :
    List Nat → List Value → Except Error (List Value)
  | [], predictVector => .ok predictVector
  | row :: rest, predictVector => do
    let current ← vecGet predictVector row
    let one ← vecGet onePredictVector row
    let predictVector1 ← vecSet predictVector row
      { current with number := { current.number with d := current.number.d + one.number.d } }
    predictAddRows onePredictVector rest predictVector1

/-- The loop over the trees in the numeric case of `predict`; each tree sees the array with the
sums accumulated so far in the target column. -/
def predictAddTrees (fuel : Nat) (values : List (List Value)) (valueTypes : List ValueType)
    (targetColumn : Nat) (selectRows selectColumns : SelectIndexes) :
    List CompactTree → List Value → Except Error (List Value)
  | [], predictVector => .ok predictVector
  | tree :: rest, predictVector => do
    let onePredictVector ← predictOne fuel (values.set targetColumn predictVector) valueTypes
      selectRows selectColumns tree []
    let predictVector1 ← predictAddRows onePredictVector selectRows.indexVector predictVector
    predictAddTrees fuel values valueTypes targetColumn selectRows selectColumns rest
      predictVector1

/-- `predictVector[row].number.d /= numTrees` for the selected rows. -/
def predictDivideRows (numTrees : Nat) : List Nat → List Value → Except Error (List Value)
  | [], predictVector => .ok predictVector
  | row :: rest, predictVector => do
    let current ← vecGet predictVector row
    let predictVector1 ← vecSet predictVector row
      { current with number := { current.number with d := current.number.d / (numTrees : ℚ) } }
    predictDivideRows numTrees rest predictVector1

/-- `predict(values, valueTypes, categoryMaps, targetColumn, selectRows, selectColumns, trees,
colNames)`: the array of values with the predictions written into the target column. -/
def predict (fuel : Nat) (values : List (List Value)) (valueTypes : List ValueType)
    (categoryMaps : List CategoryMaps) (targetColumn : Nat)
    (selectRows selectColumns : SelectIndexes) (trees : List CompactTree) :
    Except Error (List (List Value)) := do
  let targetValues ← vecGet values targetColumn
  let numRows := targetValues.length
  let numTrees := trees.length
  if values.length ≠ valueTypes.length then
    throw (Error.logicError "values vs. valueTypes size mismatch")
  if values.length ≠ selectColumns.boolVector.length then
    throw (Error.logicError "values vs. selectColumns size mismatch")
  let _sortedIndexes ← makeSortedIndexes values valueTypes selectColumns
  let selectRowIndexes := selectRows.indexVector
  let targetType ← vecGet valueTypes targetColumn
  match targetType with
  | .kCategorical => do
    let predictVector := List.replicate numRows gNaValue
    let targetMap ← vecGet categoryMaps targetColumn
    let numTargetCategories := targetMap.countAllCategories
    let beginCategoryIndex := targetMap.beginIndex
    let endCategoryIndex := targetMap.endIndex
    let counts := List.replicate numRows (List.replicate numTargetCategories (0 : Int))
    let counts1 ← predictTallyTrees fuel (values.set targetColumn predictVector) valueTypes
      selectRows selectColumns beginCategoryIndex trees counts
    let predictVector1 ← predictPickRows targetMap beginCategoryIndex endCategoryIndex counts1
      selectRowIndexes predictVector
    pure (values.set targetColumn predictVector1)
  | .kNumeric => do
    let predictVector0 ← predictZeroRows selectRowIndexes targetValues
    let predictVector1 ← predictAddTrees fuel values valueTypes targetColumn selectRows
      selectColumns trees predictVector0
    let predictVector2 ← predictDivideRows numTrees selectRowIndexes predictVector1
    pure (values.set targetColumn predictVector2)

/-! ## Reading a line of comma-separated values (csv.cpp)

Inside `nextCsvLine` a `std::string` is the list of its characters; the cells it returns are
strings. The three `while` loops advance an index that never passes `strLength`; they take
fuel, and `nextCsvLine` gives them more than `strLength`. -/

/-- The character `"`. -/
def quoteChar : Char := Char.ofNat 34

/-- The character `,`. -/
def commaChar : Char := Char.ofNat 44

/-- The space character. -/
def spaceChar : Char := Char.ofNat 32

/-- The tab character `\t`. -/
def tabChar : Char := Char.ofNat 9

/-- The carriage return `\r`. -/
def returnChar : Char := Char.ofNat 13

/-- The line feed `\n`. -/
def newlineChar : Char := Char.ofNat 10

/-- `getline(is, str)` on a stream whose unread content is `is`: the characters before the
first line feed, and the content that follows that line feed. -/
def getline (is : List Char) : List Char × List Char :=
  (is.takeWhile (fun c => decide (c ≠ newlineChar)),
    (is.dropWhile (fun c => decide (c ≠ newlineChar))).drop 1)

/-- `str[i]`; the position `str.size()` holds the null character. -/
def strAt (str : List Char) (i : Nat) : Char := str.getD i (Char.ofNat 0)

/-- `str.substr(pos, len)`. -/
def substr (str : List Char) (pos len : Nat) : List Char := (str.drop pos).take len

/-- The loop `while (str[startIndex] == ' ' || str[startIndex] == '\t') startIndex++;` of
`nextCsvLine`. -/
def skipBlanks (str : List Char) : Nat → Nat → Except Error Nat
  | 0, _ => .error .outOfFuel
  | fuel + 1, startIndex =>
    if strAt str startIndex = spaceChar ∨ strAt str startIndex = tabChar then
      skipBlanks str fuel (startIndex + 1)
    else .ok startIndex

/-- The loop `while (!done)` of `nextCsvLine` for a quoted cell; the result is `cell` and
`endIndex` when `done` is set. -/
def quotedCellLoop (str : List Char) (strLength : Nat) :
    Nat → Nat → Nat → List Char → Except Error (List Char × Nat)
  | 0, _, _, _ => .error .outOfFuel
  | fuel + 1, startIndex, endIndex, cell =>
    if endIndex = strLength then
      .ok (cell ++ substr str startIndex (endIndex - startIndex), endIndex)
    else if strAt str endIndex = quoteChar then
      if endIndex + 1 = strLength then
        .ok (cell ++ substr str startIndex (endIndex - startIndex), endIndex)
      else if strAt str (endIndex + 1) = quoteChar then
        quotedCellLoop str strLength fuel (endIndex + 1 + 1) (endIndex + 1 + 1)
          (cell ++ substr str startIndex (endIndex + 1 - startIndex))
      else if strAt str (endIndex + 1) = commaChar then
        .ok (cell ++ substr str startIndex (endIndex - startIndex), endIndex + 1)
      else
        quotedCellLoop str strLength fuel (endIndex + 1) (endIndex + 1)
          (cell ++ substr str startIndex (endIndex - startIndex))
    else quotedCellLoop str strLength fuel startIndex (endIndex + 1) cell

/-- The loop `while (!done)` of `nextCsvLine` for a cell that is not quoted; the result is
`endIndex` when `done` is set. -/
def plainCellLoop (str : List Char) (strLength : Nat) : Nat → Nat → Except Error Nat
  | 0, _ => .error .outOfFuel
  | fuel + 1, endIndex =>
    if endIndex = strLength then .ok endIndex
    else if strAt str endIndex = commaChar then .ok endIndex
    else plainCellLoop str strLength fuel (endIndex + 1)

/-- The loop "for each cell in line" of `nextCsvLine`, entered with `success` set; the result
is `line` and `lineQuoted`. -/
def cellsLoop (str : List Char) (strLength : Nat) :
    Nat → Nat → List String → List Bool → Except Error (List String × List Bool)
  | fuel, startIndex, line, lineQuoted =>
    if startIndex < strLength then
      match fuel with
      | 0 => .error .outOfFuel
      | fuel + 1 =>
        match skipBlanks str (str.length + 1) startIndex with
        | .error e => .error e
        | .ok startIndex1 =>
          if startIndex1 < strLength then
            if strAt str startIndex1 = quoteChar then
              match quotedCellLoop str strLength (strLength + 1) (startIndex1 + 1)
                  (startIndex1 + 1) [] with
              | .error e => .error e
              | .ok (cell, endIndex) =>
                cellsLoop str strLength fuel (endIndex + 1) (line ++ [String.mk cell])
                  (lineQuoted ++ [true])
            else
              match plainCellLoop str strLength (strLength + 1) startIndex1 with
              | .error e => .error e
              | .ok endIndex =>
                cellsLoop str strLength fuel (endIndex + 1)
                  (line ++ [String.mk (substr str startIndex1 (endIndex - startIndex1))])
                  (lineQuoted ++ [false])
          else cellsLoop str strLength fuel startIndex1 line lineQuoted
    else .ok (line, lineQuoted)

/-- `nextCsvLine(is, line, lineQuoted)` on a stream whose unread content is `is`: the returned
flag, `line`, `lineQuoted`, and the content left unread. -/
def nextCsvLine (is : String) : Except Error (Bool × List String × List Bool × String) :=
  let str := (getline is.data).1
  let strLength :=
    if str.length > 0 ∧ strAt str (str.length - 1) = returnChar then str.length - 1
    else str.length
  let success := decide (strLength > 0)
  match cellsLoop str strLength (strLength + 1) 0 [] [] with
  | .error e => .error e
  | .ok (line, lineQuoted) => .ok (success, line, lineQuoted, String.mk (getline is.data).2)

/-! ### The routing rule, in the words of the specification -/

/-- The branch test of the routing rule: the row's value in the split column is NA and
`toLessOrEqualIfNA` is set, or it is a non-NA numeric value `≤` the node's threshold, or it is a
non-NA categorical index equal to the node's split level. -/
def takesLessOrEqual (compareValue : Value) (valueType : ValueType) (toLessOrEqualIfNA : Bool)
    (splitValue : Number) : Bool :=
  (compareValue.na && toLessOrEqualIfNA) ||
  (!compareValue.na && decide (valueType = .kNumeric) &&
    decide (compareValue.number.d ≤ splitValue.d)) ||
  (!compareValue.na && decide (valueType = .kCategorical) &&
    decide (compareValue.number.i = splitValue.i))

/-- `RoutesTo values valueTypes selectColumnIndexes tree row nodeIndex leaf steps`: starting at
`nodeIndex`, the routing rule reaches the leaf `leaf` after `steps` moves. A node is a leaf when
its `lessOrEqualIndex` is `NO_INDEX`; at an internal node the row moves to `lessOrEqualIndex`
iff the branch test holds, and to `greaterOrNotIndex` otherwise. -/
inductive RoutesTo (values : List (List Value)) (valueTypes : List ValueType)
    (selectColumnIndexes : List Nat) (tree : CompactTree) (row : Nat) : Nat → Nat → Nat → Prop
  | leaf (nodeIndex : Nat) (hleaf : tree.lessOrEqualIndex[nodeIndex]? = some NO_INDEX) :
      RoutesTo values valueTypes selectColumnIndexes tree row nodeIndex nodeIndex 0
  | move (nodeIndex next leaf steps : Nat) (lessOrEqualIndex greaterOrNotIndex splitColIndex : Int)
      (col : Nat) (column : List Value) (compareValue : Value) (valueType : ValueType)
      (toLessOrEqualIfNA : Bool) (splitValue : Number)
      (hle : tree.lessOrEqualIndex[nodeIndex]? = some lessOrEqualIndex)
      (hinternal : lessOrEqualIndex ≠ NO_INDEX)
      (hgt : tree.greaterOrNotIndex[nodeIndex]? = some greaterOrNotIndex)
      (hsplit : tree.splitColIndex[nodeIndex]? = some splitColIndex)
      (hsplit0 : 0 ≤ splitColIndex)
      (hcol : selectColumnIndexes[splitColIndex.toNat]? = some col)
      (hcolumn : values[col]? = some column)
      (hvalue : column[row]? = some compareValue)
      (htype : valueTypes[col]? = some valueType)
      (hto : tree.toLessOrEqualIfNA[nodeIndex]? = some toLessOrEqualIfNA)
      (hsv : tree.value[nodeIndex]? = some splitValue)
      (hnext : (next : Int) =
        if takesLessOrEqual compareValue valueType toLessOrEqualIfNA splitValue = true
        then lessOrEqualIndex else greaterOrNotIndex)
      (hrest : RoutesTo values valueTypes selectColumnIndexes tree row next leaf steps) :
      RoutesTo values valueTypes selectColumnIndexes tree row nodeIndex leaf (steps + 1)

/-! ### The vote of the ensemble, in the words of the specification -/

/-- The number of trees that predict level `categoryIndex` for `row`, given the prediction
vectors of the trees. -/
def votesFor (onePredictVectors : List (List Value)) (row : Nat) (categoryIndex : Int) : Int :=
  ((onePredictVectors.filter
    (fun pv => decide ((pv.getD row gNaValue).number.i = categoryIndex))).length : Int)

/-- The name of a level of a category map (`" <NA> "` for the synthetic NA level). -/
def levelName (m : CategoryMaps) (categoryIndex : Int) : String :=
  (m.findCategoryForIndex categoryIndex).2

/-! ### The pre-order layout that compaction is meant to produce -/

/-- One row of a compact tree. -/
structure CompactNode where
  splitColIndex : Int
  lessOrEqualIndex : Int
  greaterOrNotIndex : Int
  toLessOrEqualIfNA : Bool
  value : Number
  deriving DecidableEq, Repr

/-- Every node of the tree has zero or two children (and the pointer itself is not `NULL`). -/
def zeroOrTwoChildren : TreeNode → Bool
  | .null => false
  | .node _ lessOrEqualNode greaterOrNotNode =>
    match lessOrEqualNode, greaterOrNotNode with
    | .null, .null => true
    | .node _ _ _, .node _ _ _ =>
      zeroOrTwoChildren lessOrEqualNode && zeroOrTwoChildren greaterOrNotNode
    | _, _ => false

/-- The nodes of a tree (each with its subtree) in DFS pre-order: node, less-or-equal subtree,
greater-or-not subtree. -/
def preorder : TreeNode → List TreeNode
  | .null => []
  | .node data lessOrEqualNode greaterOrNotNode =>
    .node data lessOrEqualNode greaterOrNotNode ::
      (preorder lessOrEqualNode ++ preorder greaterOrNotNode)

/-- The compact row of the node that stands at position `pos` of the pre-order numbering. -/
def compactNodeAt (pos : Nat) : TreeNode → CompactNode
  | .null => ⟨NO_INDEX, NO_INDEX, NO_INDEX, false, ⟨0, 0⟩⟩
  | .node data .null _ => ⟨NO_INDEX, NO_INDEX, NO_INDEX, false, data.leafValue.number⟩
  | .node data (.node d l r) _ =>
    ⟨data.splitColIndex, (pos + 1 : Nat), (pos + 1 + countNodes (.node d l r) : Nat),
      data.toLessOrEqualIfNA, data.splitValue.number⟩

/-- The compact rows of a tree whose root stands at position `base`, in pre-order. -/
def preorderRows : TreeNode → Nat → List CompactNode
  | .null, _ => []
  | .node data lessOrEqualNode greaterOrNotNode, base =>
    compactNodeAt base (.node data lessOrEqualNode greaterOrNotNode) ::
      (preorderRows lessOrEqualNode (base + 1) ++
        preorderRows greaterOrNotNode (base + 1 + countNodes lessOrEqualNode))

/-- Row `index` of a compact tree, when all five vectors have it. -/
def CompactTree.row? (tree : CompactTree) (index : Nat) : Option CompactNode :=
  match tree.splitColIndex[index]?, tree.lessOrEqualIndex[index]?, tree.greaterOrNotIndex[index]?,
    tree.toLessOrEqualIfNA[index]?, tree.value[index]? with
  | some s, some l, some g, some t, some v => some ⟨s, l, g, t, v⟩
  | _, _, _, _, _ => none

/-- The compact tree whose rows are the given ones. -/
def CompactTree.ofRows (rows : List CompactNode) : CompactTree :=
  { splitColIndex := rows.map (·.splitColIndex)
    lessOrEqualIndex := rows.map (·.lessOrEqualIndex)
    greaterOrNotIndex := rows.map (·.greaterOrNotIndex)
    toLessOrEqualIfNA := rows.map (·.toLessOrEqualIfNA)
    value := rows.map (·.value) }

/-- The serial number stored in a node (`nodeP->index`). -/
def TreeNode.index : TreeNode → Nat
  | .null => 0
  | .node data _ _ => data.index

/-- A small working tree used to exercise the compaction: a root that splits on selected column
0 at level 1, with two leaves. -/
def sampleLeafData (leafIndex : Int) : NodeData :=
  { leafValue := ⟨⟨0, leafIndex⟩, false⟩, splitValue := gNaValue, toLessOrEqualIfNA := false,
    splitColIndex := NO_INDEX, leafLessOrEqualCount := 1, leafGreaterOrNotCount := 0,
    branchSum2 := 0, branchCorrectCount := 1, selectRows := ⟨[], [], 0⟩, index := 7 }

/-- The root data of the sample tree. -/
def sampleRootData : NodeData :=
  { leafValue := ⟨⟨0, 0⟩, false⟩, splitValue := ⟨⟨0, 1⟩, false⟩, toLessOrEqualIfNA := true,
    splitColIndex := 0, leafLessOrEqualCount := 1, leafGreaterOrNotCount := 1,
    branchSum2 := 0, branchCorrectCount := 2, selectRows := ⟨[], [], 0⟩, index := 9 }

/-- The sample working tree. -/
def sampleTree : TreeNode :=
  .node sampleRootData (.node (sampleLeafData 0) .null .null)
    (.node (sampleLeafData 1) .null .null)

/-- The compact form of the sample tree: node 0 splits on selected column 0 at level 1. -/
def sampleCompactTree : CompactTree :=
  ⟨[0, -1, -1], [1, -1, -1], [2, -1, -1], [true, false, false], [⟨0, 1⟩, ⟨0, 0⟩, ⟨0, 1⟩]⟩

/-- Sample data: column 0 is a categorical attribute with a missing value in row 2, column 1 is
the categorical target. -/
def sampleValues : List (List Value) :=
  [[⟨⟨0, 0⟩, false⟩, ⟨⟨0, 1⟩, false⟩, gNaValue], [gNaValue, gNaValue, gNaValue]]

/-- The value types of the sample data. -/
def sampleValueTypes : List ValueType := [.kCategorical, .kCategorical]

/-- All three rows of the sample data. -/
def sampleSelectRows : SelectIndexes := SelectIndexes.create 3 true

/-- The attribute column of the sample data. -/
def sampleSelectColumns : SelectIndexes := ⟨[true, false], [0], 1⟩

/-- The tie-break scenario of the coverage driver `cover_predict`: three categorical columns
and two rows; the target is column 2, whose levels were inserted in the order "F", "E". -/
def voteValues : List (List Value) :=
  [[⟨⟨0, 0⟩, false⟩, ⟨⟨0, 1⟩, false⟩], [⟨⟨0, 0⟩, false⟩, ⟨⟨0, 1⟩, false⟩],
    [⟨⟨0, 0⟩, false⟩, ⟨⟨0, 1⟩, false⟩]]

/-- The value types of the tie-break scenario. -/
def voteValueTypes : List ValueType := [.kCategorical, .kCategorical, .kCategorical]

/-- The category maps of the tie-break scenario. -/
def voteCategoryMaps : List CategoryMaps :=
  [⟨false, ["A", "B"], [("A", 0), ("B", 1)]⟩, ⟨false, ["D", "C"], [("D", 0), ("C", 1)]⟩,
    ⟨false, ["F", "E"], [("F", 0), ("E", 1)]⟩]

/-- The two single-leaf trees of the tie-break scenario: one predicts "F", the other "E". -/
def voteTrees : List CompactTree :=
  [⟨[-1], [-1], [-1], [true], [⟨0, 0⟩]⟩, ⟨[-1], [-1], [-1], [true], [⟨0, 1⟩]⟩]

/-- The prediction vectors of the two trees of the tie-break scenario. -/
def votePredictions : List (List Value) :=
  [[⟨⟨0, 0⟩, false⟩, ⟨⟨0, 0⟩, false⟩], [⟨⟨0, 1⟩, false⟩, ⟨⟨0, 1⟩, false⟩]]

/-- The selected attribute columns of the tie-break scenario. -/
def voteSelectColumns : SelectIndexes := ⟨[true, true, false], [0, 1], 2⟩

/-! ### The impurity of a split, in the words of the specification -/

/-- The leaf of a working tree that a row reaches by the routing rule of the predictor
(`takesLessOrEqual` on the cell of the split column). -/
def treeLeaf (values : List (List Value)) (valueTypes : List ValueType)
    (selectColumnIndexes : List Nat) : TreeNode → Nat → Option NodeData
  | .null, _ => none
  | .node data .null _, _ => some data
  | .node data (.node lessOrEqualData l1 l2) greaterOrNotNode, row =>
    if takesLessOrEqual
        ((values.getD (selectColumnIndexes.getD data.splitColIndex.toNat 0) []).getD row gNaValue)
        (valueTypes.getD (selectColumnIndexes.getD data.splitColIndex.toNat 0) .kNumeric)
        data.toLessOrEqualIfNA data.splitValue.number = true then
      treeLeaf values valueTypes selectColumnIndexes (.node lessOrEqualData l1 l2) row
    else treeLeaf values valueTypes selectColumnIndexes greaterOrNotNode row

/-- A leaf of the working tree: a node without `lessOrEqualNode`. -/
def isLeaf : TreeNode → Bool
  | .node _ .null _ => true
  | _ => false

/-- The side a training row takes at a split node of the working tree: the comparison of
`improveImperfectLeaf` on the cell of the split column,
`values[selectColumnIndexes[splitColIndex]][row]`. -/
def goesLessOrEqual (values : List (List Value)) (valueTypes : List ValueType)
    (selectColumnIndexes : List Nat) (data : NodeData) (row : Nat) : Bool :=
  let col := selectColumnIndexes.getD data.splitColIndex.toNat 0
  isLessOrEqual (valueTypes.getD col .kNumeric) data.splitValue
    ((values.getD col []).getD row gNaValue)

/-- The training rows that reach each leaf of a working tree, leaves from left to right: the
rows that reach a split node are divided between its children by `goesLessOrEqual`. -/
def leafRows (values : List (List Value)) (valueTypes : List ValueType)
    (selectColumnIndexes : List Nat) : TreeNode → List Nat → List (List Nat)
  | .null, _ => []
  | .node _ .null _, rows => [rows]
  | .node data (.node lessOrEqualData l1 l2) greaterOrNotNode, rows =>
    leafRows values valueTypes selectColumnIndexes (.node lessOrEqualData l1 l2)
        (rows.filter (fun row => goesLessOrEqual values valueTypes selectColumnIndexes data row)) ++
      leafRows values valueTypes selectColumnIndexes greaterOrNotNode
        (rows.filter (fun row => !goesLessOrEqual values valueTypes selectColumnIndexes data row))

/-! ### Sample data -/

/-- A square root on the rationals that is exact on squares of rationals. -/
def ratSqrt (x : ℚ) : ℚ :=
  if x ≤ 0 then 0 else (Nat.sqrt (x.num.toNat * x.den) : ℚ) / (x.den : ℚ)

/-- A rational stand-in for the natural logarithm: the first terms of the series
`2 (z + z^3/3 + z^5/5)` with `z = (x - 1)/(x + 1)`. -/
def logSeries (x : ℚ) : ℚ :=
  2 * ((x - 1) / (x + 1) + ((x - 1) / (x + 1)) ^ 3 / 3 + ((x - 1) / (x + 1)) ^ 5 / 5)

/-- A `Libm` that can be evaluated. -/
def rationalLibm : Libm := ⟨logSeries, ratSqrt⟩

/-- A numeric cell. -/
def numericCell (x : ℚ) : Value := ⟨⟨x, 0⟩, false⟩

/-- A categorical cell. -/
def categoricalCell (i : Int) : Value := ⟨⟨0, i⟩, false⟩

/-- Six rows: a numeric attribute (column 0) and a numeric target (column 1). -/
def sdValues : List (List Value) :=
  [[numericCell 1, numericCell 1, numericCell 1, numericCell 2, numericCell 2, numericCell 2],
   [numericCell (-1), numericCell 0, numericCell 1, numericCell (-3), numericCell 0,
    numericCell 3]]

/-- Both columns of `sdValues` are numeric. -/
def sdValueTypes : List ValueType := [.kNumeric, .kNumeric]

/-- Numeric columns have no categories. -/
def sdCategoryMaps : List CategoryMaps := [⟨false, [], []⟩, ⟨false, [], []⟩]

/-- All six rows. -/
def sdSelectRows : SelectIndexes := SelectIndexes.create 6 true

/-- The attribute column. -/
def sdSelectColumns : SelectIndexes := ⟨[true, false], [0], 1⟩

/-- The root of the tree for `sdValues`, with the statistics `evaluateTree` gives it. -/
def sdRootData : NodeData :=
  { leafValue := numericCell 0
    splitValue := gNaValue
    toLessOrEqualIfNA := false
    splitColIndex := NO_INDEX
    leafLessOrEqualCount := 4
    leafGreaterOrNotCount := 2
    branchSum2 := 20
    branchCorrectCount := 0
    selectRows := sdSelectRows
    index := 0 }

/-- The root of `sdRootData` after the split at 3/2. -/
def sdSplitTree : TreeNode :=
  .node { sdRootData with splitValue := numericCell (3 / 2), splitColIndex := 0 }
    (.node
      { leafValue := numericCell 0
        splitValue := gNaValue
        toLessOrEqualIfNA := false
        splitColIndex := NO_INDEX
        leafLessOrEqualCount := 2
        leafGreaterOrNotCount := 1
        branchSum2 := 2
        branchCorrectCount := 0
        selectRows := ⟨[true, true, true, false, false, false], [0, 1, 2], 3⟩
        index := 0 }
      .null .null)
    (.node
      { leafValue := numericCell 0
        splitValue := gNaValue
        toLessOrEqualIfNA := false
        splitColIndex := NO_INDEX
        leafLessOrEqualCount := 2
        leafGreaterOrNotCount := 1
        branchSum2 := 18
        branchCorrectCount := 0
        selectRows := ⟨[false, false, false, true, true, true], [3, 4, 5], 3⟩
        index := 1 }
      .null .null)

/-- Four rows: two categorical attributes (columns 0 and 1) and a categorical target (column
2) that is the exclusive or of the attributes. -/
def xorValues : List (List Value) :=
  [[categoricalCell 0, categoricalCell 0, categoricalCell 1, categoricalCell 1],
   [categoricalCell 0, categoricalCell 1, categoricalCell 0, categoricalCell 1],
   [categoricalCell 0, categoricalCell 1, categoricalCell 1, categoricalCell 0]]

/-- All three columns of `xorValues` are categorical. -/
def xorValueTypes : List ValueType := [.kCategorical, .kCategorical, .kCategorical]

/-- The levels of the three columns of `xorValues`. -/
def xorCategoryMaps : List CategoryMaps :=
  [⟨false, ["A", "B"], [("A", 0), ("B", 1)]⟩, ⟨false, ["C", "D"], [("C", 0), ("D", 1)]⟩,
   ⟨false, ["X", "Y"], [("X", 0), ("Y", 1)]⟩]

/-- All four rows. -/
def xorSelectRows : SelectIndexes := SelectIndexes.create 4 true

/-- The two attribute columns. -/
def xorAvailableColumns : SelectIndexes := ⟨[true, true, false], [0, 1], 2⟩

/-- The attribute column sorted, as `makeSortedIndexes` leaves it. -/
def sdSortedIndexes : List (List Nat) := [[0, 1, 2, 3, 4, 5], []]

/-- The imputed values that `imputeValues` computes for `sdValues`. -/
def sdImputedValues : List Value := [numericCell 2, gNaValue]

/-- The impute options of the exclusive-or example: all `kToDefault`. -/
def xorImputeOptions : List ImputeOption := [.kToDefault, .kToDefault, .kToDefault]

/-! ### Predicates and helper functions of the proofs -/

/-- What every generated combination looks like: `k` pairwise distinct group indexes below
`n`. -/
def IsCombination (n k : Nat) (c : List Nat) : Prop :=
  c.length = k ∧ c.Nodup ∧ ∀ x ∈ c, x < n

/-- A layout is valid when it is the layout of some group size between 1 and
`columnsPerSubset`. -/
def ValidLayout (columnsCount columnsPerSubset : Nat) (layout : GroupLayout) : Prop :=
  1 ≤ layout.columnsPerFullGroup ∧ layout.columnsPerFullGroup ≤ columnsPerSubset ∧
    layout = (trialLayout columnsCount columnsPerSubset layout.columnsPerFullGroup).1

/-- The columns available in a combination, in the order in which the source collects them. -/
def combinationColumns (C g : Nat) (c : List Nat) : List Nat :=
  c.flatMap (groupColumns C g)

/-- A combination offers enough columns: they are pairwise distinct, in range, and at least
`columnsPerSubset` many. -/
def GoodCombination (C K g : Nat) (c : List Nat) : Prop :=
  (combinationColumns C g c).Nodup ∧ (∀ x ∈ combinationColumns C g c, x < C) ∧
    K ≤ (combinationColumns C g c).length

/-- The usage table keeps column `k` at position `k`. -/
def UsageInv (C : Nat) (usagePairs : List (Nat × Nat)) : Prop :=
  usagePairs.map Prod.fst = List.range C

/-- What a subset made from a combination looks like. -/
def IsSubsetOf (C K g : Nat) (c s : List Nat) : Prop :=
  s.length = K ∧ s.Nodup ∧ s ⊆ combinationColumns C g c

/-- Writing the rows one after the other, starting at position `base`. -/
def writeRows : CompactTree → Nat → List CompactNode → CompactTree
  | compactTree, _, [] => compactTree
  | compactTree, base, row :: rows =>
    writeRows (compactTree.assign base row.splitColIndex row.lessOrEqualIndex
      row.greaterOrNotIndex row.toLessOrEqualIfNA row.value) (base + 1) rows

/-- Overwriting a list with `xs` from position `base` on. -/
def setRange {α : Type} : List α → Nat → List α → List α
  | l, _, [] => l
  | l, base, x :: xs => setRange (l.set base x) (base + 1) xs

/-- The tally after some trees: row `row` of `counts` holds, for each level, the number of
those trees that predicted it. -/
def TallyOf (counts : List (List Int)) (numCats : Nat) (beginCategoryIndex : Int)
    (rows : List Nat) (pvs : List (List Value)) : Prop :=
  ∀ row ∈ rows, ∃ rc, counts[row]? = some rc ∧ rc.length = numCats ∧
    ∀ k, k < numCats → rc[k]? = some (votesFor pvs row (beginCategoryIndex + (k : Int)))

/-- The state of the loop over the category indexes after the indexes in `processed`:
`maxCount` bounds their counts, and once it is positive the current pick attains it and has the
smallest name among those that attain it. -/
def PickInv (m : CategoryMaps) (cnt : Int → Int) (processed : List Int) (st : Value × Int) :
    Prop :=
  0 ≤ st.2 ∧ (∀ c ∈ processed, cnt c ≤ st.2) ∧
    (0 < st.2 → st.1.na = false ∧ st.1.number.i ∈ processed ∧ cnt st.1.number.i = st.2 ∧
      ∀ c ∈ processed, cnt c = st.2 → levelName m st.1.number.i ≤ levelName m c)

/-- Every child in the tree is reached by at least `minLeafCount` of the rows. -/
def ChildFloor (minLeafCount : Int) (values : List (List Value)) (valueTypes : List ValueType)
    (selectColumnIndexes : List Nat) : TreeNode → List Nat → Prop
  | .null, _ => True
  | .node _ .null _, _ => True
  | .node data (.node lessOrEqualData l1 l2) greaterOrNotNode, rows =>
    minLeafCount ≤ ((rows.filter
        (fun row => goesLessOrEqual values valueTypes selectColumnIndexes data row)).length : Int) ∧
    minLeafCount ≤ ((rows.filter
        (fun row => !goesLessOrEqual values valueTypes selectColumnIndexes data row)).length : Int) ∧
    greaterOrNotNode ≠ .null ∧
    ChildFloor minLeafCount values valueTypes selectColumnIndexes (.node lessOrEqualData l1 l2)
      (rows.filter (fun row => goesLessOrEqual values valueTypes selectColumnIndexes data row)) ∧
    ChildFloor minLeafCount values valueTypes selectColumnIndexes greaterOrNotNode
      (rows.filter (fun row => !goesLessOrEqual values valueTypes selectColumnIndexes data row))

/-- A selection whose bitmap has `numRows` entries and marks exactly the listed indexes. -/
def SelOK (numRows : Nat) (s : SelectIndexes) : Prop :=
  s.bitMap.length = numRows ∧ ∀ r, s.bitMap.getD r false = true ↔ r ∈ s.indexes

/-- The outcome of a call that may split a leaf: either nothing changed, or the node got two
fresh leaves that divide its rows by `goesLessOrEqual`, each with at least `minLeafCount`
rows. -/
def SplitOutcome (minLeafCount : Int) (values : List (List Value)) (valueTypes : List ValueType)
    (selectColumnIndexes : List Nat) (data : NodeData)
    (lessOrEqualNode greaterOrNotNode : TreeNode) (res : Bool × TreeNode × Nat) : Prop :=
  (res.1 = false ∧ res.2.1 = .node data lessOrEqualNode greaterOrNotNode) ∨
  (res.1 = true ∧ ∃ data1 ld gd,
    res.2.1 = .node data1 (.node ld .null .null) (.node gd .null .null) ∧
    data1.selectRows = data.selectRows ∧
    ld.selectRows.indexes = data.selectRows.indexes.filter
      (fun row => goesLessOrEqual values valueTypes selectColumnIndexes data1 row) ∧
    gd.selectRows.indexes = data.selectRows.indexes.filter
      (fun row => !goesLessOrEqual values valueTypes selectColumnIndexes data1 row) ∧
    minLeafCount ≤ ((data.selectRows.indexes.filter
      (fun row => goesLessOrEqual values valueTypes selectColumnIndexes data1 row)).length : Int) ∧
    minLeafCount ≤ ((data.selectRows.indexes.filter
      (fun row => !goesLessOrEqual values valueTypes selectColumnIndexes data1 row)).length : Int))

/-- The cells that the routing rule needs for one row on its way down a working tree are
there. -/
def RouteOK (values : List (List Value)) (valueTypes : List ValueType)
    (selectColumnIndexes : List Nat) (row : Nat) : TreeNode → Prop
  | .null => False
  | .node _ .null _ => True
  | .node data (.node lessOrEqualData l1 l2) greaterOrNotNode =>
    0 ≤ data.splitColIndex ∧
    (∃ col column compareValue valueType,
      selectColumnIndexes[data.splitColIndex.toNat]? = some col ∧
      values[col]? = some column ∧ column[row]? = some compareValue ∧
      valueTypes[col]? = some valueType) ∧
    (if takesLessOrEqual
        ((values.getD (selectColumnIndexes.getD data.splitColIndex.toNat 0) []).getD row gNaValue)
        (valueTypes.getD (selectColumnIndexes.getD data.splitColIndex.toNat 0) .kNumeric)
        data.toLessOrEqualIfNA data.splitValue.number = true then
      RouteOK values valueTypes selectColumnIndexes row (.node lessOrEqualData l1 l2)
    else RouteOK values valueTypes selectColumnIndexes row greaterOrNotNode)

/-! ### Sequences of calls on a selection and on a category map -/

/-- A call of one of the four mutating member functions of `SelectIndexes`. -/
inductive SelectCall where
  | clear (size : Nat)
  | selectAll (size : Nat)
  | select (index : Nat)
  | unselect (index : Nat)
  deriving DecidableEq, Repr

/-- The effect of one call; `select` and `unselect` raise on an index out of range. -/
def SelectIndexes.call (s : SelectIndexes) : SelectCall → Except Error SelectIndexes
  | .clear size => .ok (s.clear size)
  | .selectAll size => .ok (s.selectAll size)
  | .select index => s.select index
  | .unselect index => s.unselect index

/-- The effect of a sequence of calls, none of which raises. -/
def SelectIndexes.calls (s : SelectIndexes) : List SelectCall → Except Error SelectIndexes
  | [] => .ok s
  | c :: rest =>
    match s.call c with
    | .error e => .error e
    | .ok s1 => s1.calls rest

/-- The invariant of a selection, in the words of the specification: the index vector has no
duplicates and holds exactly the positions at which the bit vector is true, and the counter is
the length of the index vector. -/
def SelectIndexes.Consistent (s : SelectIndexes) : Prop :=
  s.indexVector.Nodup ∧ (∀ i, i ∈ s.indexVector ↔ s.boolVector[i]? = some true) ∧
    s.countSelected = s.indexVector.length

/-- A call of one of the two inserting member functions of `CategoryMaps`. -/
inductive CategoryCall where
  | insertCategory (category : String)
  | findOrInsertCategory (category : String)
  deriving DecidableEq, Repr

/-- The name that a call inserts. -/
def CategoryCall.category : CategoryCall → String
  | .insertCategory category => category
  | .findOrInsertCategory category => category

/-- The map after one call, whether the call returned or raised. -/
def CategoryMaps.call (m : CategoryMaps) : CategoryCall → CategoryMaps
  | .insertCategory category => (m.insertCategory category).1
  | .findOrInsertCategory category => (m.findOrInsertCategory category).1

/-- The map after a sequence of calls. -/
def CategoryMaps.calls (m : CategoryMaps) : List CategoryCall → CategoryMaps
  | [] => m
  | c :: rest => (m.call c).calls rest

/-- The distinct names of a list, in the order of their first occurrence. -/
def firstOccurrences : List String → List String
  | [] => []
  | name :: rest => name :: (firstOccurrences rest).filter (fun other => decide (other ≠ name))

/-- The two directions of a category map agree: the names are distinct and each name is mapped
to its position. -/
def CategoryMaps.WellFormed (m : CategoryMaps) : Prop :=
  m.categories.Nodup ∧ m.categoryToIndex.length = m.categories.length ∧
    ∀ name, m.categoryToIndex.lookup name =
      if name ∈ m.categories then some ((m.categories.indexOf name : Nat) : Int) else none

/-! ### Sample data of the coverage test of format.cpp -/

/-- The first column of `fillValues`: NA, 1, 3, 2, NA, 2. -/
def fillNumeric : List Value :=
  [gNaValue, numericCell 1, numericCell 3, numericCell 2, gNaValue, numericCell 2]

/-- The second column of `fillValues`: NA, 0, 2, 1, NA, 1. -/
def fillCategorical : List Value :=
  [gNaValue, categoricalCell 0, categoricalCell 2, categoricalCell 1, gNaValue,
    categoricalCell 1]

/-- The third column of `fillValues`: 0, 1, 2, 2, 2, NA. -/
def fillCategorical3 : List Value :=
  [categoricalCell 0, categoricalCell 1, categoricalCell 2, categoricalCell 2,
    categoricalCell 2, gNaValue]

/-- The category map `B`, `A`, `C` of the coverage test. -/
def fillCategoryMap : CategoryMaps :=
  ⟨false, ["B", "A", "C"], [("B", 0), ("A", 1), ("C", 2)]⟩

/-! ### The order of a sorted-index table, in the words of the specification -/

/-- The payload by which a column is sorted: the numeric value, or the category index. -/
def sortPayload (valueType : ValueType) (v : Value) : ℚ :=
  match valueType with
  | .kNumeric => v.number.d
  | .kCategorical => (v.number.i : ℚ)

/-- Row `i` stands before row `j` in a sorted-index table: an NA row before a row with a value,
a smaller value before a bigger one, and the smaller row index first when both rows are NA or
hold equal values. -/
def naFirstAscending (valueVector : List Value) (valueType : ValueType) (i j : Nat) : Prop :=
  ((valueVector.getD i gNaValue).na = true ∧ (valueVector.getD j gNaValue).na = false) ∨
    ((valueVector.getD i gNaValue).na = true ∧ (valueVector.getD j gNaValue).na = true ∧
      i < j) ∨
    ((valueVector.getD i gNaValue).na = false ∧ (valueVector.getD j gNaValue).na = false ∧
      (sortPayload valueType (valueVector.getD i gNaValue) <
          sortPayload valueType (valueVector.getD j gNaValue) ∨
        (sortPayload valueType (valueVector.getD i gNaValue) =
            sortPayload valueType (valueVector.getD j gNaValue) ∧ i < j)))

/-- The position of a row in the order of the table, as an element of a linear order: the
value (NA below every value), then the row index. -/
def sortKey (valueVector : List Value) (valueType : ValueType) (i : Nat) :
    Lex (WithBot ℚ × Nat) :=
  toLex (if (valueVector.getD i gNaValue).na = true then (⊥ : WithBot ℚ)
    else ((sortPayload valueType (valueVector.getD i gNaValue) : ℚ) : WithBot ℚ), i)

/-- A numeric column with an even number of values: 3, 1, 4, 2. -/
def evenColumn : List Value := [numericCell 3, numericCell 1, numericCell 4, numericCell 2]

/-! ### The median and the mode, in the words of the specification -/

/-- The rows of a column that are selected and hold a value. -/
def selectedValueRows (valuesColumn : List Value) (selectRows : SelectIndexes) : List Nat :=
  (List.range valuesColumn.length).filter
    (fun row => selectRows.boolVector.getD row false && !(valuesColumn.getD row gNaValue).na)

/-- The non-NA values of the selected rows of a numeric column, in ascending order. -/
def selectedValuesAscending (valuesColumn : List Value) (selectRows : SelectIndexes) : List ℚ :=
  ((selectedValueRows valuesColumn selectRows).map
    (fun row => (valuesColumn.getD row gNaValue).number.d)).insertionSort (fun x y => x ≤ y)

/-- A categorical column in which the levels 0 and 1 occur once each: 0, 1, NA. -/
def tieColumn : List Value := [categoricalCell 0, categoricalCell 1, gNaValue]

/-- The number of entries of `rows` at which a categorical column holds the level
`categoryIndex`. -/
def levelCount (valuesColumn : List Value) (rows : List Nat) (categoryIndex : Int) : Nat :=
  (rows.filter (fun row => !(valuesColumn.getD row gNaValue).na &&
    decide ((valuesColumn.getD row gNaValue).number.i = categoryIndex))).length

/-- The state of the loop of `modeValue` over the category indexes after the indexes in
`processed`: the value is NA as long as every count was zero; afterwards it is a level with the
biggest count so far, and with the smallest name among the levels that attain that count. -/
def ModePickInv (m : CategoryMaps) (cnt : Int → Nat) (processed : List Int)
    (st : Value × Nat × String) : Prop :=
  (st.1.na = true → st.1 = gNaValue ∧ ∀ c ∈ processed, cnt c = 0) ∧
    (st.1.na = false → st.1.number.i ∈ processed ∧ st.2.1 = cnt st.1.number.i ∧ 0 < st.2.1 ∧
      st.2.2 = levelName m st.1.number.i ∧ (∀ c ∈ processed, cnt c ≤ st.2.1) ∧
      ∀ c ∈ processed, cnt c = st.2.1 → levelName m st.1.number.i ≤ levelName m c)

/-- One numeric column of three rows: 7, NA, 3. -/
def partValues : List (List Value) := [[numericCell 7, gNaValue, numericCell 3]]

/-- The selection of the rows 1 and 2 of three rows (`clear(3)`, `select(1)`, `select(2)`). -/
def partSelectRows : SelectIndexes := ⟨[false, true, true], [1, 2], 2⟩

/-- The sorted-index table of `partValues`, as `makeSortedIndexes` builds it. -/
def partSortedIndexes : List (List Nat) := [[1, 2, 0]]

/-- The state that `imputeValues` leaves on `partValues` with the option median. -/
def partImputed : ImputeState :=
  ⟨[[numericCell 7, numericCell 3, numericCell 3]], [CategoryMaps.create], [[1, 0]],
    [numericCell 3]⟩

/-- The state of the loop of `imputeValues` after the columns in `processed`, against the
arguments on entry: a column not yet processed is as it was; a processed column with an option
other than none has its imputed value recorded, and that value in place of every NA of a
selected row. -/
def ImputeInv (convertTypes : List ImputeOption) (valueTypes : List ValueType)
    (values : List (List Value)) (selectRows : SelectIndexes) (categoryMaps : List CategoryMaps)
    (sortedIndexes : List (List Nat)) (processed : List Nat) (st : ImputeState) : Prop :=
  st.values.length = values.length ∧ st.imputedValues.length = values.length ∧
    (∀ col, col ∉ processed →
      st.values[col]? = values[col]? ∧ st.sortedIndexes[col]? = sortedIndexes[col]? ∧
        st.categoryMaps[col]? = categoryMaps[col]? ∧
        (col < values.length → st.imputedValues[col]? = some gNaValue)) ∧
    ∀ col ∈ processed, ∃ column column' convertType,
      values[col]? = some column ∧ st.values[col]? = some column' ∧
        convertTypes[col]? = some convertType ∧ column'.length = column.length ∧
        (convertType = .kNoImpute → column' = column ∧ st.imputedValues[col]? = some gNaValue) ∧
        (convertType ≠ .kNoImpute → ∃ imputed,
          imputedValue col convertTypes values valueTypes selectRows categoryMaps
            sortedIndexes = .ok imputed ∧
          st.imputedValues[col]? = some imputed ∧
          ∀ row v, column[row]? = some v →
            column'[row]? =
              some (if row ∈ selectRows.indexVector ∧ v.na = true then imputed else v))

/-- A stand-in for the number conversions of the stream library; the grids of the examples
hold categorical columns only, which never use it. -/
def plainNumberText : NumberText := ⟨fun _ => (0, true), fun _ => ""⟩

/-- A grid of two rows and two categorical columns with an unquoted `A` and an unquoted empty
cell. -/
def mixedCells : List (List String) := [["A", ""], ["NA", "B"]]

/-- The quoted flags of `mixedCells`: only `B` is quoted. -/
def mixedQuoted : List (List Bool) := [[false, false], [false, true]]

/-- A grid of two rows and two categorical columns in which every cell is quoted or the
unquoted NA string. -/
def quotedCells : List (List String) := [["A", "NA"], ["NA", "B"]]

/-- The quoted flags of `quotedCells`. -/
def quotedFlags : List (List Bool) := [[true, false], [false, true]]

/-! ### The round trip between cells and values, in the words of the specification -/

/-- A cell that `cellsToValues` reads as NA: an unquoted cell that is the NA string or empty. -/
def isNaCell (naString cell : String) (isQuoted : Bool) : Bool :=
  !isQuoted && (decide (cell = naString) || decide (cell = ""))

/-- What the round trip makes of a categorical cell: an NA cell becomes the unquoted NA
string, every other cell keeps its text and becomes quoted. -/
def roundTripCell (naString cell : String) (isQuoted : Bool) : String × Bool :=
  if isNaCell naString cell isQuoted then (naString, false) else (cell, true)

/-- A grid of `numRows` rows of `numCols` cells each. -/
def IsGrid {α : Type} (grid : List (List α)) (numRows numCols : Nat) : Prop :=
  grid.length = numRows ∧ ∀ row ∈ grid, row.length = numCols

/-- The cell and the quoted flag at a position of the grid. -/
def gridCell (cells : List (List String)) (quoted : List (List Bool)) (row col : Nat) :
    String × Bool :=
  ((cells.getD row []).getD col "", (quoted.getD row []).getD col false)

/-- A value and the category map of its column stand for the cell `c`: NA for an NA cell, and
otherwise the index of the level named by the text of the cell. -/
def CellStored (naString : String) (c : String × Bool) (v : Value) (m : CategoryMaps) : Prop :=
  (isNaCell naString c.1 c.2 = true → v.na = true) ∧
    (isNaCell naString c.1 c.2 = false →
      v.na = false ∧ 0 ≤ v.number.i ∧ m.categories[v.number.i.toNat]? = some c.1)

/-- The values of a column and its category map stand for column `col` of the grid. -/
def ColumnStored (naString : String) (cells : List (List String)) (quoted : List (List Bool))
    (numRows col : Nat) (vals : List Value) (m : CategoryMaps) : Prop :=
  vals.length = numRows ∧ m.useNaCategory = false ∧
    ∀ row, row < numRows →
      ∃ v, vals[row]? = some v ∧ CellStored naString (gridCell cells quoted row col) v m

/-! ### The fraction of matches, in the words of `train.h` -/

/-- The fraction of matches between the selected rows of two vectors of categorical values: the
number of selected rows whose category indexes are equal, over the number of selected rows. -/
def matchFraction (values1 values2 : List Value) (selectRows : SelectIndexes) : ℚ :=
  ((selectRows.indexVector.filter (fun row =>
      decide ((values1.getD row gNaValue).number.i = (values2.getD row gNaValue).number.i))).length
    : ℚ) / (selectRows.indexVector.length : ℚ)

/-- Two category indexes, as in the component test of `compareMatch`. -/
def matchColumn : List Value := [categoricalCell 1, categoricalCell 2]

/-- Row 0 of two rows. -/
def matchSelectRows : SelectIndexes := ⟨[true, false], [0], 1⟩

/-! ### The pruning test, in the words of the specification -/

/-- The estimate of one subtree in the pruning test for a categorical target: the pessimistic
error estimate of its `branchCorrectCount` among its rows, 0 for no rows. -/
def branchEstimateCategorical (libm : Libm) (data : NodeData) : Except Error Dbl :=
  if data.leafLessOrEqualCount + data.leafGreaterOrNotCount = 0 then .ok (.fin 0)
  else
    pessimisticErrorEstimate libm data.branchCorrectCount
      (data.leafLessOrEqualCount + data.leafGreaterOrNotCount)

/-- The pruning test for a categorical target as the specification words it: the node's own
estimate is strictly smaller than `estimate(lessOrEqual child) * n_L / n +
estimate(greaterOrNot child) * n_R / n`, or all leaves of the subtree agree. -/
def specReplaceSubtreeCategorical (libm : Libm) (nodeP : TreeNode) : Except Error Bool :=
  match nodeP with
  | .node data (.node leftNode _ _) (.node rightNode _ _) =>
    let nodeCount := data.leafLessOrEqualCount + data.leafGreaterOrNotCount
    match pessimisticErrorEstimate libm data.leafLessOrEqualCount nodeCount,
      branchEstimateCategorical libm leftNode, branchEstimateCategorical libm rightNode,
      sameCategoryForAllLeaves nodeP with
    | .ok nodeEstimate, .ok leftEstimate, .ok rightEstimate, .ok category =>
      let weightedChildEstimate :=
        ((leftEstimate.mul (Dbl.ofInt (leftNode.leafLessOrEqualCount +
            leftNode.leafGreaterOrNotCount))).div (Dbl.ofInt nodeCount)).add
          ((rightEstimate.mul (Dbl.ofInt (rightNode.leafLessOrEqualCount +
            rightNode.leafGreaterOrNotCount))).div (Dbl.ofInt nodeCount))
      .ok (nodeEstimate.lt weightedChildEstimate || decide (category ≠ NO_INDEX))
    | .error e, _, _, _ => .error e
    | _, .error e, _, _ => .error e
    | _, _, .error e, _ => .error e
    | _, _, _, .error e => .error e
  | _ => .error .nullDereference

/-- The pruning test for a numeric target as the specification words it: the node's
`factor * RMS` is strictly smaller than `estimate(lessOrEqual child) * n_L / n +
estimate(greaterOrNot child) * n_R / n`. -/
def specReplaceSubtreeNumeric (libm : Libm) (nodeP : TreeNode) : Except Error Bool :=
  match nodeP with
  | .node data (.node leftNode _ _) (.node rightNode _ _) =>
    let nodeCount := data.leafLessOrEqualCount + data.leafGreaterOrNotCount
    let leftCount := leftNode.leafLessOrEqualCount + leftNode.leafGreaterOrNotCount
    let rightCount := rightNode.leafLessOrEqualCount + rightNode.leafGreaterOrNotCount
    let weightedChildEstimate :=
      (((rmsEstimate libm leftNode.branchSum2 leftCount).mul (Dbl.ofInt leftCount)).div
          (Dbl.ofInt nodeCount)).add
        (((rmsEstimate libm rightNode.branchSum2 rightCount).mul (Dbl.ofInt rightCount)).div
          (Dbl.ofInt nodeCount))
    .ok ((rmsEstimate libm data.branchSum2 nodeCount).lt weightedChildEstimate)
  | _ => .error .nullDereference

/-- The sum of `leafLessOrEqualCount` over the leaves of a subtree. -/
def leafCorrectSum : TreeNode → Int
  | .null => 0
  | .node data .null _ => data.leafLessOrEqualCount
  | .node _ (.node lessOrEqualData l1 l2) greaterOrNotNode =>
    leafCorrectSum (.node lessOrEqualData l1 l2) + leafCorrectSum greaterOrNotNode

/-- The statistics of a node, or nothing for `NULL`. -/
def TreeNode.data? : TreeNode → Option NodeData
  | .null => none
  | .node data _ _ => some data

/-- The first part of `pruneTree`: the tree after `updateBranchCategorical` or
`updateBranchNumeric`, before the loop over the branch nodes. -/
def pruneTreeUpdated (root : TreeNode) (valueTypes : List ValueType) (targetColumn : Nat) :
    Except Error TreeNode :=
  match vecGet valueTypes targetColumn with
  | .error e => .error e
  | .ok .kCategorical => updateBranchCategorical root
  | .ok .kNumeric => updateBranchNumeric root

/-- The tree with the `branchCorrectCount` of the root's less-or-equal child set to the sum of
`leafLessOrEqualCount` over the leaves of that child. -/
def withConsistentChild : TreeNode → TreeNode
  | .node data (.node childData l r) greaterOrNotNode =>
    .node data
      (.node { childData with branchCorrectCount := leafCorrectSum (.node childData l r) } l r)
      greaterOrNotNode
  | t => t

/-! ### Sample data of the tree builder -/

/-- The integer square root by bisection: the largest `r` of `[lo, hi)` with `r * r ≤ n`,
after at most `fuel` halvings. -/
def sqrtBisect (n : Nat) : Nat → Nat → Nat → Nat
  | 0, lo, _ => lo
  | fuel + 1, lo, hi =>
    if hi ≤ lo + 1 then lo
    else if ((lo + hi) / 2) * ((lo + hi) / 2) ≤ n then sqrtBisect n fuel ((lo + hi) / 2) hi
    else sqrtBisect n fuel lo ((lo + hi) / 2)

/-- A square root on the rationals, rounded down to a multiple of the reciprocal of the
denominator; it is `ratSqrt` computed by bisection, for arguments whose numerator times
denominator is below `2 ^ 400`. -/
def bisectSqrt (x : ℚ) : ℚ :=
  if x ≤ 0 then 0
  else (sqrtBisect (x.num.toNat * x.den) 400 0 (x.num.toNat * x.den + 1) : ℚ) / (x.den : ℚ)

/-- A `Libm` that can be evaluated on large arguments. -/
def bisectLibm : Libm := ⟨logSeries, bisectSqrt⟩

/-- A numeric column has no categories. -/
def noCategories : CategoryMaps := ⟨false, [], []⟩

/-- The levels `X` and `Y`. -/
def twoLevels : CategoryMaps := ⟨false, ["X", "Y"], [("X", 0), ("Y", 1)]⟩

/-- The levels `X`, `Y` and `Z`. -/
def threeLevels : CategoryMaps := ⟨false, ["X", "Y", "Z"], [("X", 0), ("Y", 1), ("Z", 2)]⟩

/-- The impute options of two columns: both `kToDefault`. -/
def twoDefaults : List ImputeOption := [.kToDefault, .kToDefault]

/-- A numeric attribute (column 0) and a categorical target (column 1). -/
def numericThenCategorical : List ValueType := [.kNumeric, .kCategorical]

/-- Two numeric attributes (columns 0 and 1) and a categorical target (column 2). -/
def twoNumericThenCategorical : List ValueType := [.kNumeric, .kNumeric, .kCategorical]

/-- Column 0 of two columns. -/
def firstOfTwo : SelectIndexes := ⟨[true, false], [0], 1⟩

/-- Columns 0 and 1 of three columns. -/
def firstTwoOfThree : SelectIndexes := ⟨[true, true, false], [0, 1], 2⟩

/-- Two rows whose only attribute is constant: no column is a candidate. -/
def constantValues : List (List Value) :=
  [[numericCell 1, numericCell 1], [categoricalCell 0, categoricalCell 1]]

/-- Four rows: the attribute of column 0 separates rows 0, 1 from rows 2, 3, and within rows
0, 1 only the attribute of column 1 varies; the targets are `X`, `Y`, `Z`, `Z`. -/
def blockedValues : List (List Value) :=
  [[numericCell 1, numericCell 1, numericCell 2, numericCell 2],
   [numericCell 1, numericCell 2, numericCell 1, numericCell 2],
   [categoricalCell 0, categoricalCell 1, categoricalCell 2, categoricalCell 2]]

/-- The rows 0 and 1 of four: the rows of the less-or-equal child of the root for
`blockedValues`. -/
def blockedChildRows : SelectIndexes := ⟨[true, true, false, false], [0, 1], 2⟩

/-- Ten rows: the attribute is 1 on eight rows (six `X`, two `Y`) and 2 on two rows (both
`Y`). -/
def lopsidedValues : List (List Value) :=
  [List.replicate 8 (numericCell 1) ++ List.replicate 2 (numericCell 2),
   List.replicate 6 (categoricalCell 0) ++ List.replicate 4 (categoricalCell 1)]

/-- Sixteen rows with a numeric target: the attribute is 1 on four rows (targets -1 and 1 in
turn) and 2 on twelve rows (all of target 3). -/
def lopsidedNumericValues : List (List Value) :=
  [List.replicate 4 (numericCell 1) ++ List.replicate 12 (numericCell 2),
   [numericCell (-1), numericCell 1, numericCell (-1), numericCell 1] ++
     List.replicate 12 (numericCell 3)]

/-- Twelve rows: the ten rows of `lopsidedValues` with a second attribute 1, and two rows of
target `Z` with the second attribute 2. -/
def staleValues : List (List Value) :=
  [List.replicate 8 (numericCell 1) ++ List.replicate 2 (numericCell 2) ++
     List.replicate 2 (numericCell 1),
   List.replicate 10 (numericCell 1) ++ List.replicate 2 (numericCell 2),
   List.replicate 6 (categoricalCell 0) ++ List.replicate 4 (categoricalCell 1) ++
     List.replicate 2 (categoricalCell 2)]

/-- Four rows whose target is `X` on rows 0 to 2 and NA on row 3, with the given payload in
the NA cell. -/
def naTargetValues (payload : Int) : List (List Value) :=
  [[numericCell 1, numericCell 1, numericCell 2, numericCell 2],
   [categoricalCell 0, categoricalCell 0, categoricalCell 0, ⟨⟨0, payload⟩, true⟩]]

/-- Seven rows: the attribute is 1 on three rows (all `X`) and 2 on four rows (two `X`, two
`Y`), so that both leaves of the split predict `X`. -/
def agreeingValues : List (List Value) :=
  [[numericCell 1, numericCell 1, numericCell 1, numericCell 2, numericCell 2, numericCell 2,
    numericCell 2],
   [categoricalCell 0, categoricalCell 0, categoricalCell 0, categoricalCell 0,
    categoricalCell 0, categoricalCell 1, categoricalCell 1]]

/-- A compact tree of one leaf. -/
def singleLeaf (value : Number) : CompactTree := ⟨[-1], [-1], [-1], [false], [value]⟩

/-- A compact tree of a root that splits on selected column `splitColIndex` at 3/2 and two
leaves. -/
def oneSplit (splitColIndex : Int) (toLessOrEqualIfNA : Bool) (left right : Number) :
    CompactTree :=
  ⟨[splitColIndex, -1, -1], [1, -1, -1], [2, -1, -1], [toLessOrEqualIfNA, false, false],
    [⟨3 / 2, 0⟩, left, right]⟩

/-- The sorted-index table that `makeSortedIndexes` builds for `staleValues`. -/
def staleSortedIndexes : List (List Nat) :=
  [[0, 1, 2, 3, 4, 5, 6, 7, 10, 11, 8, 9], List.range 12, []]

/-- The working tree of `lopsidedValues` when the loop of `pruneTree` starts: grown by
`growTree`, with the branch statistics updated. -/
def lopsidedUpdated : Except Error TreeNode :=
  (growTree bisectLibm 100 (intCast 100) 0 1 (-1) lopsidedValues numericThenCategorical
    [noCategories, twoLevels] [0] (SelectIndexes.create 10 true) firstOfTwo 1
    [List.range 10, []] [numericCell 1, gNaValue]).bind
    (fun grown => pruneTreeUpdated grown.1 numericThenCategorical 1)

/-- The working tree of `lopsidedNumericValues` when the loop of `pruneTree` starts. -/
def lopsidedNumericUpdated : Except Error TreeNode :=
  (growTree bisectLibm 100 (intCast 100) 0 1 (-1) lopsidedNumericValues sdValueTypes
    sdCategoryMaps [0] (SelectIndexes.create 16 true) firstOfTwo 1 [List.range 16, []]
    [numericCell 2, gNaValue]).bind
    (fun grown => pruneTreeUpdated grown.1 sdValueTypes 1)

/-- The working tree of `staleValues` when the loop of `pruneTree` starts. -/
def staleUpdated : Except Error TreeNode :=
  (growTree bisectLibm 100 (intCast 100) 0 1 (-1) staleValues twoNumericThenCategorical
    [noCategories, noCategories, threeLevels] [0, 1] (SelectIndexes.create 12 true)
    firstTwoOfThree 2 staleSortedIndexes [numericCell 1, numericCell 1, gNaValue]).bind
    (fun grown => pruneTreeUpdated grown.1 twoNumericThenCategorical 2)

/-- Four rows that one split separates: the attribute is 1, 1, 2, 2 and the target `X`, `X`,
`Y`, `Y`. -/
def separableValues : List (List Value) :=
  [[numericCell 1, numericCell 1, numericCell 2, numericCell 2],
   [categoricalCell 0, categoricalCell 0, categoricalCell 1, categoricalCell 1]]

/-- The attribute of `separableValues` with a numeric target 5, 6, 7, 8. -/
def separableNumericValues : List (List Value) :=
  [[numericCell 1, numericCell 1, numericCell 2, numericCell 2],
   [numericCell 5, numericCell 6, numericCell 7, numericCell 8]]

/-- The rows 0 and 2 of four. -/
def evenRows : SelectIndexes := ⟨[true, false, true, false], [0, 2], 2⟩

/-! ### Paths of a tree: levels and the splits on one column -/

/-- The largest number, over the paths from a node down to a leaf, of the split nodes on the
path whose `splitColIndex` satisfies `p`. -/
def maxPathCount (p : Int → Bool) : TreeNode → Nat
  | .null => 0
  | .node _ .null _ => 0
  | .node data (.node lessOrEqualData l1 l2) greaterOrNotNode =>
    (if p data.splitColIndex then 1 else 0) +
      max (maxPathCount p (.node lessOrEqualData l1 l2)) (maxPathCount p greaterOrNotNode)

/-- The number of levels of a working tree: the root is level 1. -/
def treeLevels (t : TreeNode) : Nat := 1 + maxPathCount (fun _ => true) t

/-- The same count on a compact tree, from the node at `nodeIndex` down, following the child
indexes for at most `fuel` moves; a node is a leaf when its `lessOrEqualIndex` is
`NO_INDEX`. -/
def compactMaxPathCount (p : Int → Bool) (tree : CompactTree) : Nat → Nat → Nat
  | 0, _ => 0
  | fuel + 1, nodeIndex =>
    match tree.row? nodeIndex with
    | none => 0
    | some node =>
      if node.lessOrEqualIndex = NO_INDEX then 0
      else
        (if p node.splitColIndex then 1 else 0) +
          max (compactMaxPathCount p tree fuel node.lessOrEqualIndex.toNat)
            (compactMaxPathCount p tree fuel node.greaterOrNotIndex.toNat)

/-- The number of levels of a compact tree: node 0 is level 1. -/
def compactLevels (tree : CompactTree) : Nat :=
  1 + compactMaxPathCount (fun _ => true) tree tree.value.length 0

/-- A node with this `splitColIndex` splits on column `col`. -/
def splitsOn (selectColumnIndexes : List Nat) (col : Nat) (splitColIndex : Int) : Bool :=
  decide (0 ≤ splitColIndex) && decide (selectColumnIndexes[splitColIndex.toNat]? = some col)

/-- The number of ancestors that split on column `col`. -/
def usageOf (selectColumnIndexes : List Nat) (col : Nat) (ancestors : List Int) : Nat :=
  (ancestors.filter (splitsOn selectColumnIndexes col)).length

/-- Three rows with the attribute 1, 2, 3 and the targets `X`, `Y`, `Z`: separating the three
targets takes two splits on the attribute, one below the other. -/
def zigzagValues : List (List Value) :=
  [[numericCell 1, numericCell 2, numericCell 3],
   [categoricalCell 0, categoricalCell 1, categoricalCell 2]]

/-- The tree built on `zigzagValues` when one split is allowed: the root splits column 0 at
5/2 and the leaves predict `X` and `Z`. -/
def zigzagCapped : CompactTree :=
  ⟨[0, -1, -1], [1, -1, -1], [2, -1, -1], [true, false, false],
    [⟨5 / 2, 0⟩, ⟨0, 0⟩, ⟨0, 2⟩]⟩

/-- The root that `growTree` makes for `separableValues` before it is split. -/
def separableRoot : TreeNode :=
  .node
    { leafValue := categoricalCell 0
      splitValue := gNaValue
      toLessOrEqualIfNA := false
      splitColIndex := NO_INDEX
      leafLessOrEqualCount := 2
      leafGreaterOrNotCount := 2
      branchSum2 := 0
      branchCorrectCount := 2
      selectRows := SelectIndexes.create 4 true
      index := 0 } .null .null

/-- The root of `separableValues` after `improveLeaf`: split on column 0 at 3/2, with rows 0, 1
in the less-or-equal leaf and rows 2, 3 in the other one. -/
def separableSplit : TreeNode :=
  .node
    { leafValue := categoricalCell 0
      splitValue := numericCell (3 / 2)
      toLessOrEqualIfNA := false
      splitColIndex := 0
      leafLessOrEqualCount := 2
      leafGreaterOrNotCount := 2
      branchSum2 := 0
      branchCorrectCount := 2
      selectRows := SelectIndexes.create 4 true
      index := 0 }
    (.node
      { leafValue := categoricalCell 0
        splitValue := gNaValue
        toLessOrEqualIfNA := false
        splitColIndex := NO_INDEX
        leafLessOrEqualCount := 2
        leafGreaterOrNotCount := 0
        branchSum2 := 0
        branchCorrectCount := 2
        selectRows := ⟨[true, true, false, false], [0, 1], 2⟩
        index := 1 } .null .null)
    (.node
      { leafValue := categoricalCell 1
        splitValue := gNaValue
        toLessOrEqualIfNA := false
        splitColIndex := NO_INDEX
        leafLessOrEqualCount := 2
        leafGreaterOrNotCount := 0
        branchSum2 := 0
        branchCorrectCount := 2
        selectRows := ⟨[false, false, true, true], [2, 3], 2⟩
        index := 2 } .null .null)

/-! ### Cells read against constant category maps, in the words of the specification -/

/-- A cell that `cellsToValues` reads as NA before it looks at the category map: an unquoted
cell that is empty or, with `interpretNA`, is the NA string. -/
def readAsNA (interpretNA : Bool) (naString cell : String) (isQuoted : Bool) : Bool :=
  !isQuoted && ((interpretNA && decide (cell = naString)) || decide (cell = ""))

/-- The value of a categorical cell read against a constant category map: NA for a cell read
as NA, the index of a known level, and NA (with the index `NO_INDEX`) for an unknown level. -/
def constCategoryValue (interpretNA : Bool) (naString : String) (map : CategoryMaps)
    (c : String × Bool) : Value :=
  if readAsNA interpretNA naString c.1 c.2 then gNaValue
  else
    match map.categoryToIndex.lookup c.1 with
    | some index => ⟨⟨0, index⟩, false⟩
    | none => ⟨⟨0, NO_INDEX⟩, true⟩

/-- A category map whose only level is named `NA`, as `cellsToValues` makes it from a quoted
cell `"NA"`. -/
def naLevelMap : CategoryMaps := ⟨false, ["NA"], [("NA", 0)]⟩

/-- A category map whose only level is `A`. -/
def levelA : CategoryMaps := ⟨false, ["A"], [("A", 0)]⟩

/-- A category map whose only level is `C`. -/
def levelC : CategoryMaps := ⟨false, ["C"], [("C", 0)]⟩

/-! ### Writing a line of quoted cells, in the words of the specification -/

/-- The text of a cell with every double quote doubled. -/
def doubleQuotes : List Char → List Char
  | [] => []
  | c :: rest =>
    if c = quoteChar then quoteChar :: quoteChar :: doubleQuotes rest
    else c :: doubleQuotes rest

/-- A cell written between double quotes, every interior double quote doubled. -/
def quoteCell (cell : String) : List Char :=
  quoteChar :: (doubleQuotes cell.data ++ [quoteChar])

/-- The line of the cells, each written by `quoteCell`, joined with commas. -/
def quotedLine : List String → List Char
  | [] => []
  | [cell] => quoteCell cell
  | cell :: next :: rest => quoteCell cell ++ commaChar :: quotedLine (next :: rest)

/-- The cell `a"b`, with a double quote inside. -/
def quoteInside : String := String.mk ['a', quoteChar, 'b']

/-- The cell `c,d`, with a comma inside. -/
def commaInside : String := String.mk ['c', commaChar, 'd']

/-! ### The least-used selection, in the words of the specification -/

/-- The number of the earlier subsets that contain column `col`. -/
def usageBefore (earlier : List (List Nat)) (col : Nat) : Nat :=
  (earlier.filter (fun s => decide (col ∈ s))).length

/-- Column `a` comes before column `b` in the ascending order by (usage, column index). -/
def usageLess (earlier : List (List Nat)) (a b : Nat) : Prop :=
  usageBefore earlier a < usageBefore earlier b ∨
    (usageBefore earlier a = usageBefore earlier b ∧ a < b)

/-- The usage table in which column `k` stands at position `k` with the count `usage k`. -/
def usageTable (C : Nat) (usage : Nat → Nat) : List (Nat × Nat) :=
  (List.range C).map (fun k => (k, usage k))

/-! ### The numeric threshold search, in the words of the specification -/

/-- The number in column `col` of a row. -/
def columnNumber (values : List (List Value)) (col row : Nat) : ℚ :=
  ((values.getD col []).getD row gNaValue).number.d

/-- The category index in column `col` of a row. -/
def columnCategory (values : List (List Value)) (col row : Nat) : Int :=
  ((values.getD col []).getD row gNaValue).number.i

/-- The sum of the numbers in column `col` over the rows. -/
def columnSum (values : List (List Value)) (col : Nat) (rows : List Nat) : ℚ :=
  (rows.map (fun r => columnNumber values col r)).sum

/-- The sum of the squares of the numbers in column `col` over the rows. -/
def columnSum2 (values : List (List Value)) (col : Nat) (rows : List Nat) : ℚ :=
  (rows.map (fun r => columnNumber values col r * columnNumber values col r)).sum

/-- For each of `numCategories` categories from `beginCategoryIndex` on, the number of the rows
whose category in column `col` it is. -/
def categoryCounts (values : List (List Value)) (col : Nat) (beginCategoryIndex : Int)
    (numCategories : Nat) (rows : List Nat) : List Int :=
  (List.range numCategories).map (fun (k : Nat) =>
    ((rows.filter (fun r =>
      decide (columnCategory values col r = beginCategoryIndex + (k : Int)))).length : Int))

/-- The impurity of a part `part` of the rows `rows` against the rest: the weighted standard
deviation of a numeric target, the weighted entropy of a categorical target. -/
def partImpurity (libm : Libm) (values : List (List Value)) (valueTypes : List ValueType)
    (categoryMaps : List CategoryMaps) (targetColumn : Nat) (rows part : List Nat) :
    Except Error ℚ :=
  match vecGet valueTypes targetColumn with
  | .error e => .error e
  | .ok .kNumeric =>
    .ok (sdForSplit libm (columnSum values targetColumn part)
      (columnSum2 values targetColumn part) (part.length : Int)
      (columnSum values targetColumn rows) (columnSum2 values targetColumn rows)
      (rows.length : Int))
  | .ok .kCategorical =>
    match vecGet categoryMaps targetColumn with
    | .error e => .error e
    | .ok targetMap =>
      entropyForSplit libm
        (categoryCounts values targetColumn targetMap.beginIndex targetMap.countAllCategories
          part)
        (categoryCounts values targetColumn targetMap.beginIndex targetMap.countAllCategories
          rows)

/-- The value of a result, 0 for an error. -/
def okValue (x : Except Error ℚ) : ℚ :=
  match x with
  | .ok v => v
  | .error _ => 0

/-- The result of `train` on `agreeingValues` with `doPrune` on and `minDepth = 2`: the one tree
was grown to two levels and pruned to a single leaf that predicts `X`. -/
def agreeingPruned : Trained :=
  { trees := [singleLeaf ⟨0, 0⟩]
    selectColumns := firstOfTwo
    values := agreeingValues
    categoryMaps := [noCategories, twoLevels]
    imputeOptions := [.kToMedian, .kToCategory] }

/-! ### The split on a level of a categorical column, in the words of the specification -/

/-- The part of the rows whose level in the categorical column `col` is `s`. -/
def levelPart (values : List (List Value)) (col : Nat) (rows : List Nat) (s : Int) : List Nat :=
  rows.filter (fun r => decide (columnCategory values col r = s))

/-- The combinations of `k` out of `n` groups in the order in which `iterateCombinations`
generates them when no limit stops it: first those without group `n - 1`, then those with
it. There is none for `n = 0`, as in the source. -/
def allCombinations : Nat → Nat → List (List Nat)
  | 0, _ => []
  | n + 1, k =>
    if k = 0 then [[]]
    else if n + 1 = k then [List.range k]
    else allCombinations n k ++ (allCombinations n (k - 1)).map (fun c => c ++ [n])

/-- The subsets are made from the combinations one after the other, each from the `K` least
used columns of its combination. -/
def LeastUsedRun (C K g : Nat) (combos subsets : List (List Nat)) : Prop :=
  subsets.length = combos.length ∧ (∀ c ∈ combos, GoodCombination C K g c) ∧
    ∀ (i : Nat) (c s : List Nat), combos[i]? = some c → subsets[i]? = some s →
      ∃ sorted : List Nat, sorted.Perm (combinationColumns C g c) ∧
        sorted.Pairwise (usageLess (subsets.take i)) ∧ s = sorted.take K

/-! ### Training sets that greedy growth can learn, in the words of the specification -/

/-- The entropy of the target over the rows. -/
def rowsEntropy (libm : Libm) (values : List (List Value)) (categoryMaps : List CategoryMaps)
    (targetColumn : Nat) (rows : List Nat) : ℚ :=
  entropyForCounts libm
    (categoryCounts values targetColumn
      (categoryMaps.getD targetColumn CategoryMaps.create).beginIndex
      (categoryMaps.getD targetColumn CategoryMaps.create).countAllCategories rows)

/-- The rows that a split of column `col` at the value of row `r` sends to the less-or-equal
side: the rows with the level of `r` for a categorical column, the rows with a number not above
that of `r` for a numeric one. -/
def splitPart (values : List (List Value)) (valueTypes : List ValueType) (col : Nat)
    (rows : List Nat) (r : Nat) : List Nat :=
  match valueTypes.getD col .kNumeric with
  | .kCategorical => levelPart values col rows (columnCategory values col r)
  | .kNumeric =>
    rows.filter (fun q => decide (columnNumber values col q ≤ columnNumber values col r))

/-- The impute option suits the type of the column: a categorical column takes no imputation,
the NA category or the mode, a numeric column no imputation, the mean or the median, and both
take the default. -/
def optionFits (valueType : ValueType) (option : ImputeOption) : Bool :=
  match valueType, option with
  | .kCategorical, .kNoImpute => true
  | .kCategorical, .kToCategory => true
  | .kCategorical, .kToMode => true
  | .kCategorical, .kToDefault => true
  | .kNumeric, .kNoImpute => true
  | .kNumeric, .kToMean => true
  | .kNumeric, .kToMedian => true
  | .kNumeric, .kToDefault => true
  | _, _ => false

/-- Column `col` takes two different values on the rows. -/
def variesOn (values : List (List Value)) (valueTypes : List ValueType) (col : Nat)
    (rows : List Nat) : Bool :=
  rows.any (fun a => rows.any (fun b =>
    match valueTypes.getD col .kNumeric with
    | .kCategorical => decide (columnCategory values col a ≠ columnCategory values col b)
    | .kNumeric => decide (columnNumber values col a ≠ columnNumber values col b)))

/-- The attribute columns: the available columns that are not constant over the selected
rows. -/
def attributeColumns (values : List (List Value)) (valueTypes : List ValueType)
    (selectRows availableColumns : SelectIndexes) : List Nat :=
  availableColumns.indexVector.filter
    (fun col => variesOn values valueTypes col selectRows.indexVector)

/-- Two of the rows differ in target. -/
def impure (values : List (List Value)) (targetColumn : Nat) (rows : List Nat) : Bool :=
  rows.any (fun a => rows.any (fun b =>
    decide (columnCategory values targetColumn a ≠ columnCategory values targetColumn b)))

/-- The rows can be split: some split of an attribute column at the value of one of the rows
has a weighted entropy strictly below the entropy of the rows; and the first attribute column,
if it is numeric, is not constant on the rows (`pickBestColumn` starts from the first entry,
and the entry of a numeric column without a split has the measure -1, below every entropy). -/
@[reducible] def Learnable (libm : Libm) (values : List (List Value))
    (valueTypes : List ValueType) (categoryMaps : List CategoryMaps) (targetColumn : Nat)
    (columns : List Nat) (rows : List Nat) : Prop :=
  (∃ col ∈ columns, ∃ r ∈ rows,
    okValue (partImpurity libm values valueTypes categoryMaps targetColumn rows
      (splitPart values valueTypes col rows r)) <
      rowsEntropy libm values categoryMaps targetColumn rows) ∧
  ∀ col ∈ columns.take 1, valueTypes[col]? = some ValueType.kNumeric →
    variesOn values valueTypes col rows = true

/-- A well-formed training set for a categorical target: a rectangular array of `n` rows with
one value type, category map and impute option per column; a selection of rows and a selection
of available columns that are consistent with their bit vectors; a categorical target column
that is not among the available columns and whose cell in every selected row is a level of the
target's category map; and available columns without NA whose impute option suits their type
and whose cells, if categorical, are levels of the column's category map. -/
structure TrainOK (n : Nat) (values : List (List Value)) (valueTypes : List ValueType)
    (categoryMaps : List CategoryMaps) (imputeOptions : List ImputeOption)
    (selectRows availableColumns : SelectIndexes) (targetColumn : Nat)
    (targetMap : CategoryMaps) : Prop where
  rect : ∀ column ∈ values, column.length = n
  types : values.length = valueTypes.length
  maps : values.length = categoryMaps.length
  options : values.length = imputeOptions.length
  available : values.length = availableColumns.boolVector.length
  rowsLength : selectRows.boolVector.length = n
  rowsMarked : ∀ r, r < n →
    (selectRows.boolVector.getD r false = true ↔ r ∈ selectRows.indexVector)
  rowsInRange : ∀ r ∈ selectRows.indexVector, r < n
  rowsNodup : selectRows.indexVector.Nodup
  rowsCount : selectRows.countSelected = selectRows.indexVector.length
  rowsNonempty : selectRows.indexVector ≠ []
  columnsInRange : ∀ col ∈ availableColumns.indexVector, col < values.length
  columnsNodup : availableColumns.indexVector.Nodup
  columnsCount : availableColumns.countSelected = availableColumns.indexVector.length
  targetType : valueTypes[targetColumn]? = some ValueType.kCategorical
  targetEntry : categoryMaps[targetColumn]? = some targetMap
  targetApart : targetColumn ∉ availableColumns.indexVector
  targets : ∀ r ∈ selectRows.indexVector,
    ((values.getD targetColumn []).getD r gNaValue).na = false ∧
    0 ≤ columnCategory values targetColumn r ∧
    columnCategory values targetColumn r < (targetMap.categories.length : Int)
  cells : ∀ col ∈ availableColumns.indexVector, ∀ r, r < n →
    ((values.getD col []).getD r gNaValue).na = false
  levels : ∀ col ∈ availableColumns.indexVector,
    valueTypes[col]? = some ValueType.kCategorical → ∀ r, r < n →
      0 ≤ columnCategory values col r ∧
      columnCategory values col r <
        (((categoryMaps.getD col CategoryMaps.create).categories.length : Nat) : Int)
  fits : ∀ col ∈ availableColumns.indexVector,
    optionFits (valueTypes.getD col .kNumeric) (imputeOptions.getD col .kNoImpute) = true

/-! ## Properties -/

section Subsets

theorem iterateCombinations_spec (n : Nat) : ∀ (k : Nat) (append : Int) (count : Nat) (limit : Int),
    ∃ pass : List (List Nat),
      (iterateCombinations n k append count limit).1 =
        (if append ≠ NO_INDEX then pass.map (fun c => c ++ [append.toNat]) else pass) ∧
      (∀ c ∈ pass, IsCombination n k c) ∧
      (iterateCombinations n k append count limit).2 = count + pass.length ∧
      (0 ≤ limit → (count : Int) ≤ limit →
        (((iterateCombinations n k append count limit).2 : Nat) : Int) ≤ limit) := by
  induction n with
  | zero =>
    intro k append count limit
    refine ⟨[], ?_, ?_, ?_, ?_⟩ <;> simp [iterateCombinations]
  | succ n ih =>
    intro k append count limit
    by_cases hk : k = 0
    · subst hk
      by_cases hl : underLimit count limit = true
      · refine ⟨[[]], ?_, ?_, ?_, ?_⟩
        · simp [iterateCombinations, hl]
        · simp [IsCombination]
        · simp [iterateCombinations, hl]
        · intro h0 _
          simp only [iterateCombinations, hl, if_true]
          simp only [underLimit, Bool.or_eq_true, decide_eq_true_eq, NO_INDEX] at hl
          push_cast
          omega
      · refine ⟨[], ?_, ?_, ?_, ?_⟩
        · simp [iterateCombinations, hl]
        · simp
        · simp [iterateCombinations, hl]
        · intro _ h
          simpa [iterateCombinations, hl] using h
    · by_cases hnk : n + 1 = k
      · by_cases hl : underLimit count limit = true
        · refine ⟨[List.range k], ?_, ?_, ?_, ?_⟩
          · simp [iterateCombinations, hl, hk, hnk]
          · intro c hc
            simp only [List.mem_singleton] at hc
            subst hc
            refine ⟨by simp, List.nodup_range k, ?_⟩
            intro x hx
            rw [List.mem_range] at hx
            omega
          · simp [iterateCombinations, hl, hk, hnk]
          · intro h0 _
            simp only [iterateCombinations, hl, hk, hnk, if_true, if_false]
            simp only [underLimit, Bool.or_eq_true, decide_eq_true_eq, NO_INDEX] at hl
            push_cast
            omega
        · refine ⟨[], ?_, ?_, ?_, ?_⟩
          · simp [iterateCombinations, hl, hk, hnk]
          · simp
          · simp [iterateCombinations, hl, hk, hnk]
          · intro _ h
            simpa [iterateCombinations, hl, hk, hnk] using h
      · -- the recursive case: combinations without, then with, the last index
        have hn1 : ((n : Int) ≠ NO_INDEX) := by simp only [NO_INDEX]; omega
        -- first recursive call (guarded)
        obtain ⟨p1, hp1, hc1, hcnt1, hlim1⟩ :
            ∃ p1 : List (List Nat),
              (if underLimit count limit then iterateCombinations n k NO_INDEX count limit
                else ([], count)).1 = p1 ∧
              (∀ c ∈ p1, IsCombination n k c) ∧
              (if underLimit count limit then iterateCombinations n k NO_INDEX count limit
                else ([], count)).2 = count + p1.length ∧
              (0 ≤ limit → (count : Int) ≤ limit →
                (((if underLimit count limit then iterateCombinations n k NO_INDEX count limit
                  else ([], count)).2 : Nat) : Int) ≤ limit) := by
          by_cases hl : underLimit count limit = true
          · obtain ⟨p, h1, h2, h3, h4⟩ := ih k NO_INDEX count limit
            refine ⟨p, ?_, h2, ?_, ?_⟩
            · simpa [hl] using h1
            · simpa [hl] using h3
            · simpa [hl] using h4
          · refine ⟨[], ?_, ?_, ?_, ?_⟩ <;> simp [hl]
        generalize hr1 : (if underLimit count limit then iterateCombinations n k NO_INDEX count limit
                else ([], count)) = r1 at hp1 hcnt1 hlim1
        obtain ⟨p2, hp2, hc2, hcnt2, hlim2⟩ :
            ∃ p2 : List (List Nat),
              (if underLimit r1.2 limit then iterateCombinations n (k - 1) (n : Int) r1.2 limit
                else ([], r1.2)).1 = p2.map (fun c => c ++ [n]) ∧
              (∀ c ∈ p2, IsCombination n (k - 1) c) ∧
              (if underLimit r1.2 limit then iterateCombinations n (k - 1) (n : Int) r1.2 limit
                else ([], r1.2)).2 = r1.2 + p2.length ∧
              (0 ≤ limit → (r1.2 : Int) ≤ limit →
                (((if underLimit r1.2 limit then iterateCombinations n (k - 1) (n : Int) r1.2 limit
                  else ([], r1.2)).2 : Nat) : Int) ≤ limit) := by
          by_cases hl : underLimit r1.2 limit = true
          · obtain ⟨p, h1, h2, h3, h4⟩ := ih (k - 1) (n : Int) r1.2 limit
            refine ⟨p, ?_, h2, ?_, ?_⟩
            · simpa [hl, hn1] using h1
            · simpa [hl] using h3
            · simpa [hl] using h4
          · refine ⟨[], ?_, ?_, ?_, ?_⟩ <;> simp [hl]
        generalize hr2 : (if underLimit r1.2 limit then
            iterateCombinations n (k - 1) (n : Int) r1.2 limit else ([], r1.2)) = r2
          at hp2 hcnt2 hlim2
        have hval : iterateCombinations (n + 1) k append count limit =
            (if append ≠ NO_INDEX then (r1.1 ++ r2.1).map (fun c => c ++ [append.toNat])
              else r1.1 ++ r2.1, r2.2) := by
          rw [iterateCombinations]
          simp only [hk, hnk, if_false, hr1, hr2]
        refine ⟨p1 ++ p2.map (fun c => c ++ [n]), ?_, ?_, ?_, ?_⟩
        · rw [hval, hp1, hp2]
        · intro c hc
          rw [List.mem_append] at hc
          rcases hc with hc | hc
          · obtain ⟨h1, h2, h3⟩ := hc1 c hc
            exact ⟨h1, h2, fun x hx => Nat.lt_succ_of_lt (h3 x hx)⟩
          · rw [List.mem_map] at hc
            obtain ⟨c0, hc0, rfl⟩ := hc
            obtain ⟨h1, h2, h3⟩ := hc2 c0 hc0
            refine ⟨?_, ?_, ?_⟩
            · rw [List.length_append, h1]
              simp only [List.length_singleton]
              omega
            · rw [List.nodup_append]
              refine ⟨h2, List.nodup_singleton n, ?_⟩
              intro x hx hx1
              rw [List.mem_singleton] at hx1
              subst hx1
              exact absurd (h3 x hx) (Nat.lt_irrefl x)
            · intro x hx
              rw [List.mem_append, List.mem_singleton] at hx
              rcases hx with hx | hx
              · exact Nat.lt_succ_of_lt (h3 x hx)
              · omega
        · rw [hval]
          simp only [hcnt2, hcnt1, List.length_append, List.length_map]
          omega
        · intro h0 hle
          rw [hval]
          exact hlim2 h0 (hlim1 h0 hle)

theorem trialLayout_valid (C K g : Nat) (h1 : 1 ≤ g) (h2 : g ≤ K) :
    ValidLayout C K (trialLayout C K g).1 :=
  ⟨h1, h2, rfl⟩

theorem groupSearch_valid (C K : Nat) (M : Int) :
    ∀ (gNext : Nat) (saved : GroupLayout), 2 ≤ gNext → gNext ≤ K → ValidLayout C K saved →
      ∃ layout, groupSearch C K M gNext saved = .ok layout ∧ ValidLayout C K layout := by
  intro gNext
  induction gNext with
  | zero => intro saved h; omega
  | succ g ih =>
    intro saved hg hK hsaved
    have hg0 : g ≠ 0 := by omega
    rw [groupSearch]
    simp only [hg0, if_false]
    have htrial : ValidLayout C K (trialLayout C K g).1 :=
      trialLayout_valid C K g (by omega) (by omega)
    have hsaved1 : ValidLayout C K
        (if decide ((trialLayout C K g).2 ≤ M) = true then (trialLayout C K g).1 else saved) := by
      split
      · exact htrial
      · exact hsaved
    have hone : (trialLayout C K g).2 ≤ M → g = 1 →
        (if decide ((trialLayout C K g).2 ≤ M) = true then (trialLayout C K g).1
          else saved).columnsPerFullGroup = 1 := by
      intro hle hg1
      simp only [hle, decide_True, if_true]
      rw [hg1]
      rfl
    generalize (if decide ((trialLayout C K g).2 ≤ M) = true then (trialLayout C K g).1
      else saved) = saved1 at hsaved1 hone
    by_cases hstop : saved1.columnsPerFullGroup = 1 ∨ (trialLayout C K g).2 ≥ M
    · rw [if_pos hstop]
      exact ⟨_, rfl, hsaved1⟩
    · rw [if_neg hstop]
      rw [not_or] at hstop
      obtain ⟨hne1, hlt⟩ := hstop
      have hlt1 : (trialLayout C K g).2 ≤ M := by omega
      have hg2 : 2 ≤ g := by
        by_contra hcon
        exact hne1 (hone hlt1 (by omega))
      exact ih _ hg2 (by omega) hsaved1

theorem chooseLayout_valid (C K : Nat) (M : Int) (h1 : 1 ≤ K) :
    ∃ layout, chooseLayout C K M = .ok layout ∧ ValidLayout C K layout := by
  have hK0 : K ≠ 0 := by omega
  have hinit : ValidLayout C K ⟨C / K, K, C - C / K * K, 1, decide (C - C / K * K ≠ 0)⟩ := by
    refine ⟨h1, le_refl K, ?_⟩
    have hk : (K + K - 1) / K = 1 := by
      apply Nat.div_eq_of_lt_le <;> omega
    have hshort : C - C / K * K < K := by
      have := Nat.mod_lt C (show K > 0 by omega)
      have h3 := Nat.div_add_mod C K
      have h4 : C / K * K = K * (C / K) := Nat.mul_comm _ _
      omega
    simp only [trialLayout, hk, GroupLayout.mk.injEq, true_and]
    simp [hshort]
  unfold chooseLayout
  simp only [hK0, if_false]
  split
  · exact ⟨_, rfl, hinit⟩
  · exact groupSearch_valid C K M K _ (by omega) (le_refl K) hinit

theorem takeWhile_lt_range' (C : Nat) : ∀ (n s : Nat),
    (List.range' s n).takeWhile (fun colIndex => decide (colIndex < C)) =
      List.range' s (min n (C - s)) := by
  intro n
  induction n with
  | zero => intro s; simp
  | succ n ih =>
    intro s
    rw [List.range'_succ]
    by_cases hs : s < C
    · rw [List.takeWhile_cons_of_pos (by simpa using hs), ih]
      have : min (n + 1) (C - s) = min n (C - (s + 1)) + 1 := by omega
      rw [this, List.range'_succ]
    · rw [List.takeWhile_cons_of_neg (by simpa using hs)]
      have : min (n + 1) (C - s) = 0 := by omega
      rw [this]
      rfl

theorem groupColumns_eq (C g gi : Nat) :
    groupColumns C g gi = List.range' (gi * g) (min g (C - gi * g)) :=
  takeWhile_lt_range' C g (gi * g)

theorem mem_groupColumns {C g gi x : Nat} :
    x ∈ groupColumns C g gi ↔ gi * g ≤ x ∧ x < gi * g + g ∧ x < C := by
  rw [groupColumns_eq, List.mem_range'_1]
  omega

theorem nodup_groupColumns (C g gi : Nat) : (groupColumns C g gi).Nodup := by
  rw [groupColumns_eq]
  exact List.nodup_range' _ _

theorem mem_combinationColumns {C g x : Nat} {c : List Nat} :
    x ∈ combinationColumns C g c ↔ ∃ gi ∈ c, x ∈ groupColumns C g gi := by
  simp [combinationColumns, List.mem_flatMap]

theorem nodup_combinationColumns (C g : Nat) (c : List Nat) (hc : c.Nodup) :
    (combinationColumns C g c).Nodup := by
  unfold combinationColumns
  rw [List.nodup_flatMap]
  refine ⟨fun gi _ => nodup_groupColumns C g gi, ?_⟩
  refine hc.imp ?_
  intro gi gj hne x hxi hxj
  rw [mem_groupColumns] at hxi hxj
  apply hne
  have h1 : x / g = gi := by
    apply Nat.div_eq_of_lt_le
    · exact hxi.1
    · rw [Nat.succ_mul]; exact hxi.2.1
  have h2 : x / g = gj := by
    apply Nat.div_eq_of_lt_le
    · exact hxj.1
    · rw [Nat.succ_mul]; exact hxj.2.1
  omega

theorem lt_of_mem_combinationColumns {C g x : Nat} {c : List Nat}
    (hx : x ∈ combinationColumns C g c) : x < C := by
  rw [mem_combinationColumns] at hx
  obtain ⟨gi, _, hgi⟩ := hx
  exact (mem_groupColumns.mp hgi).2.2

theorem length_groupColumns_full (C g gi : Nat) (h : (gi + 1) * g ≤ C) :
    (groupColumns C g gi).length = g := by
  rw [groupColumns_eq, List.length_range']
  rw [Nat.succ_mul] at h
  omega

theorem length_combinationColumns (C g n : Nat) (hn : n * g ≤ C) (hshort : C - n * g ≤ g) :
    ∀ c : List Nat, c.Nodup → (∀ x ∈ c, x < n + 1) →
      (combinationColumns C g c).length + (if n ∈ c then g - (C - n * g) else 0) =
        c.length * g := by
  intro c
  induction c with
  | nil => intro _ _; simp [combinationColumns]
  | cons a c ih =>
    intro hnd hlt
    rw [List.nodup_cons] at hnd
    have ih1 := ih hnd.2 (fun x hx => hlt x (List.mem_cons_of_mem _ hx))
    have hcons : (combinationColumns C g (a :: c)).length =
        (groupColumns C g a).length + (combinationColumns C g c).length := by
      simp [combinationColumns]
    rw [hcons, List.length_cons, Nat.succ_mul]
    by_cases ha : a = n
    · subst ha
      have hlen : (groupColumns C g a).length = C - a * g := by
        rw [groupColumns_eq, List.length_range']
        omega
      rw [if_neg hnd.1] at ih1
      rw [if_pos (List.mem_cons_self _ _), hlen]
      omega
    · have halt : a < n := by
        have := hlt a (List.mem_cons_self _ _)
        omega
      have hfull : (a + 1) * g ≤ C := le_trans (Nat.mul_le_mul_right g halt) hn
      rw [length_groupColumns_full C g a hfull]
      have hmem : (n ∈ a :: c) ↔ n ∈ c := by
        rw [List.mem_cons]
        constructor
        · rintro (h | h)
          · exact absurd h.symm ha
          · exact h
        · exact Or.inr
      simp only [hmem]
      omega

theorem collectCombinations_good (C K : Nat) (M : Int) (layout : GroupLayout)
    (hv : ValidLayout C K layout) :
    ∀ c ∈ collectCombinations layout M, GoodCombination C K layout.columnsPerFullGroup c := by
  obtain ⟨hg1, hgK, hl⟩ := hv
  generalize hg : layout.columnsPerFullGroup = g at hg1 hgK hl
  -- arithmetic facts about the layout of group size g
  have hdm := Nat.div_add_mod C g
  have hmod := Nat.mod_lt C (show g > 0 by omega)
  have hcomm : C / g * g = g * (C / g) := Nat.mul_comm _ _
  have hn : C / g * g ≤ C := by omega
  have hshort : C - C / g * g ≤ g := by omega
  have hdm2 := Nat.div_add_mod (K + g - 1) g
  have hmod2 := Nat.mod_lt (K + g - 1) (show g > 0 by omega)
  have hcomm2 : (K + g - 1) / g * g = g * ((K + g - 1) / g) := Nat.mul_comm _ _
  have hkg : K ≤ (K + g - 1) / g * g := by omega
  have hnF : layout.nFullGroups = C / g := by rw [hl]; rfl
  have hsh : layout.columnsPerShortGroup = C - C / g * g := by rw [hl]; rfl
  have hkc : layout.kChoose = (K + g - 1) / g := by rw [hl]; rfl
  have hsp : layout.specialCaseShortGroup =
      (decide (C - C / g * g ≠ 0) &&
        decide (((K + g - 1) / g - 1) * g + (C - C / g * g) < K)) := by rw [hl]; rfl
  -- the three shapes a combination can have
  have good_of (c : List Nat) (hnd : c.Nodup) (hlt : ∀ x ∈ c, x < C / g + 1)
      (hlen : K ≤ c.length * g - (if C / g ∈ c then g - (C - C / g * g) else 0)) :
      GoodCombination C K g c := by
    refine ⟨nodup_combinationColumns C g c hnd, fun x hx => lt_of_mem_combinationColumns hx, ?_⟩
    have := length_combinationColumns C g (C / g) hn hshort c hnd hlt
    omega
  intro c hc
  unfold collectCombinations at hc
  rw [hnF, hkc, hsh] at hc
  by_cases hspecial : layout.specialCaseShortGroup = true
  · rw [if_pos hspecial] at hc
    rw [List.mem_append] at hc
    rcases hc with hc | hc
    · obtain ⟨p, hp1, hp2, -, -⟩ :=
        iterateCombinations_spec (C / g) ((K + g - 1) / g) NO_INDEX 0 M
      rw [hp1, if_neg (by simp)] at hc
      obtain ⟨h1, h2, h3⟩ := hp2 c hc
      apply good_of c h2 (fun x hx => Nat.lt_succ_of_lt (h3 x hx))
      have hnot : C / g ∉ c := fun hmem => absurd (h3 _ hmem) (Nat.lt_irrefl _)
      rw [if_neg hnot, h1]
      omega
    · obtain ⟨p, hp1, hp2, -, -⟩ :=
        iterateCombinations_spec (C / g) ((K + g - 1) / g) (C / g : Nat)
          (iterateCombinations (C / g) ((K + g - 1) / g) NO_INDEX 0 M).2 M
      have hne : ((C / g : Nat) : Int) ≠ NO_INDEX := by simp only [NO_INDEX]; omega
      rw [hp1, if_pos hne, List.mem_map] at hc
      obtain ⟨c0, hc0, rfl⟩ := hc
      obtain ⟨h1, h2, h3⟩ := hp2 c0 hc0
      simp only [Int.toNat_ofNat]
      have hnot : C / g ∉ c0 := fun hmem => absurd (h3 _ hmem) (Nat.lt_irrefl _)
      apply good_of
      · rw [List.nodup_append]
        refine ⟨h2, List.nodup_singleton _, ?_⟩
        intro x hx hx1
        rw [List.mem_singleton] at hx1
        subst hx1
        exact hnot hx
      · intro x hx
        rw [List.mem_append, List.mem_singleton] at hx
        rcases hx with hx | hx
        · exact Nat.lt_succ_of_lt (h3 x hx)
        · omega
      · rw [if_pos (by simp), List.length_append, h1, List.length_singleton, Nat.succ_mul]
        omega
  · rw [if_neg hspecial] at hc
    by_cases hshort0 : C - C / g * g = 0
    · rw [if_neg (by simpa using hshort0)] at hc
      obtain ⟨p, hp1, hp2, -, -⟩ :=
        iterateCombinations_spec (C / g) ((K + g - 1) / g) NO_INDEX 0 M
      rw [hp1, if_neg (by simp)] at hc
      obtain ⟨h1, h2, h3⟩ := hp2 c hc
      apply good_of c h2 (fun x hx => Nat.lt_succ_of_lt (h3 x hx))
      have hnot : C / g ∉ c := fun hmem => absurd (h3 _ hmem) (Nat.lt_irrefl _)
      rw [if_neg hnot, h1]
      omega
    · rw [if_pos hshort0] at hc
      obtain ⟨p, hp1, hp2, -, -⟩ :=
        iterateCombinations_spec (C / g + 1) ((K + g - 1) / g) NO_INDEX 0 M
      rw [hp1, if_neg (by simp)] at hc
      obtain ⟨h1, h2, h3⟩ := hp2 c hc
      apply good_of c h2 h3
      rw [hsp] at hspecial
      simp only [Bool.and_eq_true, decide_eq_true_eq, not_and, not_lt] at hspecial
      have hns := hspecial hshort0
      have hk1 : 1 ≤ (K + g - 1) / g := by
        by_contra hcon
        have : (K + g - 1) / g = 0 := by omega
        rw [this] at hkg
        omega
      rw [h1]
      have hexp : (K + g - 1) / g * g = ((K + g - 1) / g - 1) * g + g := by
        have : (K + g - 1) / g = ((K + g - 1) / g - 1) + 1 := by omega
        conv_lhs => rw [this, Nat.succ_mul]
      split <;> omega

theorem forall₂_mem_right {α β : Type} {R : α → β → Prop} {l₁ : List α} {l₂ : List β}
    (h : List.Forall₂ R l₁ l₂) {b : β} (hb : b ∈ l₂) : ∃ a, a ∈ l₁ ∧ R a b := by
  induction h with
  | nil => simp at hb
  | cons hab _ ih =>
    rw [List.mem_cons] at hb
    rcases hb with hb | hb
    · subst hb
      exact ⟨_, List.mem_cons_self _ _, hab⟩
    · obtain ⟨a, ha, hr⟩ := ih hb
      exact ⟨a, List.mem_cons_of_mem _ ha, hr⟩

theorem incrementUsage_fst : ∀ (usagePairs : List (Nat × Nat)) (index : Nat),
    (incrementUsage usagePairs index).map Prod.fst = usagePairs.map Prod.fst := by
  intro usagePairs
  induction usagePairs with
  | nil => intro index; rfl
  | cons p ps ih =>
    intro index
    cases index with
    | zero => rfl
    | succ i => simp [incrementUsage, ih]

theorem foldl_incrementUsage_fst (s : List Nat) : ∀ (usagePairs : List (Nat × Nat)),
    (s.foldl incrementUsage usagePairs).map Prod.fst = usagePairs.map Prod.fst := by
  induction s with
  | nil => intro _; rfl
  | cons a s ih =>
    intro usagePairs
    rw [List.foldl_cons, ih, incrementUsage_fst]

theorem usagePairsAt_ok (C : Nat) (usagePairs : List (Nat × Nat)) (hinv : UsageInv C usagePairs) :
    ∀ cols : List Nat, (∀ x ∈ cols, x < C) →
      ∃ ps, usagePairsAt usagePairs cols = .ok ps ∧ ps.map Prod.fst = cols := by
  intro cols
  induction cols with
  | nil => intro _; exact ⟨[], rfl, rfl⟩
  | cons a cols ih =>
    intro hlt
    obtain ⟨ps, hps, hfst⟩ := ih (fun x hx => hlt x (List.mem_cons_of_mem _ hx))
    have ha : a < C := hlt a (List.mem_cons_self _ _)
    have hget : (usagePairs.map Prod.fst)[a]? = some a := by
      rw [hinv]
      exact List.getElem?_range ha
    rw [List.getElem?_map] at hget
    cases hp : usagePairs[a]? with
    | none => rw [hp] at hget; simp at hget
    | some p =>
      rw [hp] at hget
      simp only [Option.map_some', Option.some.injEq] at hget
      refine ⟨p :: ps, ?_, ?_⟩
      · simp [usagePairsAt, hp, hps]
      · simp [hget, hfst]

theorem nextSubsetOf_ok (C K g : Nat) (usagePairs : List (Nat × Nat)) (c : List Nat)
    (hinv : UsageInv C usagePairs) (hgood : GoodCombination C K g c) :
    ∃ s up, nextSubsetOf C K g usagePairs c = .ok (s, up) ∧ IsSubsetOf C K g c s ∧
      UsageInv C up := by
  obtain ⟨hnd, hlt, hlen⟩ := hgood
  obtain ⟨ps, hps, hfst⟩ := usagePairsAt_ok C usagePairs hinv (combinationColumns C g c) hlt
  have hperm : List.Perm ((sortUsagePairs ps).map Prod.fst) (combinationColumns C g c) := by
    rw [← hfst]
    exact (List.perm_insertionSort _ ps).map _
  have hlen2 : (sortUsagePairs ps).length = (combinationColumns C g c).length := by
    have := hperm.length_eq
    simpa using this
  refine ⟨((sortUsagePairs ps).take K).map Prod.fst,
    (((sortUsagePairs ps).take K).map Prod.fst).foldl incrementUsage usagePairs, ?_, ?_, ?_⟩
  · unfold nextSubsetOf
    have hn : ¬ (sortUsagePairs ps).length < K := by omega
    simp only [combinationColumns] at hps
    simp [hps, hn, bind, Except.bind, pure, Except.pure]
  · have hsub : List.Sublist (((sortUsagePairs ps).take K).map Prod.fst)
        ((sortUsagePairs ps).map Prod.fst) := by
      rw [List.map_take]
      exact List.take_sublist _ _
    refine ⟨?_, ?_, ?_⟩
    · rw [List.length_map, List.length_take]
      omega
    · exact hsub.nodup ((hperm.nodup_iff).mpr hnd)
    · intro x hx
      exact hperm.subset (hsub.subset hx)
  · unfold UsageInv
    rw [foldl_incrementUsage_fst]
    exact hinv

theorem subsetsLoop_ok (C K g : Nat) : ∀ (combinations : List (List Nat))
    (usagePairs : List (Nat × Nat)), UsageInv C usagePairs →
    (∀ c ∈ combinations, GoodCombination C K g c) →
    ∃ subsets, subsetsLoop C K g combinations usagePairs = .ok subsets ∧
      List.Forall₂ (IsSubsetOf C K g) combinations subsets := by
  intro combinations
  induction combinations with
  | nil => intro _ _ _; exact ⟨[], rfl, List.Forall₂.nil⟩
  | cons c rest ih =>
    intro usagePairs hinv hgood
    obtain ⟨s, up, hs, hsub, hinv1⟩ :=
      nextSubsetOf_ok C K g usagePairs c hinv (hgood c (List.mem_cons_self _ _))
    obtain ⟨more, hmore, hall⟩ := ih up hinv1 (fun c hc => hgood c (List.mem_cons_of_mem _ hc))
    refine ⟨s :: more, ?_, List.Forall₂.cons hsub hall⟩
    simp [subsetsLoop, hs, hmore, bind, Except.bind, pure, Except.pure]

/-- The result of `makeSelectColSubsets` for `1 ≤ columnsPerSubset ≤ columnsCount`: it returns,
and its subsets are made one per collected combination of a valid layout. -/
theorem makeSelectColSubsets_ok (C K : Nat) (M : Int) (h1 : 1 ≤ K) (h2 : K ≤ C) :
    ∃ layout subsets, ValidLayout C K layout ∧ chooseLayout C K M = .ok layout ∧
      makeSelectColSubsets C K M = .ok subsets ∧
      List.Forall₂ (IsSubsetOf C K layout.columnsPerFullGroup)
        (collectCombinations layout M) subsets := by
  obtain ⟨layout, hlayout, hvalid⟩ := chooseLayout_valid C K M h1
  have hinv : UsageInv C ((List.range C).map (fun k => (k, 0))) := by
    unfold UsageInv
    rw [List.map_map]
    exact List.map_id _
  obtain ⟨subsets, hsubsets, hall⟩ :=
    subsetsLoop_ok C K layout.columnsPerFullGroup (collectCombinations layout M) _ hinv
      (collectCombinations_good C K M layout hvalid)
  refine ⟨layout, subsets, hvalid, hlayout, ?_, hall⟩
  unfold makeSelectColSubsets
  rw [if_neg (by omega)]
  simp [hlayout, bind, Except.bind, hsubsets]

theorem iterateCombinations_length (n k : Nat) (append : Int) (count : Nat) (limit : Int) :
    (iterateCombinations n k append count limit).2 =
      count + (iterateCombinations n k append count limit).1.length := by
  obtain ⟨p, h1, -, h3, -⟩ := iterateCombinations_spec n k append count limit
  rw [h1, h3]
  split <;> simp

theorem collectCombinations_length_le (layout : GroupLayout) (M : Int) (hM : 0 ≤ M) :
    ((collectCombinations layout M).length : Int) ≤ M := by
  have key : ∀ (n k : Nat) (append : Int),
      (((iterateCombinations n k append 0 M).1.length : Nat) : Int) ≤ M := by
    intro n k append
    obtain ⟨p, -, -, -, h4⟩ := iterateCombinations_spec n k append 0 M
    have h5 := iterateCombinations_length n k append 0 M
    have h6 := h4 hM (by simpa using hM)
    rw [h5] at h6
    simpa using h6
  unfold collectCombinations
  split
  · generalize hr1 : iterateCombinations layout.nFullGroups layout.kChoose NO_INDEX 0 M = r1
    have h1 := iterateCombinations_length layout.nFullGroups layout.kChoose NO_INDEX 0 M
    have h1le := key layout.nFullGroups layout.kChoose NO_INDEX
    rw [hr1] at h1 h1le
    obtain ⟨p, -, -, -, h4⟩ := iterateCombinations_spec layout.nFullGroups layout.kChoose
      (layout.nFullGroups : Int) r1.2 M
    have h2 := iterateCombinations_length layout.nFullGroups layout.kChoose
      (layout.nFullGroups : Int) r1.2 M
    have h5 := h4 hM (by rw [h1]; simpa using h1le)
    rw [h2, h1] at h5
    simp only [List.length_append]
    push_cast at h5 ⊢
    omega
  · split
    · exact key _ _ _
    · exact key _ _ _

theorem forall₂_mem_left {α β : Type} {R : α → β → Prop} {l₁ : List α} {l₂ : List β}
    (h : List.Forall₂ R l₁ l₂) {a : α} (ha : a ∈ l₁) : ∃ b, b ∈ l₂ ∧ R a b := by
  induction h with
  | nil => simp at ha
  | cons hab _ ih =>
    rw [List.mem_cons] at ha
    rcases ha with ha | ha
    · subst ha
      exact ⟨_, List.mem_cons_self _ _, hab⟩
    · obtain ⟨b, hb, hr⟩ := ih ha
      exact ⟨b, List.mem_cons_of_mem _ hb, hr⟩

theorem iterateCombinations_nonempty (n : Nat) : ∀ (k : Nat) (append : Int) (count : Nat)
    (limit : Int), 1 ≤ n → k ≤ n → underLimit count limit = true →
    (iterateCombinations n k append count limit).1 ≠ [] := by
  induction n with
  | zero => intro k append count limit h; omega
  | succ n ih =>
    intro k append count limit _ hk hl
    have hmap : ∀ (l : List (List Nat)), l ≠ [] →
        (if append ≠ NO_INDEX then l.map (fun c => c ++ [append.toNat]) else l) ≠ [] := by
      intro l hne
      split
      · simpa using hne
      · exact hne
    rw [iterateCombinations]
    apply hmap
    by_cases hk0 : k = 0
    · simp [hk0, hl]
    · by_cases hnk : n + 1 = k
      · simp [hk0, hnk, hl]
      · simp only [hk0, hnk, if_false, hl, if_true]
        have h1 := ih k NO_INDEX count limit (by omega) (by omega) hl
        intro happ
        rw [List.append_eq_nil] at happ
        exact h1 happ.1

theorem validLayout_enough_groups (C K : Nat) (layout : GroupLayout) (hK : K ≤ C)
    (hv : ValidLayout C K layout) :
    (layout.specialCaseShortGroup = true → layout.kChoose ≤ layout.nFullGroups) ∧
    (layout.columnsPerShortGroup ≠ 0 → layout.kChoose ≤ layout.nFullGroups + 1) ∧
    (layout.columnsPerShortGroup = 0 → layout.kChoose ≤ layout.nFullGroups) ∧
    1 ≤ layout.nFullGroups := by
  obtain ⟨hg1, hgK, hl⟩ := hv
  generalize hg : layout.columnsPerFullGroup = g at hg1 hgK hl
  have hdm := Nat.div_add_mod C g
  have hmod := Nat.mod_lt C (show g > 0 by omega)
  have hcomm : C / g * g = g * (C / g) := Nat.mul_comm _ _
  have hdm2 := Nat.div_add_mod (K + g - 1) g
  have hmod2 := Nat.mod_lt (K + g - 1) (show g > 0 by omega)
  have hcomm2 : (K + g - 1) / g * g = g * ((K + g - 1) / g) := Nat.mul_comm _ _
  have hnF : layout.nFullGroups = C / g := by rw [hl]; rfl
  have hsh : layout.columnsPerShortGroup = C - C / g * g := by rw [hl]; rfl
  have hkc : layout.kChoose = (K + g - 1) / g := by rw [hl]; rfl
  have hsp : layout.specialCaseShortGroup =
      (decide (C - C / g * g ≠ 0) &&
        decide (((K + g - 1) / g - 1) * g + (C - C / g * g) < K)) := by rw [hl]; rfl
  rw [hnF, hsh, hkc, hsp]
  -- k * g < K + g, hence k ≤ number of groups by cancelling g
  have hkg : (K + g - 1) / g * g < K + g := by omega
  refine ⟨?_, ?_, ?_, ?_⟩
  · intro hspecial
    simp only [Bool.and_eq_true, decide_eq_true_eq] at hspecial
    obtain ⟨_, hlt⟩ := hspecial
    by_contra hcon
    have h1 : C / g + 1 ≤ (K + g - 1) / g := by omega
    have h2 : C / g ≤ (K + g - 1) / g - 1 := by omega
    have h3 := Nat.mul_le_mul_right g h2
    omega
  · intro _
    by_contra hcon
    have h1 : C / g + 2 ≤ (K + g - 1) / g := by omega
    have h3 := Nat.mul_le_mul_right g h1
    have h4 : (C / g + 2) * g = C / g * g + 2 * g := by ring
    omega
  · intro h0
    by_contra hcon
    have h1 : C / g + 1 ≤ (K + g - 1) / g := by omega
    have h3 := Nat.mul_le_mul_right g h1
    have h4 : (C / g + 1) * g = C / g * g + g := by ring
    omega
  · exact (Nat.one_le_div_iff (by omega)).mpr (by omega)

theorem collectCombinations_nonempty (C K : Nat) (M : Int) (layout : GroupLayout) (hK : K ≤ C)
    (hv : ValidLayout C K layout) (hM : 1 ≤ M) : collectCombinations layout M ≠ [] := by
  obtain ⟨h1, h2, h3, h4⟩ := validLayout_enough_groups C K layout hK hv
  have hl : underLimit 0 M = true := by
    simp only [underLimit, Bool.or_eq_true, decide_eq_true_eq]
    right
    simpa using hM
  unfold collectCombinations
  split
  · rename_i hs
    intro happ
    rw [List.append_eq_nil] at happ
    exact iterateCombinations_nonempty _ _ _ _ _ h4 (h1 hs) hl happ.1
  · split
    · rename_i hs
      exact iterateCombinations_nonempty _ _ _ _ _ (by omega) (h2 hs) hl
    · rename_i hs
      exact iterateCombinations_nonempty _ _ _ _ _ h4 (h3 (by simpa using hs)) hl

theorem mem_of_nodup_of_length (C : Nat) (s : List Nat) (hlen : s.length = C) (hnd : s.Nodup)
    (hlt : ∀ x ∈ s, x < C) : ∀ i, i < C → i ∈ s := by
  intro i hi
  have hsub : s.toFinset ⊆ Finset.range C := by
    intro x hx
    rw [List.mem_toFinset] at hx
    exact Finset.mem_range.mpr (hlt x hx)
  have hcard : s.toFinset.card = C := by
    rw [List.toFinset_card_of_nodup hnd, hlen]
  have heq : s.toFinset = Finset.range C :=
    Finset.eq_of_subset_of_card_le hsub (by rw [hcard, Finset.card_range])
  have : i ∈ s.toFinset := by rw [heq]; exact Finset.mem_range.mpr hi
  exact List.mem_toFinset.mp this

theorem iterateCombinations_one_length (n : Nat) : ∀ (append : Int) (count : Nat) (limit : Int),
    (iterateCombinations n 1 append count limit).1.length ≤ n := by
  induction n with
  | zero => intro append count limit; simp [iterateCombinations]
  | succ n ih =>
    intro append count limit
    have hmap : ∀ (l : List (List Nat)),
        (if append ≠ NO_INDEX then l.map (fun c => c ++ [append.toNat]) else l).length =
          l.length := by
      intro l; split <;> simp
    rw [iterateCombinations]
    simp only [hmap]
    by_cases hn : n = 0
    · subst hn
      simp only [Nat.one_ne_zero, if_false, zero_add, if_true]
      split <;> simp
    · simp only [Nat.one_ne_zero, if_false, show ¬ (n + 1 = 1) by omega, List.length_append]
      have h1 : (if underLimit count limit = true then iterateCombinations n 1 NO_INDEX count limit
          else ([], count)).1.length ≤ n := by
        split
        · exact ih _ _ _
        · simp
      generalize (if underLimit count limit = true then
        iterateCombinations n 1 NO_INDEX count limit else ([], count)) = r1 at h1
      have h2 : (if underLimit r1.2 limit = true then
          iterateCombinations n (1 - 1) (n : Int) r1.2 limit else ([], r1.2)).1.length ≤ 1 := by
        split
        · cases n with
          | zero => simp [iterateCombinations]
          | succ m =>
            rw [iterateCombinations]
            simp only [Nat.sub_self, if_true]
            split <;> simp
        · simp
      omega

theorem iterateCombinations_one_mem (M : Int) (n : Nat) : ∀ (count : Nat),
    ((count + n : Nat) : Int) ≤ M → ∀ i, i < n →
      [i] ∈ (iterateCombinations n 1 NO_INDEX count M).1 := by
  induction n with
  | zero => intro count _ i hi; omega
  | succ n ih =>
    intro count hM i hi
    have hl : underLimit count M = true := by
      simp only [underLimit, Bool.or_eq_true, decide_eq_true_eq]
      right
      push_cast at hM
      omega
    rw [iterateCombinations]
    simp only [Nat.one_ne_zero, if_false, ne_eq, not_true_eq_false, hl, if_true]
    by_cases hn : n = 0
    · subst hn
      have hi0 : i = 0 := by omega
      subst hi0
      simp [List.range_succ]
    · simp only [show ¬ (n + 1 = 1) by omega, if_false]
      rw [List.mem_append]
      by_cases hin : i < n
      · left
        exact ih count (by push_cast at hM ⊢; omega) i hin
      · right
        have hieq : i = n := by omega
        subst hieq
        have hlen := iterateCombinations_one_length i NO_INDEX count M
        have hcnt := iterateCombinations_length i 1 NO_INDEX count M
        have hl2 : underLimit (iterateCombinations i 1 NO_INDEX count M).2 M = true := by
          simp only [underLimit, Bool.or_eq_true, decide_eq_true_eq]
          right
          rw [hcnt]
          push_cast at hM ⊢
          omega
        rw [if_pos hl2]
        cases i with
        | zero => exact absurd rfl hn
        | succ m =>
          rw [iterateCombinations]
          have hne : ((m + 1 : Nat) : Int) ≠ NO_INDEX := by simp only [NO_INDEX]; omega
          simp only [Nat.sub_self, if_true, hl2, ne_eq, hne, not_false_eq_true]
          simp

end Subsets

section Compact

theorem length_setRange {α : Type} (xs : List α) : ∀ (l : List α) (base : Nat),
    (setRange l base xs).length = l.length := by
  induction xs with
  | nil => intro l base; rfl
  | cons x xs ih => intro l base; simp [setRange, ih]

theorem getElem?_setRange {α : Type} (xs : List α) : ∀ (l : List α) (base j : Nat),
    base + xs.length ≤ l.length →
    (setRange l base xs)[j]? = if base ≤ j ∧ j < base + xs.length then xs[j - base]? else l[j]? := by
  induction xs with
  | nil =>
    intro l base j _
    rw [setRange, if_neg (by simp only [List.length_nil]; omega)]
  | cons x xs ih =>
    intro l base j hlen
    simp only [List.length_cons] at hlen
    rw [setRange, ih _ _ _ (by rw [List.length_set]; omega)]
    by_cases h1 : base + 1 ≤ j ∧ j < base + 1 + xs.length
    · rw [if_pos h1, if_pos (by simp only [List.length_cons]; omega)]
      have : j - base = (j - (base + 1)) + 1 := by omega
      rw [this, List.getElem?_cons_succ]
    · rw [if_neg h1]
      by_cases h2 : j = base
      · subst h2
        rw [if_pos (by simp only [List.length_cons]; omega)]
        simp only [Nat.sub_self, List.getElem?_cons_zero]
        rw [List.getElem?_set]
        simp only [if_true]
        rw [if_pos (by omega)]
      · rw [if_neg (by simp only [List.length_cons]; omega)]
        exact List.getElem?_set_ne (by omega)

theorem setRange_all {α : Type} (xs l : List α) (h : l.length = xs.length) :
    setRange l 0 xs = xs := by
  apply List.ext_getElem?
  intro j
  rw [getElem?_setRange xs l 0 j (by omega)]
  by_cases hj : j < xs.length
  · rw [if_pos (by omega)]; simp
  · rw [if_neg (by omega)]
    rw [List.getElem?_eq_none (by omega), List.getElem?_eq_none (by omega)]

theorem writeRows_fields (rows : List CompactNode) : ∀ (ct : CompactTree) (base : Nat),
    writeRows ct base rows =
      { splitColIndex := setRange ct.splitColIndex base (rows.map (·.splitColIndex))
        lessOrEqualIndex := setRange ct.lessOrEqualIndex base (rows.map (·.lessOrEqualIndex))
        greaterOrNotIndex := setRange ct.greaterOrNotIndex base (rows.map (·.greaterOrNotIndex))
        toLessOrEqualIfNA := setRange ct.toLessOrEqualIfNA base (rows.map (·.toLessOrEqualIfNA))
        value := setRange ct.value base (rows.map (·.value)) } := by
  induction rows with
  | nil => intro ct base; rfl
  | cons row rows ih =>
    intro ct base
    rw [writeRows, ih]
    rfl

theorem writeRows_append (rows₁ rows₂ : List CompactNode) : ∀ (ct : CompactTree) (base : Nat),
    writeRows ct base (rows₁ ++ rows₂) =
      writeRows (writeRows ct base rows₁) (base + rows₁.length) rows₂ := by
  induction rows₁ with
  | nil => intro ct base; rfl
  | cons row rows ih =>
    intro ct base
    rw [List.cons_append, writeRows, ih, writeRows, List.length_cons]
    congr 1
    omega

theorem writeRows_value_length (rows : List CompactNode) (ct : CompactTree) (base : Nat) :
    (writeRows ct base rows).value.length = ct.value.length := by
  rw [writeRows_fields]
  exact length_setRange _ _ _

theorem indexNodes_snd (t : TreeNode) : ∀ base, (indexNodes t base).2 = base + countNodes t := by
  induction t with
  | null => intro base; rfl
  | node data l r ihl ihr =>
    intro base
    simp only [indexNodes, countNodes, ihl, ihr]
    omega

theorem length_preorderRows (t : TreeNode) : ∀ base,
    (preorderRows t base).length = countNodes t := by
  induction t with
  | null => intro base; rfl
  | node data l r ihl ihr =>
    intro base
    simp only [preorderRows, countNodes, List.length_cons, List.length_append, ihl, ihr]
    omega

theorem countNodes_indexNodes (t : TreeNode) : ∀ base,
    countNodes (indexNodes t base).1 = countNodes t := by
  induction t with
  | null => intro base; rfl
  | node data l r ihl ihr =>
    intro base
    simp only [indexNodes, countNodes, ihl, ihr]

theorem copyToCompact_indexNodes (t : TreeNode) : ∀ (base : Nat) (ct : CompactTree),
    zeroOrTwoChildren t = true → base + countNodes t ≤ ct.value.length →
    copyToCompact ct (indexNodes t base).1 = .ok (writeRows ct base (preorderRows t base)) := by
  induction t with
  | null => intro base ct h; simp [zeroOrTwoChildren] at h
  | node data l r ihl ihr =>
    intro base ct hwf hlen
    cases l with
    | null =>
      cases r with
      | null =>
        simp only [countNodes] at hlen
        simp only [indexNodes, copyToCompact, preorderRows, compactNodeAt, List.append_nil,
          writeRows]
        rw [if_neg (by omega)]
      | node dr rl rr => simp [zeroOrTwoChildren] at hwf
    | node dl ll lr =>
      cases r with
      | null => simp [zeroOrTwoChildren] at hwf
      | node dr rl rr =>
        simp only [zeroOrTwoChildren, Bool.and_eq_true] at hwf
        obtain ⟨hwfl, hwfr⟩ := hwf
        have hcount : countNodes (.node data (.node dl ll lr) (.node dr rl rr)) =
            1 + countNodes (.node dl ll lr) + countNodes (.node dr rl rr) := rfl
        rw [hcount] at hlen
        have hsnd := indexNodes_snd (.node dl ll lr) (base + 1)
        -- the shape of the renumbered node
        have hidx : (indexNodes (.node data (.node dl ll lr) (.node dr rl rr)) base).1 =
            .node { data with index := base } (indexNodes (.node dl ll lr) (base + 1)).1
              (indexNodes (.node dr rl rr) (base + 1 + countNodes (.node dl ll lr))).1 := by
          rw [← hsnd]
          rfl
        have hl1 : ∃ d1 a1 b1, (indexNodes (.node dl ll lr) (base + 1)).1 = .node d1 a1 b1 ∧
            d1.index = base + 1 := ⟨_, _, _, rfl, rfl⟩
        have hr1 : ∃ d2 a2 b2,
            (indexNodes (.node dr rl rr) (base + 1 + countNodes (.node dl ll lr))).1 =
              .node d2 a2 b2 ∧ d2.index = base + 1 + countNodes (.node dl ll lr) :=
          ⟨_, _, _, rfl, rfl⟩
        have ih1 := fun ct1 h => ihl (base + 1) ct1 hwfl h
        have ih2 := fun ct2 h => ihr (base + 1 + countNodes (.node dl ll lr)) ct2 hwfr h
        rw [hidx]
        have hrows : preorderRows (.node data (.node dl ll lr) (.node dr rl rr)) base =
            [compactNodeAt base (.node data (.node dl ll lr) (.node dr rl rr))] ++
              preorderRows (.node dl ll lr) (base + 1) ++
              preorderRows (.node dr rl rr) (base + 1 + countNodes (.node dl ll lr)) := by
          simp [preorderRows]
        rw [hrows, writeRows_append, writeRows_append]
        generalize hL : (indexNodes (.node dl ll lr) (base + 1)).1 = L at hl1 ih1
        generalize hR : (indexNodes (.node dr rl rr) (base + 1 + countNodes (.node dl ll lr))).1
          = R at hr1 ih2
        obtain ⟨d1, a1, b1, rfl, hd1⟩ := hl1
        obtain ⟨d2, a2, b2, rfl, hd2⟩ := hr1
        rw [copyToCompact]
        simp only []
        rw [if_neg (by simp only [ge_iff_le, not_le]; omega)]
        have hrow0 : writeRows ct base
            [compactNodeAt base (.node data (.node dl ll lr) (.node dr rl rr))] =
            ct.assign base data.splitColIndex ((base + 1 : Nat) : Int)
              ((base + 1 + countNodes (.node dl ll lr) : Nat) : Int) data.toLessOrEqualIfNA
              data.splitValue.number := rfl
        rw [hrow0, hd1, hd2]
        generalize hct1 : ct.assign base data.splitColIndex ((base + 1 : Nat) : Int)
              ((base + 1 + countNodes (.node dl ll lr) : Nat) : Int) data.toLessOrEqualIfNA
              data.splitValue.number = ct1
        have hlen1 : ct1.value.length = ct.value.length := by
          rw [← hct1]
          simp [CompactTree.assign]
        rw [ih1 ct1 (by omega)]
        simp only []
        have hlenL : base + ([compactNodeAt base (.node data (.node dl ll lr) (.node dr rl rr))] ++
            preorderRows (.node dl ll lr) (base + 1)).length =
            base + 1 + countNodes (.node dl ll lr) := by
          rw [List.length_append, length_preorderRows, List.length_singleton]
          omega
        rw [hlenL]
        have hlen2 : (writeRows ct1 (base + 1) (preorderRows (.node dl ll lr) (base + 1))).value.length
            = ct.value.length := by
          rw [writeRows_value_length, hlen1]
        rw [ih2 _ (by omega)]
        rfl

theorem length_vecResize {α : Type} (v : List α) (n : Nat) (fill : α) :
    (vecResize v n fill).length = n := by
  simp only [vecResize, List.length_append, List.length_take, List.length_replicate]
  omega

/-- What `makeCompactTree` computes on a tree whose nodes have zero or two children: exactly
the pre-order rows, whatever the vectors held before. -/
theorem makeCompactTree_eq (ct0 : CompactTree) (root : TreeNode)
    (h : zeroOrTwoChildren root = true) :
    makeCompactTree ct0 root = .ok (CompactTree.ofRows (preorderRows root 0)) := by
  cases root with
  | null => simp [zeroOrTwoChildren] at h
  | node data l r =>
    have hcount := countNodes_indexNodes (.node data l r) 0
    have hrows := length_preorderRows (.node data l r) 0
    simp only [makeCompactTree, hcount]
    rw [copyToCompact_indexNodes (.node data l r) 0 _ h
      (by simp only [length_vecResize]; omega)]
    rw [writeRows_fields]
    simp only [CompactTree.ofRows]
    rw [setRange_all, setRange_all, setRange_all, setRange_all, setRange_all] <;>
      simp only [length_vecResize, List.length_map, hrows]

theorem length_preorder (t : TreeNode) : (preorder t).length = countNodes t := by
  induction t with
  | null => rfl
  | node data l r ihl ihr =>
    simp only [preorder, countNodes, List.length_cons, List.length_append, ihl, ihr]
    omega

theorem preorderRows_getElem? (t : TreeNode) : ∀ (base j : Nat),
    (preorderRows t base)[j]? = (preorder t)[j]?.map (compactNodeAt (base + j)) := by
  induction t with
  | null => intro base j; simp [preorderRows, preorder]
  | node data l r ihl ihr =>
    intro base j
    cases j with
    | zero => simp [preorderRows, preorder]
    | succ j =>
      simp only [preorderRows, preorder, List.getElem?_cons_succ]
      rw [List.getElem?_append, List.getElem?_append, length_preorderRows, length_preorder]
      by_cases hj : j < countNodes l
      · rw [if_pos hj, if_pos hj, ihl, show base + (j + 1) = base + 1 + j by omega]
      · rw [if_neg hj, if_neg hj, ihr,
          show base + (j + 1) = base + 1 + countNodes l + (j - countNodes l) by omega]

theorem preorder_sub (t : TreeNode) : ∀ (j : Nat) (sub : TreeNode),
    (preorder t)[j]? = some sub → zeroOrTwoChildren t = true →
      zeroOrTwoChildren sub = true ∧ j + countNodes sub ≤ countNodes t := by
  induction t with
  | null => intro j sub h; simp [preorder] at h
  | node data l r ihl ihr =>
    intro j sub hsub hwf
    cases j with
    | zero =>
      simp only [preorder, List.getElem?_cons_zero, Option.some.injEq] at hsub
      subst hsub
      exact ⟨hwf, by omega⟩
    | succ j =>
      simp only [preorder, List.getElem?_cons_succ] at hsub
      rw [List.getElem?_append, length_preorder] at hsub
      have hwf2 : zeroOrTwoChildren l = true ∧ zeroOrTwoChildren r = true := by
        cases l with
        | null =>
          by_cases hj : j < countNodes .null
          · simp [countNodes] at hj
          · cases r with
            | null => simp [preorder] at hsub
            | node dr rl rr => simp [zeroOrTwoChildren] at hwf
        | node dl ll lr =>
          cases r with
          | null => simp [zeroOrTwoChildren] at hwf
          | node dr rl rr =>
            simpa only [zeroOrTwoChildren, Bool.and_eq_true] using hwf
      by_cases hj : j < countNodes l
      · rw [if_pos hj] at hsub
        obtain ⟨h1, h2⟩ := ihl j sub hsub hwf2.1
        refine ⟨h1, ?_⟩
        simp only [countNodes]
        omega
      · rw [if_neg hj] at hsub
        obtain ⟨h1, h2⟩ := ihr _ sub hsub hwf2.2
        refine ⟨h1, ?_⟩
        simp only [countNodes]
        omega

theorem ofRows_row? (rows : List CompactNode) (j : Nat) :
    (CompactTree.ofRows rows).row? j = rows[j]? := by
  simp only [CompactTree.row?, CompactTree.ofRows, List.getElem?_map]
  cases rows[j]? <;> rfl

theorem preorder_indexNodes (t : TreeNode) : ∀ base,
    (preorder (indexNodes t base).1).map TreeNode.index = List.range' base (countNodes t) := by
  induction t with
  | null => intro base; rfl
  | node data l r ihl ihr =>
    intro base
    simp only [indexNodes, preorder, List.map_cons, List.map_append, ihl, ihr, indexNodes_snd,
      TreeNode.index, countNodes]
    rw [show 1 + countNodes l + countNodes r = (countNodes r + countNodes l) + 1 by omega,
      List.range'_succ, List.range'_append_1]

end Compact

section Predict

theorem vecGet_of_getElem? {α : Type} {v : List α} {index : Nat} {x : α}
    (h : v[index]? = some x) : vecGet v index = .ok x := by
  simp [vecGet, h]

theorem getElem?_of_vecGet {α : Type} {v : List α} {index : Nat} {x : α}
    (h : vecGet v index = .ok x) : v[index]? = some x := by
  unfold vecGet at h
  cases hv : v[index]? with
  | none => rw [hv] at h; simp at h
  | some y =>
    rw [hv] at h
    simp only [Except.ok.injEq] at h
    rw [h]

theorem vecSet_of_lt {α : Type} {v : List α} {index : Nat} (x : α) (h : index < v.length) :
    vecSet v index x = .ok (v.set index x) := by
  simp [vecSet, h]

theorem useLessOrEqual_eq (values : List (List Value)) (valueTypes : List ValueType)
    (selectColumnIndexes : List Nat) (tree : CompactTree) (row nodeIndex : Nat)
    (splitColIndex : Int) (col : Nat) (column : List Value) (compareValue : Value)
    (valueType : ValueType) (toLessOrEqualIfNA : Bool) (splitValue : Number)
    (hsplit : tree.splitColIndex[nodeIndex]? = some splitColIndex)
    (hsplit0 : 0 ≤ splitColIndex)
    (hcol : selectColumnIndexes[splitColIndex.toNat]? = some col)
    (hcolumn : values[col]? = some column)
    (hvalue : column[row]? = some compareValue)
    (htype : valueTypes[col]? = some valueType)
    (hto : tree.toLessOrEqualIfNA[nodeIndex]? = some toLessOrEqualIfNA)
    (hsv : tree.value[nodeIndex]? = some splitValue) :
    useLessOrEqual values valueTypes selectColumnIndexes tree values.length row nodeIndex =
      .ok (takesLessOrEqual compareValue valueType toLessOrEqualIfNA splitValue) := by
  have hlt : col < values.length := by
    by_contra hcon
    rw [List.getElem?_eq_none (by omega)] at hcolumn
    simp at hcolumn
  unfold useLessOrEqual
  simp only [vecGet_of_getElem? hsplit, vecGet_of_getElem? hcol, vecGet_of_getElem? hcolumn,
    vecGet_of_getElem? hvalue, vecGet_of_getElem? htype, vecGet_of_getElem? hto,
    vecGet_of_getElem? hsv, bind, Except.bind, pure, Except.pure]
  rw [if_neg (by omega), if_neg (by omega)]
  cases hna : compareValue.na <;> cases valueType <;> simp [takesLessOrEqual, hna]

theorem predictOneRoute_of_routesTo (values : List (List Value)) (valueTypes : List ValueType)
    (selectColumnIndexes : List Nat) (tree : CompactTree) (row : Nat)
    {nodeIndex leaf steps : Nat}
    (h : RoutesTo values valueTypes selectColumnIndexes tree row nodeIndex leaf steps) :
    ∀ fuel, steps < fuel →
      predictOneRoute values valueTypes selectColumnIndexes tree values.length row fuel nodeIndex
        = .ok leaf := by
  induction h with
  | leaf nodeIndex hleaf =>
    intro fuel hfuel
    obtain ⟨f, rfl⟩ : ∃ f, fuel = f + 1 := ⟨fuel - 1, by omega⟩
    simp [predictOneRoute, vecGet_of_getElem? hleaf, bind, Except.bind, pure, Except.pure]
  | move nodeIndex next leaf steps lessOrEqualIndex greaterOrNotIndex splitColIndex col column
      compareValue valueType toLessOrEqualIfNA splitValue hle hinternal hgt hsplit hsplit0 hcol
      hcolumn hvalue htype hto hsv hnext _ ih =>
    intro fuel hfuel
    obtain ⟨f, rfl⟩ : ∃ f, fuel = f + 1 := ⟨fuel - 1, by omega⟩
    have huse := useLessOrEqual_eq values valueTypes selectColumnIndexes tree row nodeIndex
      splitColIndex col column compareValue valueType toLessOrEqualIfNA splitValue hsplit hsplit0
      hcol hcolumn hvalue htype hto hsv
    rw [predictOneRoute]
    simp only [vecGet_of_getElem? hle, bind, Except.bind, pure, Except.pure, if_neg hinternal,
      huse]
    by_cases htest : takesLessOrEqual compareValue valueType toLessOrEqualIfNA splitValue = true
    · rw [if_pos htest] at hnext
      simp only [htest, if_true]
      have : indexToSize lessOrEqualIndex = .ok next := by
        unfold indexToSize
        rw [if_neg (by omega), ← hnext]
        simp
      simp only [this]
      exact ih f (by omega)
    · rw [if_neg htest] at hnext
      simp only [htest, Bool.false_eq_true, if_false, vecGet_of_getElem? hgt]
      have : indexToSize greaterOrNotIndex = .ok next := by
        unfold indexToSize
        rw [if_neg (by omega), ← hnext]
        simp
      simp only [this]
      exact ih f (by omega)

/-- The routing rule is deterministic: from a node it reaches at most one leaf. -/
theorem routesTo_unique (values : List (List Value)) (valueTypes : List ValueType)
    (selectColumnIndexes : List Nat) (tree : CompactTree) (row : Nat)
    {nodeIndex leaf₁ leaf₂ steps₁ steps₂ : Nat}
    (h₁ : RoutesTo values valueTypes selectColumnIndexes tree row nodeIndex leaf₁ steps₁)
    (h₂ : RoutesTo values valueTypes selectColumnIndexes tree row nodeIndex leaf₂ steps₂) :
    leaf₁ = leaf₂ := by
  have e1 := predictOneRoute_of_routesTo values valueTypes selectColumnIndexes tree row h₁
    (steps₁ + steps₂ + 1) (by omega)
  have e2 := predictOneRoute_of_routesTo values valueTypes selectColumnIndexes tree row h₂
    (steps₁ + steps₂ + 1) (by omega)
  rw [e1] at e2
  exact Except.ok.inj e2

theorem predictOneRows_spec (fuel : Nat) (values : List (List Value))
    (valueTypes : List ValueType) (selectColumnIndexes : List Nat) (tree : CompactTree)
    (numRows : Nat) : ∀ (rows : List Nat) (pv : List Value), pv.length = numRows →
    (∀ row ∈ rows, row < numRows ∧ ∃ leaf steps v,
      RoutesTo values valueTypes selectColumnIndexes tree row 0 leaf steps ∧ steps < fuel ∧
        tree.value[leaf]? = some v) →
    ∃ pv', predictOneRows fuel values valueTypes selectColumnIndexes tree values.length numRows
        rows pv = .ok pv' ∧ pv'.length = numRows ∧
      (∀ row ∈ rows, ∀ leaf steps,
        RoutesTo values valueTypes selectColumnIndexes tree row 0 leaf steps →
          ∃ v, tree.value[leaf]? = some v ∧ pv'[row]? = some ⟨v, false⟩) ∧
      (∀ j, j ∉ rows → pv'[j]? = pv[j]?) := by
  intro rows
  induction rows with
  | nil =>
    intro pv hlen _
    exact ⟨pv, rfl, hlen, fun row hrow => by simp at hrow, fun _ _ => rfl⟩
  | cons row rest ih =>
    intro pv hlen hall
    obtain ⟨hlt, leaf, steps, v, hroute, hsteps, hv⟩ := hall row (List.mem_cons_self _ _)
    have h1 := predictOneRoute_of_routesTo values valueTypes selectColumnIndexes tree row hroute
      fuel hsteps
    obtain ⟨pv', hpv', hlen', hset, hkeep⟩ := ih (pv.set row ⟨v, false⟩)
      (by rw [List.length_set]; exact hlen)
      (fun r hr => hall r (List.mem_cons_of_mem _ hr))
    refine ⟨pv', ?_, hlen', ?_, ?_⟩
    · rw [predictOneRows]
      simp only [bind, Except.bind, pure, Except.pure, h1, vecGet_of_getElem? hv]
      rw [if_neg (by omega)]
      simp only [vecSet_of_lt _ (show row < pv.length by omega)]
      exact hpv'
    · intro r hr leaf' steps' hroute'
      by_cases hmem : r ∈ rest
      · exact hset r hmem leaf' steps' hroute'
      · have hreq : r = row := by
          rw [List.mem_cons] at hr
          rcases hr with hr | hr
          · exact hr
          · exact absurd hr hmem
        subst hreq
        have hleaf := routesTo_unique values valueTypes selectColumnIndexes tree r hroute hroute'
        subst hleaf
        refine ⟨v, hv, ?_⟩
        rw [hkeep r hmem, List.getElem?_set]
        simp only [if_true]
        rw [if_pos (by omega)]
    · intro j hj
      rw [List.mem_cons, not_or] at hj
      rw [hkeep j hj.2]
      exact List.getElem?_set_ne (fun h => hj.1 h.symm)

theorem sample_routes : ∀ row ∈ sampleSelectRows.indexVector,
    row < (sampleValues.getD 0 []).length ∧ ∃ leaf steps v,
      RoutesTo sampleValues sampleValueTypes sampleSelectColumns.indexVector sampleCompactTree
        row 0 leaf steps ∧ steps < 3 ∧ sampleCompactTree.value[leaf]? = some v := by
  intro row hrow
  have hrows : row = 0 ∨ row = 1 ∨ row = 2 := by
    simp only [sampleSelectRows, SelectIndexes.create, SelectIndexes.indexVector, if_true,
      List.mem_range] at hrow
    omega
  rcases hrows with rfl | rfl | rfl
  · exact ⟨by decide, 2, 1, ⟨0, 1⟩,
      RoutesTo.move 0 2 2 0 1 2 0 0 _ _ .kCategorical true ⟨0, 1⟩ rfl (by decide) rfl rfl
        (by decide) rfl rfl rfl rfl rfl rfl (by decide) (RoutesTo.leaf 2 rfl),
      by decide, rfl⟩
  · exact ⟨by decide, 1, 1, ⟨0, 0⟩,
      RoutesTo.move 0 1 1 0 1 2 0 0 _ _ .kCategorical true ⟨0, 1⟩ rfl (by decide) rfl rfl
        (by decide) rfl rfl rfl rfl rfl rfl (by decide) (RoutesTo.leaf 1 rfl),
      by decide, rfl⟩
  · exact ⟨by decide, 1, 1, ⟨0, 0⟩,
      RoutesTo.move 0 1 1 0 1 2 0 0 _ _ .kCategorical true ⟨0, 1⟩ rfl (by decide) rfl rfl
        (by decide) rfl rfl rfl rfl rfl rfl (by decide) (RoutesTo.leaf 1 rfl),
      by decide, rfl⟩

theorem makeSortedIndexesLoop_ok (values : List (List Value)) (valueTypes : List ValueType)
    (columnIsSelected : List Bool) (h1 : values.length = valueTypes.length)
    (h2 : values.length = columnIsSelected.length) : ∀ (remaining col : Nat),
    col + remaining = values.length →
    ∃ sorted, makeSortedIndexesLoop values valueTypes columnIsSelected remaining col =
      .ok sorted := by
  intro remaining
  induction remaining with
  | zero => intro col _; exact ⟨[], rfl⟩
  | succ remaining ih =>
    intro col hcol
    obtain ⟨rest, hrest⟩ := ih (col + 1) (by omega)
    have hsel : ∃ b, columnIsSelected[col]? = some b :=
      ⟨_, List.getElem?_eq_getElem (by omega)⟩
    have hval : ∃ c, values[col]? = some c := ⟨_, List.getElem?_eq_getElem (by omega)⟩
    have hty : ∃ t, valueTypes[col]? = some t := ⟨_, List.getElem?_eq_getElem (by omega)⟩
    obtain ⟨b, hb⟩ := hsel
    obtain ⟨c, hc⟩ := hval
    obtain ⟨t, ht⟩ := hty
    rw [makeSortedIndexesLoop]
    simp only [vecGet_of_getElem? hb, vecGet_of_getElem? hc, vecGet_of_getElem? ht, hrest]
    cases b <;> simp

theorem makeSortedIndexes_ok (values : List (List Value)) (valueTypes : List ValueType)
    (selectColumns : SelectIndexes) (h0 : values ≠ []) (h1 : values.length = valueTypes.length)
    (h2 : values.length = selectColumns.boolVector.length) :
    ∃ sorted, makeSortedIndexes values valueTypes selectColumns = .ok sorted := by
  obtain ⟨sorted, hsorted⟩ := makeSortedIndexesLoop_ok values valueTypes selectColumns.boolVector
    h1 h2 values.length 0 (by omega)
  have hfirst : ∃ c, values[0]? = some c := by
    cases values with
    | nil => exact absurd rfl h0
    | cons c _ => exact ⟨c, List.getElem?_cons_zero⟩
  obtain ⟨c, hc⟩ := hfirst
  exact ⟨sorted, by simp only [makeSortedIndexes, vecGet_of_getElem? hc, hsorted]⟩

theorem votesFor_append_singleton (pvs : List (List Value)) (pv : List Value) (row : Nat)
    (c : Int) :
    votesFor (pvs ++ [pv]) row c =
      votesFor pvs row c + (if (pv.getD row gNaValue).number.i = c then 1 else 0) := by
  unfold votesFor
  rw [List.filter_append, List.length_append]
  by_cases h : (pv.getD row gNaValue).number.i = c
  · simp only [List.filter, h, decide_True, List.length_singleton, if_true]
    rfl
  · simp only [List.filter, h, decide_False, List.length_nil, if_false]
    rfl

theorem predictTally_spec (beginCategoryIndex : Int) (numCats : Nat) (pv : List Value) :
    ∀ (rows : List Nat) (counts : List (List Int)), rows.Nodup →
    (∀ row ∈ rows, ∃ v rc, pv[row]? = some v ∧ beginCategoryIndex ≤ v.number.i ∧
      v.number.i - beginCategoryIndex < (numCats : Int) ∧ counts[row]? = some rc ∧
      rc.length = numCats) →
    ∃ counts', predictTally beginCategoryIndex pv rows counts = .ok counts' ∧
      (∀ j, j ∉ rows → counts'[j]? = counts[j]?) ∧
      (∀ row ∈ rows, ∀ rc, counts[row]? = some rc →
        ∃ rc', counts'[row]? = some rc' ∧ rc'.length = rc.length ∧
          ∀ k, k < numCats → rc'[k]? = (rc[k]?).map (fun n =>
            n + (if (pv.getD row gNaValue).number.i = beginCategoryIndex + (k : Int)
              then 1 else 0))) := by
  intro rows
  induction rows with
  | nil =>
    intro counts _ _
    exact ⟨counts, rfl, fun _ _ => rfl, fun row hrow => by simp at hrow⟩
  | cons row rest ih =>
    intro counts hnd hall
    rw [List.nodup_cons] at hnd
    obtain ⟨v, rc, hv, hlo, hhi, hrc, hlen⟩ := hall row (List.mem_cons_self _ _)
    have hidx : (v.number.i - beginCategoryIndex).toNat < rc.length := by omega
    have hcount : ∃ n, rc[(v.number.i - beginCategoryIndex).toNat]? = some n :=
      ⟨_, List.getElem?_eq_getElem hidx⟩
    obtain ⟨n, hn⟩ := hcount
    have hrowlt : row < counts.length := by
      by_contra hcon
      rw [List.getElem?_eq_none (by omega)] at hrc
      simp at hrc
    obtain ⟨counts', hcounts', hkeep, hupd⟩ :=
      ih (counts.set row (rc.set (v.number.i - beginCategoryIndex).toNat (n + 1))) hnd.2
        (by
          intro r hr
          obtain ⟨v', rc', h1, h2, h3, h4, h5⟩ := hall r (List.mem_cons_of_mem _ hr)
          have hne : row ≠ r := fun h => hnd.1 (h ▸ hr)
          exact ⟨v', rc', h1, h2, h3, by rw [List.getElem?_set_ne hne]; exact h4, h5⟩)
    refine ⟨counts', ?_, ?_, ?_⟩
    · rw [predictTally]
      have : indexToSize (v.number.i - beginCategoryIndex) =
          .ok (v.number.i - beginCategoryIndex).toNat := by
        unfold indexToSize
        rw [if_neg (by omega)]
      simp only [bind, Except.bind, vecGet_of_getElem? hv, this, vecGet_of_getElem? hrc,
        vecGet_of_getElem? hn, vecSet_of_lt _ hidx, vecSet_of_lt _ hrowlt]
      exact hcounts'
    · intro j hj
      rw [List.mem_cons, not_or] at hj
      rw [hkeep j hj.2]
      exact List.getElem?_set_ne (fun h => hj.1 h.symm)
    · intro r hr rc0 hrc0
      rw [List.mem_cons] at hr
      by_cases hmem : r ∈ rest
      · have hne : row ≠ r := fun h => hnd.1 (h ▸ hmem)
        exact hupd r hmem rc0 (by rw [List.getElem?_set_ne hne]; exact hrc0)
      · have hreq : r = row := by
          rcases hr with hr | hr
          · exact hr
          · exact absurd hr hmem
        subst hreq
        rw [hrc] at hrc0
        simp only [Option.some.injEq] at hrc0
        subst hrc0
        refine ⟨rc.set (v.number.i - beginCategoryIndex).toNat (n + 1), ?_, ?_, ?_⟩
        · rw [hkeep r hmem, List.getElem?_set]
          simp only [if_true]
          rw [if_pos hrowlt]
        · rw [List.length_set]
        · intro k hk
          have hgetD : (pv.getD r gNaValue) = v := by
            rw [List.getD_eq_getElem?_getD, hv]
            rfl
          rw [hgetD, List.getElem?_set]
          by_cases hkeq : (v.number.i - beginCategoryIndex).toNat = k
          · rw [if_pos hkeq, if_pos hidx]
            rw [← hkeq, hn]
            simp only [Option.map_some', Option.some.injEq]
            rw [if_pos (by omega)]
          · rw [if_neg hkeq]
            have hklt : k < rc.length := by omega
            rw [List.getElem?_eq_getElem hklt]
            simp only [Option.map_some', Option.some.injEq]
            rw [if_neg (by omega)]
            omega

theorem predictTallyTrees_spec (fuel : Nat) (values : List (List Value))
    (valueTypes : List ValueType) (selectRows selectColumns : SelectIndexes)
    (beginCategoryIndex : Int) (numCats : Nat) (hnd : selectRows.indexVector.Nodup)
    {trees : List CompactTree} {pvs : List (List Value)}
    (hpvs : List.Forall₂ (fun tree pv =>
      predictOne fuel values valueTypes selectRows selectColumns tree [] = .ok pv) trees pvs) :
    ∀ (counts : List (List Int)) (done : List (List Value)),
    (∀ pv ∈ pvs, ∀ row ∈ selectRows.indexVector, ∃ v, pv[row]? = some v ∧
      beginCategoryIndex ≤ v.number.i ∧ v.number.i - beginCategoryIndex < (numCats : Int)) →
    TallyOf counts numCats beginCategoryIndex selectRows.indexVector done →
    ∃ counts', predictTallyTrees fuel values valueTypes selectRows selectColumns
        beginCategoryIndex trees counts = .ok counts' ∧
      TallyOf counts' numCats beginCategoryIndex selectRows.indexVector (done ++ pvs) := by
  induction hpvs with
  | nil =>
    intro counts done _ htally
    exact ⟨counts, rfl, by simpa using htally⟩
  | @cons tree pv trees pvs hone _ ih =>
    intro counts done hlevels htally
    obtain ⟨counts1, hcounts1, -, hupd⟩ := predictTally_spec beginCategoryIndex numCats pv
      selectRows.indexVector counts hnd (by
        intro row hrow
        obtain ⟨v, hv, h1, h2⟩ := hlevels pv (List.mem_cons_self _ _) row hrow
        obtain ⟨rc, hrc, hlen, -⟩ := htally row hrow
        exact ⟨v, rc, hv, h1, h2, hrc, hlen⟩)
    have htally1 : TallyOf counts1 numCats beginCategoryIndex selectRows.indexVector
        (done ++ [pv]) := by
      intro row hrow
      obtain ⟨rc, hrc, hlen, hvotes⟩ := htally row hrow
      obtain ⟨rc', hrc', hlen', hval⟩ := hupd row hrow rc hrc
      refine ⟨rc', hrc', by rw [hlen', hlen], ?_⟩
      intro k hk
      rw [hval k hk, hvotes k hk, votesFor_append_singleton]
      rfl
    obtain ⟨counts', hcounts', htally'⟩ := ih counts1 (done ++ [pv])
      (fun pv' hpv' => hlevels pv' (List.mem_cons_of_mem _ hpv')) htally1
    refine ⟨counts', ?_, ?_⟩
    · rw [predictTallyTrees]
      simp only [bind, Except.bind, hone, hcounts1]
      exact hcounts'
    · rw [List.append_assoc] at htally'
      exact htally'

theorem findCategoryForIndex_found (m : CategoryMaps) (c : Int) (h1 : m.beginIndex ≤ c)
    (h2 : c < m.endIndex) : m.getCategoryForIndex c = .ok (levelName m c) := by
  have hfound : (m.findCategoryForIndex c).1 = true := by
    unfold CategoryMaps.findCategoryForIndex
    unfold CategoryMaps.beginIndex at h1
    unfold CategoryMaps.endIndex at h2
    by_cases hna : m.useNaCategory = true
    · rw [if_pos hna] at h1
      by_cases hc : c = NO_INDEX
      · rw [if_pos ⟨hc, hna⟩]
      · rw [if_neg (fun h => hc h.1)]
        simp only [NO_INDEX] at h1 hc
        rw [if_pos ⟨by omega, h2⟩]
    · rw [if_neg hna] at h1
      rw [if_neg (fun h => hna h.2), if_pos ⟨h1, h2⟩]
  unfold CategoryMaps.getCategoryForIndex
  rw [if_pos hfound]
  rfl

theorem predictPick_spec (m : CategoryMaps) (beginCategoryIndex : Int) (rowCounts : List Int)
    (cnt : Int → Int) : ∀ (cats processed : List Int) (st : Value × Int),
    (∀ c ∈ cats, beginCategoryIndex ≤ c ∧
      rowCounts[(c - beginCategoryIndex).toNat]? = some (cnt c)) →
    (∀ c ∈ processed ++ cats, m.getCategoryForIndex c = .ok (levelName m c)) →
    PickInv m cnt processed st →
    ∃ st', predictPick m beginCategoryIndex rowCounts cats st = .ok st' ∧
      PickInv m cnt (processed ++ cats) st' := by
  intro cats
  induction cats with
  | nil =>
    intro processed st _ _ hinv
    exact ⟨st, rfl, by simpa using hinv⟩
  | cons c cats ih =>
    intro processed st hcats hnames hinv
    obtain ⟨cur, maxCount⟩ := st
    obtain ⟨hlo, hcnt⟩ := hcats c (List.mem_cons_self _ _)
    obtain ⟨h0, hmax, hpos⟩ := hinv
    simp only at h0 hmax hpos
    have hidx : indexToSize (c - beginCategoryIndex) = .ok (c - beginCategoryIndex).toNat := by
      unfold indexToSize
      rw [if_neg (by omega)]
    have hnamec : m.getCategoryForIndex c = .ok (levelName m c) :=
      hnames c (by simp)
    have hstep : ∀ st1 : Value × Int, PickInv m cnt (processed ++ [c]) st1 →
        ∃ st', predictPick m beginCategoryIndex rowCounts cats st1 = .ok st' ∧
          PickInv m cnt (processed ++ c :: cats) st' := by
      intro st1 hinv1
      have := ih (processed ++ [c]) st1 (fun c' hc' => hcats c' (List.mem_cons_of_mem _ hc'))
        (by simpa using hnames) hinv1
      simpa using this
    rw [predictPick]
    simp only [bind, Except.bind, hidx, vecGet_of_getElem? hcnt]
    by_cases hlt : maxCount < cnt c
    · rw [if_pos hlt]
      apply hstep
      refine ⟨by simp only; omega, ?_, ?_⟩
      · intro c' hc'
        simp only [List.mem_append, List.mem_singleton] at hc'
        rcases hc' with hc' | hc'
        · have := hmax c' hc'
          simp only
          omega
        · subst hc'
          exact le_refl _
      · intro _
        refine ⟨rfl, by simp, rfl, ?_⟩
        intro c' hc' heq
        simp only [List.mem_append, List.mem_singleton] at hc'
        rcases hc' with hc' | hc'
        · have := hmax c' hc'
          simp only at heq
          omega
        · subst hc'
          exact le_refl _
    · rw [if_neg hlt]
      by_cases htie : cnt c > 0 ∧ maxCount = cnt c
      · rw [if_pos htie]
        obtain ⟨hna, hmem, hcur, hmin⟩ := hpos (by omega)
        have hnamecur : m.getCategoryForIndex cur.number.i = .ok (levelName m cur.number.i) :=
          hnames _ (by simp [hmem])
        simp only [hnamec, hnamecur]
        by_cases hname : levelName m c < levelName m cur.number.i
        · rw [if_pos hname]
          apply hstep
          refine ⟨by simp only; omega, ?_, ?_⟩
          · intro c' hc'
            simp only [List.mem_append, List.mem_singleton] at hc'
            rcases hc' with hc' | hc'
            · have := hmax c' hc'
              simp only
              omega
            · subst hc'
              exact le_refl _
          · intro _
            refine ⟨rfl, by simp, rfl, ?_⟩
            intro c' hc' heq
            simp only [List.mem_append, List.mem_singleton] at hc'
            rcases hc' with hc' | hc'
            · simp only at heq
              exact le_trans (le_of_lt hname) (hmin c' hc' (by omega))
            · subst hc'
              exact le_refl _
        · rw [if_neg hname]
          apply hstep
          refine ⟨h0, ?_, ?_⟩
          · intro c' hc'
            simp only [List.mem_append, List.mem_singleton] at hc'
            rcases hc' with hc' | hc'
            · exact hmax c' hc'
            · subst hc'
              simp only
              omega
          · intro _
            refine ⟨hna, by simp [hmem], hcur, ?_⟩
            intro c' hc' heq
            simp only [List.mem_append, List.mem_singleton] at hc'
            rcases hc' with hc' | hc'
            · exact hmin c' hc' heq
            · subst hc'
              exact not_lt.mp hname
      · rw [if_neg htie]
        apply hstep
        refine ⟨h0, ?_, ?_⟩
        · intro c' hc'
          simp only [List.mem_append, List.mem_singleton] at hc'
          rcases hc' with hc' | hc'
          · exact hmax c' hc'
          · subst hc'
            simp only
            omega
        · intro hposm
          simp only at hposm
          obtain ⟨hna, hmem, hcur, hmin⟩ := hpos hposm
          refine ⟨hna, by simp [hmem], hcur, ?_⟩
          intro c' hc' heq
          simp only [List.mem_append, List.mem_singleton] at hc'
          rcases hc' with hc' | hc'
          · exact hmin c' hc' heq
          · subst hc'
            simp only at heq
            exfalso
            apply htie
            omega

theorem predictPickRows_spec (m : CategoryMaps) (beginCategoryIndex endCategoryIndex : Int)
    (counts : List (List Int)) (Q : Nat → Value → Prop) :
    ∀ (rows : List Nat) (pv : List Value), rows.Nodup →
    (∀ row ∈ rows, ∃ cur rc st, pv[row]? = some cur ∧ counts[row]? = some rc ∧
      predictPick m beginCategoryIndex rc
        (categoryIndexes beginCategoryIndex endCategoryIndex) (cur, 0) = .ok st ∧ Q row st.1) →
    ∃ pv', predictPickRows m beginCategoryIndex endCategoryIndex counts rows pv = .ok pv' ∧
      (∀ j, j ∉ rows → pv'[j]? = pv[j]?) ∧
      (∀ row ∈ rows, ∃ v, pv'[row]? = some v ∧ Q row v) := by
  intro rows
  induction rows with
  | nil =>
    intro pv _ _
    exact ⟨pv, rfl, fun _ _ => rfl, fun row hrow => by simp at hrow⟩
  | cons row rest ih =>
    intro pv hnd hall
    rw [List.nodup_cons] at hnd
    obtain ⟨cur, rc, st, hcur, hrc, hst, hq⟩ := hall row (List.mem_cons_self _ _)
    have hrowlt : row < pv.length := by
      by_contra hcon
      rw [List.getElem?_eq_none (by omega)] at hcur
      simp at hcur
    obtain ⟨pv', hpv', hkeep, hres⟩ := ih (pv.set row st.1) hnd.2 (by
      intro r hr
      obtain ⟨cur', rc', st', h1, h2, h3, h4⟩ := hall r (List.mem_cons_of_mem _ hr)
      have hne : row ≠ r := fun h => hnd.1 (h ▸ hr)
      exact ⟨cur', rc', st', by rw [List.getElem?_set_ne hne]; exact h1, h2, h3, h4⟩)
    refine ⟨pv', ?_, ?_, ?_⟩
    · rw [predictPickRows]
      simp only [bind, Except.bind, vecGet_of_getElem? hcur, vecGet_of_getElem? hrc, hst,
        vecSet_of_lt _ hrowlt]
      exact hpv'
    · intro j hj
      rw [List.mem_cons, not_or] at hj
      rw [hkeep j hj.2]
      exact List.getElem?_set_ne (fun h => hj.1 h.symm)
    · intro r hr
      rw [List.mem_cons] at hr
      by_cases hmem : r ∈ rest
      · exact hres r hmem
      · have hreq : r = row := by
          rcases hr with hr | hr
          · exact hr
          · exact absurd hr hmem
        subst hreq
        refine ⟨st.1, ?_, hq⟩
        rw [hkeep r hmem, List.getElem?_set]
        simp only [if_true]
        rw [if_pos hrowlt]

theorem mem_categoryIndexes {b e c : Int} : c ∈ categoryIndexes b e ↔ b ≤ c ∧ c < e := by
  unfold categoryIndexes
  rw [List.mem_map]
  constructor
  · rintro ⟨k, hk, rfl⟩
    rw [List.mem_range] at hk
    omega
  · rintro ⟨h1, h2⟩
    refine ⟨(c - b).toNat, ?_, ?_⟩
    · rw [List.mem_range]
      omega
    · omega

theorem votesFor_pos (pvs : List (List Value)) (pv : List Value) (row : Nat) (c : Int)
    (hmem : pv ∈ pvs) (hc : (pv.getD row gNaValue).number.i = c) : 0 < votesFor pvs row c := by
  unfold votesFor
  have : pv ∈ pvs.filter (fun pv => decide ((pv.getD row gNaValue).number.i = c)) := by
    rw [List.mem_filter]
    exact ⟨hmem, by simpa using hc⟩
  have hpos := List.length_pos_of_mem this
  omega

theorem countAllCategories_eq (m : CategoryMaps) :
    (m.endIndex - m.beginIndex).toNat = m.countAllCategories := by
  unfold CategoryMaps.endIndex CategoryMaps.beginIndex CategoryMaps.countAllCategories
  cases m.useNaCategory
  · simp
  · simp only [if_true, NO_INDEX]
    omega

theorem vote_predictions : List.Forall₂ (fun tree pv =>
    predictOne 1 (voteValues.set 2 (List.replicate 2 gNaValue)) voteValueTypes
      (SelectIndexes.create 2 true) voteSelectColumns tree [] = .ok pv)
    voteTrees votePredictions :=
  List.Forall₂.cons (by decide!) (List.Forall₂.cons (by decide!) List.Forall₂.nil)

theorem vote_levels : ∀ pv ∈ votePredictions,
    ∀ row ∈ (SelectIndexes.create 2 true).indexVector, ∃ v, pv[row]? = some v ∧
      (CategoryMaps.mk false ["F", "E"] [("F", 0), ("E", 1)]).beginIndex ≤ v.number.i ∧
      v.number.i < (CategoryMaps.mk false ["F", "E"] [("F", 0), ("E", 1)]).endIndex := by
  intro pv hpv row hrow
  have hrows : row = 0 ∨ row = 1 := by
    simp only [SelectIndexes.create, SelectIndexes.indexVector, if_true, List.mem_range] at hrow
    omega
  simp only [votePredictions, List.mem_cons, List.mem_singleton, List.not_mem_nil,
    or_false] at hpv
  rcases hpv with rfl | rfl <;> rcases hrows with rfl | rfl <;>
    exact ⟨_, rfl, by decide, by decide⟩

theorem predict_vote_spec (fuel : Nat) (values : List (List Value))
    (valueTypes : List ValueType) (categoryMaps : List CategoryMaps) (targetColumn : Nat)
    (selectRows selectColumns : SelectIndexes) (trees : List CompactTree)
    (targetValues : List Value) (targetMap : CategoryMaps) (pvs : List (List Value))
    (htarget : values[targetColumn]? = some targetValues)
    (hsizes : values.length = valueTypes.length ∧
      values.length = selectColumns.boolVector.length)
    (htype : valueTypes[targetColumn]? = some ValueType.kCategorical)
    (hmap : categoryMaps[targetColumn]? = some targetMap)
    (htrees : trees ≠ [])
    (hsel : selectRows.indexVector.Nodup ∧
      ∀ row ∈ selectRows.indexVector, row < targetValues.length)
    (hpvs : List.Forall₂ (fun tree pv =>
      predictOne fuel (values.set targetColumn (List.replicate targetValues.length gNaValue))
        valueTypes selectRows selectColumns tree [] = .ok pv) trees pvs)
    (hlevels : ∀ pv ∈ pvs, ∀ row ∈ selectRows.indexVector, ∃ v, pv[row]? = some v ∧
      targetMap.beginIndex ≤ v.number.i ∧ v.number.i < targetMap.endIndex) :
    ∃ result predictVector,
      predict fuel values valueTypes categoryMaps targetColumn selectRows selectColumns trees =
        .ok result ∧
      result[targetColumn]? = some predictVector ∧
      ∀ row ∈ selectRows.indexVector, ∃ v, predictVector[row]? = some v ∧ v.na = false ∧
        targetMap.beginIndex ≤ v.number.i ∧ v.number.i < targetMap.endIndex ∧
        (∀ c, targetMap.beginIndex ≤ c → c < targetMap.endIndex →
          votesFor pvs row c ≤ votesFor pvs row v.number.i ∧
          (votesFor pvs row c = votesFor pvs row v.number.i →
            levelName targetMap v.number.i ≤ levelName targetMap c)) ∧
        (∀ c, targetMap.beginIndex ≤ c → c < targetMap.endIndex →
          (∀ c', targetMap.beginIndex ≤ c' → c' < targetMap.endIndex →
            votesFor pvs row c' ≤ votesFor pvs row c ∧
            (votesFor pvs row c' = votesFor pvs row c →
              levelName targetMap c ≤ levelName targetMap c')) →
          levelName targetMap c = levelName targetMap v.number.i) := by
  obtain ⟨hnd, hrows⟩ := hsel
  have hne : values ≠ [] := by
    intro h
    rw [h] at htarget
    simp at htarget
  have htlt : targetColumn < values.length := by
    by_contra hcon
    rw [List.getElem?_eq_none (by omega)] at htarget
    simp at htarget
  obtain ⟨sorted, hsorted⟩ := makeSortedIndexes_ok values valueTypes selectColumns hne
    hsizes.1 hsizes.2
  -- the tally over the trees
  have htally0 : TallyOf
      (List.replicate targetValues.length (List.replicate targetMap.countAllCategories (0 : Int)))
      targetMap.countAllCategories targetMap.beginIndex selectRows.indexVector [] := by
    intro row hrow
    refine ⟨List.replicate targetMap.countAllCategories 0, ?_, by simp, ?_⟩
    · rw [List.getElem?_replicate, if_pos (hrows row hrow)]
    · intro k hk
      rw [List.getElem?_replicate, if_pos hk]
      rfl
  obtain ⟨counts1, hcounts1, htally⟩ := predictTallyTrees_spec fuel
    (values.set targetColumn (List.replicate targetValues.length gNaValue)) valueTypes
    selectRows selectColumns targetMap.beginIndex targetMap.countAllCategories hnd hpvs _ []
    (by
      intro pv hpv row hrow
      obtain ⟨v, hv, h1, h2⟩ := hlevels pv hpv row hrow
      have := countAllCategories_eq targetMap
      exact ⟨v, hv, h1, by omega⟩)
    htally0
  rw [List.nil_append] at htally
  -- the pick for each row
  have hnames : ∀ c ∈ categoryIndexes targetMap.beginIndex targetMap.endIndex,
      targetMap.getCategoryForIndex c = .ok (levelName targetMap c) := by
    intro c hc
    rw [mem_categoryIndexes] at hc
    exact findCategoryForIndex_found targetMap c hc.1 hc.2
  obtain ⟨pv1, hpv1, -, hres⟩ := predictPickRows_spec targetMap targetMap.beginIndex
    targetMap.endIndex counts1
    (fun row v => PickInv targetMap (votesFor pvs row)
      (categoryIndexes targetMap.beginIndex targetMap.endIndex) (v, votesFor pvs row v.number.i) ∧
        0 < votesFor pvs row v.number.i)
    selectRows.indexVector (List.replicate targetValues.length gNaValue) hnd (by
      intro row hrow
      obtain ⟨rc, hrc, hlen, hvotes⟩ := htally row hrow
      obtain ⟨st, hst, hinv⟩ := predictPick_spec targetMap targetMap.beginIndex rc
        (votesFor pvs row) (categoryIndexes targetMap.beginIndex targetMap.endIndex) []
        (gNaValue, 0)
        (by
          intro c hc
          rw [mem_categoryIndexes] at hc
          have hcat := countAllCategories_eq targetMap
          refine ⟨hc.1, ?_⟩
          rw [hvotes _ (by omega)]
          congr 2
          omega)
        (by simpa using hnames)
        ⟨le_refl _, fun c hc => by simp at hc, fun h => absurd h (lt_irrefl _)⟩
      rw [List.nil_append] at hinv
      -- some level has a vote, so the maximum is positive
      obtain ⟨tree, trees', rfl⟩ := List.exists_cons_of_ne_nil htrees
      cases hpvs with
      | cons hone hrest =>
        rename_i pv pvs'
        obtain ⟨v, hv, h1, h2⟩ := hlevels pv (List.mem_cons_self _ _) row hrow
        have hgetD : (pv.getD row gNaValue).number.i = v.number.i := by
          rw [List.getD_eq_getElem?_getD, hv]
          rfl
        have hpos := votesFor_pos (pv :: pvs') pv row v.number.i (List.mem_cons_self _ _) hgetD
        obtain ⟨h0, hmax, hposinv⟩ := hinv
        have hmaxv := hmax v.number.i (mem_categoryIndexes.mpr ⟨h1, h2⟩)
        have hstpos : 0 < st.2 := by omega
        obtain ⟨ha, hb, hc, hd⟩ := hposinv hstpos
        refine ⟨gNaValue, rc, st, ?_, hrc, hst, ?_, ?_⟩
        · rw [List.getElem?_replicate, if_pos (hrows row hrow)]
        · rw [hc]
          exact ⟨h0, hmax, hposinv⟩
        · rw [hc]
          exact hstpos)
  refine ⟨values.set targetColumn pv1, pv1, ?_, ?_, ?_⟩
  · unfold predict
    simp only [bind, Except.bind, pure, Except.pure, vecGet_of_getElem? htarget,
      vecGet_of_getElem? htype, vecGet_of_getElem? hmap, hsorted]
    rw [if_neg (by simpa using hsizes.1), if_neg (by simpa using hsizes.2)]
    simp only [hcounts1, hpv1]
  · rw [List.getElem?_set]
    simp only [if_true]
    rw [if_pos htlt]
  · intro row hrow
    obtain ⟨v, hv, ⟨-, hmax, hposinv⟩, hpos⟩ := hres row hrow
    obtain ⟨hna, hmem, -, hmin⟩ := hposinv hpos
    rw [mem_categoryIndexes] at hmem
    refine ⟨v, hv, hna, hmem.1, hmem.2, ?_, ?_⟩
    · intro c h1 h2
      exact ⟨hmax c (mem_categoryIndexes.mpr ⟨h1, h2⟩),
        fun heq => hmin c (mem_categoryIndexes.mpr ⟨h1, h2⟩) heq⟩
    · intro c h1 h2 hbest
      have hcv := hbest v.number.i hmem.1 hmem.2
      have hvc := hmax c (mem_categoryIndexes.mpr ⟨h1, h2⟩)
      have heq : votesFor pvs row c = votesFor pvs row v.number.i := le_antisymm hvc hcv.1
      exact le_antisymm (hcv.2 heq.symm) (hmin c (mem_categoryIndexes.mpr ⟨h1, h2⟩) heq)

end Predict

section Floor

variable {minLeafCount : Int} {values : List (List Value)} {valueTypes : List ValueType}
  {selectColumnIndexes : List Nat}

theorem leafRows_floor :
    ∀ (t : TreeNode) (rows : List Nat),
      ChildFloor minLeafCount values valueTypes selectColumnIndexes t rows →
      (isLeaf t = true → minLeafCount ≤ (rows.length : Int)) →
      ∀ r ∈ leafRows values valueTypes selectColumnIndexes t rows,
        minLeafCount ≤ (r.length : Int)
  | .null, _, _, _ => by intro r hr; simp [leafRows] at hr
  | .node _ .null _, rows, _, hleaf => by
    intro r hr
    simp only [leafRows, List.mem_singleton] at hr
    subst hr
    exact hleaf (by simp [isLeaf])
  | .node data (.node lessOrEqualData l1 l2) greaterOrNotNode, rows, hfloor, _ => by
    intro r hr
    simp only [ChildFloor] at hfloor
    obtain ⟨h1, h2, _, h4, h5⟩ := hfloor
    simp only [leafRows, List.mem_append] at hr
    rcases hr with hr | hr
    · exact leafRows_floor _ _ h4 (fun _ => h1) r hr
    · exact leafRows_floor _ _ h5 (fun _ => h2) r hr

theorem cell_getD {values : List (List Value)} {col row : Nat} {v : Value}
    (h : cell values col row = .ok v) : (values.getD col []).getD row gNaValue = v := by
  unfold cell vecGet at h
  cases hc : values[col]? with
  | none => simp [hc] at h
  | some column =>
    simp only [hc] at h
    cases hr : column[row]? with
    | none => simp [hr] at h
    | some w =>
      simp only [hr, Except.ok.injEq] at h
      subst h
      simp [List.getD_eq_getElem?_getD, hc, hr]

theorem vecGet_getD {α : Type} {l : List α} {i : Nat} {x d : α} (h : vecGet l i = .ok x) :
    l.getD i d = x := by
  unfold vecGet at h
  cases hc : l[i]? with
  | none => simp [hc] at h
  | some y =>
    simp only [hc, Except.ok.injEq] at h
    subst h
    simp [List.getD_eq_getElem?_getD, hc]

theorem select_new {n : Nat} {s s1 : SelectIndexes} {r : Nat} (hs : SelOK n s)
    (hr : r ∉ s.indexes) (h : s.select r = .ok s1) :
    s1.indexes = s.indexes ++ [r] ∧ SelOK n s1 := by
  unfold SelectIndexes.select at h
  by_cases hlen : r ≥ s.bitMap.length
  · simp [hlen] at h
  · rw [if_neg hlen] at h
    have hfalse : s.bitMap.getD r false = false := by
      cases hb : s.bitMap.getD r false with
      | false => rfl
      | true => exact absurd ((hs.2 r).1 hb) hr
    rw [if_pos hfalse] at h
    simp only [Except.ok.injEq] at h
    subst h
    refine ⟨rfl, ?_, ?_⟩
    · simpa using hs.1
    · intro r1
      simp only [List.mem_append, List.mem_singleton]
      by_cases h1 : r1 = r
      · subst h1
        have : r1 < s.bitMap.length := by omega
        simp [List.getD_eq_getElem?_getD, List.getElem?_set, this]
      · have := hs.2 r1
        simp only [List.getD_eq_getElem?_getD] at this ⊢
        rw [List.getElem?_set_ne (fun h2 => h1 h2.symm)]
        simp [this, h1]

theorem countRow_counts (t : ValueType) (c : Value) (child : NodeData) :
    (countRow t c child).leafLessOrEqualCount + (countRow t c child).leafGreaterOrNotCount =
      child.leafLessOrEqualCount + child.leafGreaterOrNotCount + 1 ∧
    (countRow t c child).selectRows = child.selectRows := by
  unfold countRow
  cases t with
  | kCategorical =>
    by_cases h : c.number.i = child.leafValue.number.i
    · simp only [h, if_true]; exact ⟨by ring, trivial⟩
    · simp only [h, if_false]; exact ⟨by ring, trivial⟩
  | kNumeric =>
    by_cases h : c.number.d ≤ child.leafValue.number.d
    · simp only [h, if_true]; exact ⟨by ring, trivial⟩
    · simp only [h, if_false]; exact ⟨by ring, trivial⟩

theorem distributeRows_spec {n : Nat} (targetValueType : ValueType) (values : List (List Value))
    (valueTypes : List ValueType) (col targetColumn : Nat) (splitValue : Value)
    (colType : ValueType) (hct : vecGet valueTypes col = .ok colType) :
    ∀ (rs : List Nat) (le gt le1 gt1 : NodeData),
      rs.Nodup → (∀ r ∈ rs, r ∉ le.selectRows.indexes ∧ r ∉ gt.selectRows.indexes) →
      SelOK n le.selectRows → SelOK n gt.selectRows →
      distributeRows targetValueType values valueTypes col targetColumn splitValue rs (le, gt) =
        .ok (le1, gt1) →
      le1.selectRows.indexes = le.selectRows.indexes ++
        rs.filter (fun row => isLessOrEqual colType splitValue
          ((values.getD col []).getD row gNaValue)) ∧
      gt1.selectRows.indexes = gt.selectRows.indexes ++
        rs.filter (fun row => !isLessOrEqual colType splitValue
          ((values.getD col []).getD row gNaValue)) ∧
      le1.leafLessOrEqualCount + le1.leafGreaterOrNotCount =
        le.leafLessOrEqualCount + le.leafGreaterOrNotCount +
          ((rs.filter (fun row => isLessOrEqual colType splitValue
            ((values.getD col []).getD row gNaValue))).length : Int) ∧
      gt1.leafLessOrEqualCount + gt1.leafGreaterOrNotCount =
        gt.leafLessOrEqualCount + gt.leafGreaterOrNotCount +
          ((rs.filter (fun row => !isLessOrEqual colType splitValue
            ((values.getD col []).getD row gNaValue))).length : Int) := by
  intro rs
  induction rs with
  | nil =>
    intro le gt le1 gt1 _ _ _ _ h
    simp only [distributeRows, Except.ok.injEq, Prod.mk.injEq] at h
    obtain ⟨h1, h2⟩ := h
    subst h1; subst h2
    simp
  | cons row rest ih =>
    intro le gt le1 gt1 hnd hnot hle hgt h
    have hnd1 : rest.Nodup := (List.nodup_cons.1 hnd).2
    have hrow : row ∉ rest := (List.nodup_cons.1 hnd).1
    simp only [distributeRows, hct] at h
    cases hc : cell values col row with
    | error e => simp [hc] at h
    | ok v =>
      simp only [hc] at h
      have hv := cell_getD hc
      by_cases hgo : isLessOrEqual colType splitValue v = true
      · rw [if_pos hgo] at h
        cases hsel : le.selectRows.select row with
        | error e => simp [hsel] at h
        | ok s =>
          simp only [hsel] at h
          cases htc : cell values targetColumn row with
          | error e => simp [htc] at h
          | ok targetCell =>
            simp only [htc] at h
            obtain ⟨hs1, hs2⟩ := select_new hle (hnot row (List.mem_cons_self _ _)).1 hsel
            have hcr := countRow_counts targetValueType targetCell { le with selectRows := s }
            have := ih _ _ le1 gt1 hnd1
              (by
                intro r hr
                have := hnot r (List.mem_cons_of_mem _ hr)
                refine ⟨?_, this.2⟩
                rw [hcr.2]
                show r ∉ s.indexes
                rw [hs1]
                simp only [List.mem_append, List.mem_singleton, not_or]
                exact ⟨this.1, fun h2 => hrow (h2 ▸ hr)⟩)
              (by rw [hcr.2]; exact hs2) hgt h
            obtain ⟨a1, a2, a3, a4⟩ := this
            rw [hcr.2] at a1
            simp only [List.filter_cons, hv, hgo, if_true, Bool.not_true, Bool.false_eq_true,
              if_false, List.length_cons]
            refine ⟨?_, a2, ?_, a4⟩
            · rw [a1]; show s.indexes ++ _ = _; rw [hs1]; simp
            · rw [a3, hcr.1]; show le.leafLessOrEqualCount + le.leafGreaterOrNotCount + 1 + _ = _
              push_cast; ring
      · rw [if_neg hgo] at h
        have hgo1 : isLessOrEqual colType splitValue v = false := by
          cases hb : isLessOrEqual colType splitValue v with
          | false => rfl
          | true => exact absurd hb hgo
        cases hsel : gt.selectRows.select row with
        | error e => simp [hsel] at h
        | ok s =>
          simp only [hsel] at h
          cases htc : cell values targetColumn row with
          | error e => simp [htc] at h
          | ok targetCell =>
            simp only [htc] at h
            obtain ⟨hs1, hs2⟩ := select_new hgt (hnot row (List.mem_cons_self _ _)).2 hsel
            have hcr := countRow_counts targetValueType targetCell { gt with selectRows := s }
            have := ih _ _ le1 gt1 hnd1
              (by
                intro r hr
                have := hnot r (List.mem_cons_of_mem _ hr)
                refine ⟨this.1, ?_⟩
                rw [hcr.2]
                show r ∉ s.indexes
                rw [hs1]
                simp only [List.mem_append, List.mem_singleton, not_or]
                exact ⟨this.2, fun h2 => hrow (h2 ▸ hr)⟩)
              hle (by rw [hcr.2]; exact hs2) h
            obtain ⟨a1, a2, a3, a4⟩ := this
            rw [hcr.2] at a2
            simp only [List.filter_cons, hv, hgo1, Bool.false_eq_true, if_false, Bool.not_false,
              if_true, List.length_cons]
            refine ⟨a1, ?_, a3, ?_⟩
            · rw [a2]; show s.indexes ++ _ = _; rw [hs1]; simp
            · rw [a4, hcr.1]; show gt.leafLessOrEqualCount + gt.leafGreaterOrNotCount + 1 + _ = _
              push_cast; ring

theorem selOK_clear (s : SelectIndexes) (numRows : Nat) :
    SelOK numRows (SelectIndexes.clear s numRows) := by
  refine ⟨by simp [SelectIndexes.clear], ?_⟩
  intro r
  simp only [SelectIndexes.clear, List.getD_eq_getElem?_getD, List.not_mem_nil, iff_false]
  by_cases h : r < numRows
  · simp [List.getElem?_replicate, h]
  · simp [List.getElem?_replicate, h]

theorem makeSplit_spec {targetValueType : ValueType} {values : List (List Value)}
    {valueTypes : List ValueType} {selectColumnIndexes subsetIndexes : List Nat}
    {targetColumn : Nat} {minLeafCount : Int} {imputedValues : List Value} {numRows : Nat}
    {splits : List ColumnSplit} {best : BestColumn} {data : NodeData}
    {lessOrEqualNode greaterOrNotNode : TreeNode} {gNextIndex : Nat}
    {res : Bool × TreeNode × Nat} (hnd : data.selectRows.indexes.Nodup)
    (h : makeSplit targetValueType values valueTypes selectColumnIndexes subsetIndexes
      targetColumn minLeafCount imputedValues numRows splits best data lessOrEqualNode
      greaterOrNotNode gNextIndex = .ok res) :
    SplitOutcome minLeafCount values valueTypes selectColumnIndexes data lessOrEqualNode
      greaterOrNotNode res := by
  unfold makeSplit at h
  cases hsp : vecGet splits best.bestSiIndex with
  | error e => simp [hsp] at h
  | ok split =>
    cases hsi : vecGet subsetIndexes best.bestSiIndex with
    | error e => simp [hsp, hsi] at h
    | ok splitColIndex =>
      simp only [hsp, hsi] at h
      cases hcol : vecGet selectColumnIndexes splitColIndex with
      | error e => simp [hcol] at h
      | ok col =>
        simp only [hcol] at h
        cases hd : distributeRows targetValueType values valueTypes col targetColumn
            split.splitValue data.selectRows.indexVector
            (newLeaf split.lessOrEqualValue numRows gNextIndex,
              newLeaf split.greaterOrNotValue numRows (gNextIndex + 1)) with
        | error e => simp [hd] at h
        | ok pair =>
          obtain ⟨ld, gd⟩ := pair
          simp only [hd] at h
          by_cases hcount :
              ld.leafLessOrEqualCount + ld.leafGreaterOrNotCount ≥ minLeafCount ∧
                gd.leafLessOrEqualCount + gd.leafGreaterOrNotCount ≥ minLeafCount
          · rw [if_pos hcount] at h
            cases himp : vecGet imputedValues col with
            | error e => simp [himp] at h
            | ok imputed =>
              cases hct : vecGet valueTypes col with
              | error e => simp [himp, hct] at h
              | ok colType =>
                simp only [himp, hct, Except.ok.injEq] at h
                subst h
                have hspec := distributeRows_spec targetValueType values valueTypes col
                  targetColumn split.splitValue colType hct data.selectRows.indexVector _ _ ld gd
                  hnd (by intro r _; simp [newLeaf, SelectIndexes.clear])
                  (selOK_clear ⟨[], [], 0⟩ numRows) (selOK_clear ⟨[], [], 0⟩ numRows) hd
                obtain ⟨a1, a2, a3, a4⟩ := hspec
                have hgoes : ∀ row, goesLessOrEqual values valueTypes selectColumnIndexes
                    { data with splitValue := split.splitValue
                                splitColIndex := (splitColIndex : Int)
                                toLessOrEqualIfNA :=
                                  (!imputed.na && isLessOrEqual colType split.splitValue imputed) }
                    row = isLessOrEqual colType split.splitValue
                      ((values.getD col []).getD row gNaValue) := by
                  intro row
                  simp only [goesLessOrEqual, Int.toNat_ofNat]
                  rw [vecGet_getD hcol, vecGet_getD hct]
                right
                refine ⟨rfl, _, ld, gd, rfl, rfl, ?_, ?_, ?_, ?_⟩
                · simp only [hgoes]
                  simpa [newLeaf, SelectIndexes.clear, SelectIndexes.indexVector] using a1
                · simp only [hgoes]
                  simpa [newLeaf, SelectIndexes.clear, SelectIndexes.indexVector] using a2
                · simp only [hgoes]
                  have := hcount.1
                  rw [a3] at this
                  simpa [newLeaf, SelectIndexes.indexVector] using this
                · simp only [hgoes]
                  have := hcount.2
                  rw [a4] at this
                  simpa [newLeaf, SelectIndexes.indexVector] using this
          · rw [if_neg hcount] at h
            simp only [Except.ok.injEq] at h
            subst h
            left
            exact ⟨rfl, rfl⟩

theorem improveImperfectLeaf_spec {libm : Libm} {data : NodeData}
    {lessOrEqualNode greaterOrNotNode : TreeNode} {ancestors : List Int}
    {subsetIndexes : List Nat} {values : List (List Value)} {valueTypes : List ValueType}
    {categoryMaps : List CategoryMaps} {selectColumns : SelectIndexes} {targetColumn : Nat}
    {sortedIndexes : List (List Nat)} {minImprovement : ℚ}
    {minLeafCount maxSplitsPerNumericAttribute : Int} {imputedValues : List Value}
    {gNextIndex : Nat} {res : Bool × TreeNode × Nat} (hnd : data.selectRows.indexes.Nodup)
    (h : improveImperfectLeaf libm (.node data lessOrEqualNode greaterOrNotNode) ancestors
      subsetIndexes values valueTypes categoryMaps selectColumns targetColumn sortedIndexes
      minImprovement minLeafCount maxSplitsPerNumericAttribute imputedValues gNextIndex =
        .ok res) :
    SplitOutcome minLeafCount values valueTypes selectColumns.indexVector data lessOrEqualNode
      greaterOrNotNode res := by
  unfold improveImperfectLeaf at h
  simp only [] at h
  cases ht : vecGet valueTypes targetColumn with
  | error e => simp [ht] at h
  | ok targetValueType =>
    cases hv : vecGet values 0 with
    | error e => simp [ht, hv] at h
    | ok firstColumn =>
      simp only [ht, hv] at h
      cases hcs : columnSplits libm data.selectRows ancestors values valueTypes categoryMaps
          selectColumns.indexVector targetColumn sortedIndexes maxSplitsPerNumericAttribute
          targetValueType firstColumn.length subsetIndexes with
      | error e => simp [hcs] at h
      | ok splits =>
        simp only [hcs] at h
        cases hp : pickBestColumn splits with
        | error e => simp [hp] at h
        | ok best =>
          simp only [hp] at h
          cases hti : testImprovement libm targetValueType values valueTypes categoryMaps
              selectColumns.indexVector subsetIndexes targetColumn data.selectRows
              minImprovement best with
          | error e => simp [hti] at h
          | ok improved =>
            cases improved with
            | true =>
              simp only [hti] at h
              exact makeSplit_spec hnd h
            | false =>
              simp only [hti, Except.ok.injEq] at h
              subst h
              left
              exact ⟨rfl, rfl⟩

theorem improveLeaf_spec {libm : Libm} {data : NodeData}
    {lessOrEqualNode greaterOrNotNode : TreeNode} {ancestors : List Int}
    {subsetIndexes : List Nat} {values : List (List Value)} {valueTypes : List ValueType}
    {categoryMaps : List CategoryMaps} {selectColumns : SelectIndexes} {targetColumn : Nat}
    {sortedIndexes : List (List Nat)} {minImprovement : ℚ}
    {minLeafCount maxSplitsPerNumericAttribute : Int} {imputedValues : List Value}
    {gNextIndex : Nat} {res : Bool × TreeNode × Nat} (hnd : data.selectRows.indexes.Nodup)
    (h : improveLeaf libm (.node data lessOrEqualNode greaterOrNotNode) ancestors
      subsetIndexes values valueTypes categoryMaps selectColumns targetColumn sortedIndexes
      minImprovement minLeafCount maxSplitsPerNumericAttribute imputedValues gNextIndex =
        .ok res) :
    SplitOutcome minLeafCount values valueTypes selectColumns.indexVector data lessOrEqualNode
      greaterOrNotNode res := by
  unfold improveLeaf at h
  simp only [] at h
  cases ht : vecGet valueTypes targetColumn with
  | error e => simp [ht] at h
  | ok targetValueType =>
    simp only [ht] at h
    split at h
    · simp only [Except.ok.injEq] at h
      subst h
      left
      exact ⟨rfl, rfl⟩
    · exact improveImperfectLeaf_spec hnd h

theorem improveSubtree_floor {libm : Libm} {maxDepth maxNodes : Int} {subsetIndexes : List Nat}
    {values : List (List Value)} {valueTypes : List ValueType}
    {categoryMaps : List CategoryMaps} {selectColumns : SelectIndexes} {targetColumn : Nat}
    {sortedIndexes : List (List Nat)} {minImprovement : ℚ}
    {minLeafCount maxSplitsPerNumericAttribute : Int} {imputedValues : List Value} :
    ∀ (fuel : Nat) (data : NodeData) (ancestors : List Int) (depth : Int) (st : GrowState)
      (t : TreeNode) (st1 : GrowState),
      data.selectRows.indexes.Nodup →
      improveSubtree libm maxDepth maxNodes subsetIndexes values valueTypes categoryMaps
        selectColumns targetColumn sortedIndexes minImprovement minLeafCount
        maxSplitsPerNumericAttribute imputedValues fuel (.node data .null .null) ancestors depth
        st = .ok (t, st1) →
      t ≠ .null ∧ ChildFloor minLeafCount values valueTypes selectColumns.indexVector t
        data.selectRows.indexes := by
  intro fuel
  induction fuel with
  | zero =>
    intro data ancestors depth st t st1 _ h
    rw [improveSubtree] at h
    split at h
    · simp at h
    · simp only [Except.ok.injEq, Prod.mk.injEq] at h
      obtain ⟨h1, _⟩ := h
      subst h1
      exact ⟨by simp, by simp [ChildFloor]⟩
  | succ fuel ih =>
    intro data ancestors depth st t st1 hnd h
    rw [improveSubtree] at h
    split at h
    · simp only [] at h
      cases hil : improveLeaf libm (.node data .null .null) ancestors subsetIndexes values
          valueTypes categoryMaps selectColumns targetColumn sortedIndexes minImprovement
          minLeafCount maxSplitsPerNumericAttribute imputedValues st.gNextIndex with
      | error e => simp [hil] at h
      | ok res =>
        have hspec := improveLeaf_spec hnd hil
        obtain ⟨b, t0, g0⟩ := res
        rcases hspec with ⟨hb, ht0⟩ | ⟨hb, data1, ld, gd, ht0, hsel, hl, hg, hcl, hcg⟩
        · simp only at hb ht0
          subst hb; subst ht0
          simp only [hil, Except.ok.injEq, Prod.mk.injEq] at h
          obtain ⟨h1, _⟩ := h
          subst h1
          exact ⟨by simp, by simp [ChildFloor]⟩
        · simp only at hb ht0
          subst hb; subst ht0
          simp only [hil] at h
          have hndl : ld.selectRows.indexes.Nodup := by rw [hl]; exact hnd.filter _
          have hndg : gd.selectRows.indexes.Nodup := by rw [hg]; exact hnd.filter _
          cases hrl : improveSubtree libm maxDepth maxNodes subsetIndexes values valueTypes
              categoryMaps selectColumns targetColumn sortedIndexes minImprovement minLeafCount
              maxSplitsPerNumericAttribute imputedValues fuel (.node ld .null .null)
              (data1.splitColIndex :: ancestors) (depth + 1)
              ⟨g0, if st.maxDepthUsed < depth + 1 then depth + 1 else st.maxDepthUsed,
                st.finalLeafCount⟩ with
          | error e => simp [hrl] at h
          | ok r1 =>
            obtain ⟨l1, st2⟩ := r1
            simp only [hrl] at h
            cases hrg : improveSubtree libm maxDepth maxNodes subsetIndexes values valueTypes
                categoryMaps selectColumns targetColumn sortedIndexes minImprovement
                minLeafCount maxSplitsPerNumericAttribute imputedValues fuel
                (.node gd .null .null) (data1.splitColIndex :: ancestors) (depth + 1) st2 with
            | error e => simp [hrg] at h
            | ok r2 =>
              obtain ⟨g1, st3⟩ := r2
              simp only [hrg, Except.ok.injEq, Prod.mk.injEq] at h
              obtain ⟨h1, _⟩ := h
              subst h1
              obtain ⟨hl1, hfl⟩ := ih _ _ _ _ _ _ hndl hrl
              obtain ⟨hg1, hfg⟩ := ih _ _ _ _ _ _ hndg hrg
              refine ⟨by simp, ?_⟩
              cases l1 with
              | null => exact absurd rfl hl1
              | node d1 a1 a2 =>
                simp only [ChildFloor]
                rw [hl] at hfl
                rw [hg] at hfg
                exact ⟨hcl, hcg, hg1, hfl, hfg⟩
    · simp only [Except.ok.injEq, Prod.mk.injEq] at h
      obtain ⟨h1, _⟩ := h
      subst h1
      exact ⟨by simp, by simp [ChildFloor]⟩

theorem rootStatistics_selectRows (targetValueType : ValueType) (values : List (List Value))
    (targetColumn : Nat) :
    ∀ (rows : List Nat) (root root1 : NodeData),
      rootStatistics targetValueType values targetColumn rows root = .ok root1 →
      root1.selectRows = root.selectRows := by
  intro rows
  induction rows with
  | nil =>
    intro root root1 h
    simp only [rootStatistics, Except.ok.injEq] at h
    rw [h]
  | cons row rest ih =>
    intro root root1 h
    simp only [rootStatistics] at h
    cases hc : cell values targetColumn row with
    | error e => simp [hc] at h
    | ok targetCell =>
      simp only [hc] at h
      rw [ih _ _ h, (countRow_counts targetValueType targetCell root).2]

theorem growTree_floor {libm : Libm} {maxDepth maxNodes : Int} {minImprovement : ℚ}
    {minLeafCount maxSplitsPerNumericAttribute : Int} {values : List (List Value)}
    {valueTypes : List ValueType} {categoryMaps : List CategoryMaps} {subsetIndexes : List Nat}
    {selectRows selectColumns : SelectIndexes} {targetColumn : Nat}
    {sortedIndexes : List (List Nat)} {imputedValues : List Value} {tree : TreeNode}
    {maxDepthUsed : Int} (hnd : selectRows.indexVector.Nodup)
    (h : growTree libm maxDepth maxNodes minImprovement minLeafCount
      maxSplitsPerNumericAttribute values valueTypes categoryMaps subsetIndexes selectRows
      selectColumns targetColumn sortedIndexes imputedValues = .ok (tree, maxDepthUsed)) :
    tree ≠ .null ∧
      ChildFloor minLeafCount values valueTypes selectColumns.indexVector tree
        selectRows.indexVector := by
  unfold growTree at h
  generalize (maxDepth - 1).toNat = fuel at h
  cases ht : vecGet valueTypes targetColumn with
  | error e => simp [ht] at h
  | ok targetValueType =>
    simp only [ht] at h
    cases hl : leafValueOf targetValueType values categoryMaps targetColumn selectRows with
    | error e => simp [hl] at h
    | ok defaultValue =>
      simp only [hl] at h
      cases hr : rootStatistics targetValueType values targetColumn selectRows.indexVector
          { leafValue := defaultValue, splitValue := gNaValue, toLessOrEqualIfNA := false,
            splitColIndex := NO_INDEX, leafLessOrEqualCount := 0, leafGreaterOrNotCount := 0,
            branchSum2 := 0, branchCorrectCount := 0, selectRows := selectRows, index := 0 } with
      | error e => simp [hr] at h
      | ok root1 =>
        simp only [hr] at h
        have hsel := rootStatistics_selectRows _ _ _ _ _ _ hr
        simp only at hsel
        cases hi : improveSubtree libm maxDepth maxNodes subsetIndexes values valueTypes
            categoryMaps selectColumns targetColumn sortedIndexes minImprovement minLeafCount
            maxSplitsPerNumericAttribute imputedValues fuel
            (.node root1 .null .null) [] 1 ⟨0, 1, 0⟩ with
        | error e => simp [hi] at h
        | ok r =>
          obtain ⟨t, st⟩ := r
          simp only [hi, Except.ok.injEq, Prod.mk.injEq] at h
          obtain ⟨h1, _⟩ := h
          subst h1
          have := improveSubtree_floor _ _ _ _ _ _ _ (by rw [hsel]; exact hnd) hi
          rw [hsel] at this
          exact this

theorem replaceWithLeaf_ne_null : ∀ (t : TreeNode) (path : List Bool),
    t ≠ .null → replaceWithLeaf t path ≠ .null
  | .null, _, h => absurd rfl h
  | .node _ _ _, [], _ => by simp [replaceWithLeaf]
  | .node _ _ _, false :: _, _ => by simp [replaceWithLeaf]
  | .node _ _ _, true :: _, _ => by simp [replaceWithLeaf]

theorem replaceWithLeaf_floor :
    ∀ (t : TreeNode) (path : List Bool) (rows : List Nat),
      ChildFloor minLeafCount values valueTypes selectColumnIndexes t rows →
      ChildFloor minLeafCount values valueTypes selectColumnIndexes (replaceWithLeaf t path) rows
  | .null, _, _, _ => by simp [replaceWithLeaf, ChildFloor]
  | .node _ _ _, [], _, _ => by simp [replaceWithLeaf, ChildFloor]
  | .node data .null greaterOrNotNode, false :: rest, _, _ => by
    simp [replaceWithLeaf, ChildFloor]
  | .node data .null greaterOrNotNode, true :: rest, _, _ => by
    simp [replaceWithLeaf, ChildFloor]
  | .node data (.node ld l1 l2) greaterOrNotNode, false :: rest, rows, h => by
    simp only [ChildFloor] at h
    obtain ⟨h1, h2, h3, h4, h5⟩ := h
    have hne := replaceWithLeaf_ne_null (.node ld l1 l2) rest (by simp)
    have ih := replaceWithLeaf_floor (.node ld l1 l2) rest _ h4
    simp only [replaceWithLeaf]
    cases hr : replaceWithLeaf (.node ld l1 l2) rest with
    | null => exact absurd hr hne
    | node d a b =>
      rw [hr] at ih
      simp only [ChildFloor]
      exact ⟨h1, h2, h3, ih, h5⟩
  | .node data (.node ld l1 l2) greaterOrNotNode, true :: rest, rows, h => by
    simp only [ChildFloor] at h
    obtain ⟨h1, h2, h3, h4, h5⟩ := h
    simp only [replaceWithLeaf, ChildFloor]
    exact ⟨h1, h2, replaceWithLeaf_ne_null _ _ h3, h4, replaceWithLeaf_floor _ rest _ h5⟩

theorem updateBranchCategorical_floor :
    ∀ (t t1 : TreeNode), updateBranchCategorical t = .ok t1 →
      t1 ≠ .null ∧ ∀ rows, ChildFloor minLeafCount values valueTypes selectColumnIndexes t rows →
        ChildFloor minLeafCount values valueTypes selectColumnIndexes t1 rows
  | .null, _, h => by simp [updateBranchCategorical] at h
  | .node data .null greaterOrNotNode, t1, h => by
    simp only [updateBranchCategorical, Except.ok.injEq] at h
    subst h
    exact ⟨by simp, fun rows hf => hf⟩
  | .node data (.node ld l1 l2) greaterOrNotNode, t1, h => by
    simp only [updateBranchCategorical] at h
    cases hl : updateBranchCategorical (.node ld l1 l2) with
    | error e => simp [hl] at h
    | ok tl =>
      cases hg : updateBranchCategorical greaterOrNotNode with
      | error e =>
        rw [hl, hg] at h
        cases tl <;> simp at h
      | ok tg =>
        rw [hl, hg] at h
        obtain ⟨_, ihl⟩ := updateBranchCategorical_floor _ _ hl
        obtain ⟨_, ihg⟩ := updateBranchCategorical_floor _ _ hg
        cases tl with
        | null => cases tg <;> simp at h
        | node ld1 l3 l4 =>
          cases tg with
          | null => simp at h
          | node gd1 g3 g4 =>
            simp only [Except.ok.injEq] at h
            subst h
            refine ⟨by simp, ?_⟩
            intro rows hf
            simp only [ChildFloor] at hf
            obtain ⟨h1, h2, h3, h4, h5⟩ := hf
            simp only [ChildFloor]
            exact ⟨h1, h2, by simp, ihl _ h4, ihg _ h5⟩

theorem updateBranchNumeric_floor :
    ∀ (t t1 : TreeNode), updateBranchNumeric t = .ok t1 →
      t1 ≠ .null ∧ ∀ rows, ChildFloor minLeafCount values valueTypes selectColumnIndexes t rows →
        ChildFloor minLeafCount values valueTypes selectColumnIndexes t1 rows
  | .null, _, h => by simp [updateBranchNumeric] at h
  | .node data .null greaterOrNotNode, t1, h => by
    simp only [updateBranchNumeric, Except.ok.injEq] at h
    subst h
    exact ⟨by simp, fun rows hf => hf⟩
  | .node data (.node ld l1 l2) greaterOrNotNode, t1, h => by
    simp only [updateBranchNumeric] at h
    cases hl : updateBranchNumeric (.node ld l1 l2) with
    | error e => simp [hl] at h
    | ok tl =>
      cases hg : updateBranchNumeric greaterOrNotNode with
      | error e =>
        rw [hl, hg] at h
        cases tl <;> simp at h
      | ok tg =>
        rw [hl, hg] at h
        obtain ⟨_, ihl⟩ := updateBranchNumeric_floor _ _ hl
        obtain ⟨_, ihg⟩ := updateBranchNumeric_floor _ _ hg
        cases tl with
        | null => cases tg <;> simp at h
        | node ld1 l3 l4 =>
          cases tg with
          | null => simp at h
          | node gd1 g3 g4 =>
            simp only [Except.ok.injEq] at h
            subst h
            refine ⟨by simp, ?_⟩
            intro rows hf
            simp only [ChildFloor] at hf
            obtain ⟨h1, h2, h3, h4, h5⟩ := hf
            simp only [ChildFloor]
            exact ⟨h1, h2, by simp, ihl _ h4, ihg _ h5⟩

theorem pruneLoop_floor (libm : Libm) (targetValueType : ValueType) :
    ∀ (nodes : List (Int × List Bool)) (root root1 : TreeNode) (rows : List Nat),
      pruneLoop libm targetValueType nodes root = .ok root1 →
      ChildFloor minLeafCount values valueTypes selectColumnIndexes root rows →
      ChildFloor minLeafCount values valueTypes selectColumnIndexes root1 rows := by
  intro nodes
  induction nodes with
  | nil =>
    intro root root1 rows h hf
    simp only [pruneLoop, Except.ok.injEq] at h
    subst h
    exact hf
  | cons head rest ih =>
    intro root root1 rows h hf
    obtain ⟨depth, path⟩ := head
    simp only [pruneLoop] at h
    split at h
    · simp at h
    · exact ih _ _ _ h (replaceWithLeaf_floor _ _ _ hf)
    · exact ih _ _ _ h hf

theorem pruneTree_floor {libm : Libm} {root root1 : TreeNode} {targetColumn : Nat}
    {rows : List Nat} (h : pruneTree libm root valueTypes targetColumn = .ok root1)
    (hf : ChildFloor minLeafCount values valueTypes selectColumnIndexes root rows) :
    ChildFloor minLeafCount values valueTypes selectColumnIndexes root1 rows := by
  unfold pruneTree at h
  cases ht : vecGet valueTypes targetColumn with
  | error e => simp [ht] at h
  | ok targetValueType =>
    simp only [ht] at h
    cases targetValueType with
    | kCategorical =>
      simp only at h
      cases hu : updateBranchCategorical root with
      | error e => simp [hu] at h
      | ok root2 =>
        simp only [hu] at h
        exact pruneLoop_floor libm _ _ _ _ _ h
          ((updateBranchCategorical_floor _ _ hu).2 _ hf)
    | kNumeric =>
      simp only at h
      cases hu : updateBranchNumeric root with
      | error e => simp [hu] at h
      | ok root2 =>
        simp only [hu] at h
        exact pruneLoop_floor libm _ _ _ _ _ h
          ((updateBranchNumeric_floor _ _ hu).2 _ hf)

theorem evaluateTreeRoot_floor {libm : Libm} {maxDepth maxNodes : Int} {doPrune : Bool}
    {minImprovement : ℚ} {maxSplitsPerNumericAttribute : Int}
    {categoryMaps : List CategoryMaps} {subsetIndexes : List Nat}
    {selectRows selectColumns : SelectIndexes} {targetColumn : Nat}
    {sortedIndexes : List (List Nat)} {imputedValues : List Value} {root : TreeNode}
    {maxDepthUsed : Int} (hnd : selectRows.indexVector.Nodup)
    (h : evaluateTreeRoot libm maxDepth maxNodes doPrune minImprovement minLeafCount
      maxSplitsPerNumericAttribute values valueTypes categoryMaps subsetIndexes selectRows
      selectColumns targetColumn sortedIndexes imputedValues = .ok (root, maxDepthUsed)) :
    ChildFloor minLeafCount values valueTypes selectColumns.indexVector root
      selectRows.indexVector := by
  unfold evaluateTreeRoot at h
  cases hg : growTree libm maxDepth maxNodes minImprovement minLeafCount
      maxSplitsPerNumericAttribute values valueTypes categoryMaps subsetIndexes selectRows
      selectColumns targetColumn sortedIndexes imputedValues with
  | error e => simp [hg] at h
  | ok r =>
    obtain ⟨tree, d⟩ := r
    simp only [hg] at h
    have hf := (growTree_floor hnd hg).2
    cases doPrune with
    | false =>
      simp only [Bool.false_eq_true, if_false, Except.ok.injEq, Prod.mk.injEq] at h
      obtain ⟨h1, _⟩ := h
      subst h1
      exact hf
    | true =>
      simp only [if_true] at h
      cases hp : pruneTree libm tree valueTypes targetColumn with
      | error e => simp [hp] at h
      | ok root1 =>
        simp only [hp, Except.ok.injEq, Prod.mk.injEq] at h
        obtain ⟨h1, _⟩ := h
        subst h1
        exact pruneTree_floor hp hf

end Floor

section Improvement

theorem pickBestColumnLoop_spec (all : List ColumnSplit) :
    ∀ (rest : List ColumnSplit) (siIndex : Nat) (best : BestColumn),
      (∃ pre, all = pre ++ rest ∧ pre.length = siIndex) →
      (best.foundBestCol = true → ∃ split, all[best.bestSiIndex]? = some split ∧
        split.splitValue.na = false ∧ split.colMeasure = best.bestColMeasure) →
      (pickBestColumnLoop rest siIndex best).foundBestCol = true →
      ∃ split, all[(pickBestColumnLoop rest siIndex best).bestSiIndex]? = some split ∧
        split.splitValue.na = false ∧
        split.colMeasure = (pickBestColumnLoop rest siIndex best).bestColMeasure := by
  intro rest
  induction rest with
  | nil =>
    intro siIndex best _ hinv hfound
    simp only [pickBestColumnLoop] at hfound ⊢
    exact hinv hfound
  | cons split rest ih =>
    intro siIndex best hpre hinv hfound
    obtain ⟨pre, hall, hlen⟩ := hpre
    have hpre1 : ∃ pre1, all = pre1 ++ rest ∧ pre1.length = siIndex + 1 :=
      ⟨pre ++ [split], by simp [hall], by simp [hlen]⟩
    simp only [pickBestColumnLoop] at hfound ⊢
    split at hfound
    · rename_i hc
      rw [if_pos hc]
      refine ih _ _ hpre1 ?_ hfound
      intro _
      refine ⟨split, ?_, hc.1, rfl⟩
      show all[siIndex]? = some split
      rw [hall, ← hlen, List.getElem?_append_right (le_refl _)]
      simp
    · rename_i hc
      rw [if_neg hc]
      exact ih _ _ hpre1 hinv hfound

theorem pickBestColumn_spec {splits : List ColumnSplit} {best : BestColumn}
    (h : pickBestColumn splits = .ok best) (hfound : best.foundBestCol = true) :
    ∃ split, splits[best.bestSiIndex]? = some split ∧ split.splitValue.na = false ∧
      split.colMeasure = best.bestColMeasure := by
  unfold pickBestColumn at h
  cases splits with
  | nil => simp at h
  | cons first rest =>
    simp only [Except.ok.injEq] at h
    subst h
    refine pickBestColumnLoop_spec _ _ _ _ ⟨[], rfl, rfl⟩ ?_ hfound
    intro hf
    refine ⟨first, by simp, ?_, rfl⟩
    simpa using hf

theorem columnSplits_spec {libm : Libm} {selectRows : SelectIndexes} {ancestors : List Int}
    {values : List (List Value)} {valueTypes : List ValueType}
    {categoryMaps : List CategoryMaps} {selectColumnIndexes : List Nat} {targetColumn : Nat}
    {sortedIndexes : List (List Nat)} {maxSplitsPerNumericAttribute : Int}
    {targetValueType : ValueType} {numRows : Nat} :
    ∀ (subsetIndexes : List Nat) (splits : List ColumnSplit),
      columnSplits libm selectRows ancestors values valueTypes categoryMaps selectColumnIndexes
        targetColumn sortedIndexes maxSplitsPerNumericAttribute targetValueType numRows
        subsetIndexes = .ok splits →
      ∀ (i : Nat) (split : ColumnSplit), splits[i]? = some split →
        ∃ columnIndex, subsetIndexes[i]? = some columnIndex ∧
          columnSplit libm selectRows ancestors values valueTypes categoryMaps
            selectColumnIndexes targetColumn sortedIndexes maxSplitsPerNumericAttribute
            targetValueType numRows columnIndex = .ok split := by
  intro subsetIndexes
  induction subsetIndexes with
  | nil =>
    intro splits h i split hi
    simp only [columnSplits, Except.ok.injEq] at h
    subst h
    simp at hi
  | cons columnIndex rest ih =>
    intro splits h i split hi
    simp only [columnSplits] at h
    cases hc : columnSplit libm selectRows ancestors values valueTypes categoryMaps
        selectColumnIndexes targetColumn sortedIndexes maxSplitsPerNumericAttribute
        targetValueType numRows columnIndex with
    | error e => simp [hc] at h
    | ok first =>
      simp only [hc] at h
      cases hr : columnSplits libm selectRows ancestors values valueTypes categoryMaps
          selectColumnIndexes targetColumn sortedIndexes maxSplitsPerNumericAttribute
          targetValueType numRows rest with
      | error e => simp [hr] at h
      | ok more =>
        simp only [hr, Except.ok.injEq] at h
        subst h
        cases i with
        | zero =>
          simp only [List.getElem?_cons_zero, Option.some.injEq] at hi
          subst hi
          exact ⟨columnIndex, by simp, hc⟩
        | succ j =>
          simp only [List.getElem?_cons_succ] at hi
          obtain ⟨c, h1, h2⟩ := ih _ hr j split hi
          exact ⟨c, by simpa using h1, h2⟩

theorem getBestCategoricalSplit_numeric_categories {libm : Libm} {col targetColumn : Nat}
    {selectRows : SelectIndexes} {values : List (List Value)} {valueTypes : List ValueType}
    {categoryMaps : List CategoryMaps} {sortedIndexes : List (List Nat)}
    {bestSplit : ValueAndMeasure}
    (ht : vecGet valueTypes targetColumn = .ok .kNumeric)
    (h : getBestCategoricalSplit libm col targetColumn selectRows values valueTypes categoryMaps
      sortedIndexes = .ok bestSplit) (hna : bestSplit.value.na = false) :
    ∃ categoryMap, vecGet categoryMaps col = .ok categoryMap ∧
      categoryMap.countAllCategories > 1 := by
  unfold getBestCategoricalSplit at h
  simp only [ht] at h
  cases hm : vecGet categoryMaps col with
  | error e => simp [hm] at h
  | ok categoryMap =>
    simp only [hm] at h
    refine ⟨categoryMap, rfl, ?_⟩
    by_contra hle
    rw [if_neg hle] at h
    simp only [Except.ok.injEq] at h
    subst h
    simp [gNaValue] at hna

theorem columnSplit_categorical_factor {libm : Libm} {selectRows : SelectIndexes}
    {ancestors : List Int} {values : List (List Value)} {valueTypes : List ValueType}
    {categoryMaps : List CategoryMaps} {selectColumnIndexes : List Nat} {targetColumn : Nat}
    {sortedIndexes : List (List Nat)} {maxSplitsPerNumericAttribute : Int} {numRows : Nat}
    {columnIndex col : Nat} {split : ColumnSplit}
    (ht : vecGet valueTypes targetColumn = .ok .kNumeric)
    (h : columnSplit libm selectRows ancestors values valueTypes categoryMaps
      selectColumnIndexes targetColumn sortedIndexes maxSplitsPerNumericAttribute .kNumeric
      numRows columnIndex = .ok split)
    (hna : split.splitValue.na = false)
    (hcol : vecGet selectColumnIndexes columnIndex = .ok col)
    (hct : vecGet valueTypes col = .ok .kCategorical) :
    ∃ categoryMap, vecGet categoryMaps col = .ok categoryMap ∧
      categoryMap.countAllCategories > 1 := by
  unfold columnSplit at h
  simp only [hcol, hct] at h
  cases hb : getBestCategoricalSplit libm col targetColumn selectRows values valueTypes
      categoryMaps sortedIndexes with
  | error e => simp [hb] at h
  | ok bestSplit =>
    simp only [hb] at h
    cases hbna : bestSplit.value.na with
    | true =>
      simp only [hbna, if_true, Except.ok.injEq] at h
      subst h
      simp [gNaValue] at hna
    | false => exact getBestCategoricalSplit_numeric_categories ht hb hbna

theorem testImprovement_spec {libm : Libm} {targetValueType : ValueType}
    {values : List (List Value)} {valueTypes : List ValueType}
    {categoryMaps : List CategoryMaps} {selectColumnIndexes subsetIndexes : List Nat}
    {targetColumn : Nat} {selectRows : SelectIndexes} {minImprovement : ℚ} {best : BestColumn}
    (h : testImprovement libm targetValueType values valueTypes categoryMaps
      selectColumnIndexes subsetIndexes targetColumn selectRows minImprovement best = .ok true) :
    best.foundBestCol = true ∧
    ∃ leafMeasure,
      leafMeasureOf libm targetValueType values categoryMaps targetColumn selectRows =
        .ok leafMeasure ∧
      (targetValueType = .kCategorical → best.bestColMeasure < leafMeasure) ∧
      (targetValueType = .kNumeric → ∃ columnIndex col colType,
        vecGet subsetIndexes best.bestSiIndex = .ok columnIndex ∧
        vecGet selectColumnIndexes columnIndex = .ok col ∧
        vecGet valueTypes col = .ok colType ∧
        (colType = .kNumeric →
          leafMeasure - best.bestColMeasure ≥ minImprovement * leafMeasure) ∧
        (colType = .kCategorical → ∃ categoryMap, vecGet categoryMaps col = .ok categoryMap ∧
          (leafMeasure - best.bestColMeasure) * (categoryMap.countAllCategories : ℚ) ≥
            minImprovement * leafMeasure)) := by
  unfold testImprovement at h
  cases hf : best.foundBestCol with
  | false => simp [hf] at h
  | true =>
    simp only [hf, if_true] at h
    refine ⟨rfl, ?_⟩
    cases hl : leafMeasureOf libm targetValueType values categoryMaps targetColumn selectRows with
    | error e => simp [hl] at h
    | ok leafMeasure =>
      simp only [hl] at h
      refine ⟨leafMeasure, rfl, ?_⟩
      cases targetValueType with
      | kCategorical =>
        simp only [Except.ok.injEq, decide_eq_true_eq] at h
        exact ⟨fun _ => h, fun hc => by simp at hc⟩
      | kNumeric =>
        refine ⟨fun hc => by simp at hc, fun _ => ?_⟩
        simp only at h
        split at h
        · cases hsi : vecGet subsetIndexes best.bestSiIndex with
          | error e => simp [hsi] at h
          | ok columnIndex =>
            simp only [hsi] at h
            cases hcol : vecGet selectColumnIndexes columnIndex with
            | error e => simp [hcol] at h
            | ok col =>
              simp only [hcol] at h
              cases hct : vecGet valueTypes col with
              | error e => simp [hct] at h
              | ok colType =>
                simp only [hct] at h
                refine ⟨columnIndex, col, colType, rfl, hcol, hct, ?_, ?_⟩
                · intro hn
                  subst hn
                  simp only [Nat.cast_one, mul_one, Except.ok.injEq, decide_eq_true_eq] at h
                  exact h
                · intro hn
                  subst hn
                  simp only at h
                  cases hm : vecGet categoryMaps col with
                  | error e => simp [hm] at h
                  | ok categoryMap =>
                    simp only [hm, Except.ok.injEq, decide_eq_true_eq] at h
                    exact ⟨categoryMap, rfl, h⟩
        · simp at h

theorem makeSplit_accepted {targetValueType : ValueType} {values : List (List Value)}
    {valueTypes : List ValueType} {selectColumnIndexes subsetIndexes : List Nat}
    {targetColumn : Nat} {minLeafCount : Int} {imputedValues : List Value} {numRows : Nat}
    {splits : List ColumnSplit} {best : BestColumn} {data : NodeData}
    {lessOrEqualNode greaterOrNotNode node1 : TreeNode} {gNextIndex gNextIndex1 : Nat}
    (h : makeSplit targetValueType values valueTypes selectColumnIndexes subsetIndexes
      targetColumn minLeafCount imputedValues numRows splits best data lessOrEqualNode
      greaterOrNotNode gNextIndex = .ok (true, node1, gNextIndex1)) :
    ∃ split splitColIndex data1 l g,
      splits[best.bestSiIndex]? = some split ∧
      subsetIndexes[best.bestSiIndex]? = some splitColIndex ∧
      node1 = .node data1 l g ∧ data1.splitValue = split.splitValue ∧
      data1.splitColIndex = (splitColIndex : Int) := by
  unfold makeSplit at h
  cases hsp : vecGet splits best.bestSiIndex with
  | error e => simp [hsp] at h
  | ok split =>
    cases hsi : vecGet subsetIndexes best.bestSiIndex with
    | error e => simp [hsp, hsi] at h
    | ok splitColIndex =>
      simp only [hsp, hsi] at h
      split at h
      · simp at h
      · split at h
        · simp at h
        · split at h
          · split at h
            · simp only [Except.ok.injEq, Prod.mk.injEq, true_and] at h
              exact ⟨split, splitColIndex, _, _, _, getElem?_of_vecGet hsp,
                getElem?_of_vecGet hsi, h.1.symm, rfl, rfl⟩
            · simp at h
          · simp at h

end Improvement

section Exactness

theorem routesTo_of_tree (values : List (List Value)) (valueTypes : List ValueType)
    (selectColumnIndexes : List Nat) (L : List CompactNode) (row : Nat) :
    ∀ (t : TreeNode) (b : Nat), zeroOrTwoChildren t = true →
      (∀ j, j < countNodes t → L[b + j]? = (preorderRows t b)[j]?) →
      RouteOK values valueTypes selectColumnIndexes row t →
      ∃ leaf steps data,
        RoutesTo values valueTypes selectColumnIndexes (CompactTree.ofRows L) row b leaf steps ∧
        steps < countNodes t ∧
        treeLeaf values valueTypes selectColumnIndexes t row = some data ∧
        (CompactTree.ofRows L).value[leaf]? = some data.leafValue.number
  | .null, _, hz, _, _ => by simp [zeroOrTwoChildren] at hz
  | .node data .null greaterOrNotNode, b, hz, hL, _ => by
    have h0 := hL 0 (by simp [countNodes])
    simp only [Nat.add_zero, preorderRows, List.getElem?_cons_zero, compactNodeAt] at h0
    refine ⟨b, 0, data, ?_, by simp [countNodes], by simp [treeLeaf], ?_⟩
    · exact RoutesTo.leaf b (by simp [CompactTree.ofRows, List.getElem?_map, h0])
    · simp [CompactTree.ofRows, List.getElem?_map, h0]
  | .node data (.node ld l1 l2) .null, _, hz, _, _ => by simp [zeroOrTwoChildren] at hz
  | .node data (.node ld l1 l2) (.node gd g1 g2), b, hz, hL, hroute => by
    rw [zeroOrTwoChildren] at hz
    simp only [Bool.and_eq_true] at hz
    have h0 := hL 0 (by simp [countNodes])
    simp only [Nat.add_zero, preorderRows, List.getElem?_cons_zero, compactNodeAt] at h0
    have hLl : ∀ j, j < countNodes (.node ld l1 l2) →
        L[b + 1 + j]? = (preorderRows (.node ld l1 l2) (b + 1))[j]? := by
      intro j hj
      have := hL (j + 1) (by simp only [countNodes] at hj ⊢; omega)
      rw [show b + (j + 1) = b + 1 + j by omega] at this
      rw [this, show preorderRows (.node data (.node ld l1 l2) (.node gd g1 g2)) b =
        compactNodeAt b (.node data (.node ld l1 l2) (.node gd g1 g2)) ::
          (preorderRows (.node ld l1 l2) (b + 1) ++
            preorderRows (.node gd g1 g2) (b + 1 + countNodes (.node ld l1 l2))) from rfl,
        List.getElem?_cons_succ,
        List.getElem?_append_left (by rw [length_preorderRows]; exact hj)]
    have hLg : ∀ j, j < countNodes (.node gd g1 g2) →
        L[b + 1 + countNodes (.node ld l1 l2) + j]? =
          (preorderRows (.node gd g1 g2) (b + 1 + countNodes (.node ld l1 l2)))[j]? := by
      intro j hj
      have := hL (countNodes (.node ld l1 l2) + j + 1)
        (by simp only [countNodes] at hj ⊢; omega)
      rw [show b + (countNodes (.node ld l1 l2) + j + 1) =
        b + 1 + countNodes (.node ld l1 l2) + j by omega] at this
      rw [this, show preorderRows (.node data (.node ld l1 l2) (.node gd g1 g2)) b =
        compactNodeAt b (.node data (.node ld l1 l2) (.node gd g1 g2)) ::
          (preorderRows (.node ld l1 l2) (b + 1) ++
            preorderRows (.node gd g1 g2) (b + 1 + countNodes (.node ld l1 l2))) from rfl,
        List.getElem?_cons_succ,
        List.getElem?_append_right (by rw [length_preorderRows]; omega), length_preorderRows]
      congr 1
      omega
    simp only [RouteOK] at hroute
    obtain ⟨hs0, ⟨col, column, compareValue, valueType, hcol, hcolumn, hvalue, hvt⟩, hnext⟩ :=
      hroute
    have hcolD : selectColumnIndexes.getD data.splitColIndex.toNat 0 = col := by
      simp [List.getD_eq_getElem?_getD, hcol]
    have hvtD : valueTypes.getD col .kNumeric = valueType := by
      simp [List.getD_eq_getElem?_getD, hvt]
    have hpv : (values.getD col []).getD row gNaValue = compareValue := by
      simp [List.getD_eq_getElem?_getD, hcolumn, hvalue]
    rw [hcolD, hvtD, hpv] at hnext
    have hmove : ∀ (next leaf steps : Nat),
        ((next : Int) = if takesLessOrEqual compareValue valueType data.toLessOrEqualIfNA
          data.splitValue.number = true then ((b + 1 : Nat) : Int)
          else ((b + 1 + countNodes (.node ld l1 l2) : Nat) : Int)) →
        RoutesTo values valueTypes selectColumnIndexes (CompactTree.ofRows L) row next leaf
          steps →
        RoutesTo values valueTypes selectColumnIndexes (CompactTree.ofRows L) row b leaf
          (steps + 1) := by
      intro next leaf steps hn hr
      exact RoutesTo.move b next leaf steps ((b + 1 : Nat) : Int)
        ((b + 1 + countNodes (.node ld l1 l2) : Nat) : Int) data.splitColIndex col column
        compareValue valueType data.toLessOrEqualIfNA data.splitValue.number
        (by simp [CompactTree.ofRows, List.getElem?_map, h0])
        (by simp only [NO_INDEX]; omega)
        (by simp [CompactTree.ofRows, List.getElem?_map, h0])
        (by simp [CompactTree.ofRows, List.getElem?_map, h0])
        hs0 hcol hcolumn hvalue hvt
        (by simp [CompactTree.ofRows, List.getElem?_map, h0])
        (by simp [CompactTree.ofRows, List.getElem?_map, h0])
        hn hr
    by_cases htk : takesLessOrEqual compareValue valueType data.toLessOrEqualIfNA
        data.splitValue.number = true
    · rw [if_pos htk] at hnext
      obtain ⟨leaf, steps, d, r1, r2, r3, r4⟩ :=
        routesTo_of_tree values valueTypes selectColumnIndexes L row _ (b + 1) hz.1 hLl hnext
      refine ⟨leaf, steps + 1, d, hmove (b + 1) leaf steps (by rw [if_pos htk]) r1, ?_, ?_, r4⟩
      · simp only [countNodes] at r2 ⊢; omega
      · simp only [treeLeaf]
        rw [hcolD, hvtD, hpv, if_pos htk]
        exact r3
    · rw [if_neg htk] at hnext
      obtain ⟨leaf, steps, d, r1, r2, r3, r4⟩ :=
        routesTo_of_tree values valueTypes selectColumnIndexes L row _
          (b + 1 + countNodes (.node ld l1 l2)) hz.2 hLg hnext
      refine ⟨leaf, steps + 1, d,
        hmove (b + 1 + countNodes (.node ld l1 l2)) leaf steps (by rw [if_neg htk]) r1, ?_, ?_,
        r4⟩
      · simp only [countNodes] at r2 ⊢; omega
      · simp only [treeLeaf]
        rw [hcolD, hvtD, hpv, if_neg htk]
        exact r3

end Exactness

section Fuel

theorem entropyForSplit_even (libm : Libm) :
    entropyForSplit libm [1, 1] [2, 2] = .ok (entropyForCounts libm [2, 2]) := by
  simp only [entropyForSplit, entropyForCounts, sumCounts, entropyTerms, List.foldl_cons,
    List.foldl_nil, List.zipWith_cons_cons, List.zipWith_nil_right, List.length_cons,
    List.length_nil]
  norm_num
  ring

theorem improveSubtree_fuel_succ {libm : Libm} {maxDepth maxNodes : Int}
    {subsetIndexes : List Nat} {values : List (List Value)} {valueTypes : List ValueType}
    {categoryMaps : List CategoryMaps} {selectColumns : SelectIndexes} {targetColumn : Nat}
    {sortedIndexes : List (List Nat)} {minImprovement : ℚ}
    {minLeafCount maxSplitsPerNumericAttribute : Int} {imputedValues : List Value} :
    ∀ (fuel : Nat) (nodeP : TreeNode) (ancestors : List Int) (depth : Int) (st : GrowState),
      (maxDepth - depth).toNat ≤ fuel →
      improveSubtree libm maxDepth maxNodes subsetIndexes values valueTypes categoryMaps
        selectColumns targetColumn sortedIndexes minImprovement minLeafCount
        maxSplitsPerNumericAttribute imputedValues (fuel + 1) nodeP ancestors depth st =
      improveSubtree libm maxDepth maxNodes subsetIndexes values valueTypes categoryMaps
        selectColumns targetColumn sortedIndexes minImprovement minLeafCount
        maxSplitsPerNumericAttribute imputedValues fuel nodeP ancestors depth st := by
  intro fuel
  induction fuel with
  | zero =>
    intro nodeP ancestors depth st hfuel
    have hdepth : ¬ depth < maxDepth := by omega
    rw [improveSubtree, improveSubtree]
    rw [if_neg (fun h => hdepth h.1), if_neg (fun h => hdepth h.1)]
  | succ fuel ih =>
    intro nodeP ancestors depth st hfuel
    rw [improveSubtree]
    conv_rhs => rw [improveSubtree]
    split
    · simp only []
      cases hil : improveLeaf libm nodeP ancestors subsetIndexes values valueTypes categoryMaps
          selectColumns targetColumn sortedIndexes minImprovement minLeafCount
          maxSplitsPerNumericAttribute imputedValues st.gNextIndex with
      | error e => rfl
      | ok res =>
        obtain ⟨b, t, g⟩ := res
        cases t with
        | null => cases b <;> rfl
        | node data l r =>
          cases b with
          | false => rfl
          | true =>
            simp only []
            have hstep : ∀ (n : TreeNode) (s : GrowState),
                improveSubtree libm maxDepth maxNodes subsetIndexes values valueTypes
                  categoryMaps selectColumns targetColumn sortedIndexes minImprovement
                  minLeafCount maxSplitsPerNumericAttribute imputedValues (fuel + 1) n
                  (data.splitColIndex :: ancestors) (depth + 1) s =
                improveSubtree libm maxDepth maxNodes subsetIndexes values valueTypes
                  categoryMaps selectColumns targetColumn sortedIndexes minImprovement
                  minLeafCount maxSplitsPerNumericAttribute imputedValues fuel n
                  (data.splitColIndex :: ancestors) (depth + 1) s :=
              fun n s => ih n _ (depth + 1) s (by omega)
            rw [hstep]
            cases improveSubtree libm maxDepth maxNodes subsetIndexes values valueTypes
                categoryMaps selectColumns targetColumn sortedIndexes minImprovement
                minLeafCount maxSplitsPerNumericAttribute imputedValues fuel l
                (data.splitColIndex :: ancestors) (depth + 1)
                ⟨g, if st.maxDepthUsed < depth + 1 then depth + 1 else st.maxDepthUsed,
                  st.finalLeafCount⟩ with
            | error e => rfl
            | ok r1 =>
              simp only []
              rw [hstep]
    · rfl

theorem improveSubtree_fuel_add {libm : Libm} {maxDepth maxNodes : Int}
    {subsetIndexes : List Nat} {values : List (List Value)} {valueTypes : List ValueType}
    {categoryMaps : List CategoryMaps} {selectColumns : SelectIndexes} {targetColumn : Nat}
    {sortedIndexes : List (List Nat)} {minImprovement : ℚ}
    {minLeafCount maxSplitsPerNumericAttribute : Int} {imputedValues : List Value}
    (nodeP : TreeNode) (ancestors : List Int) (depth : Int) (st : GrowState) :
    ∀ extra : Nat,
      improveSubtree libm maxDepth maxNodes subsetIndexes values valueTypes categoryMaps
        selectColumns targetColumn sortedIndexes minImprovement minLeafCount
        maxSplitsPerNumericAttribute imputedValues ((maxDepth - depth).toNat + extra) nodeP
        ancestors depth st =
      improveSubtree libm maxDepth maxNodes subsetIndexes values valueTypes categoryMaps
        selectColumns targetColumn sortedIndexes minImprovement minLeafCount
        maxSplitsPerNumericAttribute imputedValues (maxDepth - depth).toNat nodeP ancestors
        depth st := by
  intro extra
  induction extra with
  | zero => rfl
  | succ extra ih =>
    rw [← ih, ← Nat.add_assoc]
    exact improveSubtree_fuel_succ _ nodeP ancestors depth st (by omega)

end Fuel

section Selection

theorem unselectLoop_eq_erase (index : Nat) (l : List Nat) :
    unselectLoop index l = l.erase index := by
  induction l with
  | nil => rfl
  | cons entry rest ih =>
    by_cases h : index = entry
    · subst h; simp [unselectLoop]
    · have h' : entry ≠ index := fun e => h e.symm
      simp [unselectLoop, h, List.erase_cons_tail, h', ih]

theorem unselectLoop_eq_filter (index : Nat) (l : List Nat) (hl : l.Nodup) :
    unselectLoop index l = l.filter (fun j => decide (j ≠ index)) := by
  rw [unselectLoop_eq_erase, hl.erase_eq_filter]
  congr 1
  funext j
  by_cases h : j = index <;> simp [h]

theorem consistent_create (size : Nat) (selectAll : Bool) :
    (SelectIndexes.create size selectAll).Consistent := by
  cases selectAll with
  | false =>
    refine ⟨List.nodup_nil, fun i => ?_, rfl⟩
    simp [SelectIndexes.create, SelectIndexes.indexVector, SelectIndexes.boolVector,
      List.getElem?_replicate]
  | true =>
    refine ⟨List.nodup_range size, fun i => ?_, by
      simp [SelectIndexes.create, SelectIndexes.indexVector, SelectIndexes.countSelected]⟩
    simp [SelectIndexes.create, SelectIndexes.indexVector, SelectIndexes.boolVector,
      List.getElem?_replicate]

theorem consistent_clear (s : SelectIndexes) (size : Nat) : (s.clear size).Consistent :=
  consistent_create size false

theorem consistent_selectAll (s : SelectIndexes) (size : Nat) :
    (s.selectAll size).Consistent :=
  consistent_create size true

theorem consistent_select (s s1 : SelectIndexes) (index : Nat) (hs : s.Consistent)
    (h : s.select index = .ok s1) : s1.Consistent := by
  obtain ⟨hnodup, hmem, hcount⟩ := hs
  unfold SelectIndexes.select at h
  split_ifs at h with hrange hbit
  · cases h
    have hlt : index < s.bitMap.length := by omega
    have hnot : index ∉ s.indexes := by
      intro hin
      have := (hmem index).1 hin
      simp [SelectIndexes.boolVector, List.getD_eq_getElem?_getD] at this hbit
      simp [this] at hbit
    refine ⟨?_, fun i => ?_, ?_⟩
    · show (s.indexes ++ [index]).Nodup
      rw [List.nodup_append]
      exact ⟨hnodup, List.nodup_singleton _, by
        intro a ha hb
        rw [List.mem_singleton] at hb
        exact hnot (hb ▸ ha)⟩
    · show i ∈ s.indexes ++ [index] ↔ (s.bitMap.set index true)[i]? = some true
      by_cases hi : i = index
      · subst hi
        simp [List.getElem?_set_self hlt]
      · have hne : index ≠ i := fun e => hi e.symm
        rw [List.getElem?_set_ne hne]
        simp only [List.mem_append, List.mem_singleton, hi, or_false]
        exact hmem i
    · show s.selected + 1 = (s.indexes ++ [index]).length
      have : s.selected = s.indexes.length := hcount
      simp [this]
  · cases h
    exact ⟨hnodup, hmem, hcount⟩

theorem consistent_unselect (s s1 : SelectIndexes) (index : Nat) (hs : s.Consistent)
    (h : s.unselect index = .ok s1) : s1.Consistent := by
  obtain ⟨hnodup, hmem, hcount⟩ := hs
  have hnodup1 : s.indexes.Nodup := hnodup
  unfold SelectIndexes.unselect at h
  by_cases hrange : index ≥ s.bitMap.length
  · rw [if_pos hrange] at h; cases h
  · rw [if_neg hrange] at h
    by_cases hbit : s.bitMap.getD index false = true
    · rw [if_pos hbit] at h
      cases h
      have hlt : index < s.bitMap.length := by omega
      have hin : index ∈ s.indexes := by
        apply (hmem index).2
        simp [List.getD_eq_getElem?_getD] at hbit
        simp only [SelectIndexes.boolVector]
        rw [List.getElem?_eq_getElem hlt] at hbit ⊢
        simpa using hbit
      have hpos : 0 < s.indexes.length := List.length_pos_of_mem hin
      have hsel : s.selected = s.indexes.length := hcount
      refine ⟨?_, fun i => ?_, ?_⟩
      · show (unselectLoop index s.indexes).Nodup
        rw [unselectLoop_eq_erase]
        exact hnodup1.erase _
      · show i ∈ unselectLoop index s.indexes ↔ (s.bitMap.set index false)[i]? = some true
        rw [unselectLoop_eq_erase, hnodup1.mem_erase_iff]
        by_cases hi : i = index
        · subst hi
          simp [List.getElem?_set_self hlt]
        · have hne : index ≠ i := fun e => hi e.symm
          rw [List.getElem?_set_ne hne]
          simp only [ne_eq, hi, not_false_eq_true, true_and]
          exact hmem i
      · show (if s.selected = 0 then sizeModulus - 1 else s.selected - 1) =
          (unselectLoop index s.indexes).length
        rw [unselectLoop_eq_erase, List.length_erase_of_mem hin, if_neg (by omega), hsel]
    · rw [if_neg hbit] at h
      cases h
      exact ⟨hnodup, hmem, hcount⟩

theorem consistent_call (s s1 : SelectIndexes) (c : SelectCall) (hs : s.Consistent)
    (h : s.call c = .ok s1) : s1.Consistent := by
  cases c with
  | clear size => cases h; exact consistent_clear s size
  | selectAll size => cases h; exact consistent_selectAll s size
  | select index => exact consistent_select s s1 index hs h
  | unselect index => exact consistent_unselect s s1 index hs h

theorem consistent_calls (calls : List SelectCall) :
    ∀ (s s1 : SelectIndexes), s.Consistent → s.calls calls = .ok s1 → s1.Consistent := by
  induction calls with
  | nil => intro s s1 hs h; cases h; exact hs
  | cons c rest ih =>
    intro s s1 hs h
    unfold SelectIndexes.calls at h
    cases hc : s.call c with
    | error e => simp [hc] at h
    | ok s2 =>
      simp only [hc] at h
      exact ih s2 s1 (consistent_call s s2 c hs hc) h

end Selection

section Categories

theorem wellFormed_create (useNaCategory : Bool) :
    (CategoryMaps.create.setUseNaCategory useNaCategory).WellFormed :=
  ⟨List.nodup_nil, rfl, fun _ => rfl⟩

theorem findIndexForCategory_of_wellFormed (m : CategoryMaps) (hm : m.WellFormed)
    (name : String) :
    m.findIndexForCategory name =
      if name ∈ m.categories then (true, ((m.categories.indexOf name : Nat) : Int))
      else (false, NO_INDEX) := by
  unfold CategoryMaps.findIndexForCategory
  rw [hm.2.2 name]
  by_cases h : name ∈ m.categories <;> simp [h]

theorem call_of_mem (m : CategoryMaps) (hm : m.WellFormed) (c : CategoryCall)
    (h : c.category ∈ m.categories) : m.call c = m := by
  cases c with
  | insertCategory category =>
    have h1 : category ∈ m.categories := h
    simp [CategoryMaps.call, CategoryMaps.insertCategory,
      findIndexForCategory_of_wellFormed m hm, h1]
  | findOrInsertCategory category =>
    have h1 : category ∈ m.categories := h
    simp [CategoryMaps.call, CategoryMaps.findOrInsertCategory,
      findIndexForCategory_of_wellFormed m hm, h1]

theorem call_of_not_mem (m : CategoryMaps) (hm : m.WellFormed) (c : CategoryCall)
    (h : c.category ∉ m.categories) :
    m.call c = { m with
      categories := m.categories ++ [c.category]
      categoryToIndex := m.categoryToIndex ++ [(c.category, (m.categories.length : Int))] } := by
  have hlookup : m.categoryToIndex.lookup c.category = none := by rw [hm.2.2, if_neg h]
  cases c with
  | insertCategory category =>
    have h1 : category ∉ m.categories := h
    have h2 : List.lookup category m.categoryToIndex = none := hlookup
    simp [CategoryMaps.call, CategoryMaps.insertCategory,
      findIndexForCategory_of_wellFormed m hm, h1, mapInsert, h2, hm.2.1,
      CategoryCall.category]
  | findOrInsertCategory category =>
    have h1 : category ∉ m.categories := h
    have h2 : List.lookup category m.categoryToIndex = none := hlookup
    simp [CategoryMaps.call, CategoryMaps.findOrInsertCategory,
      findIndexForCategory_of_wellFormed m hm, h1, mapInsert, h2, hm.2.1,
      CategoryCall.category]

theorem wellFormed_call (m : CategoryMaps) (hm : m.WellFormed) (c : CategoryCall) :
    (m.call c).WellFormed := by
  by_cases h : c.category ∈ m.categories
  · rw [call_of_mem m hm c h]; exact hm
  · rw [call_of_not_mem m hm c h]
    obtain ⟨hnodup, hlen, hlookup⟩ := hm
    refine ⟨?_, ?_, fun name => ?_⟩
    · show (m.categories ++ [c.category]).Nodup
      rw [List.nodup_append]
      exact ⟨hnodup, List.nodup_singleton _, by
        intro a ha hb
        rw [List.mem_singleton] at hb
        exact h (hb ▸ ha)⟩
    · show (m.categoryToIndex ++ [(c.category, (m.categories.length : Int))]).length =
        (m.categories ++ [c.category]).length
      simp [hlen]
    · show List.lookup name (m.categoryToIndex ++ [(c.category, (m.categories.length : Int))]) =
        if name ∈ m.categories ++ [c.category] then
          some ((List.indexOf name (m.categories ++ [c.category]) : Nat) : Int) else none
      rw [List.lookup_append, hlookup name]
      by_cases h1 : name ∈ m.categories
      · simp [h1, List.indexOf_append_of_mem h1]
      · by_cases h2 : name = c.category
        · subst h2
          simp [h1, List.indexOf_append_of_not_mem h1]
        · have h3 : (name == c.category) = false := by simpa using h2
          simp [h1, h2, List.lookup, h3]

theorem wellFormed_calls (calls : List CategoryCall) :
    ∀ m : CategoryMaps, m.WellFormed → (m.calls calls).WellFormed := by
  induction calls with
  | nil => intro m hm; exact hm
  | cons c rest ih => intro m hm; exact ih _ (wellFormed_call m hm c)

theorem categories_calls (calls : List CategoryCall) :
    ∀ m : CategoryMaps, m.WellFormed →
      (m.calls calls).categories =
        m.categories ++ (firstOccurrences (calls.map CategoryCall.category)).filter
          (fun name => decide (name ∉ m.categories)) := by
  induction calls with
  | nil => intro m _; simp [CategoryMaps.calls, firstOccurrences]
  | cons c rest ih =>
    intro m hm
    show ((m.call c).calls rest).categories = _
    rw [ih _ (wellFormed_call m hm c)]
    by_cases h : c.category ∈ m.categories
    · rw [call_of_mem m hm c h]
      simp only [List.map_cons, firstOccurrences, List.filter_cons, h, not_true_eq_false,
        decide_False, Bool.false_eq_true, if_false, List.filter_filter]
      congr 1
      apply List.filter_congr
      intro name _
      by_cases h1 : name ∈ m.categories
      · simp [h1]
      · have : name ≠ c.category := fun e => h1 (e ▸ h)
        simp [h1, this]
    · rw [call_of_not_mem m hm c h]
      simp only [List.map_cons, firstOccurrences, List.filter_cons, h, not_false_eq_true,
        decide_True, if_true, List.filter_filter, List.append_assoc, List.singleton_append]
      congr 2
      apply List.filter_congr
      intro name _
      by_cases h1 : name = c.category
      · simp [h1]
      · simp [h1, List.mem_append]

theorem calls_useNaCategory (calls : List CategoryCall) :
    ∀ m : CategoryMaps, (m.calls calls).useNaCategory = m.useNaCategory := by
  induction calls with
  | nil => intro m; rfl
  | cons c rest ih =>
    intro m
    show ((m.call c).calls rest).useNaCategory = _
    rw [ih]
    cases c with
    | insertCategory category =>
      simp only [CategoryMaps.call, CategoryMaps.insertCategory]
      split_ifs <;> rfl
    | findOrInsertCategory category =>
      simp only [CategoryMaps.call, CategoryMaps.findOrInsertCategory]
      split_ifs <;> rfl

theorem getIndexForCategory_of_mem (m : CategoryMaps) (hm : m.WellFormed) (name : String)
    (h : name ∈ m.categories) :
    m.getIndexForCategory name = .ok ((m.categories.indexOf name : Nat) : Int) := by
  simp [CategoryMaps.getIndexForCategory, findIndexForCategory_of_wellFormed m hm, h]

theorem getCategoryForIndex_of_lt (m : CategoryMaps) (k : Nat) (name : String)
    (h : m.categories[k]? = some name) : m.getCategoryForIndex (k : Int) = .ok name := by
  obtain ⟨hlt, heq⟩ := List.getElem?_eq_some.1 h
  have h1 : ¬ ((k : Int) = NO_INDEX ∧ m.useNaCategory = true) := by
    intro hh
    have := hh.1
    simp [NO_INDEX] at this
  have h2 : (0 : Int) ≤ (k : Int) ∧ (k : Int) < (m.categories.length : Int) := by
    constructor <;> omega
  simp [CategoryMaps.getCategoryForIndex, CategoryMaps.findCategoryForIndex, h1, h2,
    List.getD_eq_getElem?_getD, h]

theorem mem_firstOccurrences (names : List String) (name : String) :
    name ∈ firstOccurrences names ↔ name ∈ names := by
  induction names with
  | nil => simp [firstOccurrences]
  | cons first rest ih =>
    by_cases h : name = first
    · simp [firstOccurrences, h]
    · simp [firstOccurrences, h, List.mem_filter, ih]

theorem categories_calls_create (useNaCategory : Bool) (calls : List CategoryCall) :
    ((CategoryMaps.create.setUseNaCategory useNaCategory).calls calls).categories =
      firstOccurrences (calls.map CategoryCall.category) := by
  rw [categories_calls calls _ (wellFormed_create useNaCategory)]
  simp [CategoryMaps.create, CategoryMaps.setUseNaCategory]

end Categories

section Sorting

theorem naFirstAscending_iff_key (valueVector : List Value) (valueType : ValueType)
    (i j : Nat) :
    naFirstAscending valueVector valueType i j ↔
      sortKey valueVector valueType i < sortKey valueVector valueType j := by
  unfold naFirstAscending sortKey
  rw [Prod.Lex.lt_iff]
  cases hi : (valueVector.getD i gNaValue).na <;> cases hj : (valueVector.getD j gNaValue).na <;>
    simp [WithBot.bot_lt_coe]

theorem sortValueVectorLess_iff (valueVector : List Value) (valueType : ValueType)
    (i j : Nat) :
    sortValueVectorLess valueVector valueType i j = true ↔
      naFirstAscending valueVector valueType i j := by
  unfold naFirstAscending sortValueVectorLess sortPayload
  cases valueType <;>
    cases hi : (valueVector.getD i gNaValue).na <;>
    cases hj : (valueVector.getD j gNaValue).na <;>
    simp only [hi, hj] <;> simp
  · constructor
    · rintro (h | ⟨h1, h2⟩)
      · exact Or.inl h
      · rcases lt_or_eq_of_le h1 with h3 | h3
        · exact Or.inl h3
        · exact Or.inr ⟨h3, h2⟩
    · rintro (h | ⟨h1, h2⟩)
      · exact Or.inl h
      · exact Or.inr ⟨le_of_eq h1, h2⟩
  · constructor
    · rintro (h | ⟨h1, h2⟩)
      · exact Or.inl h
      · rcases lt_or_eq_of_le h1 with h3 | h3
        · exact Or.inl h3
        · exact Or.inr ⟨h3, h2⟩
    · rintro (h | ⟨h1, h2⟩)
      · exact Or.inl h
      · exact Or.inr ⟨le_of_eq h1, h2⟩

theorem sortKey_injective (valueVector : List Value) (valueType : ValueType) (i j : Nat)
    (h : sortKey valueVector valueType i = sortKey valueVector valueType j) : i = j := by
  unfold sortKey at h
  have := congrArg (fun p => (ofLex p).2) h
  simpa using this

theorem naFirstAscending_trans (valueVector : List Value) (valueType : ValueType)
    (i j k : Nat) (h1 : naFirstAscending valueVector valueType i j)
    (h2 : naFirstAscending valueVector valueType j k) :
    naFirstAscending valueVector valueType i k := by
  rw [naFirstAscending_iff_key] at *
  exact lt_trans h1 h2

theorem naFirstAscending_total (valueVector : List Value) (valueType : ValueType)
    (i j : Nat) (h : i ≠ j) :
    naFirstAscending valueVector valueType i j ∨ naFirstAscending valueVector valueType j i := by
  rw [naFirstAscending_iff_key, naFirstAscending_iff_key]
  exact lt_or_gt_of_ne (fun e => h (sortKey_injective valueVector valueType i j e))

theorem naFirstAscending_irrefl (valueVector : List Value) (valueType : ValueType) (i : Nat) :
    ¬ naFirstAscending valueVector valueType i i := by
  rw [naFirstAscending_iff_key]
  exact lt_irrefl _

theorem sortIndexes_perm (valueVector : List Value) (valueType : ValueType)
    (indexVector : List Nat) :
    (sortIndexes valueVector valueType indexVector).Perm indexVector :=
  List.perm_insertionSort _ _

theorem pairwise_orderedInsert (valueVector : List Value) (valueType : ValueType) (a : Nat) :
    ∀ l : List Nat, a ∉ l → l.Pairwise (naFirstAscending valueVector valueType) →
      (l.orderedInsert (fun i j => sortValueVectorLess valueVector valueType i j = true)
        a).Pairwise (naFirstAscending valueVector valueType) := by
  intro l
  induction l with
  | nil => intro _ _; simp
  | cons b rest ih =>
    intro ha hl
    rw [List.orderedInsert]
    have hab : a ≠ b := fun e => ha (e ▸ List.mem_cons_self _ _)
    have harest : a ∉ rest := fun hm => ha (List.mem_cons_of_mem _ hm)
    rw [List.pairwise_cons] at hl
    by_cases h : sortValueVectorLess valueVector valueType a b = true
    · rw [if_pos h]
      rw [sortValueVectorLess_iff] at h
      refine List.Pairwise.cons ?_ (List.Pairwise.cons hl.1 hl.2)
      intro x hx
      rcases List.mem_cons.1 hx with rfl | hx
      · exact h
      · exact naFirstAscending_trans _ _ _ _ _ h (hl.1 x hx)
    · rw [if_neg h]
      rw [sortValueVectorLess_iff] at h
      refine List.Pairwise.cons ?_ (ih harest hl.2)
      intro x hx
      rcases (List.mem_orderedInsert _).1 hx with rfl | hx
      · rcases naFirstAscending_total valueVector valueType x b hab with h1 | h1
        · exact absurd h1 h
        · exact h1
      · exact hl.1 x hx

theorem sortIndexes_pairwise (valueVector : List Value) (valueType : ValueType) :
    ∀ indexVector : List Nat, indexVector.Nodup →
      (sortIndexes valueVector valueType indexVector).Pairwise
        (naFirstAscending valueVector valueType) := by
  intro indexVector
  induction indexVector with
  | nil => intro _; exact List.Pairwise.nil
  | cons a rest ih =>
    intro h
    rw [List.nodup_cons] at h
    show (List.orderedInsert _ a (sortIndexes valueVector valueType rest)).Pairwise _
    apply pairwise_orderedInsert
    · intro hm
      exact h.1 ((sortIndexes_perm valueVector valueType rest).mem_iff.1 hm)
    · exact ih h.2

theorem pairwise_naFirstAscending_unique (valueVector : List Value) (valueType : ValueType)
    (l1 l2 : List Nat) (hp : l1.Perm l2)
    (h1 : l1.Pairwise (naFirstAscending valueVector valueType))
    (h2 : l2.Pairwise (naFirstAscending valueVector valueType)) : l1 = l2 := by
  have h1k : (l1.map (sortKey valueVector valueType)).Sorted (· ≤ ·) := by
    rw [List.Sorted, List.pairwise_map]
    exact h1.imp (fun h => le_of_lt ((naFirstAscending_iff_key _ _ _ _).1 h))
  have h2k : (l2.map (sortKey valueVector valueType)).Sorted (· ≤ ·) := by
    rw [List.Sorted, List.pairwise_map]
    exact h2.imp (fun h => le_of_lt ((naFirstAscending_iff_key _ _ _ _).1 h))
  have := List.eq_of_perm_of_sorted (hp.map _) h1k h2k
  exact List.map_injective_iff.2 (fun i j => sortKey_injective valueVector valueType i j) this

end Sorting

section Median

theorem medianValueRows_eq_filter (valuesColumn : List Value) (rowSelected : List Bool) :
    ∀ l : List Nat, (∀ row ∈ l, row < valuesColumn.length ∧ row < rowSelected.length) →
      medianValueRows valuesColumn rowSelected l =
        .ok (l.filter (fun row =>
          rowSelected.getD row false && !(valuesColumn.getD row gNaValue).na)) := by
  intro l
  induction l with
  | nil => intro _; rfl
  | cons row rest ih =>
    intro h
    obtain ⟨h1, h2⟩ := h row (List.mem_cons_self _ _)
    have hrest := ih (fun r hr => h r (List.mem_cons_of_mem _ hr))
    unfold medianValueRows
    rw [List.getElem?_eq_getElem h1, List.getElem?_eq_getElem h2]
    simp only [hrest, List.filter_cons, List.getD_eq_getElem?_getD, List.getElem?_eq_getElem h1,
      List.getElem?_eq_getElem h2, Option.getD_some]
    split_ifs <;> rfl

theorem nodup_of_pairwise_naFirstAscending (valueVector : List Value) (valueType : ValueType)
    (l : List Nat) (h : l.Pairwise (naFirstAscending valueVector valueType)) : l.Nodup := by
  unfold List.Nodup
  refine h.imp ?_
  intro a b hab e
  subst e
  exact naFirstAscending_irrefl valueVector valueType a hab

theorem sorted_values_of_table (valuesColumn : List Value) (selectRows : SelectIndexes)
    (sortedIndexes : List Nat)
    (hsorted : sortedIndexes.Pairwise (naFirstAscending valuesColumn .kNumeric))
    (hrange : ∀ row ∈ sortedIndexes, row < valuesColumn.length)
    (hall : ∀ row ∈ selectedValueRows valuesColumn selectRows, row ∈ sortedIndexes) :
    (sortedIndexes.filter (fun row =>
        selectRows.boolVector.getD row false && !(valuesColumn.getD row gNaValue).na)).map
        (fun row => (valuesColumn.getD row gNaValue).number.d) =
      selectedValuesAscending valuesColumn selectRows := by
  have hnodup := nodup_of_pairwise_naFirstAscending _ _ _ hsorted
  have hperm : (sortedIndexes.filter (fun row =>
      selectRows.boolVector.getD row false && !(valuesColumn.getD row gNaValue).na)).Perm
      (selectedValueRows valuesColumn selectRows) := by
    unfold selectedValueRows
    rw [List.perm_ext_iff_of_nodup (hnodup.filter _) ((List.nodup_range _).filter _)]
    intro row
    simp only [List.mem_filter, List.mem_range, Bool.and_eq_true]
    constructor
    · rintro ⟨h1, h2⟩
      exact ⟨hrange row h1, h2⟩
    · rintro ⟨h1, h2⟩
      refine ⟨hall row ?_, h2⟩
      simp only [selectedValueRows, List.mem_filter, List.mem_range, Bool.and_eq_true]
      exact ⟨h1, h2⟩
  have hs : ((sortedIndexes.filter (fun row =>
      selectRows.boolVector.getD row false && !(valuesColumn.getD row gNaValue).na)).map
      (fun row => (valuesColumn.getD row gNaValue).number.d)).Sorted (fun x y => x ≤ y) := by
    rw [List.Sorted, List.pairwise_map]
    refine (hsorted.filter _).imp_of_mem ?_
    intro a b ha hb hab
    have hna : (valuesColumn.getD a gNaValue).na = false := by
      have := (List.mem_filter.1 ha).2
      simp at this
      simpa using this.2
    have hnb : (valuesColumn.getD b gNaValue).na = false := by
      have := (List.mem_filter.1 hb).2
      simp at this
      simpa using this.2
    rcases hab with h | h | h
    · rw [hna] at h; exact absurd h.1 (by decide)
    · rw [hna] at h; exact absurd h.1 (by decide)
    · rcases h.2.2 with h3 | h3
      · exact le_of_lt h3
      · exact le_of_eq h3.1
  exact List.eq_of_perm_of_sorted
    ((hperm.map _).trans (List.perm_insertionSort _ _).symm) hs (List.sorted_insertionSort _ _)

end Median

section Mode

theorem levelCount_cons (valuesColumn : List Value) (row : Nat) (rest : List Nat) (c : Int) :
    levelCount valuesColumn (row :: rest) c =
      (if (valuesColumn.getD row gNaValue).na = false ∧
          (valuesColumn.getD row gNaValue).number.i = c then 1 else 0) +
        levelCount valuesColumn rest c := by
  unfold levelCount
  rw [List.filter_cons]
  by_cases h : (valuesColumn.getD row gNaValue).na = false ∧
      (valuesColumn.getD row gNaValue).number.i = c
  · rw [if_pos h]
    have : (!(valuesColumn.getD row gNaValue).na &&
        decide ((valuesColumn.getD row gNaValue).number.i = c)) = true := by
      rw [h.1, h.2]
      simp
    rw [this]
    simp only [if_true, List.length_cons]
    omega
  · rw [if_neg h]
    have : (!(valuesColumn.getD row gNaValue).na &&
        decide ((valuesColumn.getD row gNaValue).number.i = c)) = false := by
      rw [Bool.and_eq_false_iff]
      by_cases h1 : (valuesColumn.getD row gNaValue).na = false
      · right
        simpa using fun e => h ⟨h1, e⟩
      · left
        simpa using h1
    rw [this]
    simp

theorem modeValueTally_spec (valuesColumn : List Value) (categoryCount size : Nat)
    (beginCategoryIndex : Int) (hbegin : beginCategoryIndex ≤ 0)
    (hcount : (categoryCount : Int) = (size : Int) - beginCategoryIndex) :
    ∀ (rows : List Nat) (counts : List Nat), counts.length = categoryCount →
      (∀ row ∈ rows, ∃ v, valuesColumn[row]? = some v ∧
        (v.na = false → 0 ≤ v.number.i ∧ v.number.i < (size : Int))) →
      ∃ counts', modeValueTally valuesColumn categoryCount beginCategoryIndex rows counts =
          .ok counts' ∧ counts'.length = categoryCount ∧
        ∀ k, k < categoryCount → counts'[k]? =
          some (counts.getD k 0 + levelCount valuesColumn rows (beginCategoryIndex + (k : Int))) := by
  intro rows
  induction rows with
  | nil =>
    intro counts hlen _
    refine ⟨counts, rfl, hlen, fun k hk => ?_⟩
    have hk' : k < counts.length := by omega
    simp [levelCount, List.getD_eq_getElem?_getD, List.getElem?_eq_getElem hk']
  | cons row rest ih =>
    intro counts hlen hrows
    obtain ⟨v, hv, hin⟩ := hrows row (List.mem_cons_self _ _)
    have hrest := fun r hr => hrows r (List.mem_cons_of_mem row hr)
    have hgetD : valuesColumn.getD row gNaValue = v := by
      simp [List.getD_eq_getElem?_getD, hv]
    unfold modeValueTally
    simp only [hv]
    by_cases hna : v.na = false
    · rw [if_pos hna]
      obtain ⟨h0, hsz⟩ := hin hna
      rw [if_neg (by omega), if_pos (by omega)]
      have hidx : (v.number.i - beginCategoryIndex).toNat < counts.length := by omega
      rw [List.getElem?_eq_getElem hidx]
      obtain ⟨counts', hc', hlen', hval⟩ := ih (counts.set (v.number.i - beginCategoryIndex).toNat
        (counts[(v.number.i - beginCategoryIndex).toNat] + 1)) (by simpa using hlen) hrest
      refine ⟨counts', hc', hlen', fun k hk => ?_⟩
      rw [hval k hk, levelCount_cons, hgetD]
      have hk' : k < counts.length := by omega
      by_cases hkk : k = (v.number.i - beginCategoryIndex).toNat
      · have hvi : v.number.i = beginCategoryIndex + (k : Int) := by omega
        rw [if_pos ⟨hna, hvi⟩]
        subst hkk
        simp [List.getD_eq_getElem?_getD, List.getElem?_set_self hidx,
          List.getElem?_eq_getElem hidx]
        omega
      · have hvi : ¬ (v.na = false ∧ v.number.i = beginCategoryIndex + (k : Int)) := by
          intro h
          apply hkk
          omega
        rw [if_neg hvi]
        have hne : (v.number.i - beginCategoryIndex).toNat ≠ k := fun e => hkk e.symm
        simp [List.getD_eq_getElem?_getD, List.getElem?_set_ne hne]
    · rw [if_neg hna]
      obtain ⟨counts', hc', hlen', hval⟩ := ih counts hlen hrest
      refine ⟨counts', hc', hlen', fun k hk => ?_⟩
      rw [hval k hk, levelCount_cons, hgetD, if_neg (fun h => hna h.1)]
      simp

theorem modeValuePick_spec (m : CategoryMaps) (beginCategoryIndex : Int) (counts : List Nat)
    (cnt : Int → Nat) : ∀ (cats processed : List Int) (st : Value × Nat × String),
    (∀ c ∈ cats, counts[(c - beginCategoryIndex).toNat]? = some (cnt c)) →
    (∀ c ∈ cats, m.getCategoryForIndex c = .ok (levelName m c)) →
    ModePickInv m cnt processed st →
    ∃ st', modeValuePick m beginCategoryIndex counts cats st = .ok st' ∧
      ModePickInv m cnt (processed ++ cats) st' := by
  intro cats
  induction cats with
  | nil =>
    intro processed st _ _ hinv
    exact ⟨st, rfl, by simpa using hinv⟩
  | cons c cats ih =>
    intro processed st hcats hnames hinv
    obtain ⟨value, selectedCount, selectedName⟩ := st
    have hcnt := hcats c (List.mem_cons_self _ _)
    have hnamec := hnames c (List.mem_cons_self _ _)
    obtain ⟨hnone, hsome⟩ := hinv
    simp only at hnone hsome
    have hstep : ∀ st1 : Value × Nat × String, ModePickInv m cnt (processed ++ [c]) st1 →
        ∃ st', modeValuePick m beginCategoryIndex counts cats st1 = .ok st' ∧
          ModePickInv m cnt (processed ++ c :: cats) st' := by
      intro st1 hinv1
      have := ih (processed ++ [c]) st1 (fun c' hc' => hcats c' (List.mem_cons_of_mem _ hc'))
        (fun c' hc' => hnames c' (List.mem_cons_of_mem _ hc')) hinv1
      simpa using this
    have hkeep : (cnt c = 0 ∨ (value.na = false ∧ (cnt c < selectedCount ∨
        (cnt c = selectedCount ∧ ¬ levelName m c < selectedName)))) →
        ModePickInv m cnt (processed ++ [c]) (value, selectedCount, selectedName) := by
      intro hcase
      refine ⟨?_, ?_⟩
      · intro hna
        simp only at hna
        refine ⟨(hnone hna).1, fun c' hc' => ?_⟩
        simp only [List.mem_append, List.mem_singleton] at hc'
        rcases hc' with hc' | hc'
        · exact (hnone hna).2 c' hc'
        · subst hc'
          rcases hcase with h | h
          · exact h
          · rw [h.1] at hna; exact absurd hna (by decide)
      · intro hna
        simp only at hna
        obtain ⟨hmem, hsel, hpos, hname, hmax, hmin⟩ := hsome hna
        refine ⟨by simp [hmem], hsel, hpos, hname, ?_, ?_⟩
        · intro c' hc'
          simp only [List.mem_append, List.mem_singleton] at hc'
          rcases hc' with hc' | hc'
          · exact hmax c' hc'
          · subst hc'
            simp only
            rcases hcase with h | ⟨-, h | h⟩ <;> omega
        · intro c' hc' heq
          simp only [List.mem_append, List.mem_singleton] at hc'
          rcases hc' with hc' | hc'
          · exact hmin c' hc' heq
          · subst hc'
            simp only at heq
            rcases hcase with h | ⟨-, h | h⟩
            · omega
            · omega
            · rw [← hname]
              exact not_lt.mp h.2
    have hpick : (cnt c ≠ 0 ∧ (value.na = true ∨ selectedCount < cnt c ∨
        (cnt c = selectedCount ∧ levelName m c < selectedName))) →
        ModePickInv m cnt (processed ++ [c])
          (⟨{ value.number with i := c }, false⟩, cnt c, levelName m c) := by
      intro hcase
      refine ⟨fun hna => absurd hna (by simp), fun _ => ?_⟩
      refine ⟨by simp, rfl, Nat.pos_of_ne_zero hcase.1, rfl, ?_, ?_⟩
      · intro c' hc'
        simp only [List.mem_append, List.mem_singleton] at hc'
        rcases hc' with hc' | hc'
        · simp only
          rcases hcase.2 with h | h
          · rw [(hnone h).2 c' hc']; exact Nat.zero_le _
          · cases hv : value.na with
            | true => rw [(hnone hv).2 c' hc']; exact Nat.zero_le _
            | false =>
              obtain ⟨-, -, -, -, hmax, -⟩ := hsome hv
              have := hmax c' hc'
              rcases h with h | h <;> omega
        · subst hc'
          exact le_refl _
      · intro c' hc' heq
        simp only [List.mem_append, List.mem_singleton] at hc'
        simp only at heq ⊢
        rcases hc' with hc' | hc'
        · rcases hcase.2 with h | h
          · have := (hnone h).2 c' hc'
            omega
          · cases hv : value.na with
            | true =>
              have := (hnone hv).2 c' hc'
              omega
            | false =>
              obtain ⟨-, -, -, hname, hmax, hmin⟩ := hsome hv
              have := hmax c' hc'
              rcases h with h | h
              · omega
              · have h3 := hmin c' hc' (by omega)
                rw [hname] at h
                exact le_trans (le_of_lt h.2) h3
        · subst hc'
          exact le_refl _
    rw [modeValuePick]
    simp only [hnamec, hcnt]
    split_ifs with h1 h2 h3 h4 h5 h6 h7 h8
    · exact absurd h2 id
    · exact hstep _ (hkeep (Or.inl h1))
    · exact hstep _ (hpick ⟨h1, Or.inl h3⟩)
    · exact absurd rfl h4
    · exact hstep _ (hpick ⟨h1, Or.inr (Or.inl h5)⟩)
    · exact absurd rfl h6
    · exact hstep _ (hpick ⟨h1, Or.inr (Or.inr ⟨h7, of_decide_eq_true h8⟩)⟩)
    · exact hstep _ (hkeep (Or.inr ⟨by simpa using h3, Or.inr ⟨h7, fun h => h8 (decide_eq_true h)⟩⟩))
    · rename_i hfalse
      exact absurd hfalse id
    · exact hstep _ (hkeep (Or.inr ⟨by simpa using h3, Or.inl (by omega)⟩))

theorem levelCount_pos (valuesColumn : List Value) (rows : List Nat) (row : Nat)
    (hrow : row ∈ rows) (hna : (valuesColumn.getD row gNaValue).na = false) :
    0 < levelCount valuesColumn rows (valuesColumn.getD row gNaValue).number.i := by
  unfold levelCount
  apply List.length_pos_of_mem (a := row)
  rw [List.mem_filter]
  exact ⟨hrow, by rw [hna]; simp⟩

theorem levelCount_eq_zero (valuesColumn : List Value) (rows : List Nat) (c : Int)
    (h : ∀ row ∈ rows, (valuesColumn.getD row gNaValue).na = false →
      (valuesColumn.getD row gNaValue).number.i ≠ c) :
    levelCount valuesColumn rows c = 0 := by
  unfold levelCount
  rw [List.length_eq_zero, List.filter_eq_nil_iff]
  intro row hrow hp
  simp only [Bool.and_eq_true, Bool.not_eq_true', decide_eq_true_eq] at hp
  exact h row hrow hp.1 hp.2

theorem modeValue_spec (valuesColumn : List Value) (selectRows : SelectIndexes)
    (categoryMaps : CategoryMaps)
    (hrows : ∀ row ∈ selectRows.indexVector, row < valuesColumn.length)
    (hinside : ∀ row ∈ selectRows.indexVector, (valuesColumn.getD row gNaValue).na = false →
      0 ≤ (valuesColumn.getD row gNaValue).number.i ∧
        (valuesColumn.getD row gNaValue).number.i < (categoryMaps.countNamedCategories : Int)) :
    ∃ v, modeValue valuesColumn selectRows categoryMaps = .ok v ∧
      (v.na = true ↔
        ∀ row ∈ selectRows.indexVector, (valuesColumn.getD row gNaValue).na = true) ∧
      (v.na = true → v = gNaValue) ∧
      (v.na = false →
        0 ≤ v.number.i ∧ v.number.i < (categoryMaps.countNamedCategories : Int) ∧
        0 < levelCount valuesColumn selectRows.indexVector v.number.i ∧
        (∀ c : Int, levelCount valuesColumn selectRows.indexVector c ≤
          levelCount valuesColumn selectRows.indexVector v.number.i) ∧
        ∀ c : Int, 0 ≤ c → c < (categoryMaps.countNamedCategories : Int) →
          levelCount valuesColumn selectRows.indexVector c =
            levelCount valuesColumn selectRows.indexVector v.number.i →
          levelName categoryMaps v.number.i ≤ levelName categoryMaps c) := by
  have hbegin : categoryMaps.beginIndex ≤ 0 := by
    unfold CategoryMaps.beginIndex NO_INDEX
    split_ifs <;> omega
  have hbegin1 : -1 ≤ categoryMaps.beginIndex := by
    unfold CategoryMaps.beginIndex NO_INDEX
    split_ifs <;> omega
  have hcount : (categoryMaps.countAllCategories : Int) =
      (categoryMaps.categories.length : Int) - categoryMaps.beginIndex := by
    unfold CategoryMaps.countAllCategories CategoryMaps.beginIndex NO_INDEX
    split_ifs <;> push_cast <;> omega
  have hsize : categoryMaps.countNamedCategories = categoryMaps.categories.length := rfl
  have houtside : ∀ c : Int, ¬ (0 ≤ c ∧ c < (categoryMaps.categories.length : Int)) →
      levelCount valuesColumn selectRows.indexVector c = 0 := by
    intro c hc
    apply levelCount_eq_zero
    intro row hrow hna heq
    have := hinside row hrow hna
    rw [heq, hsize] at this
    exact hc this
  unfold modeValue
  simp only []
  by_cases hcond : valuesColumn.length > 0 ∧ categoryMaps.countAllCategories > 0
  · rw [if_pos hcond]
    obtain ⟨counts, hcounts, hlen, hval⟩ := modeValueTally_spec valuesColumn
      categoryMaps.countAllCategories categoryMaps.categories.length categoryMaps.beginIndex
      hbegin hcount selectRows.indexVector (List.replicate categoryMaps.countAllCategories 0)
      (by simp) (by
        intro row hrow
        have hlt := hrows row hrow
        refine ⟨valuesColumn[row], List.getElem?_eq_getElem hlt, fun hna => ?_⟩
        have hd : valuesColumn.getD row gNaValue = valuesColumn[row] := by
          simp [List.getD_eq_getElem?_getD, List.getElem?_eq_getElem hlt]
        have := hinside row hrow (by rw [hd]; exact hna)
        rw [hd] at this
        exact this)
    rw [hcounts]
    simp only []
    obtain ⟨st, hst, hinv⟩ := modeValuePick_spec categoryMaps categoryMaps.beginIndex counts
      (levelCount valuesColumn selectRows.indexVector)
      (categoryIndexes categoryMaps.beginIndex categoryMaps.endIndex) [] (gNaValue, 0, "")
      (by
        intro c hc
        rw [mem_categoryIndexes] at hc
        have hend : categoryMaps.endIndex = (categoryMaps.categories.length : Int) := rfl
        have hk : (c - categoryMaps.beginIndex).toNat < categoryMaps.countAllCategories := by
          omega
        rw [hval _ hk]
        have hcast : categoryMaps.beginIndex +
            (((c - categoryMaps.beginIndex).toNat : Nat) : Int) = c := by omega
        rw [hcast]
        simp [List.getD_eq_getElem?_getD, List.getElem?_replicate, hk])
      (by
        intro c hc
        rw [mem_categoryIndexes] at hc
        exact findCategoryForIndex_found categoryMaps c hc.1 hc.2)
      ⟨fun _ => ⟨rfl, fun c hc => by simp at hc⟩, fun h => by simp [gNaValue] at h⟩
    rw [hst]
    simp only [List.nil_append] at hinv
    obtain ⟨hnone, hsome⟩ := hinv
    refine ⟨st.1, rfl, ?_, fun hna => (hnone hna).1, ?_⟩
    · constructor
      · intro hna row hrow
        by_contra hrowna
        have hrowna' : (valuesColumn.getD row gNaValue).na = false := by simpa using hrowna
        have hpos := levelCount_pos valuesColumn selectRows.indexVector row hrow hrowna'
        have hin := hinside row hrow hrowna'
        have := (hnone hna).2 (valuesColumn.getD row gNaValue).number.i (by
          rw [mem_categoryIndexes]
          have hend : categoryMaps.endIndex = (categoryMaps.categories.length : Int) := rfl
          rw [hsize] at hin
          omega)
        omega
      · intro hall
        by_contra hna
        have hna' : st.1.na = false := by simpa using hna
        obtain ⟨-, hsel, hpos, -, -, -⟩ := hsome hna'
        have : levelCount valuesColumn selectRows.indexVector st.1.number.i = 0 := by
          apply levelCount_eq_zero
          intro row hrow hrowna
          rw [hall row hrow] at hrowna
          exact absurd hrowna (by decide)
        omega
    · intro hna
      obtain ⟨hmem, hsel, hpos, -, hmax, hmin⟩ := hsome hna
      rw [mem_categoryIndexes] at hmem
      have hend : categoryMaps.endIndex = (categoryMaps.categories.length : Int) := rfl
      have h0 : 0 ≤ st.1.number.i := by
        by_contra hneg
        have := houtside st.1.number.i (fun h => hneg h.1)
        omega
      refine ⟨h0, by rw [hsize]; omega, by omega, ?_, ?_⟩
      · intro c
        by_cases hc : 0 ≤ c ∧ c < (categoryMaps.categories.length : Int)
        · have := hmax c (by rw [mem_categoryIndexes]; omega)
          omega
        · rw [houtside c hc]
          exact Nat.zero_le _
      · intro c hc0 hc1 heq
        exact hmin c (by rw [mem_categoryIndexes]; rw [hsize] at hc1; omega) (by omega)
  · rw [if_neg hcond]
    have hall : ∀ row ∈ selectRows.indexVector, (valuesColumn.getD row gNaValue).na = true := by
      intro row hrow
      by_contra hrowna
      have hrowna' : (valuesColumn.getD row gNaValue).na = false := by simpa using hrowna
      have hin := hinside row hrow hrowna'
      have hlt := hrows row hrow
      rw [hsize] at hin
      apply hcond
      constructor
      · omega
      · have : (0 : Int) < (categoryMaps.countAllCategories : Int) := by omega
        omega
    exact ⟨gNaValue, rfl, ⟨fun _ => hall, fun _ => rfl⟩, fun _ => rfl,
      fun h => by simp [gNaValue] at h⟩

end Mode

section Imputation

theorem getElem?_of_vecGet_ok {α : Type} (v : List α) (index : Nat) (x : α)
    (h : vecGet v index = .ok x) : v[index]? = some x := by
  unfold vecGet at h
  cases hx : v[index]? with
  | none => simp [hx] at h
  | some y => simp [hx] at h; rw [h]

theorem imputeValuesLoop_cons (convertTypes : List ImputeOption) (valueTypes : List ValueType)
    (selectRows : SelectIndexes) (selectColumnIndexes : List Nat) (numCols numRows : Nat)
    (columnIndex : Nat) (rest : List Nat) (st stf : ImputeState)
    (h : imputeValuesLoop convertTypes valueTypes selectRows selectColumnIndexes numCols numRows
      (columnIndex :: rest) st = .ok stf) :
    ∃ col column convertType, selectColumnIndexes[columnIndex]? = some col ∧ col < numCols ∧
      st.values[col]? = some column ∧ column.length = numRows ∧
      convertTypes[col]? = some convertType ∧
      ((convertType = .kNoImpute ∧
          imputeValuesLoop convertTypes valueTypes selectRows selectColumnIndexes numCols numRows
            rest st = .ok stf) ∨
        (convertType ≠ .kNoImpute ∧ ∃ imputed column' changed maps1 sorted1,
          imputedValue col convertTypes st.values valueTypes selectRows maps1
            st.sortedIndexes = .ok imputed ∧
          (convertType ≠ .kToCategory → maps1 = st.categoryMaps) ∧
          maps1.length = st.categoryMaps.length ∧
          (∀ c, c ≠ col → maps1[c]? = st.categoryMaps[c]?) ∧
          col < st.imputedValues.length ∧
          imputeColumn imputed selectRows.indexVector (column, false) = .ok (column', changed) ∧
          sorted1.length = st.sortedIndexes.length ∧
          (∀ c, c ≠ col → sorted1[c]? = st.sortedIndexes[c]?) ∧
          imputeValuesLoop convertTypes valueTypes selectRows selectColumnIndexes numCols numRows
            rest ⟨st.values.set col column', maps1, sorted1, st.imputedValues.set col imputed⟩ =
              .ok stf)) := by
  rw [imputeValuesLoop] at h
  simp only [bind, Except.bind, pure, Except.pure, throw, throwThe, MonadExceptOf.throw] at h
  cases hcol : vecGet selectColumnIndexes columnIndex with
  | error e => simp [hcol] at h
  | ok col =>
    simp only [hcol] at h
    by_cases hrange : col ≥ numCols
    · simp [hrange] at h
    · rw [if_neg hrange] at h
      cases hcolumn : vecGet st.values col with
      | error e => simp [hcolumn] at h
      | ok column =>
        simp only [hcolumn] at h
        by_cases hlen : numRows ≠ column.length
        · simp [hlen] at h
        · rw [if_neg hlen] at h
          cases hct : vecGet convertTypes col with
          | error e => simp [hct] at h
          | ok convertType =>
            simp only [hct] at h
            cases hmap : vecGet st.categoryMaps col with
            | error e => simp [hmap] at h
            | ok map =>
              simp only [hmap] at h
              by_cases hdef : convertType = .kToDefault
              · simp [hdef] at h
              · rw [if_neg hdef] at h
                refine ⟨col, column, convertType, getElem?_of_vecGet_ok _ _ _ hcol,
                  by omega, getElem?_of_vecGet_ok _ _ _ hcolumn, by
                    simp only [ne_eq, not_not] at hlen; exact hlen.symm,
                  getElem?_of_vecGet_ok _ _ _ hct, ?_⟩
                by_cases hno : convertType = .kNoImpute
                · left
                  subst hno
                  simp only [ne_eq, not_true_eq_false, if_false, reduceCtorEq] at h
                  exact ⟨rfl, h⟩
                · right
                  rw [if_pos hno] at h
                  refine ⟨hno, ?_⟩
                  generalize hmaps : (if convertType = ImputeOption.kToCategory then
                    st.categoryMaps.set col
                      { useNaCategory := true, categories := map.categories,
                        categoryToIndex := map.categoryToIndex }
                    else st.categoryMaps) = maps1 at h
                  have hm1 : convertType ≠ .kToCategory → maps1 = st.categoryMaps := by
                    intro hne; rw [← hmaps, if_neg hne]
                  have hm2 : maps1.length = st.categoryMaps.length := by
                    rw [← hmaps]; split_ifs <;> simp
                  have hm3 : ∀ c, c ≠ col → maps1[c]? = st.categoryMaps[c]? := by
                    intro c hc
                    rw [← hmaps]
                    split_ifs
                    · rw [List.getElem?_set_ne (fun e => hc e.symm)]
                    · rfl
                  cases himp : imputedValue col convertTypes st.values valueTypes selectRows maps1
                      st.sortedIndexes with
                  | error e => simp [himp] at h
                  | ok imputed =>
                    simp only [himp] at h
                    cases hset : vecSet st.imputedValues col imputed with
                    | error e => simp [hset] at h
                    | ok imputedValues1 =>
                      simp only [hset] at h
                      unfold vecSet at hset
                      by_cases hil : col < st.imputedValues.length
                      · rw [if_pos hil] at hset
                        cases hset
                        cases hr : imputeColumn imputed selectRows.indexVector (column, false) with
                        | error e => simp [hr] at h
                        | ok r =>
                          obtain ⟨column', changed⟩ := r
                          simp only [hr] at h
                          cases hvt : vecGet valueTypes col with
                          | error e => simp [hvt] at h
                          | ok valueType =>
                            simp only [hvt] at h
                            by_cases hch : changed = true
                            · rw [if_pos hch] at h
                              by_cases hsl : col < st.sortedIndexes.length
                              · rw [if_pos hsl] at h
                                exact ⟨imputed, column', changed, maps1, _, himp, hm1, hm2, hm3,
                                  hil, hr, by simp, fun c hc =>
                                    List.getElem?_set_ne (fun e => hc e.symm), h⟩
                              · simp [hsl] at h
                            · rw [if_neg hch] at h
                              exact ⟨imputed, column', changed, maps1, _, himp, hm1, hm2, hm3,
                                hil, hr, rfl, fun c _ => rfl, h⟩
                      · rw [if_neg hil] at hset
                        cases hset

theorem imputeColumn_spec (imputed : Value) :
    ∀ (rows : List Nat) (column : List Value) (changed : Bool) (column' : List Value)
      (changed' : Bool),
      imputeColumn imputed rows (column, changed) = .ok (column', changed') →
      column'.length = column.length ∧
        ∀ row v, column[row]? = some v →
          column'[row]? = some (if row ∈ rows ∧ v.na = true then imputed else v) := by
  intro rows
  induction rows with
  | nil =>
    intro column changed column' changed' h
    cases h
    exact ⟨rfl, fun row v hv => by simp [hv]⟩
  | cons r rest ih =>
    intro column changed column' changed' h
    unfold imputeColumn at h
    cases hr : column[r]? with
    | none => simp [hr] at h
    | some w =>
      simp only [hr] at h
      obtain ⟨hrlt, hrw⟩ := List.getElem?_eq_some.1 hr
      by_cases hna : w.na = true
      · rw [if_pos hna] at h
        obtain ⟨hlen, hval⟩ := ih _ _ _ _ h
        refine ⟨by rw [hlen, List.length_set], fun row v hv => ?_⟩
        by_cases hrow : row = r
        · subst hrow
          have hvw : v = w := by rw [hr] at hv; exact (Option.some.inj hv).symm
          rw [hval row imputed (List.getElem?_set_self hrlt)]
          simp [hvw, hna]
        · have hne : r ≠ row := fun e => hrow e.symm
          rw [hval row v (by rw [List.getElem?_set_ne hne]; exact hv)]
          simp [hrow]
      · rw [if_neg hna] at h
        obtain ⟨hlen, hval⟩ := ih _ _ _ _ h
        refine ⟨hlen, fun row v hv => ?_⟩
        rw [hval row v hv]
        by_cases hrow : row = r
        · subst hrow
          have hvw : v = w := by rw [hr] at hv; exact (Option.some.inj hv).symm
          simp [hvw, hna]
        · simp [hrow]

theorem imputedValue_congr (col : Nat) (convertTypes : List ImputeOption)
    (values values' : List (List Value)) (valueTypes : List ValueType)
    (selectRows : SelectIndexes) (categoryMaps categoryMaps' : List CategoryMaps)
    (sortedIndexes sortedIndexes' : List (List Nat)) (hlen : values.length = values'.length)
    (hcol : values[col]? = values'[col]?) (hsorted : sortedIndexes[col]? = sortedIndexes'[col]?)
    (hmaps : convertTypes[col]? = some .kToMode → categoryMaps[col]? = categoryMaps'[col]?) :
    imputedValue col convertTypes values valueTypes selectRows categoryMaps sortedIndexes =
      imputedValue col convertTypes values' valueTypes selectRows categoryMaps'
        sortedIndexes' := by
  unfold imputedValue
  simp only [bind, Except.bind, pure, Except.pure, throw, throwThe, MonadExceptOf.throw, hlen]
  by_cases hrange : col ≥ values'.length
  · simp [hrange]
  · simp only [hrange, if_false]
    cases hvt : vecGet valueTypes col with
    | error e => rfl
    | ok valueType =>
      cases hct : vecGet convertTypes col with
      | error e => rfl
      | ok convertType =>
        have hct' := getElem?_of_vecGet_ok _ _ _ hct
        cases valueType <;> cases convertType
        all_goals try rfl
        all_goals simp only [vecGet, hcol, hsorted]
        all_goals rw [hmaps hct']

theorem filterMap_getElem?_range {α : Type} (l : List α) :
    (List.range l.length).filterMap (fun i => l[i]?) = l := by
  induction l with
  | nil => rfl
  | cons a rest ih =>
    rw [List.length_cons, List.range_succ_eq_map, List.filterMap_cons]
    simp only [List.getElem?_cons_zero, List.filterMap_map]
    have : ((fun i => (a :: rest)[i]?) ∘ Nat.succ) = fun i => rest[i]? := by
      funext i
      simp
    rw [this, ih]

theorem imputeValuesLoop_spec (convertTypes : List ImputeOption) (valueTypes : List ValueType)
    (values : List (List Value)) (selectRows : SelectIndexes) (categoryMaps : List CategoryMaps)
    (sortedIndexes : List (List Nat)) (selectColumnIndexes : List Nat) (numRows : Nat) :
    ∀ (idxs processed : List Nat) (st stf : ImputeState),
      imputeValuesLoop convertTypes valueTypes selectRows selectColumnIndexes values.length
        numRows idxs st = .ok stf →
      (processed ++ idxs.filterMap (fun i => selectColumnIndexes[i]?)).Nodup →
      ImputeInv convertTypes valueTypes values selectRows categoryMaps sortedIndexes processed
        st →
      ImputeInv convertTypes valueTypes values selectRows categoryMaps sortedIndexes
        (processed ++ idxs.filterMap (fun i => selectColumnIndexes[i]?)) stf := by
  intro idxs
  induction idxs with
  | nil =>
    intro processed st stf h _ hinv
    cases h
    simpa using hinv
  | cons columnIndex rest ih =>
    intro processed st stf h hnodup hinv
    obtain ⟨col, column, convertType, hcol, hlt, hcolumn, -, hct, hcases⟩ :=
      imputeValuesLoop_cons _ _ _ _ _ _ _ _ _ _ h
    have hfm : (columnIndex :: rest).filterMap (fun i => selectColumnIndexes[i]?) =
        col :: rest.filterMap (fun i => selectColumnIndexes[i]?) := by
      rw [List.filterMap_cons]
      simp only [hcol]
    rw [hfm] at hnodup ⊢
    have hnodup' : ((processed ++ [col]) ++
        rest.filterMap (fun i => selectColumnIndexes[i]?)).Nodup := by
      simpa using hnodup
    have hnotin : col ∉ processed := by
      intro hin
      have := (List.nodup_append.1 hnodup).2.2
      exact this hin (List.mem_cons_self _ _) 
    obtain ⟨hvl, hil, hun, hpr⟩ := hinv
    obtain ⟨hu1, hu2, hu3, hu4⟩ := hun col hnotin
    have hcolumn0 : values[col]? = some column := by rw [← hu1]; exact hcolumn
    have hgoal : ∀ st1, imputeValuesLoop convertTypes valueTypes selectRows selectColumnIndexes
        values.length numRows rest st1 = .ok stf →
        ImputeInv convertTypes valueTypes values selectRows categoryMaps sortedIndexes
          (processed ++ [col]) st1 →
        ImputeInv convertTypes valueTypes values selectRows categoryMaps sortedIndexes
          (processed ++ col :: rest.filterMap (fun i => selectColumnIndexes[i]?)) stf := by
      intro st1 h1 hinv1
      have := ih (processed ++ [col]) st1 stf h1 hnodup' hinv1
      simpa using this
    rcases hcases with ⟨hno, hloop⟩ | ⟨hno, imputed, column', changed, maps1, sorted1, himp, hm1,
      -, hm3, hil1, hic, -, hs3, hloop⟩
    · apply hgoal st hloop
      refine ⟨hvl, hil, fun c hc => ?_, fun c hc => ?_⟩
      · exact hun c (fun h => hc (List.mem_append_left _ h))
      · rcases List.mem_append.1 hc with hc | hc
        · exact hpr c hc
        · rw [List.mem_singleton] at hc
          subst hc
          exact ⟨column, column, convertType, hcolumn0, hcolumn, hct, rfl,
            fun _ => ⟨rfl, hu4 hlt⟩, fun h => absurd hno h⟩
    · apply hgoal _ hloop
      obtain ⟨hclen, hcval⟩ := imputeColumn_spec imputed _ _ _ _ _ hic
      have himp0 : imputedValue col convertTypes values valueTypes selectRows categoryMaps
          sortedIndexes = .ok imputed := by
        rw [← himp]
        apply imputedValue_congr _ _ _ _ _ _ _ _ _ _ hvl.symm hu1.symm hu2.symm
        intro hmode
        have hne : convertType ≠ .kToCategory := by
          rw [hct] at hmode
          intro e
          rw [e] at hmode
          cases hmode
        rw [hm1 hne]
        exact hu3.symm
      refine ⟨by simp [hvl], by simp [hil], fun c hc => ?_, fun c hc => ?_⟩
      · have hc1 : c ∉ processed := fun h => hc (List.mem_append_left _ h)
        have hc2 : c ≠ col := fun e => hc (List.mem_append_right _ (by simp [e]))
        have hc3 : col ≠ c := fun e => hc2 e.symm
        obtain ⟨h1, h2, h3, h4⟩ := hun c hc1
        refine ⟨?_, ?_, ?_, ?_⟩
        · show (st.values.set col column')[c]? = _
          rw [List.getElem?_set_ne hc3]; exact h1
        · show sorted1[c]? = _
          rw [hs3 c hc2]; exact h2
        · show maps1[c]? = _
          rw [hm3 c hc2]; exact h3
        · intro hclt
          show (st.imputedValues.set col imputed)[c]? = _
          rw [List.getElem?_set_ne hc3]; exact h4 hclt
      · rcases List.mem_append.1 hc with hc | hc
        · have hc2 : col ≠ c := fun e => hnotin (e ▸ hc)
          obtain ⟨col0, col1, ct, g1, g2, g3, g4, g5, g6⟩ := hpr c hc
          refine ⟨col0, col1, ct, g1, ?_, g3, g4, ?_, ?_⟩
          · show (st.values.set col column')[c]? = _
            rw [List.getElem?_set_ne hc2]; exact g2
          · intro hct0
            refine ⟨(g5 hct0).1, ?_⟩
            show (st.imputedValues.set col imputed)[c]? = _
            rw [List.getElem?_set_ne hc2]; exact (g5 hct0).2
          · intro hct0
            obtain ⟨imp, i1, i2, i3⟩ := g6 hct0
            refine ⟨imp, i1, ?_, i3⟩
            show (st.imputedValues.set col imputed)[c]? = _
            rw [List.getElem?_set_ne hc2]; exact i2
        · rw [List.mem_singleton] at hc
          subst hc
          have hclt : c < st.values.length := by rw [hvl]; exact hlt
          refine ⟨column, column', convertType, hcolumn0, ?_, hct, hclen,
            fun h => absurd h hno, fun _ => ⟨imputed, himp0, ?_, hcval⟩⟩
          · show (st.values.set c column')[c]? = _
            exact List.getElem?_set_self hclt
          · show (st.imputedValues.set c imputed)[c]? = _
            exact List.getElem?_set_self hil1

theorem imputeValues_inv (convertTypes : List ImputeOption) (valueTypes : List ValueType)
    (values : List (List Value)) (selectRows selectColumns : SelectIndexes)
    (categoryMaps : List CategoryMaps) (sortedIndexes : List (List Nat)) (st : ImputeState)
    (hnodup : selectColumns.indexVector.Nodup)
    (hcount : selectColumns.countSelected = selectColumns.indexVector.length)
    (h : imputeValues convertTypes valueTypes values selectRows selectColumns categoryMaps
      sortedIndexes = .ok st) :
    ImputeInv convertTypes valueTypes values selectRows categoryMaps sortedIndexes
      selectColumns.indexVector st := by
  unfold imputeValues at h
  simp only [bind, Except.bind, pure, Except.pure, throw, throwThe, MonadExceptOf.throw] at h
  cases hfirst : vecGet values 0 with
  | error e => simp [hfirst] at h
  | ok firstColumn =>
    simp only [hfirst] at h
    split_ifs at h with h1 h2 h3 h4
    rw [hcount] at h
    have := imputeValuesLoop_spec convertTypes valueTypes values selectRows categoryMaps
      sortedIndexes selectColumns.indexVector firstColumn.length
      (List.range selectColumns.indexVector.length) [] _ st h
      (by rw [filterMap_getElem?_range]; simpa using hnodup)
      ⟨rfl, by simp, fun col _ => ⟨rfl, rfl, rfl, fun hlt => by
        simp [List.getElem?_replicate, hlt]⟩, fun col hc => by simp at hc⟩
    rw [filterMap_getElem?_range] at this
    simpa using this

theorem cell_eq_ok_iff (values : List (List Value)) (col row : Nat) (v : Value) :
    cell values col row = .ok v ↔ ∃ column, values[col]? = some column ∧ column[row]? = some v := by
  unfold cell vecGet
  cases hc : values[col]? with
  | none => simp
  | some column =>
    cases hr : column[row]? with
    | none => simp [hr]
    | some w => simp [hr]

end Imputation

section RoundTrip

theorem string_length_eq_zero (s : String) : s.length = 0 ↔ s = "" := by
  constructor
  · intro h
    apply String.ext
    exact List.length_eq_zero.1 h
  · intro h
    rw [h]
    rfl

theorem cellAt_of_grid (cells : List (List String)) (quoted : List (List Bool))
    (numRows numCols : Nat) (hcells : IsGrid cells numRows numCols)
    (hquoted : IsGrid quoted numRows numCols) (row col : Nat) (hrow : row < numRows)
    (hcol : col < numCols) : cellAt cells quoted row col = .ok (gridCell cells quoted row col) := by
  have h1 : row < cells.length := by rw [hcells.1]; exact hrow
  have h2 : row < quoted.length := by rw [hquoted.1]; exact hrow
  have h3 : col < (cells[row]).length := by
    rw [hcells.2 _ (List.getElem_mem h1)]; exact hcol
  have h4 : col < (quoted[row]).length := by
    rw [hquoted.2 _ (List.getElem_mem h2)]; exact hcol
  simp [cellAt, vecGet, gridCell, List.getD_eq_getElem?_getD, List.getElem?_eq_getElem h1,
    List.getElem?_eq_getElem h2, List.getElem?_eq_getElem h3, List.getElem?_eq_getElem h4]

theorem cellToCategory_spec (naString cell : String) (isQuoted : Bool) (m : CategoryMaps)
    (hm : m.WellFormed) :
    ∃ v m', cellToCategory true naString false cell isQuoted m = .ok (v, m') ∧ m'.WellFormed ∧
      m'.useNaCategory = m.useNaCategory ∧ (∃ more, m'.categories = m.categories ++ more) ∧
      CellStored naString (cell, isQuoted) v m' := by
  unfold cellToCategory
  by_cases h1 : true = true ∧ cell = naString ∧ isQuoted = false
  · rw [if_pos h1]
    refine ⟨gNaValue, m, rfl, hm, rfl, ⟨[], by simp⟩, fun _ => rfl, fun h => ?_⟩
    simp [isNaCell, h1.2.1, h1.2.2] at h
  · rw [if_neg h1]
    by_cases h2 : cell.length = 0 ∧ isQuoted = false
    · rw [if_pos h2]
      refine ⟨gNaValue, m, rfl, hm, rfl, ⟨[], by simp⟩, fun _ => rfl, fun h => ?_⟩
      simp [isNaCell, (string_length_eq_zero cell).1 h2.1, h2.2] at h
    · rw [if_neg h2]
      have hnot : isNaCell naString cell isQuoted = false := by
        unfold isNaCell
        cases isQuoted with
        | true => rfl
        | false =>
          have h1' : cell ≠ naString := fun e => h1 ⟨rfl, e, rfl⟩
          have h2' : cell ≠ "" := fun e => h2 ⟨(string_length_eq_zero cell).2 e, rfl⟩
          simp [h1', h2']
      rw [findIndexForCategory_of_wellFormed m hm]
      by_cases hmem : cell ∈ m.categories
      · simp only [hmem, if_true]
        refine ⟨_, m, rfl, hm, rfl, ⟨[], by simp⟩, fun h => ?_, fun _ => ⟨rfl, ?_, ?_⟩⟩
        · rw [hnot] at h; cases h
        · exact Int.natCast_nonneg _
        · show m.categories[((List.indexOf cell m.categories : Nat) : Int).toNat]? = some cell
          rw [Int.toNat_natCast]
          have hlt : List.indexOf cell m.categories < m.categories.length :=
            List.indexOf_lt_length.2 hmem
          rw [List.getElem?_eq_getElem hlt, List.getElem_indexOf hlt]
      · simp only [hmem, if_false, Bool.false_eq_true]
        have hcall := call_of_not_mem m hm (.insertCategory cell) hmem
        have hwf := wellFormed_call m hm (.insertCategory cell)
        have hins : m.insertCategory cell =
            (m.call (.insertCategory cell), .ok (m.categories.length : Int)) := by
          simp [CategoryMaps.call, CategoryMaps.insertCategory,
            findIndexForCategory_of_wellFormed m hm, hmem, hm.2.1]
        rw [hins]
        simp only []
        refine ⟨_, _, rfl, hwf, ?_, ⟨[cell], ?_⟩, fun h => ?_, fun _ => ⟨rfl, ?_, ?_⟩⟩
        · rw [hcall]
        · rw [hcall]; rfl
        · rw [hnot] at h; cases h
        · exact Int.natCast_nonneg _
        · show (m.call (.insertCategory cell)).categories[
            ((m.categories.length : Nat) : Int).toNat]? = some cell
          rw [hcall, Int.toNat_natCast]
          simp [CategoryCall.category]

theorem cellStored_mono (naString : String) (c : String × Bool) (v : Value)
    (m m' : CategoryMaps) (h : CellStored naString c v m)
    (hext : ∃ more, m'.categories = m.categories ++ more) : CellStored naString c v m' := by
  obtain ⟨more, hmore⟩ := hext
  refine ⟨h.1, fun hn => ?_⟩
  obtain ⟨h1, h2, h3⟩ := h.2 hn
  refine ⟨h1, h2, ?_⟩
  rw [hmore, List.getElem?_append_left (List.getElem?_eq_some.1 h3).1]
  exact h3

theorem cellsToValuesCategorical_spec (naString : String) (cells : List (List String))
    (quoted : List (List Bool)) (numRows numCols : Nat) (hcells : IsGrid cells numRows numCols)
    (hquoted : IsGrid quoted numRows numCols) (col : Nat) (hcol : col < numCols) :
    ∀ (rows : List Nat) (m : CategoryMaps), m.WellFormed → (∀ row ∈ rows, row < numRows) →
      ∃ vals m', cellsToValuesCategorical cells quoted true naString false col rows m =
          .ok (vals, m') ∧ m'.WellFormed ∧ m'.useNaCategory = m.useNaCategory ∧
        (∃ more, m'.categories = m.categories ++ more) ∧ vals.length = rows.length ∧
        ∀ (k row : Nat), rows[k]? = some row →
          ∃ v, vals[k]? = some v ∧ CellStored naString (gridCell cells quoted row col) v m' := by
  intro rows
  induction rows with
  | nil =>
    intro m hm _
    exact ⟨[], m, rfl, hm, rfl, ⟨[], by simp⟩, rfl, fun k row hk => by simp at hk⟩
  | cons r rest ih =>
    intro m hm hrows
    have hr := hrows r (List.mem_cons_self _ _)
    obtain ⟨v, m1, hv, hwf1, hna1, hext1, hst1⟩ :=
      cellToCategory_spec naString (gridCell cells quoted r col).1
        (gridCell cells quoted r col).2 m hm
    obtain ⟨vals, m2, hvals, hwf2, hna2, hext2, hlen2, hst2⟩ :=
      ih m1 hwf1 (fun row hrow => hrows row (List.mem_cons_of_mem _ hrow))
    refine ⟨v :: vals, m2, ?_, hwf2, by rw [hna2, hna1], ?_, by simp [hlen2], ?_⟩
    · unfold cellsToValuesCategorical
      rw [cellAt_of_grid cells quoted numRows numCols hcells hquoted r col hr hcol]
      simp only [hv, hvals]
    · obtain ⟨more1, hmore1⟩ := hext1
      obtain ⟨more2, hmore2⟩ := hext2
      exact ⟨more1 ++ more2, by rw [hmore2, hmore1, List.append_assoc]⟩
    · intro k row hk
      cases k with
      | zero =>
        simp only [List.getElem?_cons_zero, Option.some.injEq] at hk
        subst hk
        exact ⟨v, List.getElem?_cons_zero, cellStored_mono naString _ v m1 m2 hst1 hext2⟩
      | succ k =>
        simp only [List.getElem?_cons_succ] at hk
        obtain ⟨w, hw, hst⟩ := hst2 k row hk
        exact ⟨w, by simpa using hw, hst⟩

theorem cellsToValuesCategorical_column (naString : String) (cells : List (List String))
    (quoted : List (List Bool)) (numRows numCols : Nat) (hcells : IsGrid cells numRows numCols)
    (hquoted : IsGrid quoted numRows numCols) (col : Nat) (hcol : col < numCols) :
    ∃ vals m, cellsToValuesCategorical cells quoted true naString false col
        (List.range numRows) CategoryMaps.create = .ok (vals, m) ∧
      ColumnStored naString cells quoted numRows col vals m := by
  obtain ⟨vals, m, h, -, hna, -, hlen, hst⟩ :=
    cellsToValuesCategorical_spec naString cells quoted numRows numCols hcells hquoted col hcol
      (List.range numRows) CategoryMaps.create (wellFormed_create false)
      (fun row hrow => List.mem_range.1 hrow)
  refine ⟨vals, m, h, by simpa using hlen, hna, fun row hrow => ?_⟩
  exact hst row row (by simp [List.getElem?_range hrow])

theorem cellsToValuesLoop_spec (numberText : NumberText) (naString : String)
    (cells : List (List String)) (quoted : List (List Bool)) (valueTypes : List ValueType)
    (numRows numCols : Nat) (hcells : IsGrid cells numRows numCols)
    (hquoted : IsGrid quoted numRows numCols)
    (htypes : ∀ col, col < numCols → valueTypes[col]? = some .kCategorical) :
    ∀ (count start : Nat) (maps : List CategoryMaps), maps.length = start →
      start + count ≤ numCols →
      ∃ values maps', cellsToValuesLoop numberText cells quoted valueTypes true naString false
          numRows (List.range' start count) maps = .ok (values, maps') ∧
        values.length = count ∧ maps'.length = start + count ∧
        (∀ j, j < start → maps'[j]? = maps[j]?) ∧
        ∀ j, j < count → ∃ vals map, values[j]? = some vals ∧ maps'[start + j]? = some map ∧
          ColumnStored naString cells quoted numRows (start + j) vals map := by
  intro count
  induction count with
  | zero =>
    intro start maps hlen _
    exact ⟨[], maps, rfl, rfl, by simpa using hlen, fun j _ => rfl, fun j hj => by omega⟩
  | succ count ih =>
    intro start maps hlen hle
    have hcol : start < numCols := by omega
    obtain ⟨vals, map1, hvals, hstored⟩ :=
      cellsToValuesCategorical_column naString cells quoted numRows numCols hcells hquoted
        start hcol
    have hmaps1 : (if maps.length ≤ start then maps ++ [CategoryMaps.create] else maps) =
        maps ++ [CategoryMaps.create] := by rw [if_pos (by omega)]
    have hget : (maps ++ [CategoryMaps.create])[start]? = some CategoryMaps.create := by
      rw [List.getElem?_append_right (by omega)]
      simp [hlen]
    obtain ⟨values, maps', hloop, hvl, hml, hpre, hcols⟩ :=
      ih (start + 1) ((maps ++ [CategoryMaps.create]).set start map1) (by simp [hlen])
        (by omega)
    have hstart : maps'[start]? = some map1 := by
      rw [hpre start (by omega)]
      exact List.getElem?_set_self (by simp [hlen])
    refine ⟨vals :: values, maps', ?_, by simp [hvl], by omega, fun j hj => ?_, fun j hj => ?_⟩
    · rw [List.range'_succ]
      unfold cellsToValuesLoop
      simp only [hmaps1, hget, vecGet, htypes start hcol, hvals, hloop]
    · rw [hpre j (by omega), List.getElem?_set_ne (by omega),
        List.getElem?_append_left (by omega)]
    · cases j with
      | zero => exact ⟨vals, map1, List.getElem?_cons_zero, by simpa using hstart, hstored⟩
      | succ j =>
        obtain ⟨vals', map', h1, h2, h3⟩ := hcols j (by omega)
        refine ⟨vals', map', by simpa using h1, ?_, ?_⟩
        · rw [show start + (j + 1) = start + 1 + j by omega]; exact h2
        · rw [show start + (j + 1) = start + 1 + j by omega]; exact h3

theorem valueToCell_of_stored (numberText : NumberText) (naString : String)
    (cells : List (List String)) (quoted : List (List Bool)) (valueTypes : List ValueType)
    (values : List (List Value)) (maps : List CategoryMaps) (numRows : Nat) (row col : Nat)
    (vals : List Value) (map : CategoryMaps) (hrow : row < numRows)
    (htype : valueTypes[col]? = some .kCategorical) (hvals : values[col]? = some vals)
    (hmap : maps[col]? = some map)
    (hstored : ColumnStored naString cells quoted numRows col vals map) :
    valueToCell numberText values valueTypes maps true naString row col =
      .ok (roundTripCell naString (gridCell cells quoted row col).1
        (gridCell cells quoted row col).2) := by
  obtain ⟨-, hna, hrows⟩ := hstored
  obtain ⟨v, hv, hstore⟩ := hrows row hrow
  unfold valueToCell
  simp only [vecGet, hvals, hv, htype, hmap]
  unfold roundTripCell
  by_cases hn : isNaCell naString (gridCell cells quoted row col).1
      (gridCell cells quoted row col).2 = true
  · rw [if_pos (hstore.1 hn), if_pos hn]
    rfl
  · have hn' : isNaCell naString (gridCell cells quoted row col).1
        (gridCell cells quoted row col).2 = false := by simpa using hn
    obtain ⟨h1, h2, h3⟩ := hstore.2 hn'
    obtain ⟨hlt, hget⟩ := List.getElem?_eq_some.1 h3
    have hfind : map.findCategoryForIndex v.number.i =
        (true, (gridCell cells quoted row col).1) := by
      unfold CategoryMaps.findCategoryForIndex
      rw [if_neg (by rw [hna]; simp), if_pos ⟨h2, by omega⟩]
      simp [List.getD_eq_getElem?_getD, h3]
    rw [if_neg (by rw [h1]; decide), if_neg hn, hfind]
    rfl

theorem valuesToCellsRow_of (numberText : NumberText) (values : List (List Value))
    (valueTypes : List ValueType) (maps : List CategoryMaps) (naString : String) (row : Nat)
    (f : Nat → String × Bool) :
    ∀ cols : List Nat, (∀ col ∈ cols,
        valueToCell numberText values valueTypes maps true naString row col = .ok (f col)) →
      valuesToCellsRow numberText values valueTypes maps true naString row cols =
        .ok (cols.map f) := by
  intro cols
  induction cols with
  | nil => intro _; rfl
  | cons col rest ih =>
    intro h
    unfold valuesToCellsRow
    rw [h col (List.mem_cons_self _ _), ih (fun c hc => h c (List.mem_cons_of_mem _ hc))]
    rfl

theorem valuesToCellsRows_of (numberText : NumberText) (values : List (List Value))
    (valueTypes : List ValueType) (maps : List CategoryMaps) (naString : String) (numCols : Nat)
    (f : Nat → List (String × Bool)) :
    ∀ rows : List Nat, (∀ row ∈ rows,
        valuesToCellsRow numberText values valueTypes maps true naString row
          (List.range numCols) = .ok (f row)) →
      valuesToCellsRows numberText values valueTypes maps true naString numCols rows =
        .ok (rows.map f) := by
  intro rows
  induction rows with
  | nil => intro _; rfl
  | cons row rest ih =>
    intro h
    unfold valuesToCellsRows
    rw [h row (List.mem_cons_self _ _), ih (fun r hr => h r (List.mem_cons_of_mem _ hr))]
    rfl

theorem grid_ext {α : Type} (a b : List (List α)) (numRows numCols : Nat) (d : α)
    (ha : IsGrid a numRows numCols) (hb : IsGrid b numRows numCols)
    (h : ∀ row col, row < numRows → col < numCols →
      (a.getD row []).getD col d = (b.getD row []).getD col d) : a = b := by
  apply List.ext_getElem (by rw [ha.1, hb.1])
  intro row h1 h2
  have hrow : row < numRows := by rw [← ha.1]; exact h1
  have hla : (a[row]).length = numCols := ha.2 _ (List.getElem_mem h1)
  have hlb : (b[row]).length = numCols := hb.2 _ (List.getElem_mem h2)
  apply List.ext_getElem (by rw [hla, hlb])
  intro col h3 h4
  have := h row col hrow (by rw [← hla]; exact h3)
  simpa [List.getD_eq_getElem?_getD, List.getElem?_eq_getElem h1, List.getElem?_eq_getElem h2,
    List.getElem?_eq_getElem h3, List.getElem?_eq_getElem h4] using this

theorem cells_round_trip (numberText : NumberText) (naString : String)
    (cells : List (List String)) (quoted : List (List Bool)) (valueTypes : List ValueType)
    (numRows numCols : Nat) (hrows : 0 < numRows) (hcols : 0 < numCols)
    (hcells : IsGrid cells numRows numCols) (hquoted : IsGrid quoted numRows numCols)
    (htypes : valueTypes = List.replicate numCols .kCategorical) :
    ∃ values maps cells' quoted',
      cellsToValues numberText cells quoted valueTypes true naString false [] =
          .ok (values, maps) ∧
        valuesToCells numberText values valueTypes maps true naString = .ok (cells', quoted') ∧
        IsGrid cells' numRows numCols ∧ IsGrid quoted' numRows numCols ∧
        ∀ row col, row < numRows → col < numCols →
          gridCell cells' quoted' row col =
            roundTripCell naString (gridCell cells quoted row col).1
              (gridCell cells quoted row col).2 := by
  have htype : ∀ col, col < numCols → valueTypes[col]? = some .kCategorical := by
    intro col hcol
    rw [htypes, List.getElem?_replicate]
    simp [hcol]
  obtain ⟨values, maps, hloop, hvl, -, -, hstored⟩ :=
    cellsToValuesLoop_spec numberText naString cells quoted valueTypes numRows numCols hcells
      hquoted htype numCols 0 [] rfl (by omega)
  have h0 : 0 < cells.length := by rw [hcells.1]; exact hrows
  have hfirst : cells[0]? = some cells[0] := List.getElem?_eq_getElem h0
  have hfirstlen : (cells[0]).length = numCols := hcells.2 _ (List.getElem_mem h0)
  have hc2v : cellsToValues numberText cells quoted valueTypes true naString false [] =
      .ok (values, maps) := by
    unfold cellsToValues
    simp only [vecGet, hfirst, hfirstlen]
    rw [if_neg (by rw [htypes]; simp), if_neg (by simp), hcells.1, List.range_eq_range']
    exact hloop
  have hcell : ∀ row col, row < numRows → col < numCols →
      valueToCell numberText values valueTypes maps true naString row col =
        .ok (roundTripCell naString (gridCell cells quoted row col).1
          (gridCell cells quoted row col).2) := by
    intro row col hrow hcol
    obtain ⟨vals, map, h1, h2, h3⟩ := hstored col hcol
    rw [Nat.zero_add] at h2 h3
    exact valueToCell_of_stored numberText naString cells quoted valueTypes values maps numRows
      row col vals map hrow (htype col hcol) h1 h2 h3
  obtain ⟨vals0, map0, h01, -, h03⟩ := hstored 0 hcols
  have hrowsOK := valuesToCellsRows_of numberText values valueTypes maps naString numCols
    (fun row => (List.range numCols).map (fun col =>
      roundTripCell naString (gridCell cells quoted row col).1 (gridCell cells quoted row col).2))
    (List.range numRows) (by
      intro row hrow
      apply valuesToCellsRow_of
      intro col hcol
      exact hcell row col (List.mem_range.1 hrow) (List.mem_range.1 hcol))
  refine ⟨values, maps,
    ((List.range numRows).map (fun row => (List.range numCols).map (fun col =>
      roundTripCell naString (gridCell cells quoted row col).1
        (gridCell cells quoted row col).2))).map (fun cellsRow => cellsRow.map Prod.fst),
    ((List.range numRows).map (fun row => (List.range numCols).map (fun col =>
      roundTripCell naString (gridCell cells quoted row col).1
        (gridCell cells quoted row col).2))).map (fun cellsRow => cellsRow.map Prod.snd),
    hc2v, ?_, ?_, ?_, ?_⟩
  · unfold valuesToCells
    simp only [vecGet, h01, h03.1, hvl, hrowsOK]
  · refine ⟨by simp, fun r hr => ?_⟩
    simp only [List.map_map, List.mem_map, List.mem_range, Function.comp] at hr
    obtain ⟨row, -, rfl⟩ := hr
    simp
  · refine ⟨by simp, fun r hr => ?_⟩
    simp only [List.map_map, List.mem_map, List.mem_range, Function.comp] at hr
    obtain ⟨row, -, rfl⟩ := hr
    simp
  · intro row col hrow hcol
    simp [gridCell, List.getD_eq_getElem?_getD, List.getElem?_map, List.getElem?_range hrow,
      List.getElem?_range hcol]

theorem roundTripCell_fixed (naString cell : String) (isQuoted : Bool)
    (h : isQuoted = true ∨ cell = naString) :
    roundTripCell naString cell isQuoted = (cell, isQuoted) := by
  unfold roundTripCell isNaCell
  cases isQuoted with
  | true => simp
  | false =>
    rcases h with h | h
    · cases h
    · simp [h]

end RoundTrip

section Routing

theorem sample_routeOK :
    RouteOK sampleValues sampleValueTypes sampleSelectColumns.indexVector 1 sampleTree := by
  unfold sampleTree
  simp only [RouteOK]
  refine ⟨by decide, ⟨0, _, _, .kCategorical, rfl, rfl, rfl, rfl⟩, ?_⟩
  split <;> trivial

end Routing

section Paths

theorem usageCount_spec (selectColumnIndexes : List Nat) (col : Nat) :
    ∀ (ancestors : List Int) (count result : Int),
      usageCount selectColumnIndexes col ancestors count = .ok result →
      result = count + (usageOf selectColumnIndexes col ancestors : Int) := by
  intro ancestors
  induction ancestors with
  | nil =>
    intro count result h
    simp only [usageCount, Except.ok.injEq] at h
    simp [usageOf, h]
  | cons s rest ih =>
    intro count result h
    simp only [usageCount] at h
    unfold indexToSize at h
    by_cases hs : s < 0
    · simp [hs] at h
    · rw [if_neg hs] at h
      simp only [] at h
      cases hg : vecGet selectColumnIndexes s.toNat with
      | error e => simp [hg] at h
      | ok nextCol =>
        simp only [hg] at h
        have hget := getElem?_of_vecGet_ok _ _ _ hg
        have := ih _ _ h
        rw [this]
        have hs0 : 0 ≤ s := by omega
        by_cases hc : col = nextCol
        · subst hc
          have hp : splitsOn selectColumnIndexes col s = true := by
            simp [splitsOn, hs0, hget]
          simp only [usageOf, List.filter_cons, hp, if_true, List.length_cons]
          push_cast
          ring
        · have hp : splitsOn selectColumnIndexes col s = false := by
            simp only [splitsOn, hget, Option.some.injEq, Bool.and_eq_false_imp,
              decide_eq_true_eq, decide_eq_false_iff_not]
            intro _ e
            exact hc e.symm
          simp [usageOf, List.filter_cons, hp, hc]

theorem columnSplit_cap {libm : Libm} {selectRows : SelectIndexes} {ancestors : List Int}
    {values : List (List Value)} {valueTypes : List ValueType}
    {categoryMaps : List CategoryMaps} {selectColumnIndexes : List Nat} {targetColumn : Nat}
    {sortedIndexes : List (List Nat)} {maxSplitsPerNumericAttribute : Int}
    {targetValueType : ValueType} {numRows columnIndex col : Nat} {split : ColumnSplit}
    (h : columnSplit libm selectRows ancestors values valueTypes categoryMaps
      selectColumnIndexes targetColumn sortedIndexes maxSplitsPerNumericAttribute
      targetValueType numRows columnIndex = .ok split)
    (hna : split.splitValue.na = false)
    (hcol : selectColumnIndexes[columnIndex]? = some col)
    (htype : valueTypes[col]? = some .kNumeric)
    (hm : maxSplitsPerNumericAttribute ≠ NO_INDEX) :
    (usageOf selectColumnIndexes col ancestors : Int) < maxSplitsPerNumericAttribute := by
  unfold columnSplit at h
  rw [vecGet_of_getElem? hcol] at h
  simp only [] at h
  rw [vecGet_of_getElem? htype] at h
  simp only [] at h
  rw [if_pos hm] at h
  cases hu : usageCount selectColumnIndexes col ancestors 0 with
  | error e => simp [hu] at h
  | ok usage =>
    simp only [hu] at h
    have husage := usageCount_spec _ _ _ _ _ hu
    rw [zero_add] at husage
    by_cases hlt : usage = NO_INDEX ∨ usage < maxSplitsPerNumericAttribute
    · rcases hlt with h1 | h1
      · rw [husage] at h1
        simp only [NO_INDEX] at h1
        omega
      · rw [← husage]
        exact h1
    · rw [if_neg hlt] at h
      simp only [gNaValue, if_true, Except.ok.injEq] at h
      rw [← h] at hna
      simp at hna

end Paths

section Paths

theorem makeSplit_shape {targetValueType : ValueType} {values : List (List Value)}
    {valueTypes : List ValueType} {selectColumnIndexes subsetIndexes : List Nat}
    {targetColumn : Nat} {minLeafCount : Int} {imputedValues : List Value} {numRows : Nat}
    {splits : List ColumnSplit} {best : BestColumn} {data : NodeData}
    {lessOrEqualNode greaterOrNotNode node1 : TreeNode} {gNextIndex gNextIndex1 : Nat}
    (h : makeSplit targetValueType values valueTypes selectColumnIndexes subsetIndexes
      targetColumn minLeafCount imputedValues numRows splits best data lessOrEqualNode
      greaterOrNotNode gNextIndex = .ok (true, node1, gNextIndex1)) :
    ∃ (split : ColumnSplit) (splitColIndex col : Nat) (colType : ValueType) (imputed : Value)
      (ld gd : NodeData),
      splits[best.bestSiIndex]? = some split ∧
      subsetIndexes[best.bestSiIndex]? = some splitColIndex ∧
      selectColumnIndexes[splitColIndex]? = some col ∧
      valueTypes[col]? = some colType ∧ imputedValues[col]? = some imputed ∧
      distributeRows targetValueType values valueTypes col targetColumn split.splitValue
        data.selectRows.indexVector
        (newLeaf split.lessOrEqualValue numRows gNextIndex,
          newLeaf split.greaterOrNotValue numRows (gNextIndex + 1)) = .ok (ld, gd) ∧
      node1 = .node { data with splitValue := split.splitValue
                                splitColIndex := (splitColIndex : Int)
                                toLessOrEqualIfNA :=
                                  !imputed.na && isLessOrEqual colType split.splitValue imputed }
        (.node ld .null .null) (.node gd .null .null) := by
  unfold makeSplit at h
  cases hsp : vecGet splits best.bestSiIndex with
  | error e => simp [hsp] at h
  | ok split =>
    cases hsi : vecGet subsetIndexes best.bestSiIndex with
    | error e => simp [hsp, hsi] at h
    | ok splitColIndex =>
      simp only [hsp, hsi] at h
      cases hcol : vecGet selectColumnIndexes splitColIndex with
      | error e => simp [hcol] at h
      | ok col =>
        simp only [hcol] at h
        cases hd : distributeRows targetValueType values valueTypes col targetColumn
            split.splitValue data.selectRows.indexVector
            (newLeaf split.lessOrEqualValue numRows gNextIndex,
              newLeaf split.greaterOrNotValue numRows (gNextIndex + 1)) with
        | error e => simp [hd] at h
        | ok r =>
          obtain ⟨ld, gd⟩ := r
          simp only [hd] at h
          split at h
          · cases him : vecGet imputedValues col with
            | error e => simp [him] at h
            | ok imputed =>
              cases hct : vecGet valueTypes col with
              | error e => simp [him, hct] at h
              | ok colType =>
                simp only [him, hct, Except.ok.injEq, Prod.mk.injEq, true_and] at h
                exact ⟨split, splitColIndex, col, colType, imputed, ld, gd,
                  getElem?_of_vecGet hsp, getElem?_of_vecGet hsi, getElem?_of_vecGet hcol,
                  getElem?_of_vecGet hct, getElem?_of_vecGet him, hd, h.1.symm⟩
          · simp at h

theorem improveLeaf_split {libm : Libm} {data : NodeData}
    {lessOrEqualNode greaterOrNotNode node1 : TreeNode} {ancestors : List Int}
    {subsetIndexes : List Nat} {values : List (List Value)} {valueTypes : List ValueType}
    {categoryMaps : List CategoryMaps} {selectColumns : SelectIndexes} {targetColumn : Nat}
    {sortedIndexes : List (List Nat)} {minImprovement : ℚ}
    {minLeafCount maxSplitsPerNumericAttribute : Int} {imputedValues : List Value}
    {gNextIndex gNextIndex1 : Nat}
    (h : improveLeaf libm (.node data lessOrEqualNode greaterOrNotNode) ancestors
      subsetIndexes values valueTypes categoryMaps selectColumns targetColumn sortedIndexes
      minImprovement minLeafCount maxSplitsPerNumericAttribute imputedValues gNextIndex =
        .ok (true, node1, gNextIndex1)) :
    ∃ (splitValue leafL leafG : Value) (splitColIndex col numRows : Nat)
      (colType targetValueType : ValueType) (imputed : Value) (ld gd : NodeData),
      selectColumns.indexVector[splitColIndex]? = some col ∧
      valueTypes[col]? = some colType ∧ imputedValues[col]? = some imputed ∧
      distributeRows targetValueType values valueTypes col targetColumn splitValue
        data.selectRows.indexVector
        (newLeaf leafL numRows gNextIndex, newLeaf leafG numRows (gNextIndex + 1)) =
          .ok (ld, gd) ∧
      node1 = .node { data with splitValue := splitValue
                                splitColIndex := (splitColIndex : Int)
                                toLessOrEqualIfNA :=
                                  !imputed.na && isLessOrEqual colType splitValue imputed }
        (.node ld .null .null) (.node gd .null .null) ∧
      (colType = .kNumeric → maxSplitsPerNumericAttribute ≠ NO_INDEX →
        (usageOf selectColumns.indexVector col ancestors : Int) <
          maxSplitsPerNumericAttribute) := by
  unfold improveLeaf at h
  simp only [] at h
  cases ht : vecGet valueTypes targetColumn with
  | error e => simp [ht] at h
  | ok targetValueType =>
    simp only [ht] at h
    split at h
    · simp at h
    · unfold improveImperfectLeaf at h
      simp only [] at h
      cases hv : vecGet values 0 with
      | error e => simp [ht, hv] at h
      | ok firstColumn =>
        simp only [ht, hv] at h
        cases hcs : columnSplits libm data.selectRows ancestors values valueTypes categoryMaps
            selectColumns.indexVector targetColumn sortedIndexes maxSplitsPerNumericAttribute
            targetValueType firstColumn.length subsetIndexes with
        | error e => simp [hcs] at h
        | ok splits =>
          simp only [hcs] at h
          cases hp : pickBestColumn splits with
          | error e => simp [hp] at h
          | ok best =>
            simp only [hp] at h
            cases hti : testImprovement libm targetValueType values valueTypes categoryMaps
                selectColumns.indexVector subsetIndexes targetColumn data.selectRows
                minImprovement best with
            | error e => simp [hti] at h
            | ok improved =>
              cases improved with
              | false => simp [hti] at h
              | true =>
                simp only [hti] at h
                obtain ⟨split, splitColIndex, col, colType, imputed, ld, gd, hsplit, hsi, hcol,
                  hct, him, hd, hnode⟩ := makeSplit_shape h
                refine ⟨split.splitValue, split.lessOrEqualValue, split.greaterOrNotValue,
                  splitColIndex, col, firstColumn.length, colType, targetValueType, imputed, ld,
                  gd, hcol, hct, him, hd, hnode, ?_⟩
                intro hnum hm
                subst hnum
                obtain ⟨split', hsplit', hna, -⟩ :=
                  pickBestColumn_spec hp (testImprovement_spec hti).1
                rw [hsplit] at hsplit'
                cases hsplit'
                obtain ⟨columnIndex, hci, hcsplit⟩ :=
                  columnSplits_spec subsetIndexes splits hcs best.bestSiIndex split hsplit
                rw [hsi] at hci
                cases hci
                exact columnSplit_cap hcsplit hna hcol hct hm

end Paths

section Paths

theorem makeSplit_unchanged {targetValueType : ValueType} {values : List (List Value)}
    {valueTypes : List ValueType} {selectColumnIndexes subsetIndexes : List Nat}
    {targetColumn : Nat} {minLeafCount : Int} {imputedValues : List Value} {numRows : Nat}
    {splits : List ColumnSplit} {best : BestColumn} {data : NodeData}
    {lessOrEqualNode greaterOrNotNode node1 : TreeNode} {gNextIndex gNextIndex1 : Nat}
    (h : makeSplit targetValueType values valueTypes selectColumnIndexes subsetIndexes
      targetColumn minLeafCount imputedValues numRows splits best data lessOrEqualNode
      greaterOrNotNode gNextIndex = .ok (false, node1, gNextIndex1)) :
    node1 = .node data lessOrEqualNode greaterOrNotNode := by
  unfold makeSplit at h
  cases hsp : vecGet splits best.bestSiIndex with
  | error e => simp [hsp] at h
  | ok split =>
    cases hsi : vecGet subsetIndexes best.bestSiIndex with
    | error e => simp [hsp, hsi] at h
    | ok splitColIndex =>
      simp only [hsp, hsi] at h
      cases hcol : vecGet selectColumnIndexes splitColIndex with
      | error e => simp [hcol] at h
      | ok col =>
        simp only [hcol] at h
        cases hd : distributeRows targetValueType values valueTypes col targetColumn
            split.splitValue data.selectRows.indexVector
            (newLeaf split.lessOrEqualValue numRows gNextIndex,
              newLeaf split.greaterOrNotValue numRows (gNextIndex + 1)) with
        | error e => simp [hd] at h
        | ok r =>
          obtain ⟨ld, gd⟩ := r
          simp only [hd] at h
          split at h
          · cases him : vecGet imputedValues col with
            | error e => simp [him] at h
            | ok imputed =>
              cases hct : vecGet valueTypes col with
              | error e => simp [him, hct] at h
              | ok colType => simp [him, hct] at h
          · simp only [Except.ok.injEq, Prod.mk.injEq, true_and] at h
            exact h.1.symm

theorem improveLeaf_unchanged {libm : Libm} {data : NodeData}
    {lessOrEqualNode greaterOrNotNode node1 : TreeNode} {ancestors : List Int}
    {subsetIndexes : List Nat} {values : List (List Value)} {valueTypes : List ValueType}
    {categoryMaps : List CategoryMaps} {selectColumns : SelectIndexes} {targetColumn : Nat}
    {sortedIndexes : List (List Nat)} {minImprovement : ℚ}
    {minLeafCount maxSplitsPerNumericAttribute : Int} {imputedValues : List Value}
    {gNextIndex gNextIndex1 : Nat}
    (h : improveLeaf libm (.node data lessOrEqualNode greaterOrNotNode) ancestors
      subsetIndexes values valueTypes categoryMaps selectColumns targetColumn sortedIndexes
      minImprovement minLeafCount maxSplitsPerNumericAttribute imputedValues gNextIndex =
        .ok (false, node1, gNextIndex1)) :
    node1 = .node data lessOrEqualNode greaterOrNotNode := by
  unfold improveLeaf at h
  simp only [] at h
  cases ht : vecGet valueTypes targetColumn with
  | error e => simp [ht] at h
  | ok targetValueType =>
    simp only [ht] at h
    split at h
    · simp only [Except.ok.injEq, Prod.mk.injEq, true_and] at h
      exact h.1.symm
    · unfold improveImperfectLeaf at h
      simp only [] at h
      cases hv : vecGet values 0 with
      | error e => simp [ht, hv] at h
      | ok firstColumn =>
        simp only [ht, hv] at h
        cases hcs : columnSplits libm data.selectRows ancestors values valueTypes categoryMaps
            selectColumns.indexVector targetColumn sortedIndexes maxSplitsPerNumericAttribute
            targetValueType firstColumn.length subsetIndexes with
        | error e => simp [hcs] at h
        | ok splits =>
          simp only [hcs] at h
          cases hp : pickBestColumn splits with
          | error e => simp [hp] at h
          | ok best =>
            simp only [hp] at h
            cases hti : testImprovement libm targetValueType values valueTypes categoryMaps
                selectColumns.indexVector subsetIndexes targetColumn data.selectRows
                minImprovement best with
            | error e => simp [hti] at h
            | ok improved =>
              cases improved with
              | false =>
                simp only [hti, Except.ok.injEq, Prod.mk.injEq, true_and] at h
                exact h.1.symm
              | true =>
                simp only [hti] at h
                exact makeSplit_unchanged h

theorem improveSubtree_paths {libm : Libm} {maxDepth maxNodes : Int} {subsetIndexes : List Nat}
    {values : List (List Value)} {valueTypes : List ValueType}
    {categoryMaps : List CategoryMaps} {selectColumns : SelectIndexes} {targetColumn : Nat}
    {sortedIndexes : List (List Nat)} {minImprovement : ℚ}
    {minLeafCount maxSplitsPerNumericAttribute : Int} {imputedValues : List Value} :
    ∀ (fuel : Nat) (data : NodeData) (ancestors : List Int) (depth : Int) (st : GrowState)
      (t : TreeNode) (st1 : GrowState),
      depth ≤ st.maxDepthUsed →
      improveSubtree libm maxDepth maxNodes subsetIndexes values valueTypes categoryMaps
        selectColumns targetColumn sortedIndexes minImprovement minLeafCount
        maxSplitsPerNumericAttribute imputedValues fuel (.node data .null .null) ancestors depth
        st = .ok (t, st1) →
      zeroOrTwoChildren t = true ∧
      st.maxDepthUsed ≤ st1.maxDepthUsed ∧
      depth + (maxPathCount (fun _ => true) t : Int) ≤ st1.maxDepthUsed ∧
      (st1.maxDepthUsed = st.maxDepthUsed ∨
        st1.maxDepthUsed = depth + (maxPathCount (fun _ => true) t : Int)) ∧
      (maxPathCount (fun _ => true) t = 0 ∨
        depth + (maxPathCount (fun _ => true) t : Int) ≤ maxDepth) ∧
      ∀ col, valueTypes[col]? = some .kNumeric → maxSplitsPerNumericAttribute ≠ NO_INDEX →
        maxPathCount (splitsOn selectColumns.indexVector col) t = 0 ∨
          ((usageOf selectColumns.indexVector col ancestors : Int) +
            (maxPathCount (splitsOn selectColumns.indexVector col) t : Int)) ≤
              maxSplitsPerNumericAttribute := by
  intro fuel
  induction fuel with
  | zero =>
    intro data ancestors depth st t st1 hd h
    rw [improveSubtree] at h
    split at h
    · simp at h
    · simp only [Except.ok.injEq, Prod.mk.injEq] at h
      obtain ⟨h1, h2⟩ := h
      subst h1; subst h2
      simp only [zeroOrTwoChildren, maxPathCount, Nat.cast_zero, add_zero, le_refl, true_or,
        true_and, implies_true, and_true]
      exact hd
  | succ fuel ih =>
    intro data ancestors depth st t st1 hd h
    rw [improveSubtree] at h
    split at h
    · rename_i hguard
      simp only [] at h
      cases hil : improveLeaf libm (.node data .null .null) ancestors subsetIndexes values
          valueTypes categoryMaps selectColumns targetColumn sortedIndexes minImprovement
          minLeafCount maxSplitsPerNumericAttribute imputedValues st.gNextIndex with
      | error e => simp [hil] at h
      | ok res =>
        obtain ⟨b, t0, g0⟩ := res
        cases b with
        | false =>
          have ht0 := improveLeaf_unchanged hil
          subst ht0
          simp only [hil, Except.ok.injEq, Prod.mk.injEq] at h
          obtain ⟨h1, h2⟩ := h
          subst h1; subst h2
          simp only [zeroOrTwoChildren, maxPathCount, Nat.cast_zero, add_zero, le_refl,
            true_or, true_and, implies_true, and_true]
          exact hd
        | true =>
          obtain ⟨splitValue, leafL, leafG, splitColIndex, col0, numRows, colType,
            targetValueType, imputed, ld, gd, hcol, hct, him, hdist, hnode, hcap⟩ :=
            improveLeaf_split hil
          subst hnode
          simp only [hil] at h
          cases hrl : improveSubtree libm maxDepth maxNodes subsetIndexes values valueTypes
              categoryMaps selectColumns targetColumn sortedIndexes minImprovement minLeafCount
              maxSplitsPerNumericAttribute imputedValues fuel (.node ld .null .null)
              ((splitColIndex : Int) :: ancestors) (depth + 1)
              ⟨g0, if st.maxDepthUsed < depth + 1 then depth + 1 else st.maxDepthUsed,
                st.finalLeafCount⟩ with
          | error e => simp [hrl] at h
          | ok r1 =>
            obtain ⟨l1, st2⟩ := r1
            simp only [hrl] at h
            cases hrg : improveSubtree libm maxDepth maxNodes subsetIndexes values valueTypes
                categoryMaps selectColumns targetColumn sortedIndexes minImprovement
                minLeafCount maxSplitsPerNumericAttribute imputedValues fuel
                (.node gd .null .null) ((splitColIndex : Int) :: ancestors) (depth + 1)
                st2 with
            | error e => simp [hrg] at h
            | ok r2 =>
              obtain ⟨g1, st3⟩ := r2
              simp only [hrg, Except.ok.injEq, Prod.mk.injEq] at h
              obtain ⟨h1, h2⟩ := h
              subst h1; subst h2
              have hd1 : depth + 1 ≤ (⟨g0, if st.maxDepthUsed < depth + 1 then depth + 1
                  else st.maxDepthUsed, st.finalLeafCount⟩ : GrowState).maxDepthUsed := by
                simp only []
                split_ifs <;> omega
              obtain ⟨hzl, hl1, hl2, hl3, hl4, hl5⟩ := ih _ _ _ _ _ _ hd1 hrl
              have hd2 : depth + 1 ≤ st2.maxDepthUsed := le_trans hd1 hl1
              obtain ⟨hzg, hg1, hg2, hg3, hg4, hg5⟩ := ih _ _ _ _ _ _ hd2 hrg
              simp only [] at hl1 hl3
              cases l1 with
              | null => simp [zeroOrTwoChildren] at hzl
              | node d1 a1 a2 =>
                cases g1 with
                | null => simp [zeroOrTwoChildren] at hzg
                | node d2 b1 b2 =>
                  refine ⟨?_, ?_, ?_, ?_, ?_, ?_⟩
                  · rw [zeroOrTwoChildren]
                    simp [hzl, hzg]
                  · split_ifs at hl1 <;> omega
                  · simp only [maxPathCount, if_true]
                    push_cast
                    omega
                  · simp only [maxPathCount, if_true]
                    push_cast
                    split_ifs at hl1 hl3 <;> omega
                  · right
                    simp only [maxPathCount, if_true]
                    push_cast
                    omega
                  · intro col hnum hm
                    have hl := hl5 col hnum hm
                    have hg := hg5 col hnum hm
                    simp only [maxPathCount]
                    by_cases hp : splitsOn selectColumns.indexVector col (splitColIndex : Int)
                        = true
                    · have hcc : col0 = col := by
                        simp only [splitsOn, Int.toNat_ofNat, hcol, Option.some.injEq,
                          Bool.and_eq_true, decide_eq_true_eq] at hp
                        exact hp.2
                      subst hcc
                      rw [hnum] at hct
                      cases hct
                      have hc := hcap rfl hm
                      have hu : usageOf selectColumns.indexVector col0
                          ((splitColIndex : Int) :: ancestors) =
                            usageOf selectColumns.indexVector col0 ancestors + 1 := by
                        simp [usageOf, List.filter_cons, hp]
                      rw [hu] at hl hg
                      rw [if_pos hp]
                      right
                      push_cast at hl hg ⊢
                      omega
                    · have hu : usageOf selectColumns.indexVector col
                          ((splitColIndex : Int) :: ancestors) =
                            usageOf selectColumns.indexVector col ancestors := by
                        simp [usageOf, List.filter_cons, hp]
                      rw [hu] at hl hg
                      rw [if_neg hp]
                      push_cast at hl hg ⊢
                      omega
    · simp only [Except.ok.injEq, Prod.mk.injEq] at h
      obtain ⟨h1, h2⟩ := h
      subst h1; subst h2
      simp only [zeroOrTwoChildren, maxPathCount, Nat.cast_zero, add_zero, le_refl, true_or,
        true_and, implies_true, and_true]
      exact hd

end Paths

section Paths

theorem growTree_paths {libm : Libm} {maxDepth maxNodes : Int} {minImprovement : ℚ}
    {minLeafCount maxSplitsPerNumericAttribute : Int} {values : List (List Value)}
    {valueTypes : List ValueType} {categoryMaps : List CategoryMaps} {subsetIndexes : List Nat}
    {selectRows selectColumns : SelectIndexes} {targetColumn : Nat}
    {sortedIndexes : List (List Nat)} {imputedValues : List Value} {tree : TreeNode}
    {maxDepthUsed : Int}
    (h : growTree libm maxDepth maxNodes minImprovement minLeafCount
      maxSplitsPerNumericAttribute values valueTypes categoryMaps subsetIndexes selectRows
      selectColumns targetColumn sortedIndexes imputedValues = .ok (tree, maxDepthUsed)) :
    zeroOrTwoChildren tree = true ∧ maxDepthUsed = (treeLevels tree : Int) ∧
      (treeLevels tree = 1 ∨ (treeLevels tree : Int) ≤ maxDepth) ∧
      ∀ col, valueTypes[col]? = some .kNumeric → 0 ≤ maxSplitsPerNumericAttribute →
        (maxPathCount (splitsOn selectColumns.indexVector col) tree : Int) ≤
          maxSplitsPerNumericAttribute := by
  unfold growTree at h
  generalize (maxDepth - 1).toNat = fuel at h
  cases ht : vecGet valueTypes targetColumn with
  | error e => simp [ht] at h
  | ok targetValueType =>
    simp only [ht] at h
    cases hl : leafValueOf targetValueType values categoryMaps targetColumn selectRows with
    | error e => simp [hl] at h
    | ok defaultValue =>
      simp only [hl] at h
      cases hr : rootStatistics targetValueType values targetColumn selectRows.indexVector
          { leafValue := defaultValue, splitValue := gNaValue, toLessOrEqualIfNA := false,
            splitColIndex := NO_INDEX, leafLessOrEqualCount := 0, leafGreaterOrNotCount := 0,
            branchSum2 := 0, branchCorrectCount := 0, selectRows := selectRows, index := 0 } with
      | error e => simp [hr] at h
      | ok root1 =>
        simp only [hr] at h
        cases hi : improveSubtree libm maxDepth maxNodes subsetIndexes values valueTypes
            categoryMaps selectColumns targetColumn sortedIndexes minImprovement minLeafCount
            maxSplitsPerNumericAttribute imputedValues fuel
            (.node root1 .null .null) [] 1 ⟨0, 1, 0⟩ with
        | error e => simp [hi] at h
        | ok r =>
          obtain ⟨t, st⟩ := r
          simp only [hi, Except.ok.injEq, Prod.mk.injEq] at h
          obtain ⟨h1, h2⟩ := h
          subst h1; subst h2
          obtain ⟨hz, h3, h4, h5, h6, h7⟩ := improveSubtree_paths fuel root1 [] 1 ⟨0, 1, 0⟩ t st (le_refl _) hi
          simp only [] at h3 h5
          refine ⟨hz, ?_, ?_, ?_⟩
          · simp only [treeLevels]
            push_cast
            omega
          · simp only [treeLevels]
            push_cast
            omega
          · intro col hnum hm
            have hne : maxSplitsPerNumericAttribute ≠ NO_INDEX := by
              simp only [NO_INDEX]
              omega
            have := h7 col hnum hne
            simp only [usageOf, List.filter_nil, List.length_nil, Nat.cast_zero, zero_add]
              at this
            omega

theorem replaceWithLeaf_paths (p : Int → Bool) :
    ∀ (t : TreeNode) (path : List Bool), zeroOrTwoChildren t = true →
      zeroOrTwoChildren (replaceWithLeaf t path) = true ∧
        maxPathCount p (replaceWithLeaf t path) ≤ maxPathCount p t
  | .null, _, h => by simp [zeroOrTwoChildren] at h
  | .node _ _ _, [], _ => by simp [replaceWithLeaf, zeroOrTwoChildren, maxPathCount]
  | .node data .null .null, false :: rest, _ => by
    simp [replaceWithLeaf, zeroOrTwoChildren, maxPathCount]
  | .node data .null .null, true :: rest, _ => by
    simp [replaceWithLeaf, zeroOrTwoChildren, maxPathCount]
  | .node data .null (.node gd g1 g2), _ :: rest, h => by simp [zeroOrTwoChildren] at h
  | .node data (.node ld l1 l2) .null, _ :: rest, h => by simp [zeroOrTwoChildren] at h
  | .node data (.node ld l1 l2) (.node gd g1 g2), false :: rest, h => by
    rw [zeroOrTwoChildren] at h
    simp only [Bool.and_eq_true] at h
    obtain ⟨ih1, ih2⟩ := replaceWithLeaf_paths p (.node ld l1 l2) rest h.1
    have hne := replaceWithLeaf_ne_null (.node ld l1 l2) rest (by simp)
    simp only [replaceWithLeaf]
    cases hr : replaceWithLeaf (.node ld l1 l2) rest with
    | null => exact absurd hr hne
    | node d a b =>
      rw [hr] at ih1 ih2
      refine ⟨?_, ?_⟩
      · rw [zeroOrTwoChildren]
        simp [ih1, h.2]
      · simp only [maxPathCount]
        omega
  | .node data (.node ld l1 l2) (.node gd g1 g2), true :: rest, h => by
    rw [zeroOrTwoChildren] at h
    simp only [Bool.and_eq_true] at h
    obtain ⟨ih1, ih2⟩ := replaceWithLeaf_paths p (.node gd g1 g2) rest h.2
    have hne := replaceWithLeaf_ne_null (.node gd g1 g2) rest (by simp)
    simp only [replaceWithLeaf]
    cases hr : replaceWithLeaf (.node gd g1 g2) rest with
    | null => exact absurd hr hne
    | node d a b =>
      rw [hr] at ih1 ih2
      refine ⟨?_, ?_⟩
      · rw [zeroOrTwoChildren]
        simp [ih1, h.1]
      · simp only [maxPathCount]
        omega

theorem updateBranchCategorical_paths (p : Int → Bool) :
    ∀ (t t1 : TreeNode), updateBranchCategorical t = .ok t1 →
      zeroOrTwoChildren t1 = zeroOrTwoChildren t ∧ maxPathCount p t1 = maxPathCount p t
  | .null, _, h => by simp [updateBranchCategorical] at h
  | .node data .null greaterOrNotNode, t1, h => by
    simp only [updateBranchCategorical, Except.ok.injEq] at h
    subst h
    exact ⟨rfl, rfl⟩
  | .node data (.node ld l1 l2) greaterOrNotNode, t1, h => by
    simp only [updateBranchCategorical] at h
    cases hl : updateBranchCategorical (.node ld l1 l2) with
    | error e => simp [hl] at h
    | ok tl =>
      cases hg : updateBranchCategorical greaterOrNotNode with
      | error e =>
        rw [hl, hg] at h
        cases tl <;> simp at h
      | ok tg =>
        rw [hl, hg] at h
        obtain ⟨hzl, hml⟩ := updateBranchCategorical_paths p _ _ hl
        obtain ⟨hzg, hmg⟩ := updateBranchCategorical_paths p _ _ hg
        cases tl with
        | null => cases tg <;> simp at h
        | node ld1 l3 l4 =>
          cases tg with
          | null => simp at h
          | node gd1 g3 g4 =>
            simp only [Except.ok.injEq] at h
            subst h
            cases greaterOrNotNode with
            | null => simp [updateBranchCategorical] at hg
            | node gd g1 g2 =>
              refine ⟨?_, ?_⟩
              · rw [zeroOrTwoChildren, zeroOrTwoChildren, hzl, hzg]
              · simp only [maxPathCount, hml, hmg]

theorem updateBranchNumeric_paths (p : Int → Bool) :
    ∀ (t t1 : TreeNode), updateBranchNumeric t = .ok t1 →
      zeroOrTwoChildren t1 = zeroOrTwoChildren t ∧ maxPathCount p t1 = maxPathCount p t
  | .null, _, h => by simp [updateBranchNumeric] at h
  | .node data .null greaterOrNotNode, t1, h => by
    simp only [updateBranchNumeric, Except.ok.injEq] at h
    subst h
    exact ⟨rfl, rfl⟩
  | .node data (.node ld l1 l2) greaterOrNotNode, t1, h => by
    simp only [updateBranchNumeric] at h
    cases hl : updateBranchNumeric (.node ld l1 l2) with
    | error e => simp [hl] at h
    | ok tl =>
      cases hg : updateBranchNumeric greaterOrNotNode with
      | error e =>
        rw [hl, hg] at h
        cases tl <;> simp at h
      | ok tg =>
        rw [hl, hg] at h
        obtain ⟨hzl, hml⟩ := updateBranchNumeric_paths p _ _ hl
        obtain ⟨hzg, hmg⟩ := updateBranchNumeric_paths p _ _ hg
        cases tl with
        | null => cases tg <;> simp at h
        | node ld1 l3 l4 =>
          cases tg with
          | null => simp at h
          | node gd1 g3 g4 =>
            simp only [Except.ok.injEq] at h
            subst h
            cases greaterOrNotNode with
            | null => simp [updateBranchNumeric] at hg
            | node gd g1 g2 =>
              refine ⟨?_, ?_⟩
              · rw [zeroOrTwoChildren, zeroOrTwoChildren, hzl, hzg]
              · simp only [maxPathCount, hml, hmg]

theorem pruneLoop_paths (libm : Libm) (targetValueType : ValueType) (p : Int → Bool) :
    ∀ (nodes : List (Int × List Bool)) (root root1 : TreeNode),
      pruneLoop libm targetValueType nodes root = .ok root1 →
      zeroOrTwoChildren root = true →
      zeroOrTwoChildren root1 = true ∧ maxPathCount p root1 ≤ maxPathCount p root := by
  intro nodes
  induction nodes with
  | nil =>
    intro root root1 h hz
    simp only [pruneLoop, Except.ok.injEq] at h
    subst h
    exact ⟨hz, le_refl _⟩
  | cons head rest ih =>
    intro root root1 h hz
    obtain ⟨depth, path⟩ := head
    simp only [pruneLoop] at h
    split at h
    · simp at h
    · obtain ⟨h1, h2⟩ := replaceWithLeaf_paths p root path hz
      obtain ⟨h3, h4⟩ := ih _ _ h h1
      exact ⟨h3, le_trans h4 h2⟩
    · exact ih _ _ h hz

theorem pruneTree_paths {libm : Libm} {root root1 : TreeNode} {valueTypes : List ValueType}
    {targetColumn : Nat} (p : Int → Bool)
    (h : pruneTree libm root valueTypes targetColumn = .ok root1)
    (hz : zeroOrTwoChildren root = true) :
    zeroOrTwoChildren root1 = true ∧ maxPathCount p root1 ≤ maxPathCount p root := by
  unfold pruneTree at h
  cases ht : vecGet valueTypes targetColumn with
  | error e => simp [ht] at h
  | ok targetValueType =>
    simp only [ht] at h
    cases targetValueType with
    | kCategorical =>
      simp only at h
      cases hu : updateBranchCategorical root with
      | error e => simp [hu] at h
      | ok root2 =>
        simp only [hu] at h
        obtain ⟨h1, h2⟩ := updateBranchCategorical_paths p _ _ hu
        obtain ⟨h3, h4⟩ := pruneLoop_paths libm _ p _ _ _ h (by rw [h1]; exact hz)
        exact ⟨h3, by rw [← h2]; exact h4⟩
    | kNumeric =>
      simp only at h
      cases hu : updateBranchNumeric root with
      | error e => simp [hu] at h
      | ok root2 =>
        simp only [hu] at h
        obtain ⟨h1, h2⟩ := updateBranchNumeric_paths p _ _ hu
        obtain ⟨h3, h4⟩ := pruneLoop_paths libm _ p _ _ _ h (by rw [h1]; exact hz)
        exact ⟨h3, by rw [← h2]; exact h4⟩

end Paths

section Paths

theorem compactMaxPathCount_of_tree (p : Int → Bool) (L : List CompactNode) :
    ∀ (t : TreeNode) (b fuel : Nat), zeroOrTwoChildren t = true →
      (∀ j, j < countNodes t → L[b + j]? = (preorderRows t b)[j]?) →
      countNodes t ≤ fuel →
      compactMaxPathCount p (CompactTree.ofRows L) fuel b = maxPathCount p t
  | .null, _, _, hz, _, _ => by simp [zeroOrTwoChildren] at hz
  | .node data .null greaterOrNotNode, b, fuel, hz, hL, hfuel => by
    have h0 := hL 0 (by simp [countNodes])
    simp only [Nat.add_zero, preorderRows, List.getElem?_cons_zero, compactNodeAt] at h0
    cases fuel with
    | zero => simp [countNodes] at hfuel
    | succ fuel =>
      simp only [compactMaxPathCount, ofRows_row?, h0, if_true, maxPathCount]
  | .node data (.node ld l1 l2) .null, _, _, hz, _, _ => by simp [zeroOrTwoChildren] at hz
  | .node data (.node ld l1 l2) (.node gd g1 g2), b, fuel, hz, hL, hfuel => by
    rw [zeroOrTwoChildren] at hz
    simp only [Bool.and_eq_true] at hz
    have h0 := hL 0 (by simp [countNodes])
    simp only [Nat.add_zero, preorderRows, List.getElem?_cons_zero, compactNodeAt] at h0
    have hLl : ∀ j, j < countNodes (.node ld l1 l2) →
        L[b + 1 + j]? = (preorderRows (.node ld l1 l2) (b + 1))[j]? := by
      intro j hj
      have := hL (j + 1) (by simp only [countNodes] at hj ⊢; omega)
      rw [show b + (j + 1) = b + 1 + j by omega] at this
      rw [this, show preorderRows (.node data (.node ld l1 l2) (.node gd g1 g2)) b =
        compactNodeAt b (.node data (.node ld l1 l2) (.node gd g1 g2)) ::
          (preorderRows (.node ld l1 l2) (b + 1) ++
            preorderRows (.node gd g1 g2) (b + 1 + countNodes (.node ld l1 l2))) from rfl,
        List.getElem?_cons_succ,
        List.getElem?_append_left (by rw [length_preorderRows]; exact hj)]
    have hLg : ∀ j, j < countNodes (.node gd g1 g2) →
        L[b + 1 + countNodes (.node ld l1 l2) + j]? =
          (preorderRows (.node gd g1 g2) (b + 1 + countNodes (.node ld l1 l2)))[j]? := by
      intro j hj
      have := hL (countNodes (.node ld l1 l2) + j + 1)
        (by simp only [countNodes] at hj ⊢; omega)
      rw [show b + (countNodes (.node ld l1 l2) + j + 1) =
        b + 1 + countNodes (.node ld l1 l2) + j by omega] at this
      rw [this, show preorderRows (.node data (.node ld l1 l2) (.node gd g1 g2)) b =
        compactNodeAt b (.node data (.node ld l1 l2) (.node gd g1 g2)) ::
          (preorderRows (.node ld l1 l2) (b + 1) ++
            preorderRows (.node gd g1 g2) (b + 1 + countNodes (.node ld l1 l2))) from rfl,
        List.getElem?_cons_succ,
        List.getElem?_append_right (by rw [length_preorderRows]; omega), length_preorderRows]
      congr 1
      omega
    cases fuel with
    | zero => simp [countNodes] at hfuel
    | succ fuel =>
      have hfl : countNodes (.node ld l1 l2) ≤ fuel := by
        simp only [countNodes] at hfuel ⊢; omega
      have hfg : countNodes (.node gd g1 g2) ≤ fuel := by
        simp only [countNodes] at hfuel ⊢; omega
      have ihl := compactMaxPathCount_of_tree p L (.node ld l1 l2) (b + 1) fuel hz.1 hLl hfl
      have ihg := compactMaxPathCount_of_tree p L (.node gd g1 g2)
        (b + 1 + countNodes (.node ld l1 l2)) fuel hz.2 hLg hfg
      have hne : ¬ (((b + 1 : Nat) : Int) = NO_INDEX) := by
        simp only [NO_INDEX]; omega
      simp only [compactMaxPathCount, ofRows_row?, h0, hne, if_false, Int.toNat_ofNat, ihl, ihg,
        maxPathCount]

theorem compact_paths (p : Int → Bool) (root : TreeNode) (hz : zeroOrTwoChildren root = true) :
    compactMaxPathCount p (CompactTree.ofRows (preorderRows root 0))
      (CompactTree.ofRows (preorderRows root 0)).value.length 0 = maxPathCount p root := by
  apply compactMaxPathCount_of_tree p _ root 0 _ hz (fun j _ => by rw [Nat.zero_add])
  simp [CompactTree.ofRows, length_preorderRows]

theorem compactLevels_eq (root : TreeNode) (hz : zeroOrTwoChildren root = true) :
    compactLevels (CompactTree.ofRows (preorderRows root 0)) = treeLevels root := by
  unfold compactLevels treeLevels
  rw [compact_paths _ root hz]

end Paths

section Paths

theorem evaluateTree_paths {libm : Libm} {ct0 ct : CompactTree} {maxDepth maxNodes : Int}
    {doPrune : Bool} {minImprovement : ℚ} {minLeafCount maxSplitsPerNumericAttribute : Int}
    {values : List (List Value)} {valueTypes : List ValueType}
    {categoryMaps : List CategoryMaps} {subsetIndexes : List Nat}
    {selectRows selectColumns : SelectIndexes} {targetColumn : Nat}
    {sortedIndexes : List (List Nat)} {imputedValues : List Value} {maxDepthUsed : Int}
    (h : evaluateTree libm ct0 maxDepth maxNodes doPrune minImprovement minLeafCount
      maxSplitsPerNumericAttribute values valueTypes categoryMaps subsetIndexes selectRows
      selectColumns targetColumn sortedIndexes imputedValues = .ok (ct, maxDepthUsed)) :
    ∃ grown final, growTree libm maxDepth maxNodes minImprovement minLeafCount
        maxSplitsPerNumericAttribute values valueTypes categoryMaps subsetIndexes selectRows
        selectColumns targetColumn sortedIndexes imputedValues = .ok (grown, maxDepthUsed) ∧
      zeroOrTwoChildren final = true ∧ (doPrune = false → final = grown) ∧
      (∀ p, maxPathCount p final ≤ maxPathCount p grown) ∧
      ct = CompactTree.ofRows (preorderRows final 0) := by
  unfold evaluateTree at h
  cases hr : evaluateTreeRoot libm maxDepth maxNodes doPrune minImprovement minLeafCount
      maxSplitsPerNumericAttribute values valueTypes categoryMaps subsetIndexes selectRows
      selectColumns targetColumn sortedIndexes imputedValues with
  | error e => simp [hr] at h
  | ok r =>
    obtain ⟨root, d⟩ := r
    simp only [hr] at h
    unfold evaluateTreeRoot at hr
    cases hg : growTree libm maxDepth maxNodes minImprovement minLeafCount
        maxSplitsPerNumericAttribute values valueTypes categoryMaps subsetIndexes selectRows
        selectColumns targetColumn sortedIndexes imputedValues with
    | error e => simp [hg] at hr
    | ok g =>
      obtain ⟨grown, d0⟩ := g
      simp only [hg] at hr
      have hzg := (growTree_paths hg).1
      have hfinal : zeroOrTwoChildren root = true ∧ (doPrune = false → root = grown) ∧
          (∀ p, maxPathCount p root ≤ maxPathCount p grown) ∧ d = d0 := by
        cases doPrune with
        | false =>
          simp only [Bool.false_eq_true, if_false, Except.ok.injEq, Prod.mk.injEq] at hr
          obtain ⟨h1, h2⟩ := hr
          subst h1; subst h2
          exact ⟨hzg, fun _ => rfl, fun _ => le_refl _, rfl⟩
        | true =>
          simp only [if_true] at hr
          cases hp : pruneTree libm grown valueTypes targetColumn with
          | error e => simp [hp] at hr
          | ok root1 =>
            simp only [hp, Except.ok.injEq, Prod.mk.injEq] at hr
            obtain ⟨h1, h2⟩ := hr
            subst h1; subst h2
            exact ⟨(pruneTree_paths (fun _ => true) hp hzg).1, fun hf => absurd hf (by decide),
              fun p => (pruneTree_paths p hp hzg).2, rfl⟩
      obtain ⟨hz, hsame, hle, hd⟩ := hfinal
      subst hd
      rw [makeCompactTree_eq _ root hz] at h
      simp only [Except.ok.injEq, Prod.mk.injEq] at h
      obtain ⟨h1, h2⟩ := h
      subst h2
      exact ⟨grown, root, rfl, hz, hsame, hle, h1.symm⟩

theorem growTrees_mem {libm : Libm} {maxDepth minDepth : Int} {doPrune : Bool}
    {minImprovement : ℚ} {minLeafCount maxSplitsPerNumericAttribute maxNodes : Int}
    {values : List (List Value)} {valueTypes : List ValueType}
    {categoryMaps : List CategoryMaps} {selectRows selectColumns : SelectIndexes}
    {targetColumn : Nat} {sortedIndexes : List (List Nat)} {imputedValues : List Value} :
    ∀ (subsets : List (List Nat)) (trees result : List CompactTree),
      growTrees libm maxDepth minDepth doPrune minImprovement minLeafCount
        maxSplitsPerNumericAttribute maxNodes values valueTypes categoryMaps selectRows
        selectColumns targetColumn sortedIndexes imputedValues subsets trees = .ok result →
      ∀ ct ∈ result, ct ∈ trees ∨ ∃ subset ∈ subsets, ∃ d,
        evaluateTree libm ⟨[], [], [], [], []⟩ maxDepth (intCast maxNodes) doPrune
          minImprovement minLeafCount maxSplitsPerNumericAttribute values valueTypes
          categoryMaps subset selectRows selectColumns targetColumn sortedIndexes
          imputedValues = .ok (ct, d) ∧ minDepth ≤ d := by
  intro subsets
  induction subsets with
  | nil =>
    intro trees result h ct hct
    simp only [growTrees, Except.ok.injEq] at h
    subst h
    exact Or.inl hct
  | cons subset rest ih =>
    intro trees result h ct hct
    simp only [growTrees] at h
    cases he : evaluateTree libm ⟨[], [], [], [], []⟩ maxDepth (intCast maxNodes) doPrune
        minImprovement minLeafCount maxSplitsPerNumericAttribute values valueTypes
        categoryMaps subset selectRows selectColumns targetColumn sortedIndexes
        imputedValues with
    | error e => simp [he] at h
    | ok r =>
      obtain ⟨ct1, d⟩ := r
      simp only [he] at h
      rcases ih _ _ h ct hct with hin | ⟨s, hs, d', hev, hd'⟩
      · by_cases hlt : d < minDepth
        · rw [if_pos hlt] at hin
          exact Or.inl hin
        · rw [if_neg hlt] at hin
          rcases List.mem_append.1 hin with hin | hin
          · exact Or.inl hin
          · simp only [List.mem_singleton] at hin
            subst hin
            exact Or.inr ⟨subset, List.mem_cons_self _ _, d, he, by omega⟩
      · exact Or.inr ⟨s, List.mem_cons_of_mem _ hs, d', hev, hd'⟩

theorem train_mem {libm : Libm} {columnsPerTree maxDepth minDepth : Int} {doPrune : Bool}
    {minImprovement : ℚ} {minLeafCount maxSplitsPerNumericAttribute maxTrees maxNodes : Int}
    {selectRows availableColumns : SelectIndexes} {values : List (List Value)}
    {valueTypes : List ValueType} {categoryMaps : List CategoryMaps} {targetColumn : Nat}
    {imputeOptions : List ImputeOption} {trained : Trained}
    (h : train libm columnsPerTree maxDepth minDepth doPrune minImprovement minLeafCount
      maxSplitsPerNumericAttribute maxTrees maxNodes selectRows availableColumns values
      valueTypes categoryMaps targetColumn imputeOptions = .ok trained) :
    ∃ setup, trainSetup libm columnsPerTree maxTrees selectRows availableColumns values
        valueTypes categoryMaps targetColumn imputeOptions = .ok setup ∧
      trained.selectColumns = setup.selectColumns ∧
      ∀ ct ∈ trained.trees, ∃ subset ∈ setup.subsets, ∃ d,
        evaluateTree libm ⟨[], [], [], [], []⟩ maxDepth (intCast maxNodes) doPrune
          minImprovement minLeafCount maxSplitsPerNumericAttribute setup.values valueTypes
          setup.categoryMaps subset selectRows setup.selectColumns targetColumn
          setup.sortedIndexes setup.imputedValues = .ok (ct, d) ∧ minDepth ≤ d := by
  unfold train at h
  cases hs : trainSetup libm columnsPerTree maxTrees selectRows availableColumns values
      valueTypes categoryMaps targetColumn imputeOptions with
  | error e => simp [hs] at h
  | ok setup =>
    simp only [hs] at h
    cases hg : growTrees libm maxDepth minDepth doPrune minImprovement minLeafCount
        maxSplitsPerNumericAttribute maxNodes setup.values valueTypes setup.categoryMaps
        selectRows setup.selectColumns targetColumn setup.sortedIndexes setup.imputedValues
        setup.subsets [] with
    | error e => simp [hg] at h
    | ok trees =>
      simp only [hg, Except.ok.injEq] at h
      subst h
      refine ⟨setup, rfl, rfl, ?_⟩
      intro ct hct
      rcases growTrees_mem _ _ _ hg ct hct with hin | hex
      · simp at hin
      · exact hex

end Paths

section Paths

theorem single_of_levels {t : TreeNode} (hz : zeroOrTwoChildren t = true)
    (h : treeLevels t = 1) : ∃ data, t = .node data .null .null := by
  cases t with
  | null => simp [zeroOrTwoChildren] at hz
  | node data l r =>
    cases l with
    | null =>
      cases r with
      | null => exact ⟨data, rfl⟩
      | node d2 l2 r2 => simp [zeroOrTwoChildren] at hz
    | node d1 l1 r1 =>
      simp only [treeLevels, maxPathCount, if_true] at h
      omega

theorem treeLevels_pos (t : TreeNode) : 1 ≤ treeLevels t := by
  unfold treeLevels
  omega

theorem ofRows_single (data : NodeData) :
    CompactTree.ofRows (preorderRows (.node data .null .null) 0) =
      singleLeaf data.leafValue.number := by
  simp [CompactTree.ofRows, preorderRows, compactNodeAt, singleLeaf, NO_INDEX]

end Paths

section ConstCategories

theorem set_getElem_same {α : Type} (l : List α) (i : Nat) (h : i < l.length) :
    l.set i (l[i]) = l := by
  apply List.ext_getElem?
  intro j
  by_cases hij : i = j
  · subst hij
    rw [List.getElem?_set_self h, List.getElem?_eq_getElem h]
  · rw [List.getElem?_set_ne hij]

theorem cellToCategory_const (interpretNA : Bool) (naString cell : String) (isQuoted : Bool)
    (m : CategoryMaps) :
    cellToCategory interpretNA naString true cell isQuoted m =
      .ok (constCategoryValue interpretNA naString m (cell, isQuoted), m) := by
  unfold cellToCategory constCategoryValue
  by_cases h1 : interpretNA = true ∧ cell = naString ∧ isQuoted = false
  · rw [if_pos h1]
    have : readAsNA interpretNA naString cell isQuoted = true := by
      simp [readAsNA, h1.1, h1.2.1, h1.2.2]
    simp [this]
  · rw [if_neg h1]
    by_cases h2 : cell.length = 0 ∧ isQuoted = false
    · rw [if_pos h2]
      have : readAsNA interpretNA naString cell isQuoted = true := by
        simp [readAsNA, (string_length_eq_zero cell).1 h2.1, h2.2]
      simp [this]
    · rw [if_neg h2]
      have hnot : readAsNA interpretNA naString cell isQuoted = false := by
        unfold readAsNA
        cases isQuoted with
        | true => rfl
        | false =>
          have h2' : cell ≠ "" := fun e => h2 ⟨(string_length_eq_zero cell).2 e, rfl⟩
          cases interpretNA with
          | false => simp [h2']
          | true =>
            have h1' : cell ≠ naString := fun e => h1 ⟨rfl, e, rfl⟩
            simp [h1', h2']
      simp only [hnot, Bool.false_eq_true, if_false, CategoryMaps.findIndexForCategory]
      cases hl : m.categoryToIndex.lookup cell with
      | none => simp
      | some index => simp

theorem cellsToValuesCategorical_const (cells : List (List String)) (quoted : List (List Bool))
    (interpretNA : Bool) (naString : String) (numRows numCols : Nat)
    (hcells : IsGrid cells numRows numCols) (hquoted : IsGrid quoted numRows numCols)
    (col : Nat) (hcol : col < numCols) (m : CategoryMaps) :
    ∀ rows : List Nat, (∀ row ∈ rows, row < numRows) →
      cellsToValuesCategorical cells quoted interpretNA naString true col rows m =
        .ok (rows.map (fun row =>
          constCategoryValue interpretNA naString m (gridCell cells quoted row col)), m) := by
  intro rows
  induction rows with
  | nil => intro _; rfl
  | cons row rest ih =>
    intro hrows
    unfold cellsToValuesCategorical
    rw [cellAt_of_grid cells quoted numRows numCols hcells hquoted row col
      (hrows row (List.mem_cons_self _ _)) hcol]
    simp only [cellToCategory_const,
      ih (fun r hr => hrows r (List.mem_cons_of_mem _ hr)), List.map_cons]

theorem cellsToValuesNumeric_ok (numberText : NumberText) (cells : List (List String))
    (quoted : List (List Bool)) (interpretNA : Bool) (naString : String) (numRows numCols : Nat)
    (hcells : IsGrid cells numRows numCols) (hquoted : IsGrid quoted numRows numCols)
    (col : Nat) (hcol : col < numCols) :
    ∀ rows : List Nat, (∀ row ∈ rows, row < numRows) →
      ∃ vals, cellsToValuesNumeric numberText cells quoted interpretNA naString col rows =
        .ok vals := by
  intro rows
  induction rows with
  | nil => intro _; exact ⟨[], rfl⟩
  | cons row rest ih =>
    intro hrows
    obtain ⟨more, hmore⟩ := ih (fun r hr => hrows r (List.mem_cons_of_mem _ hr))
    unfold cellsToValuesNumeric
    rw [cellAt_of_grid cells quoted numRows numCols hcells hquoted row col
      (hrows row (List.mem_cons_self _ _)) hcol]
    simp only [hmore]
    exact ⟨_, rfl⟩

theorem cellsToValuesLoop_const (numberText : NumberText) (cells : List (List String))
    (quoted : List (List Bool)) (valueTypes : List ValueType) (interpretNA : Bool)
    (naString : String) (numRows numCols : Nat) (hcells : IsGrid cells numRows numCols)
    (hquoted : IsGrid quoted numRows numCols) (htypes : valueTypes.length = numCols)
    (maps : List CategoryMaps) (hmaps : maps.length = numCols) :
    ∀ cols : List Nat, (∀ col ∈ cols, col < numCols) →
      ∃ values, cellsToValuesLoop numberText cells quoted valueTypes interpretNA naString true
          numRows cols maps = .ok (values, maps) ∧ values.length = cols.length ∧
        ∀ (j col : Nat) (map : CategoryMaps), cols[j]? = some col →
          valueTypes[col]? = some .kCategorical →
          maps[col]? = some map →
          values[j]? = some ((List.range numRows).map (fun row =>
            constCategoryValue interpretNA naString map (gridCell cells quoted row col))) := by
  intro cols
  induction cols with
  | nil => intro _; exact ⟨[], rfl, rfl, fun j col map h => by simp at h⟩
  | cons col rest ih =>
    intro hcols
    have hcol : col < numCols := hcols col (List.mem_cons_self _ _)
    obtain ⟨more, hmore, hlen, hall⟩ := ih (fun c hc => hcols c (List.mem_cons_of_mem _ hc))
    have hlt : col < maps.length := by omega
    have hlt2 : col < valueTypes.length := by omega
    have hmaps1 : (if maps.length ≤ col then maps ++ [CategoryMaps.create] else maps) = maps := by
      rw [if_neg (by omega)]
    have hget : vecGet maps col = .ok (maps[col]) :=
      vecGet_of_getElem? (List.getElem?_eq_getElem hlt)
    have hty : vecGet valueTypes col = .ok (valueTypes[col]) :=
      vecGet_of_getElem? (List.getElem?_eq_getElem hlt2)
    have hrange : ∀ row ∈ List.range numRows, row < numRows := fun row hr => List.mem_range.1 hr
    cases hvt : valueTypes[col] with
    | kNumeric =>
      obtain ⟨vals, hvals⟩ := cellsToValuesNumeric_ok numberText cells quoted interpretNA
        naString numRows numCols hcells hquoted col hcol (List.range numRows) hrange
      refine ⟨vals :: more, ?_, by simp [hlen], ?_⟩
      · unfold cellsToValuesLoop
        simp only [hmaps1, hget, hty, hvt, hvals, hmore]
      · intro j c map hj hc hm
        cases j with
        | zero =>
          simp only [List.getElem?_cons_zero, Option.some.injEq] at hj
          subst hj
          rw [List.getElem?_eq_getElem hlt2, hvt] at hc
          cases hc
        | succ j =>
          simp only [List.getElem?_cons_succ] at hj ⊢
          exact hall j c map hj hc hm
    | kCategorical =>
      have hvals := cellsToValuesCategorical_const cells quoted interpretNA naString numRows
        numCols hcells hquoted col hcol (maps[col]) (List.range numRows) hrange
      have hset : maps.set col (maps[col]) = maps := set_getElem_same maps col hlt
      refine ⟨(List.range numRows).map (fun row => constCategoryValue interpretNA naString
        (maps[col]) (gridCell cells quoted row col)) :: more, ?_, by simp [hlen], ?_⟩
      · unfold cellsToValuesLoop
        simp only [hmaps1, hget, hty, hvt, hvals, hset, hmore]
      · intro j c map hj hc hm
        cases j with
        | zero =>
          simp only [List.getElem?_cons_zero, Option.some.injEq] at hj
          subst hj
          rw [List.getElem?_eq_getElem hlt, Option.some.injEq] at hm
          subst hm
          exact List.getElem?_cons_zero
        | succ j =>
          simp only [List.getElem?_cons_succ] at hj ⊢
          exact hall j c map hj hc hm

end ConstCategories

section Csv

theorem strAt_append (pre post : List Char) (x : Char) :
    strAt (pre ++ x :: post) pre.length = x := by
  unfold strAt
  rw [List.getD_eq_getElem?_getD, List.getElem?_append_right (le_refl _)]
  simp

theorem substr_append (pre seg post : List Char) :
    substr (pre ++ seg ++ post) pre.length seg.length = seg := by
  simp [substr, List.append_assoc]

theorem quotedCellLoop_other (str : List Char) (strLength fuel startIndex endIndex : Nat)
    (cell : List Char) (h1 : endIndex ≠ strLength) (h2 : strAt str endIndex ≠ quoteChar) :
    quotedCellLoop str strLength (fuel + 1) startIndex endIndex cell =
      quotedCellLoop str strLength fuel startIndex (endIndex + 1) cell := by
  rw [quotedCellLoop, if_neg h1, if_neg h2]

theorem quotedCellLoop_pair (str : List Char) (strLength fuel startIndex endIndex : Nat)
    (cell : List Char) (h1 : endIndex ≠ strLength) (h2 : strAt str endIndex = quoteChar)
    (h3 : endIndex + 1 ≠ strLength) (h4 : strAt str (endIndex + 1) = quoteChar) :
    quotedCellLoop str strLength (fuel + 1) startIndex endIndex cell =
      quotedCellLoop str strLength fuel (endIndex + 1 + 1) (endIndex + 1 + 1)
        (cell ++ substr str startIndex (endIndex + 1 - startIndex)) := by
  rw [quotedCellLoop, if_neg h1, if_pos h2, if_neg h3, if_pos h4]

theorem quotedCellLoop_last (str : List Char) (strLength fuel startIndex endIndex : Nat)
    (cell : List Char) (h1 : endIndex ≠ strLength) (h2 : strAt str endIndex = quoteChar)
    (h3 : endIndex + 1 = strLength) :
    quotedCellLoop str strLength (fuel + 1) startIndex endIndex cell =
      .ok (cell ++ substr str startIndex (endIndex - startIndex), endIndex) := by
  rw [quotedCellLoop, if_neg h1, if_pos h2, if_pos h3]

theorem quotedCellLoop_comma (str : List Char) (strLength fuel startIndex endIndex : Nat)
    (cell : List Char) (h1 : endIndex ≠ strLength) (h2 : strAt str endIndex = quoteChar)
    (h3 : endIndex + 1 ≠ strLength) (h4 : strAt str (endIndex + 1) = commaChar) :
    quotedCellLoop str strLength (fuel + 1) startIndex endIndex cell =
      .ok (cell ++ substr str startIndex (endIndex - startIndex), endIndex + 1) := by
  have h5 : strAt str (endIndex + 1) ≠ quoteChar := by
    rw [h4]
    decide
  rw [quotedCellLoop, if_neg h1, if_pos h2, if_neg h3, if_neg h5, if_pos h4]

theorem quotedCellLoop_spec (tail : List Char)
    (htail : tail = [] ∨ ∃ t, tail = commaChar :: t) :
    ∀ (c pre seg acc : List Char) (fuel : Nat) (str : List Char) (strLength s e : Nat),
      str = pre ++ seg ++ doubleQuotes c ++ quoteChar :: tail → strLength = str.length →
      s = pre.length → e = pre.length + seg.length → c.length + 1 ≤ fuel →
      quotedCellLoop str strLength fuel s e acc =
        .ok (acc ++ seg ++ c,
          e + (doubleQuotes c).length + (if tail = [] then 0 else 1)) := by
  intro c
  induction c with
  | nil =>
    intro pre seg acc fuel str strLength s e hstr hlen hs he hfuel
    obtain ⟨fuel, rfl⟩ : ∃ f, fuel = f + 1 := ⟨fuel - 1, by simp at hfuel; omega⟩
    have hstr1 : str = (pre ++ seg) ++ quoteChar :: tail := by rw [hstr]; simp [doubleQuotes]
    have hstr2 : str = pre ++ seg ++ (quoteChar :: tail) := by rw [hstr]; simp [doubleQuotes]
    have he1 : e = (pre ++ seg).length := by rw [he]; simp
    have hat : strAt str e = quoteChar := by
      rw [hstr1, he1]
      exact strAt_append _ _ _
    have hsub : substr str s (e - s) = seg := by
      rw [hs, he, Nat.add_sub_cancel_left, hstr2]
      exact substr_append _ _ _
    have hl : str.length = pre.length + seg.length + 1 + tail.length := by
      rw [hstr1]; simp; omega
    have hne : e ≠ strLength := by omega
    rcases htail with ht | ⟨t, ht⟩
    · subst ht
      rw [quotedCellLoop_last _ _ _ _ _ _ hne hat (by simp at hl; omega), hsub]
      simp [doubleQuotes]
    · have hat2 : strAt str (e + 1) = commaChar := by
        have h3 : str = (pre ++ seg ++ [quoteChar]) ++ commaChar :: t := by
          rw [hstr1, ht]; simp
        have h4 : e + 1 = (pre ++ seg ++ [quoteChar]).length := by rw [he]; simp; omega
        rw [h3, h4]
        exact strAt_append _ _ _
      have hne2 : e + 1 ≠ strLength := by
        rw [ht] at hl
        simp at hl
        omega
      rw [quotedCellLoop_comma _ _ _ _ _ _ hne hat hne2 hat2, hsub]
      simp [doubleQuotes, ht]
  | cons ch rest ih =>
    intro pre seg acc fuel str strLength s e hstr hlen hs he hfuel
    obtain ⟨fuel, rfl⟩ : ∃ f, fuel = f + 1 := ⟨fuel - 1, by simp at hfuel; omega⟩
    have hfuel1 : rest.length + 1 ≤ fuel := by simp at hfuel; omega
    have he1 : e = (pre ++ seg).length := by rw [he]; simp
    by_cases hq : ch = quoteChar
    · subst hq
      have hdq : doubleQuotes (quoteChar :: rest) =
          quoteChar :: quoteChar :: doubleQuotes rest := by
        simp [doubleQuotes]
      have hstr1 : str =
          (pre ++ seg) ++ quoteChar :: (quoteChar :: doubleQuotes rest ++ quoteChar :: tail) := by
        rw [hstr, hdq]; simp
      have hstr2 : str =
          (pre ++ seg ++ [quoteChar]) ++ quoteChar :: (doubleQuotes rest ++ quoteChar :: tail) := by
        rw [hstr, hdq]; simp
      have hstr3 : str =
          (pre ++ seg ++ [quoteChar, quoteChar]) ++ [] ++ doubleQuotes rest ++
            quoteChar :: tail := by
        rw [hstr, hdq]; simp
      have hstr4 : str =
          pre ++ (seg ++ [quoteChar]) ++ (quoteChar :: doubleQuotes rest ++ quoteChar :: tail) := by
        rw [hstr, hdq]; simp
      have hl : str.length = pre.length + seg.length + 2 + (doubleQuotes rest).length + 1 +
          tail.length := by
        rw [hstr3]; simp; omega
      have hat : strAt str e = quoteChar := by
        rw [hstr1, he1]
        exact strAt_append _ _ _
      have hat2 : strAt str (e + 1) = quoteChar := by
        have h4 : e + 1 = (pre ++ seg ++ [quoteChar]).length := by rw [he]; simp; omega
        rw [hstr2, h4]
        exact strAt_append _ _ _
      have hsub : substr str s (e + 1 - s) = seg ++ [quoteChar] := by
        have h5 : e + 1 - s = (seg ++ [quoteChar]).length := by rw [hs, he]; simp; omega
        rw [h5, hs, hstr4]
        exact substr_append _ _ _
      rw [quotedCellLoop_pair _ _ _ _ _ _ (by omega) hat (by omega) hat2, hsub]
      rw [ih (pre ++ seg ++ [quoteChar, quoteChar]) [] (acc ++ (seg ++ [quoteChar])) fuel str
        strLength (e + 1 + 1) (e + 1 + 1) hstr3 hlen (by rw [he]; simp; omega)
        (by rw [he]; simp; omega) hfuel1]
      rw [hdq]
      simp only [List.length_cons, List.append_nil, List.append_assoc, List.singleton_append]
      congr 2
      omega
    · have hdq : doubleQuotes (ch :: rest) = ch :: doubleQuotes rest := by
        simp [doubleQuotes, hq]
      have hstr1 : str = (pre ++ seg) ++ ch :: (doubleQuotes rest ++ quoteChar :: tail) := by
        rw [hstr, hdq]; simp
      have hstr2 : str = pre ++ (seg ++ [ch]) ++ doubleQuotes rest ++ quoteChar :: tail := by
        rw [hstr, hdq]; simp
      have hl : str.length = pre.length + seg.length + 1 + (doubleQuotes rest).length + 1 +
          tail.length := by
        rw [hstr2]; simp; omega
      have hat : strAt str e = ch := by
        rw [hstr1, he1]
        exact strAt_append _ _ _
      rw [quotedCellLoop_other _ _ _ _ _ _ (by omega) (by rw [hat]; exact hq)]
      rw [ih pre (seg ++ [ch]) acc fuel str strLength s (e + 1) hstr2 hlen hs
        (by rw [he]; simp; omega) hfuel1]
      rw [hdq]
      simp only [List.length_cons, List.append_assoc, List.singleton_append]
      congr 2
      omega

end Csv

section Csv

theorem length_le_doubleQuotes (c : List Char) : c.length ≤ (doubleQuotes c).length := by
  induction c with
  | nil => simp [doubleQuotes]
  | cons ch rest ih =>
    by_cases hq : ch = quoteChar
    · simp [doubleQuotes, hq]; omega
    · simp [doubleQuotes, hq]; omega

theorem mem_doubleQuotes (c : List Char) (x : Char) (h : x ∈ doubleQuotes c) :
    x ∈ c ∨ x = quoteChar := by
  induction c with
  | nil => simp [doubleQuotes] at h
  | cons ch rest ih =>
    by_cases hq : ch = quoteChar
    · simp only [doubleQuotes, hq, if_true, List.mem_cons] at h
      rcases h with h | h | h
      · exact Or.inr h
      · exact Or.inr h
      · rcases ih h with h1 | h1
        · exact Or.inl (List.mem_cons_of_mem _ h1)
        · exact Or.inr h1
    · simp only [doubleQuotes, hq, if_false, List.mem_cons] at h
      rcases h with h | h
      · exact Or.inl (by rw [h]; exact List.mem_cons_self _ _)
      · rcases ih h with h1 | h1
        · exact Or.inl (List.mem_cons_of_mem _ h1)
        · exact Or.inr h1

theorem quotedLine_cons (cell : String) (rest : List String) (h : rest ≠ []) :
    quotedLine (cell :: rest) = quoteCell cell ++ commaChar :: quotedLine rest := by
  cases rest with
  | nil => exact absurd rfl h
  | cons next rest => rfl

theorem length_le_quotedLine (cells : List String) :
    cells.length ≤ (quotedLine cells).length := by
  induction cells with
  | nil => simp
  | cons cell rest ih =>
    cases rest with
    | nil => simp [quotedLine, quoteCell]
    | cons next rest =>
      rw [quotedLine_cons cell (next :: rest) (by simp)]
      simp only [List.length_cons, List.length_append] at ih ⊢
      omega

theorem quotedLine_no_newline (cells : List String)
    (h : ∀ cell ∈ cells, newlineChar ∉ cell.data) : ∀ x ∈ quotedLine cells, x ≠ newlineChar := by
  induction cells with
  | nil => intro x hx; simp [quotedLine] at hx
  | cons cell rest ih =>
    have hcell : ∀ x ∈ quoteCell cell, x ≠ newlineChar := by
      intro x hx
      simp only [quoteCell, List.mem_cons, List.mem_append, List.mem_singleton,
        List.not_mem_nil, or_false] at hx
      rcases hx with hx | hx | hx
      · rw [hx]; decide
      · rcases mem_doubleQuotes _ _ hx with h1 | h1
        · intro heq
          rw [heq] at h1
          exact h cell (List.mem_cons_self _ _) h1
        · rw [h1]; decide
      · rw [hx]; decide
    cases rest with
    | nil => exact hcell
    | cons next rest =>
      intro x hx
      rw [quotedLine_cons cell (next :: rest) (by simp)] at hx
      simp only [List.mem_append, List.mem_cons] at hx
      rcases hx with hx | hx | hx
      · exact hcell x hx
      · rw [hx]; decide
      · exact ih (fun c hc => h c (List.mem_cons_of_mem _ hc)) x hx

theorem quotedLine_last (cells : List String) (h : cells ≠ []) :
    ∃ init, quotedLine cells = init ++ [quoteChar] := by
  induction cells with
  | nil => exact absurd rfl h
  | cons cell rest ih =>
    cases rest with
    | nil => exact ⟨quoteChar :: doubleQuotes cell.data, by simp [quotedLine, quoteCell]⟩
    | cons next rest =>
      obtain ⟨init, hinit⟩ := ih (by simp)
      refine ⟨quoteCell cell ++ commaChar :: init, ?_⟩
      rw [quotedLine_cons cell (next :: rest) (by simp), hinit]
      simp

theorem getline_append (line more : List Char) (h : ∀ x ∈ line, x ≠ newlineChar)
    (hmore : more = [] ∨ more.head? = some newlineChar) :
    getline (line ++ more) = (line, more.drop 1) := by
  induction line with
  | nil =>
    rcases hmore with hm | hm
    · subst hm; rfl
    · cases more with
      | nil => simp at hm
      | cons m rest =>
        simp only [List.head?_cons, Option.some.injEq] at hm
        subst hm
        simp [getline]
  | cons x rest ih =>
    have hx : x ≠ newlineChar := h x (List.mem_cons_self _ _)
    have := ih (fun y hy => h y (List.mem_cons_of_mem _ hy))
    simp only [getline, Prod.mk.injEq] at this
    simp only [getline, List.cons_append, Prod.mk.injEq]
    rw [List.takeWhile_cons_of_pos (by simpa using hx),
      List.dropWhile_cons_of_pos (by simpa using hx)]
    exact ⟨by rw [this.1], this.2⟩

theorem skipBlanks_quote (str : List Char) (fuel startIndex : Nat)
    (h : strAt str startIndex = quoteChar) :
    skipBlanks str (fuel + 1) startIndex = .ok startIndex := by
  have h1 : ¬ (strAt str startIndex = spaceChar ∨ strAt str startIndex = tabChar) := by
    rw [h]
    decide
  rw [skipBlanks, if_neg h1]

theorem cellsLoop_done (str : List Char) (strLength fuel startIndex : Nat)
    (line : List String) (lineQuoted : List Bool) (h : ¬ startIndex < strLength) :
    cellsLoop str strLength fuel startIndex line lineQuoted = .ok (line, lineQuoted) := by
  rw [cellsLoop.eq_def]
  simp only [if_neg h]

theorem cellsLoop_quoted (str : List Char) (strLength fuel startIndex endIndex : Nat)
    (line : List String) (lineQuoted : List Bool) (cell : List Char)
    (h1 : startIndex < strLength) (h2 : strAt str startIndex = quoteChar)
    (h3 : quotedCellLoop str strLength (strLength + 1) (startIndex + 1) (startIndex + 1) [] =
      .ok (cell, endIndex)) :
    cellsLoop str strLength (fuel + 1) startIndex line lineQuoted =
      cellsLoop str strLength fuel (endIndex + 1) (line ++ [String.mk cell])
        (lineQuoted ++ [true]) := by
  rw [cellsLoop.eq_def]
  simp only [skipBlanks_quote str str.length startIndex h2, h1, if_true, h2, h3]

theorem cellsLoop_spec :
    ∀ (cells : List String), cells ≠ [] → ∀ (pre : List Char) (line : List String)
      (lineQuoted : List Bool) (fuel : Nat) (str : List Char),
      str = pre ++ quotedLine cells → cells.length ≤ fuel →
      cellsLoop str str.length fuel pre.length line lineQuoted =
        .ok (line ++ cells, lineQuoted ++ List.replicate cells.length true) := by
  intro cells
  induction cells with
  | nil => intro h; exact absurd rfl h
  | cons cell rest ih =>
    intro _ pre line lineQuoted fuel str hstr hfuel
    obtain ⟨fuel, rfl⟩ : ∃ f, fuel = f + 1 := ⟨fuel - 1, by simp at hfuel; omega⟩
    have hcl := length_le_doubleQuotes cell.data
    cases rest with
    | nil =>
      have hstr1 : str = pre ++ quoteChar :: (doubleQuotes cell.data ++ [quoteChar]) := by
        rw [hstr]; rfl
      have hstr2 : str = (pre ++ [quoteChar]) ++ [] ++ doubleQuotes cell.data ++
          quoteChar :: [] := by
        rw [hstr1]; simp
      have hl : str.length = pre.length + 1 + (doubleQuotes cell.data).length + 1 := by
        rw [hstr1]; simp; omega
      have hq := quotedCellLoop_spec [] (Or.inl rfl) cell.data (pre ++ [quoteChar]) [] []
        (str.length + 1) str str.length (pre.length + 1) (pre.length + 1) hstr2 rfl
        (by simp) (by simp) (by omega)
      rw [cellsLoop_quoted str str.length fuel pre.length _ line lineQuoted _ (by omega)
        (by rw [hstr1]; exact strAt_append _ _ _) hq]
      rw [cellsLoop_done _ _ _ _ _ _ (by simp; omega)]
      simp
    | cons next rest =>
      have hstr1 : str = pre ++ quoteChar :: (doubleQuotes cell.data ++
          quoteChar :: commaChar :: quotedLine (next :: rest)) := by
        rw [hstr, quotedLine_cons cell (next :: rest) (by simp)]
        simp [quoteCell]
      have hstr2 : str = (pre ++ [quoteChar]) ++ [] ++ doubleQuotes cell.data ++
          quoteChar :: (commaChar :: quotedLine (next :: rest)) := by
        rw [hstr1]; simp
      have hstr3 : str = (pre ++ quoteCell cell ++ [commaChar]) ++
          quotedLine (next :: rest) := by
        rw [hstr, quotedLine_cons cell (next :: rest) (by simp)]
        simp
      have hl : str.length = pre.length + 1 + (doubleQuotes cell.data).length + 1 + 1 +
          (quotedLine (next :: rest)).length := by
        rw [hstr1]; simp; omega
      have hq := quotedCellLoop_spec (commaChar :: quotedLine (next :: rest))
        (Or.inr ⟨_, rfl⟩) cell.data (pre ++ [quoteChar]) [] [] (str.length + 1) str str.length
        (pre.length + 1) (pre.length + 1) hstr2 rfl (by simp) (by simp) (by omega)
      rw [cellsLoop_quoted str str.length fuel pre.length _ line lineQuoted _ (by omega)
        (by rw [hstr1]; exact strAt_append _ _ _) hq]
      have hpos : pre.length + 1 + (doubleQuotes cell.data).length +
          (if commaChar :: quotedLine (next :: rest) = [] then 0 else 1) + 1 =
            (pre ++ quoteCell cell ++ [commaChar]).length := by
        simp [quoteCell]; omega
      rw [hpos, ih (by simp) (pre ++ quoteCell cell ++ [commaChar]) _ _ fuel str hstr3
        (by simp at hfuel ⊢; omega)]
      simp [List.replicate_succ]

end Csv

section Usage

theorem getElem?_incrementUsage : ∀ (l : List (Nat × Nat)) (i j : Nat),
    (incrementUsage l i)[j]? = (l[j]?).map (fun p => if j = i then (p.1, p.2 + 1) else p) := by
  intro l
  induction l with
  | nil => intro i j; simp [incrementUsage]
  | cons p ps ih =>
    intro i j
    cases i with
    | zero =>
      cases j with
      | zero => simp [incrementUsage]
      | succ j => simp [incrementUsage]
    | succ i =>
      cases j with
      | zero => simp [incrementUsage]
      | succ j => simp [incrementUsage, ih]

theorem incrementUsage_table (C : Nat) (usage : Nat → Nat) (i : Nat) :
    incrementUsage (usageTable C usage) i =
      usageTable C (fun k => usage k + if k = i then 1 else 0) := by
  apply List.ext_getElem?
  intro j
  rw [getElem?_incrementUsage]
  unfold usageTable
  rw [List.getElem?_map, List.getElem?_map]
  by_cases hj : j < C
  · rw [List.getElem?_range hj]
    by_cases hji : j = i
    · simp [hji]
    · simp [hji]
  · rw [List.getElem?_eq_none (by simpa using hj)]
    rfl

theorem foldl_incrementUsage_table (C : Nat) (s : List Nat) : ∀ usage : Nat → Nat,
    s.foldl incrementUsage (usageTable C usage) = usageTable C (fun k => usage k + s.count k) := by
  induction s with
  | nil => intro usage; simp
  | cons a s ih =>
    intro usage
    rw [List.foldl_cons, incrementUsage_table, ih]
    unfold usageTable
    apply List.map_congr_left
    intro k _
    by_cases hk : k = a
    · subst hk
      simp
      omega
    · have hk2 : ¬ a = k := fun e => hk e.symm
      simp [hk, List.count_cons, hk2]

theorem usageBefore_append (earlier : List (List Nat)) (s : List Nat) (hs : s.Nodup)
    (k : Nat) : usageBefore (earlier ++ [s]) k = usageBefore earlier k + s.count k := by
  unfold usageBefore
  rw [List.filter_append, List.length_append]
  by_cases hk : k ∈ s
  · simp [hk, List.count_eq_one_of_mem hs hk]
  · simp [hk, List.count_eq_zero_of_not_mem hk]

theorem usagePairsAt_table (C : Nat) (usage : Nat → Nat) :
    ∀ cols : List Nat, (∀ x ∈ cols, x < C) →
      usagePairsAt (usageTable C usage) cols = .ok (cols.map (fun k => (k, usage k))) := by
  intro cols
  induction cols with
  | nil => intro _; rfl
  | cons a cols ih =>
    intro hlt
    have ha : a < C := hlt a (List.mem_cons_self _ _)
    have hget : (usageTable C usage)[a]? = some (a, usage a) := by
      unfold usageTable
      rw [List.getElem?_map, List.getElem?_range ha]
      rfl
    unfold usagePairsAt
    rw [hget]
    simp only [ih (fun x hx => hlt x (List.mem_cons_of_mem _ hx)), List.map_cons]

theorem compareUsagePair_iff (usage : Nat → Nat) (a b : Nat) :
    compareUsagePair (a, usage a) (b, usage b) = true ↔
      (usage a < usage b ∨ (usage a = usage b ∧ a < b)) := by
  unfold compareUsagePair
  by_cases h1 : usage a < usage b
  · simp [h1]
  · by_cases h2 : usage a > usage b
    · simp [h1, h2]
      omega
    · have h3 : usage a = usage b := by omega
      simp [h3]

theorem pairwise_orderedInsert_usage (usage : Nat → Nat) (a : Nat) :
    ∀ l : List Nat, a ∉ l →
      (l.map (fun k => (k, usage k))).Pairwise
        (fun p q => compareUsagePair p q = true) →
      (((l.map (fun k => (k, usage k))).orderedInsert
        (fun p q => compareUsagePair p q = true) (a, usage a))).Pairwise
          (fun p q => compareUsagePair p q = true) ∧
      ∃ l1 : List Nat, (l.map (fun k => (k, usage k))).orderedInsert
          (fun p q => compareUsagePair p q = true) (a, usage a) =
            l1.map (fun k => (k, usage k)) ∧ l1.Perm (a :: l) := by
  intro l
  induction l with
  | nil =>
    intro _ _
    exact ⟨by simp, [a], by simp, List.Perm.refl _⟩
  | cons b rest ih =>
    intro ha hl
    have hab : a ≠ b := fun e => ha (e ▸ List.mem_cons_self _ _)
    have harest : a ∉ rest := fun hm => ha (List.mem_cons_of_mem _ hm)
    rw [List.map_cons, List.pairwise_cons] at hl
    rw [List.map_cons, List.orderedInsert]
    by_cases h : compareUsagePair (a, usage a) (b, usage b) = true
    · rw [if_pos h]
      refine ⟨List.Pairwise.cons ?_ (List.Pairwise.cons hl.1 hl.2), a :: b :: rest, by simp,
        List.Perm.refl _⟩
      intro x hx
      rcases List.mem_cons.1 hx with rfl | hx
      · exact h
      · obtain ⟨k, hk, rfl⟩ := List.mem_map.1 hx
        have h2 := hl.1 _ (List.mem_map.2 ⟨k, hk, rfl⟩)
        rw [compareUsagePair_iff] at h h2 ⊢
        omega
    · rw [if_neg h]
      obtain ⟨hp, l1, hl1, hperm⟩ := ih harest hl.2
      refine ⟨List.Pairwise.cons ?_ hp, b :: l1, by rw [hl1]; simp, ?_⟩
      · intro x hx
        rcases (List.mem_orderedInsert _).1 hx with rfl | hx
        · rw [compareUsagePair_iff] at h ⊢
          omega
        · exact hl.1 x hx
      · exact (List.Perm.cons b hperm).trans (List.Perm.swap a b rest)

theorem sortUsagePairs_table (usage : Nat → Nat) :
    ∀ cols : List Nat, cols.Nodup →
      ∃ sorted : List Nat, sortUsagePairs (cols.map (fun k => (k, usage k))) =
          sorted.map (fun k => (k, usage k)) ∧ sorted.Perm cols ∧
        sorted.Pairwise (fun a b => usage a < usage b ∨ (usage a = usage b ∧ a < b)) := by
  intro cols
  induction cols with
  | nil => intro _; exact ⟨[], rfl, List.Perm.refl _, List.Pairwise.nil⟩
  | cons a rest ih =>
    intro hnd
    rw [List.nodup_cons] at hnd
    obtain ⟨sorted, hs, hperm, hpw⟩ := ih hnd.2
    have hpw1 : (sorted.map (fun k => (k, usage k))).Pairwise
        (fun p q => compareUsagePair p q = true) := by
      rw [List.pairwise_map]
      exact hpw.imp (fun h => (compareUsagePair_iff usage _ _).2 h)
    have ha : a ∉ sorted := fun hm => hnd.1 (hperm.subset hm)
    obtain ⟨hp, l1, hl1, hperm1⟩ := pairwise_orderedInsert_usage usage a sorted ha hpw1
    refine ⟨l1, ?_, hperm1.trans (List.Perm.cons a hperm), ?_⟩
    · unfold sortUsagePairs at hs ⊢
      rw [List.map_cons, List.insertionSort, hs, hl1]
    · rw [hl1, List.pairwise_map] at hp
      exact hp.imp (fun h => (compareUsagePair_iff usage _ _).1 h)

theorem nextSubsetOf_least_used (C K g : Nat) (usage : Nat → Nat) (c : List Nat)
    (hgood : GoodCombination C K g c) :
    ∃ sorted : List Nat, sorted.Perm (combinationColumns C g c) ∧
      sorted.Pairwise (fun a b => usage a < usage b ∨ (usage a = usage b ∧ a < b)) ∧
      (sorted.take K).Nodup ∧
      nextSubsetOf C K g (usageTable C usage) c =
        .ok (sorted.take K, usageTable C (fun k => usage k + (sorted.take K).count k)) := by
  obtain ⟨hnd, hlt, hlen⟩ := hgood
  obtain ⟨sorted, hs, hperm, hpw⟩ := sortUsagePairs_table usage (combinationColumns C g c) hnd
  have hps := usagePairsAt_table C usage (combinationColumns C g c) hlt
  have hlen2 : sorted.length = (combinationColumns C g c).length := hperm.length_eq
  refine ⟨sorted, hperm, hpw, (List.take_sublist _ _).nodup ((hperm.nodup_iff).mpr hnd), ?_⟩
  unfold nextSubsetOf
  have hn : ¬ (sorted.map (fun k => (k, usage k))).length < K := by
    rw [List.length_map]
    omega
  have hfst : ((sorted.map (fun k => (k, usage k))).take K).map Prod.fst = sorted.take K := by
    rw [← List.map_take, List.map_map]
    exact List.map_id _
  simp only [combinationColumns] at hps hs
  simp only [hps, bind, Except.bind, hs, hn, if_false, hfst, pure, Except.pure,
    foldl_incrementUsage_table]

theorem subsetsLoop_least_used (C K g : Nat) : ∀ (combinations : List (List Nat))
    (earlier : List (List Nat)),
    (∀ c ∈ combinations, GoodCombination C K g c) →
    ∃ subsets, subsetsLoop C K g combinations (usageTable C (usageBefore earlier)) =
        .ok subsets ∧ subsets.length = combinations.length ∧
      ∀ (i : Nat) (c s : List Nat), combinations[i]? = some c → subsets[i]? = some s →
        ∃ sorted : List Nat, sorted.Perm (combinationColumns C g c) ∧
          sorted.Pairwise (usageLess (earlier ++ subsets.take i)) ∧ s = sorted.take K := by
  intro combinations
  induction combinations with
  | nil =>
    intro earlier _
    exact ⟨[], rfl, rfl, fun i c s h => by simp at h⟩
  | cons c rest ih =>
    intro earlier hgood
    obtain ⟨sorted, hperm, hpw, hnd, hnext⟩ := nextSubsetOf_least_used C K g
      (usageBefore earlier) c (hgood c (List.mem_cons_self _ _))
    have htable : usageTable C (fun k => usageBefore earlier k + (sorted.take K).count k) =
        usageTable C (usageBefore (earlier ++ [sorted.take K])) := by
      unfold usageTable
      apply List.map_congr_left
      intro k _
      rw [usageBefore_append earlier _ hnd k]
    rw [htable] at hnext
    obtain ⟨more, hmore, hlen, hall⟩ := ih (earlier ++ [sorted.take K])
      (fun c hc => hgood c (List.mem_cons_of_mem _ hc))
    refine ⟨sorted.take K :: more, ?_, by simp [hlen], ?_⟩
    · simp [subsetsLoop, hnext, hmore, bind, Except.bind, pure, Except.pure]
    · intro i c1 s hc hs
      cases i with
      | zero =>
        simp only [List.getElem?_cons_zero, Option.some.injEq] at hc hs
        subst hc
        subst hs
        refine ⟨sorted, hperm, ?_, rfl⟩
        simpa [usageLess] using hpw
      | succ i =>
        simp only [List.getElem?_cons_succ] at hc hs
        obtain ⟨sorted1, hp1, hpw1, hs1⟩ := hall i c1 s hc hs
        refine ⟨sorted1, hp1, ?_, hs1⟩
        simpa [List.take_succ_cons, List.append_assoc] using hpw1

end Usage

section NumericSearch

end NumericSearch

section NumericSearch

end NumericSearch

section NumericSearch

end NumericSearch

section NumericSearch

end NumericSearch

section NumericSearch

end NumericSearch

section NumericSearch

end NumericSearch

section NumericSearch

end NumericSearch

section Paths

/-- What `evaluateTree` returns: the compact form of the tree that `growTree` grew, pruned by
`pruneTree` when `doPrune` is on, together with the depth that `growTree` recorded. -/
theorem evaluateTree_final {libm : Libm} {ct0 ct : CompactTree} {maxDepth maxNodes : Int}
    {doPrune : Bool} {minImprovement : ℚ} {minLeafCount maxSplitsPerNumericAttribute : Int}
    {values : List (List Value)} {valueTypes : List ValueType}
    {categoryMaps : List CategoryMaps} {subsetIndexes : List Nat}
    {selectRows selectColumns : SelectIndexes} {targetColumn : Nat}
    {sortedIndexes : List (List Nat)} {imputedValues : List Value} {maxDepthUsed : Int}
    (h : evaluateTree libm ct0 maxDepth maxNodes doPrune minImprovement minLeafCount
      maxSplitsPerNumericAttribute values valueTypes categoryMaps subsetIndexes selectRows
      selectColumns targetColumn sortedIndexes imputedValues = .ok (ct, maxDepthUsed)) :
    ∃ grown final, growTree libm maxDepth maxNodes minImprovement minLeafCount
        maxSplitsPerNumericAttribute values valueTypes categoryMaps subsetIndexes selectRows
        selectColumns targetColumn sortedIndexes imputedValues = .ok (grown, maxDepthUsed) ∧
      (if doPrune = true then pruneTree libm grown valueTypes targetColumn = .ok final
        else final = grown) ∧
      zeroOrTwoChildren final = true ∧
      (∀ p, maxPathCount p final ≤ maxPathCount p grown) ∧
      ct = CompactTree.ofRows (preorderRows final 0) := by
  unfold evaluateTree at h
  cases hr : evaluateTreeRoot libm maxDepth maxNodes doPrune minImprovement minLeafCount
      maxSplitsPerNumericAttribute values valueTypes categoryMaps subsetIndexes selectRows
      selectColumns targetColumn sortedIndexes imputedValues with
  | error e => simp [hr] at h
  | ok r =>
    obtain ⟨root, d⟩ := r
    simp only [hr] at h
    unfold evaluateTreeRoot at hr
    cases hg : growTree libm maxDepth maxNodes minImprovement minLeafCount
        maxSplitsPerNumericAttribute values valueTypes categoryMaps subsetIndexes selectRows
        selectColumns targetColumn sortedIndexes imputedValues with
    | error e => simp [hg] at hr
    | ok g =>
      obtain ⟨grown, d0⟩ := g
      simp only [hg] at hr
      have hzg := (growTree_paths hg).1
      have hfinal : (if doPrune = true then pruneTree libm grown valueTypes targetColumn = .ok root
            else root = grown) ∧ zeroOrTwoChildren root = true ∧
          (∀ p, maxPathCount p root ≤ maxPathCount p grown) ∧ d = d0 := by
        cases doPrune with
        | false =>
          simp only [Bool.false_eq_true, if_false, Except.ok.injEq, Prod.mk.injEq] at hr
          obtain ⟨h1, h2⟩ := hr
          subst h1; subst h2
          exact ⟨by simp, hzg, fun _ => le_refl _, rfl⟩
        | true =>
          simp only [if_true] at hr
          cases hp : pruneTree libm grown valueTypes targetColumn with
          | error e => simp [hp] at hr
          | ok root1 =>
            simp only [hp, Except.ok.injEq, Prod.mk.injEq] at hr
            obtain ⟨h1, h2⟩ := hr
            subst h1; subst h2
            exact ⟨by simp, (pruneTree_paths (fun _ => true) hp hzg).1,
              fun p => (pruneTree_paths p hp hzg).2, rfl⟩
      obtain ⟨hlink, hz, hle, hd⟩ := hfinal
      subst hd
      rw [makeCompactTree_eq _ root hz] at h
      simp only [Except.ok.injEq, Prod.mk.injEq] at h
      obtain ⟨h1, h2⟩ := h
      subst h2
      exact ⟨grown, root, rfl, hlink, hz, hle, h1.symm⟩

end Paths

section NumericSearch

end NumericSearch

section SplitImpurity

end SplitImpurity

section CategorySearch

end CategorySearch

section CategorySearch

end CategorySearch

section CategorySearch

end CategorySearch

section CategorySearch

end CategorySearch

section CategorySearch

end CategorySearch

section SplitImpurity

end SplitImpurity

section SplitImpurity

end SplitImpurity

section SplitImpurity

end SplitImpurity

section Usage

theorem makeSelectColSubsets_sorted (C K : Nat) (M : Int) (h1 : 1 ≤ K) (h2 : K ≤ C) :
    ∃ layout subsets, chooseLayout C K M = .ok layout ∧
      makeSelectColSubsets C K M = .ok subsets ∧
      subsets.length = (collectCombinations layout M).length ∧
      ∀ (i : Nat) (c s : List Nat), (collectCombinations layout M)[i]? = some c →
        subsets[i]? = some s →
        ∃ sorted : List Nat, sorted.Perm (combinationColumns C layout.columnsPerFullGroup c) ∧
          sorted.Pairwise (usageLess (subsets.take i)) ∧ s = sorted.take K := by
  obtain ⟨layout, hlayout, hvalid⟩ := chooseLayout_valid C K M h1
  obtain ⟨subsets, hsubsets, hlen, hall⟩ :=
    subsetsLoop_least_used C K layout.columnsPerFullGroup (collectCombinations layout M) []
      (collectCombinations_good C K M layout hvalid)
  have htable : usageTable C (usageBefore []) = (List.range C).map (fun k => (k, 0)) := rfl
  rw [htable] at hsubsets
  refine ⟨layout, subsets, hlayout, ?_, hlen, ?_⟩
  · unfold makeSelectColSubsets
    rw [if_neg (by omega)]
    simp [hlayout, bind, Except.bind, hsubsets]
  · intro i c s hc hs
    obtain ⟨sorted, hp, hpw, hsorted⟩ := hall i c s hc hs
    exact ⟨sorted, hp, by simpa using hpw, hsorted⟩

end Usage

section Coverage

theorem underLimit_natCast (count L : Nat) :
    underLimit count (L : Int) = decide (count < L) := by
  unfold underLimit NO_INDEX
  have h1 : ¬ ((L : Int) = -1) := by omega
  simp [h1]

/-- With a limit `L ≥ 0`, `iterateCombinations` generates the combinations of
`allCombinations` in order until the count reaches `L`. -/
theorem iterateCombinations_take (L : Nat) : ∀ (n k : Nat) (append : Int) (count : Nat),
    iterateCombinations n k append count (L : Int) =
      (if append ≠ NO_INDEX then
          ((allCombinations n k).take (L - count)).map (fun c => c ++ [append.toNat])
        else (allCombinations n k).take (L - count),
        count + min (L - count) (allCombinations n k).length) := by
  intro n
  induction n with
  | zero =>
    intro k append count
    simp [iterateCombinations, allCombinations]
  | succ n ih =>
    intro k append count
    unfold iterateCombinations
    simp only [underLimit_natCast]
    have hno : ¬ (NO_INDEX ≠ NO_INDEX) := fun h => h rfl
    have hn : ((n : Nat) : Int) ≠ NO_INDEX := by
      unfold NO_INDEX
      omega
    by_cases hk : k = 0
    · subst hk
      simp only [if_true, allCombinations]
      by_cases hc : count < L
      · have h1 : L - count = (L - count - 1) + 1 := by omega
        simp only [hc, decide_True, if_true]
        rw [h1]
        simp
      · have h1 : L - count = 0 := by omega
        simp [hc, h1]
    · by_cases hnk : n + 1 = k
      · simp only [hk, if_false, hnk, if_true, allCombinations]
        by_cases hc : count < L
        · have h1 : L - count = (L - count - 1) + 1 := by omega
          simp only [hc, decide_True, if_true]
          rw [h1]
          simp
        · have h1 : L - count = 0 := by omega
          simp [hc, h1]
      · simp only [hk, if_false, hnk, allCombinations]
        have hr1 : (if decide (count < L) = true then iterateCombinations n k NO_INDEX count (L : Int)
            else ([], count)) =
            ((allCombinations n k).take (L - count),
              count + min (L - count) (allCombinations n k).length) := by
          by_cases hc : count < L
          · simp only [hc, decide_True, if_true]
            rw [ih k NO_INDEX count, if_neg hno]
          · have h1 : L - count = 0 := by omega
            simp [hc, h1]
        rw [hr1]
        simp only []
        have hr2 : (if decide (count + min (L - count) (allCombinations n k).length < L) = true
            then iterateCombinations n (k - 1) (n : Int)
              (count + min (L - count) (allCombinations n k).length) (L : Int)
            else ([], count + min (L - count) (allCombinations n k).length)) =
            (((allCombinations n (k - 1)).take
                (L - count - (allCombinations n k).length)).map (fun c => c ++ [n]),
              count + min (L - count)
                ((allCombinations n k).length + (allCombinations n (k - 1)).length)) := by
          by_cases hc : count + min (L - count) (allCombinations n k).length < L
          · simp only [hc, decide_True, if_true]
            rw [ih (k - 1) (n : Int) _, if_pos hn]
            have e1 : L - (count + min (L - count) (allCombinations n k).length) =
                L - count - (allCombinations n k).length := by
              simp only [Nat.min_def]
              split_ifs <;> omega
            rw [e1]
            simp only [Int.toNat_ofNat, Prod.mk.injEq, true_and]
            simp only [Nat.min_def]
            split_ifs <;> omega
          · have h1 : L - count - (allCombinations n k).length = 0 := by
              simp only [Nat.min_def] at hc
              split_ifs at hc <;> omega
            simp only [hc, decide_False, Bool.false_eq_true, if_false, h1, List.take_zero,
              List.map_nil, Prod.mk.injEq, true_and]
            simp only [Nat.min_def] at hc ⊢
            split_ifs at hc ⊢ <;> omega
        rw [hr2]
        simp only [List.length_append, List.length_map, Prod.mk.injEq, and_true]
        rw [List.take_append_eq_append_take, List.map_take]

end Coverage

section Coverage

theorem length_allCombinations_succ : ∀ (n k : Nat),
    (allCombinations (n + 1) k).length = Nat.choose (n + 1) k := by
  intro n
  induction n with
  | zero =>
    intro k
    unfold allCombinations
    by_cases hk : k = 0
    · simp [hk]
    · by_cases h1 : 0 + 1 = k
      · subst h1
        simp
      · simp only [hk, if_false, h1, allCombinations, List.map_nil, List.append_nil,
          List.length_nil]
        rw [Nat.choose_eq_zero_of_lt (by omega)]
  | succ n ih =>
    intro k
    unfold allCombinations
    by_cases hk : k = 0
    · simp [hk]
    · by_cases h1 : n + 1 + 1 = k
      · subst h1
        simp
      · simp only [hk, if_false, h1, List.length_append, List.length_map, ih]
        obtain ⟨j, rfl⟩ : ∃ j, k = j + 1 := ⟨k - 1, by omega⟩
        simp only [Nat.add_sub_cancel]
        have hsucc := Nat.choose_succ_succ (n + 1) j
        simp only [Nat.succ_eq_add_one] at hsucc ⊢
        omega

theorem length_allCombinations (n k : Nat) (hn : 1 ≤ n) :
    (allCombinations n k).length = Nat.choose n k := by
  obtain ⟨m, rfl⟩ : ∃ m, n = m + 1 := ⟨n - 1, by omega⟩
  exact length_allCombinations_succ m k

theorem nChooseKMul_spec (k : Nat) : ∀ (i : Nat) (r : ℚ), k ≤ i →
    nChooseKMul k i r * (k.factorial : ℚ) = r * (i.factorial : ℚ) := by
  intro i
  induction i with
  | zero =>
    intro r hk
    have : k = 0 := by omega
    subst this
    simp [nChooseKMul]
  | succ i ih =>
    intro r hk
    unfold nChooseKMul
    by_cases h : i + 1 > k
    · rw [if_pos h, ih _ (by omega), Nat.factorial_succ]
      push_cast
      ring
    · rw [if_neg h]
      have : k = i + 1 := by omega
      rw [this]

theorem nChooseKDiv_spec : ∀ (i : Nat) (r : ℚ),
    nChooseKDiv i r * (i.factorial : ℚ) = r := by
  intro i
  induction i with
  | zero =>
    intro r
    simp [nChooseKDiv]
  | succ i ih =>
    intro r
    unfold nChooseKDiv
    by_cases h : i + 1 > 1
    · rw [if_pos h, Nat.factorial_succ]
      push_cast
      have := ih (r / ((i : ℚ) + 1))
      push_cast at this
      have hne : ((i : ℚ) + 1) ≠ 0 := by positivity
      calc nChooseKDiv i (r / ((i : ℚ) + 1)) * (((i : ℚ) + 1) * (i.factorial : ℚ))
          = (nChooseKDiv i (r / ((i : ℚ) + 1)) * (i.factorial : ℚ)) * ((i : ℚ) + 1) := by ring
        _ = r / ((i : ℚ) + 1) * ((i : ℚ) + 1) := by rw [this]
        _ = r := by field_simp
    · rw [if_neg h]
      have : i = 0 := by omega
      subst this
      simp

theorem sizeSub_of_le (a b : Nat) (hb : b ≤ a) (ha : a < sizeModulus) : sizeSub a b = a - b := by
  unfold sizeSub
  unfold sizeModulus at ha ⊢
  have h1 : b % 2 ^ 64 = b := Nat.mod_eq_of_lt (by omega)
  rw [h1]
  have h2 : a + 2 ^ 64 - b = (a - b) + 2 ^ 64 := by omega
  rw [h2, Nat.add_mod_right]
  exact Nat.mod_eq_of_lt (by omega)

/-- `nChooseK(n, k)` is the binomial coefficient when `k ≤ n` and `n` is a `size_t`. -/
theorem nChooseK_eq_choose (n k : Nat) (hk : k ≤ n) (hn : n < sizeModulus) :
    nChooseK n k = (Nat.choose n k : ℚ) := by
  unfold nChooseK
  rw [sizeSub_of_le n k hk hn]
  have key : ∀ k1 : Nat, k1 ≤ n → Nat.choose n k1 = Nat.choose n k →
      nChooseKDiv (sizeSub n k1) (nChooseKMul k1 n 1) = (Nat.choose n k : ℚ) := by
    intro k1 hk1 hch
    rw [sizeSub_of_le n k1 hk1 hn]
    have h1 := nChooseKDiv_spec (n - k1) (nChooseKMul k1 n 1)
    have h2 := nChooseKMul_spec k1 n 1 hk1
    have h3 : (Nat.choose n k1 : ℚ) * (k1.factorial : ℚ) * ((n - k1).factorial : ℚ) =
        (n.factorial : ℚ) := by
      exact_mod_cast Nat.choose_mul_factorial_mul_factorial hk1
    have hf1 : ((n - k1).factorial : ℚ) ≠ 0 := by positivity
    have hf2 : (k1.factorial : ℚ) ≠ 0 := by positivity
    rw [← hch]
    have h4 : nChooseKDiv (n - k1) (nChooseKMul k1 n 1) * ((n - k1).factorial : ℚ) *
        (k1.factorial : ℚ) = (Nat.choose n k1 : ℚ) * ((n - k1).factorial : ℚ) *
        (k1.factorial : ℚ) := by
      rw [h1, h2]
      linarith
    have h5 := mul_right_cancel₀ hf2 h4
    exact mul_right_cancel₀ hf1 h5
  by_cases h : n - k > k
  · simp only [h, if_true]
    exact key (n - k) (by omega) (Nat.choose_symm hk)
  · simp only [h, if_false]
    exact key k hk rfl

theorem truncToIndex_natCast (m : Nat) : truncToIndex (m : ℚ) = (m : Int) := by
  unfold truncToIndex
  rw [if_pos (by positivity)]
  exact Int.floor_natCast m

end Coverage

section Coverage

/-- The layout that `groupSearch` returns is the layout saved on entry or a trial whose count
of combinations is within `maxSubsets`. -/
theorem groupSearch_within (C K : Nat) (M : Int) :
    ∀ (gNext : Nat) (saved layout : GroupLayout),
      (saved.columnsPerFullGroup = K ∨
        (trialLayout C K saved.columnsPerFullGroup).2 ≤ M) →
      groupSearch C K M gNext saved = .ok layout →
      layout.columnsPerFullGroup = K ∨ (trialLayout C K layout.columnsPerFullGroup).2 ≤ M := by
  intro gNext
  induction gNext with
  | zero =>
    intro saved layout _ h
    simp [groupSearch] at h
  | succ g ih =>
    intro saved layout hsaved h
    rw [groupSearch] at h
    by_cases hg0 : g = 0
    · simp [hg0] at h
    · simp only [hg0, if_false] at h
      have hsaved1 : (if decide ((trialLayout C K g).2 ≤ M) = true then (trialLayout C K g).1
          else saved).columnsPerFullGroup = K ∨
          (trialLayout C K (if decide ((trialLayout C K g).2 ≤ M) = true then
            (trialLayout C K g).1 else saved).columnsPerFullGroup).2 ≤ M := by
        by_cases hle : (trialLayout C K g).2 ≤ M
        · simp only [hle, decide_True, if_true]
          exact Or.inr hle
        · simp only [hle, decide_False, Bool.false_eq_true, if_false]
          exact hsaved
      generalize (if decide ((trialLayout C K g).2 ≤ M) = true then (trialLayout C K g).1
        else saved) = saved1 at hsaved1 h
      by_cases hstop : saved1.columnsPerFullGroup = 1 ∨ (trialLayout C K g).2 ≥ M
      · rw [if_pos hstop] at h
        simp only [Except.ok.injEq] at h
        rw [← h]
        exact hsaved1
      · rw [if_neg hstop] at h
        exact ih saved1 layout hsaved1 h

theorem chooseLayout_within (C K : Nat) (M : Int) (layout : GroupLayout)
    (h : chooseLayout C K M = .ok layout) :
    layout.columnsPerFullGroup = K ∨ (trialLayout C K layout.columnsPerFullGroup).2 ≤ M := by
  unfold chooseLayout at h
  by_cases hK0 : K = 0
  · simp [hK0] at h
  · simp only [hK0, if_false] at h
    by_cases hK1 : K ≤ 1
    · rw [if_pos hK1] at h
      simp only [Except.ok.injEq] at h
      rw [← h]
      exact Or.inl rfl
    · rw [if_neg hK1] at h
      exact groupSearch_within C K M K _ layout (Or.inl rfl) h

theorem mem_flatten_take_succ {subsets : List (List Nat)} {i : Nat} {s : List Nat} {x : Nat}
    (hs : subsets[i]? = some s) :
    x ∈ (subsets.take (i + 1)).flatten ↔ x ∈ (subsets.take i).flatten ∨ x ∈ s := by
  have hlt : i < subsets.length := by
    by_contra hge
    rw [List.getElem?_eq_none (by omega)] at hs
    simp at hs
  rw [List.take_succ, hs]
  simp

theorem mem_flatten_take_mono {subsets : List (List Nat)} {i j : Nat} {x : Nat} (hij : i ≤ j)
    (h : x ∈ (subsets.take i).flatten) : x ∈ (subsets.take j).flatten := by
  rw [List.mem_flatten] at h ⊢
  obtain ⟨s, hs, hx⟩ := h
  exact ⟨s, (List.take_sublist_take_left subsets hij).subset hs, hx⟩

theorem usageBefore_pos_iff (earlier : List (List Nat)) (x : Nat) :
    0 < usageBefore earlier x ↔ x ∈ earlier.flatten := by
  unfold usageBefore
  rw [List.length_pos_iff_exists_mem, List.mem_flatten]
  constructor
  · rintro ⟨s, hs⟩
    rw [List.mem_filter] at hs
    exact ⟨s, hs.1, by simpa using hs.2⟩
  · rintro ⟨s, hs, hx⟩
    exact ⟨s, List.mem_filter.2 ⟨hs, by simpa using hx⟩⟩

/-- The selection of the least used columns takes every column `x` of the combination that
is preceded, among the columns of the combination not used so far, by fewer than `K`
columns. -/
theorem leastUsed_takes (earlier : List (List Nat)) (cols sorted : List Nat) (K x : Nat)
    (hperm : sorted.Perm cols) (hpw : sorted.Pairwise (usageLess earlier))
    (hnd : cols.Nodup) (hx : x ∈ cols)
    (hfew : (cols.filter (fun y => decide (y ≤ x) && decide (y ∉ earlier.flatten))).length ≤ K) :
    x ∈ earlier.flatten ∨ x ∈ sorted.take K := by
  by_contra hcon
  rw [not_or] at hcon
  obtain ⟨hfresh, hnot⟩ := hcon
  have hux : usageBefore earlier x = 0 := by
    by_contra hne
    exact hfresh ((usageBefore_pos_iff earlier x).1 (by omega))
  have hsx : x ∈ sorted := hperm.mem_iff.2 hx
  have hsplit : sorted = sorted.take K ++ sorted.drop K := (List.take_append_drop K sorted).symm
  have hdrop : x ∈ sorted.drop K := by
    rw [hsplit, List.mem_append] at hsx
    rcases hsx with h | h
    · exact absurd h hnot
    · exact h
  have hpw2 : (sorted.take K ++ sorted.drop K).Pairwise (usageLess earlier) := by
    rw [← hsplit]
    exact hpw
  obtain ⟨-, -, hcross⟩ := List.pairwise_append.1 hpw2
  have hlenK : (sorted.take K).length = K := by
    rw [List.length_take]
    have hlt : K < sorted.length := by
      by_contra hge
      rw [List.drop_eq_nil_of_le (by omega)] at hdrop
      simp at hdrop
    omega
  have hsnd : sorted.Nodup := hperm.nodup_iff.2 hnd
  have hnd1 : (x :: sorted.take K).Nodup :=
    List.nodup_cons.2 ⟨hnot, hsnd.sublist (List.take_sublist K sorted)⟩
  have hsub : (x :: sorted.take K) ⊆
      cols.filter (fun y => decide (y ≤ x) && decide (y ∉ earlier.flatten)) := by
    intro y hy
    rw [List.mem_filter]
    rcases List.mem_cons.1 hy with hy | hy
    · subst hy
      exact ⟨hx, by simp [hfresh]⟩
    · have hless := hcross y hy x hdrop
      unfold usageLess at hless
      have huy : usageBefore earlier y = 0 ∧ y < x := by
        rcases hless with h | h
        · omega
        · exact ⟨by omega, h.2⟩
      have hyfresh : y ∉ earlier.flatten := by
        intro hmem
        have := (usageBefore_pos_iff earlier y).2 hmem
        omega
      refine ⟨hperm.mem_iff.1 ((List.take_subset K sorted) hy), ?_⟩
      simp [hyfresh, le_of_lt huy.2]
  have hle := (List.subperm_of_subset hnd1 hsub).length_le
  simp only [List.length_cons, hlenK] at hle
  omega

end Coverage

section Coverage

theorem allCombinations_head : ∀ (n k : Nat), k ≤ n + 1 →
    ∃ tl, allCombinations (n + 1) k = List.range k :: tl := by
  intro n
  induction n with
  | zero =>
    intro k hk
    unfold allCombinations
    by_cases hk0 : k = 0
    · subst hk0
      exact ⟨[], rfl⟩
    · have hk1 : k = 1 := by omega
      subst hk1
      exact ⟨[], rfl⟩
  | succ n ih =>
    intro k hk
    unfold allCombinations
    by_cases hk0 : k = 0
    · subst hk0
      exact ⟨[], rfl⟩
    · rw [if_neg hk0]
      by_cases hkn : n + 1 + 1 = k
      · rw [if_pos hkn]
        exact ⟨[], rfl⟩
      · rw [if_neg hkn]
        obtain ⟨tl, htl⟩ := ih k (by omega)
        rw [htl]
        exact ⟨_, rfl⟩

theorem allCombinations_length_mem : ∀ (n k : Nat) (c : List Nat),
    c ∈ allCombinations n k → c.length = k := by
  intro n
  induction n with
  | zero =>
    intro k c hc
    simp [allCombinations] at hc
  | succ n ih =>
    intro k c hc
    unfold allCombinations at hc
    by_cases hk0 : k = 0
    · rw [if_pos hk0] at hc
      simp at hc
      rw [hc, hk0]
      rfl
    · rw [if_neg hk0] at hc
      by_cases hkn : n + 1 = k
      · rw [if_pos hkn] at hc
        simp at hc
        rw [hc, List.length_range]
      · rw [if_neg hkn, List.mem_append, List.mem_map] at hc
        rcases hc with hc | ⟨c1, hc1, rfl⟩
        · exact ih k c hc
        · have := ih (k - 1) c1 hc1
          rw [List.length_append, this]
          simp
          omega

theorem allCombinations_covers : ∀ (n k : Nat), 1 ≤ k → k ≤ n → ∀ x, x < n →
    ∃ c ∈ allCombinations n k, x ∈ c := by
  intro n
  induction n with
  | zero =>
    intro k _ _ x hx
    omega
  | succ n ih =>
    intro k hk1 hkn x hx
    unfold allCombinations
    rw [if_neg (by omega)]
    by_cases hk : n + 1 = k
    · rw [if_pos hk]
      exact ⟨List.range k, List.mem_singleton_self _, List.mem_range.2 (by omega)⟩
    · rw [if_neg hk]
      by_cases hxn : x < n
      · obtain ⟨c, hc, hxc⟩ := ih k hk1 (by omega) x hxn
        exact ⟨c, List.mem_append_left _ hc, hxc⟩
      · have hxe : x = n := by omega
        obtain ⟨m, rfl⟩ : ∃ m, n = m + 1 := ⟨n - 1, by omega⟩
        obtain ⟨tl, htl⟩ := allCombinations_head m (k - 1) (by omega)
        refine ⟨List.range (k - 1) ++ [m + 1], List.mem_append_right _ ?_, ?_⟩
        · rw [List.mem_map]
          exact ⟨List.range (k - 1), by rw [htl]; exact List.mem_cons_self _ _, rfl⟩
        · rw [hxe]
          simp

theorem allCombinations_succ (n k : Nat) (hk : 1 ≤ k) (hkn : k ≤ n) :
    allCombinations (n + 1) k =
      allCombinations n k ++ (allCombinations n (k - 1)).map (fun c => c ++ [n]) := by
  rw [allCombinations]
  rw [if_neg (by omega), if_neg (by omega)]

theorem getElem?_of_mem_append {α : Type} {l rest : List α} {c : α} (hc : c ∈ l) :
    ∃ i, i < l.length ∧ (l ++ rest)[i]? = some c := by
  obtain ⟨i, hi, hget⟩ := List.getElem_of_mem hc
  refine ⟨i, hi, ?_⟩
  rw [List.getElem?_append_left hi, List.getElem?_eq_getElem hi, hget]

theorem length_combinationColumns_le (C g : Nat) (c : List Nat) :
    (combinationColumns C g c).length ≤ c.length * g := by
  unfold combinationColumns
  induction c with
  | nil => simp
  | cons gi rest ih =>
    rw [List.flatMap_cons, List.length_append, List.length_cons, Nat.succ_mul]
    have : (groupColumns C g gi).length ≤ g := by
      rw [groupColumns_eq, List.length_range']
      exact Nat.min_le_left _ _
    omega

/-- One step of the run: a column of combination `i` is in one of the first `i + 1` subsets
when the columns of the combination that are not above it and are in none of the first `i`
subsets all lie in a list of at most `K` entries. -/
theorem covered_step {C K g : Nat} {combos subsets : List (List Nat)}
    (hrun : LeastUsedRun C K g combos subsets) {i : Nat} {c : List Nat} {x : Nat}
    (hc : combos[i]? = some c) (hx : x ∈ combinationColumns C g c) (B : List Nat)
    (hB : ∀ y ∈ combinationColumns C g c, y ≤ x → y ∉ (subsets.take i).flatten → y ∈ B)
    (hlen : B.length ≤ K) : x ∈ (subsets.take (i + 1)).flatten := by
  obtain ⟨hl, hgood, hsorted⟩ := hrun
  have hi : i < combos.length := by
    by_contra hge
    rw [List.getElem?_eq_none (by omega)] at hc
    simp at hc
  have hs : subsets[i]? = some (subsets.get ⟨i, by omega⟩) :=
    List.getElem?_eq_getElem (by omega)
  obtain ⟨sorted, hperm, hpw, hsort⟩ := hsorted i c _ hc hs
  have hcmem : c ∈ combos := List.mem_iff_getElem?.2 ⟨i, hc⟩
  have hnd := (hgood c hcmem).1
  have hfew : ((combinationColumns C g c).filter
      (fun y => decide (y ≤ x) && decide (y ∉ (subsets.take i).flatten))).length ≤ K := by
    refine le_trans (List.subperm_of_subset (hnd.filter _) ?_).length_le hlen
    intro y hy
    rw [List.mem_filter] at hy
    simp only [Bool.and_eq_true, decide_eq_true_eq] at hy
    exact hB y hy.1 hy.2.1 hy.2.2
  rw [mem_flatten_take_succ hs, hsort]
  exact leastUsed_takes (subsets.take i) _ sorted K x hperm hpw hnd hx hfew

/-- A group of a combination that is not its last one is covered when the groups before the
last one hold fewer than `K` columns. -/
theorem covered_inner {C K g : Nat} {combos subsets : List (List Nat)}
    (hrun : LeastUsedRun C K g combos subsets) {i : Nat} {c1 : List Nat} {t gi x : Nat}
    (hc : combos[i]? = some (c1 ++ [t])) (hfew : c1.length * g < K) (hgi : gi ∈ c1)
    (hlt : gi < t) (hx : x ∈ groupColumns C g gi) : x ∈ (subsets.take (i + 1)).flatten := by
  refine covered_step hrun hc ?_ (combinationColumns C g c1) ?_
    (le_trans (length_combinationColumns_le C g c1) (le_of_lt hfew))
  · rw [mem_combinationColumns]
    exact ⟨gi, List.mem_append_left _ hgi, hx⟩
  · intro y hy hyx _
    rw [mem_combinationColumns] at hy ⊢
    obtain ⟨gj, hgj, hyj⟩ := hy
    rw [List.mem_append, List.mem_singleton] at hgj
    rcases hgj with hgj | hgj
    · exact ⟨gj, hgj, hyj⟩
    · exfalso
      subst hgj
      rw [mem_groupColumns] at hyj hx
      have h1 : (gi + 1) * g ≤ gj * g := Nat.mul_le_mul_right g hlt
      rw [Nat.succ_mul] at h1
      omega

/-- The last group of a combination is covered when the columns of its other groups are in
earlier subsets. -/
theorem covered_last {C K g : Nat} {combos subsets : List (List Nat)}
    (hrun : LeastUsedRun C K g combos subsets) {i : Nat} {c1 : List Nat} {t x : Nat}
    (hc : combos[i]? = some (c1 ++ [t])) (hgK : g ≤ K)
    (hbefore : ∀ y ∈ combinationColumns C g c1, y ∈ (subsets.take i).flatten)
    (hx : x ∈ groupColumns C g t) : x ∈ (subsets.take (i + 1)).flatten := by
  refine covered_step hrun hc ?_ (groupColumns C g t) ?_ ?_
  · rw [mem_combinationColumns]
    exact ⟨t, List.mem_append_right _ (List.mem_singleton_self t), hx⟩
  · intro y hy _ hfresh
    rw [mem_combinationColumns] at hy
    obtain ⟨gj, hgj, hyj⟩ := hy
    rw [List.mem_append, List.mem_singleton] at hgj
    rcases hgj with hgj | hgj
    · exact absurd (hbefore y (mem_combinationColumns.2 ⟨gj, hgj, hyj⟩)) hfresh
    · subst hgj
      exact hyj
  · rw [groupColumns_eq, List.length_range']
    exact le_trans (Nat.min_le_left _ _) hgK

/-- The subsets made from all combinations of `k` out of `n` groups cover the `n` groups, when
`k = 1` or `k < n`. -/
theorem covered_groups {C K g : Nat} {combos subsets rest : List (List Nat)} {n k : Nat}
    (hrun : LeastUsedRun C K g combos subsets)
    (hcombos : combos = allCombinations n k ++ rest) (hk1 : 1 ≤ k) (hkn : k = 1 ∨ k < n)
    (hfew : (k - 1) * g < K) (hgK : g ≤ K) :
    ∀ j, j < n → ∀ x ∈ groupColumns C g j,
      x ∈ (subsets.take (allCombinations n k).length).flatten := by
  intro j hj x hx
  by_cases hone : k = 1
  · subst hone
    obtain ⟨c, hc, hjc⟩ := allCombinations_covers n 1 (le_refl _) (by omega) j hj
    have hlen := allCombinations_length_mem n 1 c hc
    have hcj : c = [] ++ [j] := by
      match c, hlen, hjc with
      | [y], _, hjc =>
        rw [List.mem_singleton] at hjc
        rw [hjc]
        rfl
    obtain ⟨i, hi, hget⟩ := @getElem?_of_mem_append _ _ rest _ hc
    rw [← hcombos, hcj] at hget
    refine mem_flatten_take_mono (show i + 1 ≤ _ from hi) (covered_last hrun hget hgK ?_ hx)
    intro y hy
    simp [combinationColumns] at hy
  · have hkn2 : k < n := by
      rcases hkn with h | h
      · exact absurd h hone
      · exact h
    obtain ⟨m, rfl⟩ : ∃ m, n = m + 1 := ⟨n - 1, by omega⟩
    obtain ⟨m1, rfl⟩ : ∃ m1, m = m1 + 1 := ⟨m - 1, by omega⟩
    have hsucc := allCombinations_succ (m1 + 1) k hk1 (by omega)
    obtain ⟨tl1, htl1⟩ := allCombinations_head m1 k (by omega)
    obtain ⟨tl2, htl2⟩ := allCombinations_head m1 (k - 1) (by omega)
    have hrange : List.range k = List.range (k - 1) ++ [k - 1] := by
      obtain ⟨k1, rfl⟩ : ∃ k1, k = k1 + 1 := ⟨k - 1, by omega⟩
      rw [List.range_succ]
      rfl
    have hlenr : (List.range (k - 1)).length * g < K := by
      rw [List.length_range]
      exact hfew
    -- the first combination covers the groups 0 .. k-2
    have hfirst : ∀ y ∈ combinationColumns C g (List.range (k - 1)),
        y ∈ (subsets.take 1).flatten := by
      intro y hy
      rw [mem_combinationColumns] at hy
      obtain ⟨gj, hgj, hyj⟩ := hy
      have h0 : combos[0]? = some (List.range (k - 1) ++ [k - 1]) := by
        rw [hcombos, hsucc, htl1, ← hrange]
        simp
      exact covered_inner hrun h0 hlenr hgj (List.mem_range.1 hgj) hyj
    by_cases hjm : j < m1 + 1
    · obtain ⟨c1, hc1, hjc1⟩ := allCombinations_covers (m1 + 1) (k - 1) (by omega) (by omega) j hjm
      have hlen1 := allCombinations_length_mem (m1 + 1) (k - 1) c1 hc1
      have hmem : c1 ++ [m1 + 1] ∈ allCombinations (m1 + 1 + 1) k := by
        rw [hsucc]
        exact List.mem_append_right _ (List.mem_map.2 ⟨c1, hc1, rfl⟩)
      obtain ⟨i, hi, hget⟩ := @getElem?_of_mem_append _ _ rest _ hmem
      rw [← hcombos] at hget
      refine mem_flatten_take_mono (show i + 1 ≤ _ from hi)
        (covered_inner hrun hget (by rw [hlen1]; exact hfew) hjc1 hjm hx)
    · have hje : j = m1 + 1 := by omega
      subst hje
      have hi1 : (allCombinations (m1 + 1) k).length < (allCombinations (m1 + 1 + 1) k).length := by
        rw [hsucc, htl2]
        simp
      have hget : combos[(allCombinations (m1 + 1) k).length]? =
          some (List.range (k - 1) ++ [m1 + 1]) := by
        rw [hcombos, hsucc, htl2, List.append_assoc, List.getElem?_append_right (le_refl _)]
        simp
      refine mem_flatten_take_mono (show _ + 1 ≤ _ from hi1) (covered_last hrun hget hgK ?_ hx)
      intro y hy
      refine mem_flatten_take_mono ?_ (hfirst y hy)
      rw [htl1]
      simp

end Coverage

section Coverage

theorem mem_flatten_of_take {subsets : List (List Nat)} {i : Nat} {x : Nat}
    (h : x ∈ (subsets.take i).flatten) : x ∈ subsets.flatten := by
  rw [List.mem_flatten] at h ⊢
  obtain ⟨s, hs, hx⟩ := h
  exact ⟨s, List.take_subset i subsets hs, hx⟩

theorem mem_groupColumns_div {C g x : Nat} (hg : 1 ≤ g) (hx : x < C) :
    x ∈ groupColumns C g (x / g) := by
  rw [mem_groupColumns]
  have h1 := Nat.div_add_mod x g
  have h2 := Nat.mod_lt x (show g > 0 by omega)
  have h3 : x / g * g = g * (x / g) := Nat.mul_comm _ _
  omega

theorem div_lt_of_lt_mul {x n g : Nat} (h : x < n * g) : x / g < n :=
  Nat.div_lt_of_lt_mul (by rw [Nat.mul_comm]; exact h)

theorem allCombinations_self (k : Nat) (hk : 1 ≤ k) : allCombinations k k = [List.range k] := by
  obtain ⟨m, rfl⟩ : ∃ m, k = m + 1 := ⟨k - 1, by omega⟩
  rw [allCombinations]
  simp

/-- Without the special case: the subsets made from all combinations of `k` out of the `n`
groups cover all columns, when there are at least two of them. -/
theorem covered_regular {C K g : Nat} {combos subsets : List (List Nat)} {n k L : Nat}
    (hrun : LeastUsedRun C K g combos subsets)
    (hcombos : combos = (allCombinations n k).take L)
    (hlenA : (allCombinations n k).length ≤ L) (hk1 : 1 ≤ k) (hkn : k ≤ n)
    (hfew : (k - 1) * g < K) (hgK : g ≤ K) (hg1 : 1 ≤ g) (hn : C ≤ n * g)
    (htwo : 2 ≤ subsets.length) : ∀ x, x < C → x ∈ subsets.flatten := by
  intro x hx
  rw [List.take_of_length_le hlenA] at hcombos
  by_cases hcase : k = 1 ∨ k < n
  · have hcombos1 : combos = allCombinations n k ++ [] := by rw [List.append_nil]; exact hcombos
    exact mem_flatten_of_take (covered_groups hrun hcombos1 hk1 hcase hfew hgK (x / g)
      (div_lt_of_lt_mul (by omega)) x (mem_groupColumns_div hg1 hx))
  · exfalso
    have hnk : n = k := by omega
    rw [hnk, allCombinations_self k hk1] at hcombos
    have := hrun.1
    rw [hcombos] at this
    simp at this
    omega

/-- With the special case: the subsets made from the combinations of `k` out of the full
groups, followed by those of the same combinations with the short group added, cover all
columns. -/
theorem covered_special {C K g : Nat} {combos subsets : List (List Nat)} {nF k L sh : Nat}
    (hrun : LeastUsedRun C K g combos subsets)
    (hcombos : combos = (allCombinations nF k).take L ++
      ((allCombinations nF k).take (L - min L (allCombinations nF k).length)).map
        (fun c => c ++ [nF]))
    (hlenA : (allCombinations nF k).length + 1 ≤ L) (hk1 : 1 ≤ k) (hkn : k ≤ nF)
    (hfew : (k - 1) * g < K) (hgK : g ≤ K) (hg1 : 1 ≤ g) (hC : C = nF * g + sh) (hsh : sh < g)
    (hspecial : (k - 1) * g + sh < K) (hKle : K ≤ k * g) :
    ∀ x, x < C → x ∈ subsets.flatten := by
  intro x hx
  obtain ⟨m, hm⟩ : ∃ m, nF = m + 1 := ⟨nF - 1, by omega⟩
  obtain ⟨tl, htl⟩ := allCombinations_head m k (by omega)
  rw [← hm] at htl
  obtain ⟨d, hd⟩ : ∃ d, L - min L (allCombinations nF k).length = d + 1 :=
    ⟨L - min L (allCombinations nF k).length - 1, by
      rw [Nat.min_def]
      split_ifs <;> omega⟩
  rw [List.take_of_length_le (by omega), hd] at hcombos
  have hsecond : List.map (fun c => c ++ [nF]) (List.take (d + 1) (allCombinations nF k)) =
      (List.range k ++ [nF]) :: List.map (fun c => c ++ [nF]) (List.take d tl) := by
    rw [htl]
    rfl
  rw [hsecond] at hcombos
  have hget : combos[(allCombinations nF k).length]? = some (List.range k ++ [nF]) := by
    rw [hcombos, List.getElem?_append_right (le_refl _)]
    simp
  have hcomboslen : (allCombinations nF k).length < subsets.length := by
    rw [hrun.1, hcombos]
    simp
  have hgroup : x ∈ groupColumns C g (x / g) := mem_groupColumns_div hg1 hx
  have hxg : x / g ≤ nF := by
    have : x / g < nF + 1 := div_lt_of_lt_mul (by rw [Nat.succ_mul]; omega)
    omega
  by_cases hcase : k = 1 ∨ k < nF
  · have hfull := covered_groups hrun hcombos hk1 hcase hfew hgK
    by_cases hj : x / g < nF
    · exact mem_flatten_of_take (hfull (x / g) hj x hgroup)
    · have hje : x / g = nF := by omega
      rw [hje] at hgroup
      refine mem_flatten_of_take (covered_last hrun hget hgK ?_ hgroup)
      intro y hy
      rw [mem_combinationColumns] at hy
      obtain ⟨gj, hgj, hyj⟩ := hy
      exact hfull gj (by have := List.mem_range.1 hgj; omega) y hyj
  · have hnk : nF = k := by omega
    have hk2 : 2 ≤ k := by omega
    rw [hnk] at hcombos hget hC
    rw [allCombinations_self k hk1] at hcombos hget
    have h0 : combos[0]? = some (List.range k) := by
      rw [hcombos]
      rfl
    have hsub : (k - 1) * g = k * g - g := by
      rw [Nat.sub_mul, Nat.one_mul]
    have hkg : g ≤ k * g := by
      have := Nat.mul_le_mul_right g hk1
      omega
    have hfirst : ∀ y, y < K → y ∈ (subsets.take 1).flatten := by
      intro y hy
      refine covered_step hrun h0 ?_ (List.range (y + 1)) ?_ (by rw [List.length_range]; omega)
      · rw [mem_combinationColumns]
        exact ⟨y / g, List.mem_range.2 (div_lt_of_lt_mul (by omega)),
          mem_groupColumns_div hg1 (by omega)⟩
      · intro z _ hz _
        exact List.mem_range.2 (by omega)
    by_cases hxK : x < K
    · exact mem_flatten_of_take (hfirst x hxK)
    · refine mem_flatten_of_take (covered_step hrun hget ?_ (List.range' K (C - K)) ?_
        (by rw [List.length_range']; omega))
      · rw [mem_combinationColumns]
        refine ⟨x / g, ?_, hgroup⟩
        rw [List.mem_append, List.mem_range, List.mem_singleton]
        omega
      · intro z hz _ hfresh
        have hzC := lt_of_mem_combinationColumns hz
        rw [List.mem_range'_1]
        refine ⟨?_, by omega⟩
        by_contra hlt
        exact hfresh (hfirst z (by omega))

end Coverage

section Coverage

theorem collectCombinations_eq (layout : GroupLayout) (L : Nat) :
    collectCombinations layout (L : Int) =
      if layout.specialCaseShortGroup = true then
        (allCombinations layout.nFullGroups layout.kChoose).take L ++
          ((allCombinations layout.nFullGroups layout.kChoose).take
            (L - min L (allCombinations layout.nFullGroups layout.kChoose).length)).map
            (fun c => c ++ [layout.nFullGroups])
      else if layout.columnsPerShortGroup ≠ 0 then
        (allCombinations (layout.nFullGroups + 1) layout.kChoose).take L
      else (allCombinations layout.nFullGroups layout.kChoose).take L := by
  have hno : ¬ (NO_INDEX ≠ NO_INDEX) := fun h => h rfl
  have hn : ((layout.nFullGroups : Nat) : Int) ≠ NO_INDEX := by
    unfold NO_INDEX
    omega
  unfold collectCombinations
  simp only [iterateCombinations_take, if_neg hno, if_pos hn, Nat.sub_zero, Nat.zero_add,
    Int.toNat_ofNat]

/-- The count of combinations of a valid layout, as computed by `nChooseK`, is the number of
combinations that the collection would generate without a limit. -/
theorem validLayout_count (C K : Nat) (layout : GroupLayout) (hK : K ≤ C)
    (hC : C < sizeModulus) (hv : ValidLayout C K layout) :
    (trialLayout C K layout.columnsPerFullGroup).2 =
      if layout.specialCaseShortGroup = true then
        ((2 * (allCombinations layout.nFullGroups layout.kChoose).length : Nat) : Int)
      else if layout.columnsPerShortGroup ≠ 0 then
        (((allCombinations (layout.nFullGroups + 1) layout.kChoose).length : Nat) : Int)
      else (((allCombinations layout.nFullGroups layout.kChoose).length : Nat) : Int) := by
  obtain ⟨e1, e2, e3, e4⟩ := validLayout_enough_groups C K layout hK hv
  obtain ⟨hg1, hgK, hl⟩ := hv
  generalize hg : layout.columnsPerFullGroup = g at hg1 hgK hl
  have hcount : (trialLayout C K g).2 =
      if (trialLayout C K g).1.specialCaseShortGroup = true then
        truncToIndex (2 * nChooseK (trialLayout C K g).1.nFullGroups (trialLayout C K g).1.kChoose)
      else if (trialLayout C K g).1.columnsPerShortGroup ≠ 0 then
        truncToIndex (nChooseK ((trialLayout C K g).1.nFullGroups + 1)
          (trialLayout C K g).1.kChoose)
      else truncToIndex (nChooseK (trialLayout C K g).1.nFullGroups
        (trialLayout C K g).1.kChoose) := rfl
  rw [← hl] at hcount
  rw [hcount]
  have hnF : layout.nFullGroups = C / g := by rw [hl]; rfl
  have hsh : layout.columnsPerShortGroup = C - C / g * g := by rw [hl]; rfl
  have hdm := Nat.div_add_mod C g
  have hmod := Nat.mod_lt C (show g > 0 by omega)
  have hcomm : C / g * g = g * (C / g) := Nat.mul_comm _ _
  have hle : C / g ≤ C := Nat.div_le_self C g
  have hge : C / g ≤ C / g * g := Nat.le_mul_of_pos_right _ (by omega)
  by_cases hs : layout.specialCaseShortGroup = true
  · rw [if_pos hs, if_pos hs, nChooseK_eq_choose _ _ (e1 hs) (by omega),
      length_allCombinations _ _ e4]
    have : (2 * ((Nat.choose layout.nFullGroups layout.kChoose : Nat) : ℚ)) =
        ((2 * Nat.choose layout.nFullGroups layout.kChoose : Nat) : ℚ) := by push_cast; ring
    rw [this, truncToIndex_natCast]
  · rw [if_neg hs, if_neg hs]
    by_cases h0 : layout.columnsPerShortGroup ≠ 0
    · rw [if_pos h0, if_pos h0, nChooseK_eq_choose _ _ (e2 h0) (by omega),
        length_allCombinations _ _ (by omega), truncToIndex_natCast]
    · rw [if_neg h0, if_neg h0, nChooseK_eq_choose _ _ (e3 (by omega)) (by omega),
        length_allCombinations _ _ e4, truncToIndex_natCast]

/-- Coverage, given at least two subsets: for `1 ≤ K < C`, `C` a `size_t` value, and
`maxSubsets * K ≥ C`, every column is in a subset as soon as two subsets are returned. -/
theorem makeSelectColSubsets_covers (C K : Nat) (M : Int) (h1 : 1 ≤ K) (h2 : K < C)
    (hC : C < sizeModulus) (hM : (C : Int) ≤ M * K) (subsets : List (List Nat))
    (hok : makeSelectColSubsets C K M = .ok subsets) (htwo : 2 ≤ subsets.length) :
    ∀ x, x < C → x ∈ subsets.flatten := by
  obtain ⟨layout, subsets1, hlayout, hok1, hlen, hsorted⟩ :=
    makeSelectColSubsets_sorted C K M h1 (le_of_lt h2)
  rw [hok] at hok1
  have hsame := Except.ok.inj hok1
  subst hsame
  obtain ⟨layout1, hlayout1, hvalid⟩ := chooseLayout_valid C K M h1
  rw [hlayout] at hlayout1
  have hsame := Except.ok.inj hlayout1
  subst hsame
  have hwithin := chooseLayout_within C K M layout hlayout
  have hM1 : 1 ≤ M := by
    by_contra hcon
    have hM0 : M ≤ 0 := by omega
    have : M * (K : Int) ≤ 0 := Int.mul_nonpos_of_nonpos_of_nonneg hM0 (by omega)
    omega
  obtain ⟨L, rfl⟩ : ∃ L : Nat, M = (L : Int) := ⟨M.toNat, by omega⟩
  have hLK : C ≤ L * K := by exact_mod_cast hM
  have hrun : LeastUsedRun C K layout.columnsPerFullGroup (collectCombinations layout L)
      subsets := ⟨hlen, collectCombinations_good C K L layout hvalid, hsorted⟩
  have hcount := validLayout_count C K layout (le_of_lt h2) hC hvalid
  have hcomb := collectCombinations_eq layout L
  obtain ⟨e1, e2, e3, e4⟩ := validLayout_enough_groups C K layout (le_of_lt h2) hvalid
  obtain ⟨hg1, hgK, hl⟩ := hvalid
  rw [hcount] at hwithin
  generalize hg : layout.columnsPerFullGroup = g at hg1 hgK hl hwithin hrun
  have hnF : layout.nFullGroups = C / g := by rw [hl]; rfl
  have hsh : layout.columnsPerShortGroup = C - C / g * g := by rw [hl]; rfl
  have hkc : layout.kChoose = (K + g - 1) / g := by rw [hl]; rfl
  have hsp : layout.specialCaseShortGroup =
      (decide (C - C / g * g ≠ 0) &&
        decide (((K + g - 1) / g - 1) * g + (C - C / g * g) < K)) := by rw [hl]; rfl
  rw [← hnF] at hsh
  rw [← hnF, ← hsh, ← hkc] at hsp
  have hdm := Nat.div_add_mod C g
  have hmod := Nat.mod_lt C (show g > 0 by omega)
  have hcomm : C / g * g = g * (C / g) := Nat.mul_comm _ _
  have hdm2 := Nat.div_add_mod (K + g - 1) g
  have hmod2 := Nat.mod_lt (K + g - 1) (show g > 0 by omega)
  have hcomm2 : (K + g - 1) / g * g = g * ((K + g - 1) / g) := Nat.mul_comm _ _
  rw [← hnF] at hdm hcomm
  rw [← hkc] at hdm2 hcomm2
  generalize layout.nFullGroups = nF at *
  generalize layout.kChoose = k at *
  generalize layout.columnsPerShortGroup = sh at *
  generalize layout.specialCaseShortGroup = sp at *
  have hk1 : 1 ≤ k := by
    by_contra hcon
    have : k = 0 := by omega
    rw [this] at hcomm2 hdm2
    omega
  have hsub : (k - 1) * g = k * g - g := by rw [Nat.sub_mul, Nat.one_mul]
  have hkg : g ≤ k * g := by
    have := Nat.mul_le_mul_right g hk1
    omega
  have hfew : (k - 1) * g < K := by omega
  have hKle : K ≤ k * g := by omega
  have hkK : 2 ≤ k → g ≠ K := by
    intro hk2 hgeq
    have := Nat.mul_le_mul_right g hk2
    omega
  have hgk : k = 1 → g = K := by
    intro hk
    rw [hk] at hKle
    omega
  intro x hx
  by_cases hs : sp = true
  · rw [if_pos hs] at hwithin hcomb
    rw [hs] at hsp
    have hsp2 := hsp.symm
    simp only [Bool.and_eq_true, decide_eq_true_eq] at hsp2
    have hA : 1 ≤ (allCombinations nF k).length := by
      rw [length_allCombinations _ _ e4]
      exact Nat.choose_pos (e1 hs)
    have hlenA : (allCombinations nF k).length + 1 ≤ L := by
      by_cases hk : k = 1
      · rw [hk, length_allCombinations _ _ e4, Nat.choose_one_right]
        by_contra hcon
        have h3 := Nat.mul_le_mul_right K (show L ≤ nF by omega)
        have h4 := hgk hk
        subst h4
        omega
      · rcases hwithin with h | h
        · exact absurd h (hkK (by omega))
        · have : 2 * (allCombinations nF k).length ≤ L := by exact_mod_cast h
          omega
    exact covered_special hrun hcomb hlenA hk1 (e1 hs) hfew hgK hg1 (by omega) (by omega)
      hsp2.2 hKle x hx
  · rw [if_neg hs] at hwithin hcomb
    have hsf : sp = false := by simpa using hs
    rw [hsf] at hsp
    have hsp2 := hsp.symm
    simp only [Bool.and_eq_false_iff, decide_eq_false_iff_not] at hsp2
    by_cases h0 : sh ≠ 0
    · rw [if_pos h0] at hwithin hcomb
      have hk2 : 2 ≤ k := by
        by_contra hcon
        have hk : k = 1 := by omega
        have h4 := hgk hk
        rw [hk] at hsp2
        rcases hsp2 with h | h
        · exact h h0
        · omega
      have hlenA : (allCombinations (nF + 1) k).length ≤ L := by
        rcases hwithin with h | h
        · exact absurd h (hkK hk2)
        · exact_mod_cast h
      refine covered_regular hrun hcomb hlenA hk1 (e2 h0) hfew hgK hg1 ?_ htwo x hx
      rw [Nat.succ_mul]
      omega
    · rw [if_neg h0] at hwithin hcomb
      have hlenA : (allCombinations nF k).length ≤ L := by
        by_cases hk : k = 1
        · rw [hk, length_allCombinations _ _ e4, Nat.choose_one_right]
          by_contra hcon
          have h3 := Nat.mul_le_mul_right K (show L + 1 ≤ nF by omega)
          have h4 := hgk hk
          rw [Nat.succ_mul] at h3
          subst h4
          omega
        · rcases hwithin with h | h
          · exact absurd h (hkK (by omega))
          · exact_mod_cast h
      exact covered_regular hrun hcomb hlenA hk1 (e3 (by omega)) hfew hgK hg1 (by omega) htwo
        x hx

/-- Subsets of `K < C` columns of which there is at most one leave a column out. -/
theorem not_covered_of_single (C K : Nat) (subsets : List (List Nat)) (hKC : K < C)
    (hshape : ∀ s ∈ subsets, s.length = K) (hlen : subsets.length ≤ 1) :
    ¬ ∀ i, i < C → ∃ s ∈ subsets, i ∈ s := by
  intro hcov
  have hsub : List.range C ⊆ subsets.flatten := by
    intro i hi
    obtain ⟨s, hs, his⟩ := hcov i (List.mem_range.1 hi)
    exact List.mem_flatten.2 ⟨s, hs, his⟩
  have hle := (List.subperm_of_subset (List.nodup_range C) hsub).length_le
  rw [List.length_range] at hle
  match subsets, hshape, hlen with
  | [], _, _ => simp at hle; omega
  | [s], hshape, _ =>
    have := hshape s (List.mem_singleton_self s)
    simp at hle
    omega

end Coverage

section Learning

end Learning

section Learning

end Learning

section Learning

end Learning

section Learning

end Learning

section Learning

end Learning

section Learning

end Learning

section Learning

end Learning

section Learning

end Learning

section Learning

end Learning

section Learning

end Learning

section Learning

end Learning

section Learning

end Learning

section Learning

end Learning

section Learning

end Learning

section Learning

end Learning

section Learning

end Learning

section Learning

end Learning

section Learning

end Learning

section Learning

end Learning

section Learning

theorem selOK_of_consistent {n : Nat} {s : SelectIndexes} (h : s.Consistent)
    (hlen : s.boolVector.length = n) : SelOK n s := by
  refine ⟨hlen, fun r => ?_⟩
  have h1 : r ∈ s.indexes ↔ s.bitMap[r]? = some true := h.2.1 r
  rw [h1, List.getD_eq_getElem?_getD]
  cases s.bitMap[r]? with
  | none => simp
  | some b => cases b <;> simp

end Learning

section Learning

end Learning

section Learning

end Learning

section Learning

/-- The exclusive-or rows are a well-formed training set with the attribute columns 0 and 1,
and they cannot be split: no split of either column has an entropy below that of the four
rows. -/
theorem xor_not_learnable :
    TrainOK 4 xorValues xorValueTypes xorCategoryMaps xorImputeOptions xorSelectRows
      xorAvailableColumns 2 ⟨false, ["X", "Y"], [("X", 0), ("Y", 1)]⟩ ∧
    attributeColumns xorValues xorValueTypes xorSelectRows xorAvailableColumns = [0, 1] ∧
    impure xorValues 2 xorSelectRows.indexVector = true ∧
    ¬ Learnable rationalLibm xorValues xorValueTypes xorCategoryMaps 2
      (attributeColumns xorValues xorValueTypes xorSelectRows xorAvailableColumns)
      xorSelectRows.indexVector :=
  ⟨{ rect := by decide
     types := by decide
     maps := by decide
     options := by decide
     available := by decide
     rowsLength := by decide
     rowsMarked := by decide
     rowsInRange := by decide
     rowsNodup := by decide
     rowsCount := by decide
     rowsNonempty := by decide
     columnsInRange := by decide
     columnsNodup := by decide
     columnsCount := by decide
     targetType := by decide
     targetEntry := by decide
     targetApart := by decide
     targets := by decide
     cells := by decide
     levels := by decide
     fits := by decide },
    by decide, by decide, by decide!⟩

end Learning

/-! ## The claims -/

/-- C1 fails as stated: with columnsCount = 4, columnsPerSubset = 3 and maxSubsets = 2
(so that maxSubsets * columnsPerSubset ≥ columnsCount) the group-size search settles on two
groups of two columns, of which both must be chosen; the only subset returned is [0, 1, 2], and
column 3 is in no subset. -/
theorem makeSelectColSubsets_coverage_counterexample :
    ((1 ≤ 3 ∧ 3 ≤ 4) ∧ (4 : Int) ≤ 2 * 3) ∧
      makeSelectColSubsets 4 3 2 = Except.ok [[0, 1, 2]] ∧ (3 : Nat) ∉ [[0, 1, 2]].flatten := by
  decide!

/-- C1 as amended: for 1 ≤ K ≤ C, C a size_t value, and maxSubsets * K ≥ C,
makeSelectColSubsets returns; every index in the union of its subsets is a column index
0 .. C-1; and the union contains every column index exactly when at least two subsets are
returned or K = C. The only inputs on which a column is left out are those on which the
search settles on a single combination of groups although K < C. -/
theorem makeSelectColSubsets_coverage_iff (C K : Nat) (M : Int) (h1 : 1 ≤ K) (h2 : K ≤ C)
    (hC : C < sizeModulus) (hM : (C : Int) ≤ M * K) :
    ∃ subsets, makeSelectColSubsets C K M = .ok subsets ∧
      (∀ s ∈ subsets, ∀ x ∈ s, x < C) ∧
      ((∀ i, i < C → ∃ s ∈ subsets, i ∈ s) ↔ (2 ≤ subsets.length ∨ K = C)) := by
  obtain ⟨layout, subsets, hvalid, hlayout, hok, hall⟩ := makeSelectColSubsets_ok C K M h1 h2
  refine ⟨subsets, hok, ?_, ?_, ?_⟩
  · intro s hs x hx
    obtain ⟨c, -, -, -, hsub⟩ := forall₂_mem_right hall hs
    exact lt_of_mem_combinationColumns (hsub hx)
  · intro hcov
    by_contra hcon
    rw [not_or] at hcon
    refine not_covered_of_single C K subsets (by omega) ?_ (by omega) hcov
    intro s hs
    obtain ⟨c, -, hlen, -, -⟩ := forall₂_mem_right hall hs
    exact hlen
  · rintro (htwo | hKC) i hi
    · by_cases hKC : K = C
      · subst hKC
        match subsets, htwo, hall with
        | s :: rest, _, hall =>
          obtain ⟨c, -, hlen, hnd, hsub⟩ :=
            forall₂_mem_right hall (List.mem_cons_self s rest)
          exact ⟨s, List.mem_cons_self s rest, mem_of_nodup_of_length K s hlen hnd
            (fun x hx => lt_of_mem_combinationColumns (hsub hx)) i hi⟩
      · have := makeSelectColSubsets_covers C K M h1 (by omega) hC hM subsets hok htwo i hi
        rw [List.mem_flatten] at this
        exact this
    · -- one subset already holds all C columns
      subst hKC
      have hM1 : 1 ≤ M := by
        by_contra hcon
        have hM0 : M ≤ 0 := by omega
        have : M * (K : Int) ≤ 0 := Int.mul_nonpos_of_nonpos_of_nonneg hM0 (by omega)
        omega
      have hne := collectCombinations_nonempty K K M layout h2 hvalid hM1
      obtain ⟨c, hc⟩ := List.exists_mem_of_ne_nil _ hne
      obtain ⟨s, hs, hlen, hnd, hsub⟩ := forall₂_mem_left hall hc
      exact ⟨s, hs, mem_of_nodup_of_length K s hlen hnd
        (fun x hx => lt_of_mem_combinationColumns (hsub hx)) i hi⟩

/-- Witness of the amended C1 on `makeSelectColSubsets(8, 6, 3, subsets)`, which returns the
two subsets [0, 1, 2, 3, 4, 5] and [6, 7, 0, 1, 2, 3]. -/
theorem makeSelectColSubsets_coverage_iff_witness :
    (1 ≤ 6 ∧ 6 ≤ 8 ∧ 8 < sizeModulus ∧ ((8 : Nat) : Int) ≤ 3 * (6 : Nat)) ∧
      makeSelectColSubsets 8 6 3 = .ok [[0, 1, 2, 3, 4, 5], [6, 7, 0, 1, 2, 3]] ∧
      ∃ subsets, makeSelectColSubsets 8 6 3 = .ok subsets ∧
        (∀ s ∈ subsets, ∀ x ∈ s, x < 8) ∧
        ((∀ i, i < 8 → ∃ s ∈ subsets, i ∈ s) ↔ (2 ≤ subsets.length ∨ 6 = 8)) :=
  ⟨by decide, by decide!,
    makeSelectColSubsets_coverage_iff 8 6 3 (by decide) (by decide) (by decide) (by decide)⟩

/-- C2: for 1 ≤ K ≤ C and every maxSubsets, makeSelectColSubsets(C, K, maxSubsets) returns, and
every subset it returns has exactly K entries, pairwise distinct, each in the range 0 .. C-1. -/
theorem makeSelectColSubsets_subset_shape (C K : Nat) (M : Int) (h1 : 1 ≤ K) (h2 : K ≤ C) :
    ∃ subsets, makeSelectColSubsets C K M = .ok subsets ∧
      ∀ s ∈ subsets, s.length = K ∧ s.Nodup ∧ ∀ x ∈ s, x < C := by
  obtain ⟨layout, subsets, -, -, hok, hall⟩ := makeSelectColSubsets_ok C K M h1 h2
  refine ⟨subsets, hok, ?_⟩
  intro s hs
  obtain ⟨c, -, hlen, hnd, hsub⟩ := forall₂_mem_right hall hs
  exact ⟨hlen, hnd, fun x hx => lt_of_mem_combinationColumns (hsub hx)⟩

/-- Witness of C2 on the coverage driver's call `makeSelectColSubsets(8, 6, 3, subsets)`. -/
theorem makeSelectColSubsets_subset_shape_witness :
    (1 ≤ 6 ∧ 6 ≤ 8) ∧ ∃ subsets, makeSelectColSubsets 8 6 3 = .ok subsets ∧
      ∀ s ∈ subsets, s.length = 6 ∧ s.Nodup ∧ ∀ x ∈ s, x < 8 :=
  ⟨by decide, makeSelectColSubsets_subset_shape 8 6 3 (by decide) (by decide)⟩

/-- C3: for 1 ≤ K ≤ C and every maxSubsets ≥ 0, makeSelectColSubsets(C, K, maxSubsets) returns
at most maxSubsets subsets, whatever layout the group-size search settles on (the initial
one-group-per-subset layout included). -/
theorem makeSelectColSubsets_at_most_maxSubsets (C K : Nat) (M : Int) (h1 : 1 ≤ K) (h2 : K ≤ C)
    (hM : 0 ≤ M) :
    ∃ subsets, makeSelectColSubsets C K M = .ok subsets ∧ (subsets.length : Int) ≤ M := by
  obtain ⟨layout, subsets, -, -, hok, hall⟩ := makeSelectColSubsets_ok C K M h1 h2
  refine ⟨subsets, hok, ?_⟩
  rw [← hall.length_eq]
  exact collectCombinations_length_le layout M hM

/-- Witness of C3 on `makeSelectColSubsets(11, 3, 4, subsets)`, where the initial layout (three
full groups and a short one) has six combinations. -/
theorem makeSelectColSubsets_at_most_maxSubsets_witness :
    (1 ≤ 3 ∧ 3 ≤ 11 ∧ (0 : Int) ≤ 4) ∧
      ∃ subsets, makeSelectColSubsets 11 3 4 = .ok subsets ∧ (subsets.length : Int) ≤ 4 :=
  ⟨by decide, makeSelectColSubsets_at_most_maxSubsets 11 3 4 (by decide) (by decide) (by decide)⟩

/-- C9: for every working tree in which each node has zero or two children, makeCompactTree
returns five vectors of the same length, the node count; row 0 is the row of the root; and in
every row lessOrEqualIndex and greaterOrNotIndex are either both NO_INDEX (and then splitColIndex
is NO_INDEX as well) or both valid indexes into the vectors. -/
theorem makeCompactTree_wellFormed (ct0 : CompactTree) (root : TreeNode)
    (h : zeroOrTwoChildren root = true) :
    ∃ ct, makeCompactTree ct0 root = .ok ct ∧
      (ct.splitColIndex.length = countNodes root ∧ ct.lessOrEqualIndex.length = countNodes root ∧
        ct.greaterOrNotIndex.length = countNodes root ∧
        ct.toLessOrEqualIfNA.length = countNodes root ∧ ct.value.length = countNodes root) ∧
      ct.row? 0 = some (compactNodeAt 0 root) ∧
      ∀ i, i < countNodes root → ∃ row, ct.row? i = some row ∧
        ((row.lessOrEqualIndex = NO_INDEX ∧ row.greaterOrNotIndex = NO_INDEX ∧
            row.splitColIndex = NO_INDEX) ∨
          (0 ≤ row.lessOrEqualIndex ∧ row.lessOrEqualIndex < (countNodes root : Int) ∧
            0 ≤ row.greaterOrNotIndex ∧ row.greaterOrNotIndex < (countNodes root : Int))) := by
  refine ⟨_, makeCompactTree_eq ct0 root h, ?_, ?_, ?_⟩
  · simp only [CompactTree.ofRows, List.length_map, length_preorderRows, and_self]
  · rw [ofRows_row?, preorderRows_getElem?]
    cases root with
    | null => simp [zeroOrTwoChildren] at h
    | node data l r => simp [preorder]
  · intro i hi
    rw [ofRows_row?, preorderRows_getElem?]
    have hsome : ∃ sub, (preorder root)[i]? = some sub := by
      have hlt : i < (preorder root).length := by rw [length_preorder]; exact hi
      exact ⟨_, List.getElem?_eq_getElem hlt⟩
    obtain ⟨sub, hsub⟩ := hsome
    obtain ⟨hwf, hle⟩ := preorder_sub root i sub hsub h
    rw [hsub]
    refine ⟨_, rfl, ?_⟩
    cases sub with
    | null => simp [zeroOrTwoChildren] at hwf
    | node data l r =>
      cases l with
      | null => left; simp [compactNodeAt]
      | node dl ll lr =>
        cases r with
        | null => simp [zeroOrTwoChildren] at hwf
        | node dr rl rr =>
          right
          simp only [countNodes] at hle
          simp only [compactNodeAt, zero_add, countNodes]
          push_cast
          omega

/-- Witness of C9 on the sample tree (a root with two leaves), compacted into vectors that
held one stale row. -/
theorem makeCompactTree_wellFormed_witness :
    zeroOrTwoChildren sampleTree = true ∧
    ∃ ct, makeCompactTree ⟨[5], [5], [5], [true], [⟨1, 1⟩]⟩ sampleTree = .ok ct ∧
      (ct.splitColIndex.length = countNodes sampleTree ∧
        ct.lessOrEqualIndex.length = countNodes sampleTree ∧
        ct.greaterOrNotIndex.length = countNodes sampleTree ∧
        ct.toLessOrEqualIfNA.length = countNodes sampleTree ∧
        ct.value.length = countNodes sampleTree) ∧
      ct.row? 0 = some (compactNodeAt 0 sampleTree) ∧
      ∀ i, i < countNodes sampleTree → ∃ row, ct.row? i = some row ∧
        ((row.lessOrEqualIndex = NO_INDEX ∧ row.greaterOrNotIndex = NO_INDEX ∧
            row.splitColIndex = NO_INDEX) ∨
          (0 ≤ row.lessOrEqualIndex ∧ row.lessOrEqualIndex < (countNodes sampleTree : Int) ∧
            0 ≤ row.greaterOrNotIndex ∧ row.greaterOrNotIndex < (countNodes sampleTree : Int))) :=
  ⟨by decide, makeCompactTree_wellFormed _ sampleTree (by decide)⟩

/-- C10: in the compact tree produced by makeCompactTree the nodes are numbered contiguously
from 0 in DFS pre-order (indexNodes gives the i-th node of the pre-order the serial number i, and
row i of the compact tree is the row of that node), so that for every internal node i,
lessOrEqualIndex[i] = i + 1 and greaterOrNotIndex[i] = i + 1 + (number of nodes in the
less-or-equal subtree). -/
theorem makeCompactTree_preorder_numbering (ct0 : CompactTree) (root : TreeNode)
    (h : zeroOrTwoChildren root = true) :
    ∃ ct, makeCompactTree ct0 root = .ok ct ∧
      (preorder (indexNodes root 0).1).map TreeNode.index = List.range (countNodes root) ∧
      (∀ i sub, (preorder root)[i]? = some sub → ct.row? i = some (compactNodeAt i sub)) ∧
      (∀ i data l r, (preorder root)[i]? = some (.node data l r) → l ≠ .null →
        ct.lessOrEqualIndex[i]? = some ((i + 1 : Nat) : Int) ∧
        ct.greaterOrNotIndex[i]? = some ((i + 1 + countNodes l : Nat) : Int)) := by
  refine ⟨_, makeCompactTree_eq ct0 root h, ?_, ?_, ?_⟩
  · rw [preorder_indexNodes, List.range_eq_range']
  · intro i sub hsub
    rw [ofRows_row?, preorderRows_getElem?, hsub]
    simp
  · intro i data l r hsub hl
    have hrow := preorderRows_getElem? root 0 i
    rw [hsub] at hrow
    simp only [CompactTree.ofRows, List.getElem?_map, hrow, zero_add, Option.map_some']
    cases l with
    | null => exact absurd rfl hl
    | node dl ll lr => simp [compactNodeAt]

/-- Witness of C10 on the sample tree. -/
theorem makeCompactTree_preorder_numbering_witness :
    zeroOrTwoChildren sampleTree = true ∧
    ∃ ct, makeCompactTree ⟨[], [], [], [], []⟩ sampleTree = .ok ct ∧
      (preorder (indexNodes sampleTree 0).1).map TreeNode.index =
        List.range (countNodes sampleTree) ∧
      (∀ i sub, (preorder sampleTree)[i]? = some sub → ct.row? i = some (compactNodeAt i sub)) ∧
      (∀ i data l r, (preorder sampleTree)[i]? = some (.node data l r) → l ≠ .null →
        ct.lessOrEqualIndex[i]? = some ((i + 1 : Nat) : Int) ∧
        ct.greaterOrNotIndex[i]? = some ((i + 1 + countNodes l : Nat) : Int)) :=
  ⟨by decide, makeCompactTree_preorder_numbering _ sampleTree (by decide)⟩

/-- C8: for every compact tree and every selection of rows that the routing rule takes from
node 0 to a leaf, predictOne returns (given fuel for the longest route) and stores, for every
selected row, the value found at the leaf reached by the rule: at an internal node move to
lessOrEqualIndex iff the row's value in the split column is NA and toLessOrEqualIfNA is set, or is
a non-NA numeric value ≤ the threshold, or is a non-NA categorical index equal to the split level;
otherwise move to greaterOrNotIndex. -/
theorem predictOne_follows_routing_rule (fuel : Nat) (values : List (List Value))
    (valueTypes : List ValueType) (selectRows selectColumns : SelectIndexes) (tree : CompactTree)
    (predictVector firstColumn : List Value) (hfirst : values[0]? = some firstColumn)
    (hroute : ∀ row ∈ selectRows.indexVector, row < firstColumn.length ∧ ∃ leaf steps v,
      RoutesTo values valueTypes selectColumns.indexVector tree row 0 leaf steps ∧ steps < fuel ∧
        tree.value[leaf]? = some v) :
    ∃ pv, predictOne fuel values valueTypes selectRows selectColumns tree predictVector = .ok pv ∧
      ∀ row ∈ selectRows.indexVector, ∀ leaf steps,
        RoutesTo values valueTypes selectColumns.indexVector tree row 0 leaf steps →
          ∃ v, tree.value[leaf]? = some v ∧ pv[row]? = some ⟨v, false⟩ := by
  obtain ⟨pv', hpv', -, hset, -⟩ := predictOneRows_spec fuel values valueTypes
    selectColumns.indexVector tree firstColumn.length selectRows.indexVector
    (vecResize predictVector firstColumn.length gNaValue) (length_vecResize _ _ _) hroute
  refine ⟨pv', ?_, hset⟩
  unfold predictOne
  simp only [bind, Except.bind, vecGet_of_getElem? hfirst]
  exact hpv'

/-- Witness of C8 on the sample data: rows 0, 1 and 2 (the last with a missing value in the
split column) routed through the sample compact tree. -/
theorem predictOne_follows_routing_rule_witness :
    (sampleValues[0]? = some (sampleValues.getD 0 []) ∧
      ∀ row ∈ sampleSelectRows.indexVector, row < (sampleValues.getD 0 []).length ∧
        ∃ leaf steps v,
          RoutesTo sampleValues sampleValueTypes sampleSelectColumns.indexVector
            sampleCompactTree row 0 leaf steps ∧ steps < 3 ∧
          sampleCompactTree.value[leaf]? = some v) ∧
    ∃ pv, predictOne 3 sampleValues sampleValueTypes sampleSelectRows sampleSelectColumns
        sampleCompactTree [] = .ok pv ∧
      ∀ row ∈ sampleSelectRows.indexVector, ∀ leaf steps,
        RoutesTo sampleValues sampleValueTypes sampleSelectColumns.indexVector sampleCompactTree
          row 0 leaf steps →
          ∃ v, sampleCompactTree.value[leaf]? = some v ∧ pv[row]? = some ⟨v, false⟩ :=
  ⟨⟨rfl, sample_routes⟩,
    predictOne_follows_routing_rule 3 sampleValues sampleValueTypes sampleSelectRows
      sampleSelectColumns sampleCompactTree [] (sampleValues.getD 0 []) rfl sample_routes⟩

/-- C7: for a categorical target and at least one tree, predict returns and assigns to every
selected row a level predicted by the largest number of trees, and among the levels tied for the
largest number of votes one whose name is lexicographically smallest; any level with these two
properties has the same name, so the predicted name does not depend on the order of the levels in
the category map. (The trees are assumed to be ones on which predictOne returns a level of the
target's category map for every selected row.) -/
theorem predict_majority_vote (fuel : Nat) (values : List (List Value))
    (valueTypes : List ValueType) (categoryMaps : List CategoryMaps) (targetColumn : Nat)
    (selectRows selectColumns : SelectIndexes) (trees : List CompactTree)
    (targetValues : List Value) (targetMap : CategoryMaps) (pvs : List (List Value))
    (htarget : values[targetColumn]? = some targetValues)
    (hsizes : values.length = valueTypes.length ∧
      values.length = selectColumns.boolVector.length)
    (htype : valueTypes[targetColumn]? = some ValueType.kCategorical)
    (hmap : categoryMaps[targetColumn]? = some targetMap)
    (htrees : trees ≠ [])
    (hsel : selectRows.indexVector.Nodup ∧
      ∀ row ∈ selectRows.indexVector, row < targetValues.length)
    (hpvs : List.Forall₂ (fun tree pv =>
      predictOne fuel (values.set targetColumn (List.replicate targetValues.length gNaValue))
        valueTypes selectRows selectColumns tree [] = .ok pv) trees pvs)
    (hlevels : ∀ pv ∈ pvs, ∀ row ∈ selectRows.indexVector, ∃ v, pv[row]? = some v ∧
      targetMap.beginIndex ≤ v.number.i ∧ v.number.i < targetMap.endIndex) :
    ∃ result predictVector,
      predict fuel values valueTypes categoryMaps targetColumn selectRows selectColumns trees =
        .ok result ∧
      result[targetColumn]? = some predictVector ∧
      ∀ row ∈ selectRows.indexVector, ∃ v, predictVector[row]? = some v ∧ v.na = false ∧
        targetMap.beginIndex ≤ v.number.i ∧ v.number.i < targetMap.endIndex ∧
        (∀ c, targetMap.beginIndex ≤ c → c < targetMap.endIndex →
          votesFor pvs row c ≤ votesFor pvs row v.number.i ∧
          (votesFor pvs row c = votesFor pvs row v.number.i →
            levelName targetMap v.number.i ≤ levelName targetMap c)) ∧
        (∀ c, targetMap.beginIndex ≤ c → c < targetMap.endIndex →
          (∀ c', targetMap.beginIndex ≤ c' → c' < targetMap.endIndex →
            votesFor pvs row c' ≤ votesFor pvs row c ∧
            (votesFor pvs row c' = votesFor pvs row c →
              levelName targetMap c ≤ levelName targetMap c')) →
          levelName targetMap c = levelName targetMap v.number.i) :=
  predict_vote_spec fuel values valueTypes categoryMaps targetColumn selectRows selectColumns
    trees targetValues targetMap pvs htarget hsizes htype hmap htrees hsel hpvs hlevels

/-- Witness of C7 on the tie-break scenario of `cover_predict`: two single-leaf trees predict
"F" and "E" for both rows. -/
theorem predict_majority_vote_witness :
    (voteValues[2]? = some [⟨⟨0, 0⟩, false⟩, ⟨⟨0, 1⟩, false⟩] ∧
      (voteValues.length = voteValueTypes.length ∧
        voteValues.length = voteSelectColumns.boolVector.length) ∧
      voteValueTypes[2]? = some ValueType.kCategorical ∧
      voteCategoryMaps[2]? = some ⟨false, ["F", "E"], [("F", 0), ("E", 1)]⟩ ∧
      voteTrees ≠ [] ∧
      ((SelectIndexes.create 2 true).indexVector.Nodup ∧
        ∀ row ∈ (SelectIndexes.create 2 true).indexVector,
          row < [(⟨⟨0, 0⟩, false⟩ : Value), ⟨⟨0, 1⟩, false⟩].length)) ∧
    ∃ result predictVector,
      predict 1 voteValues voteValueTypes voteCategoryMaps 2 (SelectIndexes.create 2 true)
        voteSelectColumns voteTrees = .ok result ∧
      result[2]? = some predictVector ∧
      ∀ row ∈ (SelectIndexes.create 2 true).indexVector, ∃ v, predictVector[row]? = some v ∧
        v.na = false ∧
        (CategoryMaps.mk false ["F", "E"] [("F", 0), ("E", 1)]).beginIndex ≤ v.number.i ∧
        v.number.i < (CategoryMaps.mk false ["F", "E"] [("F", 0), ("E", 1)]).endIndex ∧
        (∀ c, (CategoryMaps.mk false ["F", "E"] [("F", 0), ("E", 1)]).beginIndex ≤ c →
          c < (CategoryMaps.mk false ["F", "E"] [("F", 0), ("E", 1)]).endIndex →
          votesFor votePredictions row c ≤ votesFor votePredictions row v.number.i ∧
          (votesFor votePredictions row c = votesFor votePredictions row v.number.i →
            levelName ⟨false, ["F", "E"], [("F", 0), ("E", 1)]⟩ v.number.i ≤
              levelName ⟨false, ["F", "E"], [("F", 0), ("E", 1)]⟩ c)) ∧
        (∀ c, (CategoryMaps.mk false ["F", "E"] [("F", 0), ("E", 1)]).beginIndex ≤ c →
          c < (CategoryMaps.mk false ["F", "E"] [("F", 0), ("E", 1)]).endIndex →
          (∀ c', (CategoryMaps.mk false ["F", "E"] [("F", 0), ("E", 1)]).beginIndex ≤ c' →
            c' < (CategoryMaps.mk false ["F", "E"] [("F", 0), ("E", 1)]).endIndex →
            votesFor votePredictions row c' ≤ votesFor votePredictions row c ∧
            (votesFor votePredictions row c' = votesFor votePredictions row c →
              levelName ⟨false, ["F", "E"], [("F", 0), ("E", 1)]⟩ c ≤
                levelName ⟨false, ["F", "E"], [("F", 0), ("E", 1)]⟩ c')) →
          levelName ⟨false, ["F", "E"], [("F", 0), ("E", 1)]⟩ c =
            levelName ⟨false, ["F", "E"], [("F", 0), ("E", 1)]⟩ v.number.i) :=
  ⟨⟨rfl, by decide, rfl, rfl, by decide, by decide⟩,
    predict_majority_vote 1 voteValues voteValueTypes voteCategoryMaps 2
      (SelectIndexes.create 2 true) voteSelectColumns voteTrees _ _ votePredictions rfl
      (by decide) rfl rfl (by decide) (by decide) vote_predictions vote_levels⟩

/-- C6: in the working tree that `evaluateTree` hands to `makeCompactTree` (grown by
`improveSubtree` and, if `doPrune`, pruned by `pruneTree`), when the root is not a leaf, every
leaf is reached by at least `minLeafCount` of the selected training rows. The selection lists
no row twice, as every `SelectIndexes` object does. -/
theorem evaluateTree_leaf_count_floor (libm : Libm) (maxDepth maxNodes : Int) (doPrune : Bool)
    (minImprovement : ℚ) (minLeafCount maxSplitsPerNumericAttribute : Int)
    (values : List (List Value)) (valueTypes : List ValueType) (categoryMaps : List CategoryMaps)
    (subsetIndexes : List Nat) (selectRows selectColumns : SelectIndexes) (targetColumn : Nat)
    (sortedIndexes : List (List Nat)) (imputedValues : List Value) (root : TreeNode)
    (maxDepthUsed : Int) (hnodup : selectRows.indexVector.Nodup)
    (h : evaluateTreeRoot libm maxDepth maxNodes doPrune minImprovement minLeafCount
      maxSplitsPerNumericAttribute values valueTypes categoryMaps subsetIndexes selectRows
      selectColumns targetColumn sortedIndexes imputedValues = .ok (root, maxDepthUsed))
    (hroot : isLeaf root = false) :
    ∀ rows ∈ leafRows values valueTypes selectColumns.indexVector root selectRows.indexVector,
      minLeafCount ≤ (rows.length : Int) :=
  leafRows_floor root _ (evaluateTreeRoot_floor hnodup h) (fun hl => by simp [hroot] at hl)

/-- C6 at the tree of `sdValues` with pruning and `minLeafCount = 3`. -/
theorem evaluateTree_leaf_count_floor_witness :
    sdSelectRows.indexVector.Nodup ∧
    evaluateTreeRoot rationalLibm 100 0 true 0 3 (-1) sdValues sdValueTypes sdCategoryMaps [0]
      sdSelectRows sdSelectColumns 1 sdSortedIndexes sdImputedValues = .ok (sdSplitTree, 2) ∧
    isLeaf sdSplitTree = false ∧
    ∀ rows ∈ leafRows sdValues sdValueTypes sdSelectColumns.indexVector sdSplitTree
        sdSelectRows.indexVector, (3 : Int) ≤ (rows.length : Int) :=
  ⟨by decide, by decide!, by decide,
    evaluateTree_leaf_count_floor rationalLibm 100 0 true 0 3 (-1) sdValues sdValueTypes
      sdCategoryMaps [0] sdSelectRows sdSelectColumns 1 sdSortedIndexes sdImputedValues
      sdSplitTree 2 (by decide) (by decide!) (by decide)⟩

/-- C16. After either constructor and any sequence of `clear`, `selectAll`, `select` and
`unselect` calls with in-range arguments, the index vector of a selection has no duplicates and
holds exactly the positions at which the bit vector is true, and `countSelected` is the length
of the index vector. -/
theorem selectIndexes_invariant (size : Nat) (selectAll : Bool) (calls : List SelectCall)
    (s0 s : SelectIndexes)
    (hinit : s0 = SelectIndexes.createEmpty ∨ s0 = SelectIndexes.create size selectAll)
    (h : s0.calls calls = .ok s) :
    s.indexVector.Nodup ∧ (∀ i, i ∈ s.indexVector ↔ s.boolVector[i]? = some true) ∧
      s.countSelected = s.indexVector.length := by
  have h0 : s0.Consistent := by
    rcases hinit with rfl | rfl
    · exact consistent_create 0 false
    · exact consistent_create size selectAll
  exact consistent_calls calls s0 s h0 h

/-- The calls of the coverage test of the source (`clear(3)`, `select(1)`, `selectAll(5)`,
`unselect(2)`) leave the selection `0, 1, 3, 4`, and the invariant holds for it. -/
theorem selectIndexes_invariant_witness :
    SelectIndexes.createEmpty.calls [.clear 3, .select 1, .selectAll 5, .unselect 2] =
        .ok ⟨[true, true, false, true, true], [0, 1, 3, 4], 4⟩ ∧
      ([0, 1, 3, 4] : List Nat).Nodup ∧
      (∀ i, i ∈ ([0, 1, 3, 4] : List Nat) ↔
        ([true, true, false, true, true] : List Bool)[i]? = some true) ∧
      (4 : Nat) = ([0, 1, 3, 4] : List Nat).length :=
  ⟨by decide,
    selectIndexes_invariant 0 false [.clear 3, .select 1, .selectAll 5, .unselect 2]
      SelectIndexes.createEmpty ⟨[true, true, false, true, true], [0, 1, 3, 4], 4⟩
      (Or.inl rfl) (by decide)⟩

/-- C17. On a selection without duplicates and an index in range: `select` of an unselected
index appends it at the end of the index vector, and `unselect` of it changes nothing;
`unselect` of a selected index removes it and keeps the remaining entries in their previous
order, and `select` of it changes nothing. -/
theorem selectIndexes_ordering (s : SelectIndexes) (index : Nat) (hnodup : s.indexVector.Nodup)
    (hrange : index < s.boolVector.length) :
    (s.boolVector[index]? = some false →
      (∃ s1, s.select index = .ok s1 ∧ s1.indexVector = s.indexVector ++ [index] ∧
        s1.boolVector = s.boolVector.set index true ∧
        s1.countSelected = s.countSelected + 1) ∧
      s.unselect index = .ok s) ∧
    (s.boolVector[index]? = some true →
      (∃ s1, s.unselect index = .ok s1 ∧
        s1.indexVector = s.indexVector.filter (fun j => decide (j ≠ index)) ∧
        s1.boolVector = s.boolVector.set index false) ∧
      s.select index = .ok s) := by
  have hlt : index < s.bitMap.length := hrange
  have hnot : ¬ index ≥ s.bitMap.length := by omega
  constructor
  · intro hbit
    have hfalse : s.bitMap.getD index false = false := by
      have : s.bitMap[index]? = some false := hbit
      simp [List.getD_eq_getElem?_getD, this]
    refine ⟨⟨⟨s.bitMap.set index true, s.indexes ++ [index], s.selected + 1⟩, ?_, rfl, rfl,
      rfl⟩, ?_⟩
    · unfold SelectIndexes.select
      rw [if_neg hnot, if_pos hfalse]
    · unfold SelectIndexes.unselect
      rw [if_neg hnot, if_neg (by rw [hfalse]; decide)]
  · intro hbit
    have htrue : s.bitMap.getD index false = true := by
      have : s.bitMap[index]? = some true := hbit
      simp [List.getD_eq_getElem?_getD, this]
    refine ⟨⟨⟨s.bitMap.set index false, unselectLoop index s.indexes,
      if s.selected = 0 then sizeModulus - 1 else s.selected - 1⟩, ?_, ?_, rfl⟩, ?_⟩
    · unfold SelectIndexes.unselect
      rw [if_neg hnot, if_pos htrue]
    · exact unselectLoop_eq_filter index s.indexes hnodup
    · unfold SelectIndexes.select
      rw [if_neg hnot, if_neg (by rw [htrue]; decide)]

/-- The ordering statement at the selection `0, 1, 3, 4` of five positions and the selected
index `1`: unselecting it leaves `0, 3, 4`. -/
theorem selectIndexes_ordering_witness :
    (([true, true, false, true, true] : List Bool)[1]? = some true →
      (∃ s1, SelectIndexes.unselect ⟨[true, true, false, true, true], [0, 1, 3, 4], 4⟩ 1 = .ok s1 ∧
        s1.indexVector = ([0, 1, 3, 4] : List Nat).filter (fun j => decide (j ≠ 1)) ∧
        s1.boolVector = ([true, true, false, true, true] : List Bool).set 1 false) ∧
      SelectIndexes.select ⟨[true, true, false, true, true], [0, 1, 3, 4], 4⟩ 1 =
        .ok ⟨[true, true, false, true, true], [0, 1, 3, 4], 4⟩) ∧
    SelectIndexes.unselect ⟨[true, true, false, true, true], [0, 1, 3, 4], 4⟩ 1 =
      .ok ⟨[true, false, false, true, true], [0, 3, 4], 3⟩ :=
  ⟨(selectIndexes_ordering ⟨[true, true, false, true, true], [0, 1, 3, 4], 4⟩ 1 (by decide)
      (by decide)).2, by decide⟩

/-- C18. After any sequence of `insertCategory` and `findOrInsertCategory` calls on a new
category map, the level names are the distinct names of the calls in the order of their first
insertion, the name at position `k` has index `k`, `getCategoryForIndex` undoes
`getIndexForCategory` on every inserted name, and `getIndexForCategory` undoes
`getCategoryForIndex` on every index from `0` up to `countNamedCategories`. -/
theorem categoryMaps_bijection (useNaCategory : Bool) (calls : List CategoryCall) :
    ((CategoryMaps.create.setUseNaCategory useNaCategory).calls calls).categories =
        firstOccurrences (calls.map CategoryCall.category) ∧
      (∀ (k : Nat) (name : String),
        (firstOccurrences (calls.map CategoryCall.category))[k]? = some name →
        ((CategoryMaps.create.setUseNaCategory useNaCategory).calls calls).getIndexForCategory
          name = .ok (k : Int)) ∧
      (∀ c ∈ calls, ∃ index : Int,
        ((CategoryMaps.create.setUseNaCategory useNaCategory).calls calls).getIndexForCategory
            c.category = .ok index ∧
          ((CategoryMaps.create.setUseNaCategory useNaCategory).calls calls).getCategoryForIndex
            index = .ok c.category) ∧
      (∀ index : Int, 0 ≤ index →
        index < (((CategoryMaps.create.setUseNaCategory useNaCategory).calls
          calls).countNamedCategories : Int) →
        ∃ name : String,
          ((CategoryMaps.create.setUseNaCategory useNaCategory).calls calls).getCategoryForIndex
              index = .ok name ∧
            ((CategoryMaps.create.setUseNaCategory useNaCategory).calls
              calls).getIndexForCategory name = .ok index) := by
  have hwf := wellFormed_calls calls _ (wellFormed_create useNaCategory)
  have hcat := categories_calls_create useNaCategory calls
  generalize (CategoryMaps.create.setUseNaCategory useNaCategory).calls calls = m at hwf hcat
  have hindex : ∀ (k : Nat) (name : String), m.categories[k]? = some name →
      m.getIndexForCategory name = .ok (k : Int) := by
    intro k name hk
    obtain ⟨hlt, heq⟩ := List.getElem?_eq_some.1 hk
    have hmem : name ∈ m.categories := heq ▸ List.getElem_mem hlt
    rw [getIndexForCategory_of_mem m hwf name hmem]
    have := List.indexOf_getElem hwf.1 k hlt
    rw [heq] at this
    rw [this]
  refine ⟨hcat, ?_, ?_, ?_⟩
  · intro k name hk
    rw [← hcat] at hk
    exact hindex k name hk
  · intro c hc
    have hmem : c.category ∈ m.categories := by
      rw [hcat, mem_firstOccurrences]
      exact List.mem_map_of_mem _ hc
    refine ⟨((m.categories.indexOf c.category : Nat) : Int),
      getIndexForCategory_of_mem m hwf _ hmem, ?_⟩
    apply getCategoryForIndex_of_lt
    have hlt : m.categories.indexOf c.category < m.categories.length :=
      List.indexOf_lt_length.2 hmem
    rw [List.getElem?_eq_getElem hlt, List.getElem_indexOf hlt]
  · intro index h0 hlt
    have hlt1 : index.toNat < m.categories.length := by
      have : index < (m.categories.length : Int) := hlt
      omega
    have hcast : ((index.toNat : Nat) : Int) = index := Int.toNat_of_nonneg h0
    have hk : m.categories[index.toNat]? = some (m.categories[index.toNat]) :=
      List.getElem?_eq_getElem hlt1
    refine ⟨m.categories[index.toNat], ?_, ?_⟩
    · have := getCategoryForIndex_of_lt m index.toNat _ hk
      rwa [hcast] at this
    · have := hindex index.toNat _ hk
      rwa [hcast] at this

/-- The bijection at the calls of the coverage test of the source: the levels are `alpha`,
`bravo` and `bravo` has index `1`. -/
theorem categoryMaps_bijection_witness :
    ((CategoryMaps.create.setUseNaCategory false).calls [.insertCategory "alpha",
        .findOrInsertCategory "alpha", .findOrInsertCategory "bravo",
        .insertCategory "alpha"]).categories = ["alpha", "bravo"] ∧
      ((CategoryMaps.create.setUseNaCategory false).calls [.insertCategory "alpha",
        .findOrInsertCategory "alpha", .findOrInsertCategory "bravo",
        .insertCategory "alpha"]).getIndexForCategory "bravo" = .ok 1 :=
  ⟨(categoryMaps_bijection false [.insertCategory "alpha", .findOrInsertCategory "alpha",
      .findOrInsertCategory "bravo", .insertCategory "alpha"]).1.trans (by decide),
    (categoryMaps_bijection false [.insertCategory "alpha", .findOrInsertCategory "alpha",
      .findOrInsertCategory "bravo", .insertCategory "alpha"]).2.1 1 "bravo" (by decide)⟩

/-- C19. On a name that is already present, `insertCategory` raises the duplicate-name error
and leaves the map unchanged, and `findOrInsertCategory` returns the existing index and leaves
the map unchanged. -/
theorem categoryMaps_duplicate_name (m : CategoryMaps) (category : String) (index : Int)
    (h : m.getIndexForCategory category = .ok index) :
    m.insertCategory category =
        (m, .error (.runtimeError "insertCategory: duplicate category name")) ∧
      m.findOrInsertCategory category = (m, index) := by
  unfold CategoryMaps.getIndexForCategory at h
  by_cases hfound : (m.findIndexForCategory category).1 = true
  · rw [if_pos hfound] at h
    cases h
    simp [CategoryMaps.insertCategory, CategoryMaps.findOrInsertCategory, hfound]
  · rw [if_neg hfound] at h
    cases h

/-- The calls of the coverage test of the source: after `insertCategory("alpha")`,
`findOrInsertCategory("alpha")` and `findOrInsertCategory("bravo")`, a second
`insertCategory("alpha")` raises and `findOrInsertCategory("alpha")` returns `0`, and both
leave the map as it was. -/
theorem categoryMaps_duplicate_name_witness :
    CategoryMaps.create.calls [.insertCategory "alpha", .findOrInsertCategory "alpha",
        .findOrInsertCategory "bravo"] = ⟨false, ["alpha", "bravo"], [("alpha", 0), ("bravo", 1)]⟩ ∧
      CategoryMaps.getIndexForCategory ⟨false, ["alpha", "bravo"], [("alpha", 0), ("bravo", 1)]⟩
        "alpha" = .ok 0 ∧
      CategoryMaps.insertCategory ⟨false, ["alpha", "bravo"], [("alpha", 0), ("bravo", 1)]⟩
          "alpha" =
        (⟨false, ["alpha", "bravo"], [("alpha", 0), ("bravo", 1)]⟩,
          .error (.runtimeError "insertCategory: duplicate category name")) ∧
      CategoryMaps.findOrInsertCategory ⟨false, ["alpha", "bravo"], [("alpha", 0), ("bravo", 1)]⟩
          "alpha" =
        (⟨false, ["alpha", "bravo"], [("alpha", 0), ("bravo", 1)]⟩, 0) :=
  ⟨by decide, by decide,
    categoryMaps_duplicate_name ⟨false, ["alpha", "bravo"], [("alpha", 0), ("bravo", 1)]⟩
      "alpha" 0 (by decide)⟩

/-- C15. `SortValueVector::sort(indexVector)` sets the index vector to a permutation of
`0 .. n-1` in which every row stands before every later row in the order of the table (NA rows
first, then ascending value, equal values or two NAs in ascending row-index order), and it is
the only such permutation. -/
theorem sortValueVector_sort_spec (valueVector : List Value) (valueType : ValueType) :
    (SortValueVector.sort valueVector valueType).Perm (List.range valueVector.length) ∧
      (SortValueVector.sort valueVector valueType).Pairwise
        (naFirstAscending valueVector valueType) ∧
      ∀ other : List Nat, other.Perm (List.range valueVector.length) →
        other.Pairwise (naFirstAscending valueVector valueType) →
        other = SortValueVector.sort valueVector valueType := by
  have hperm := sortIndexes_perm valueVector valueType (List.range valueVector.length)
  have hpair := sortIndexes_pairwise valueVector valueType (List.range valueVector.length)
    (List.nodup_range _)
  refine ⟨hperm, hpair, fun other hp ho => ?_⟩
  exact pairwise_naFirstAscending_unique valueVector valueType other _ (hp.trans hperm.symm)
    ho hpair

/-- The sort at the first column of the coverage test of the source (NA, 1, 3, 2, NA, 2): the
two NA rows come first, the two rows with value 2 stand in row order. -/
theorem sortValueVector_sort_spec_witness :
    (SortValueVector.sort fillNumeric .kNumeric).Perm (List.range fillNumeric.length) ∧
      SortValueVector.sort fillNumeric .kNumeric = [0, 4, 1, 3, 5, 2] ∧
      SortValueVector.sort fillCategorical .kCategorical = [0, 4, 1, 3, 5, 2] :=
  ⟨(sortValueVector_sort_spec fillNumeric .kNumeric).1, by decide!, by decide!⟩

/-- C11, the claim as stated fails: on the column 3, 1, 4, 2 with every row selected and the
sorted-index table of the column, `medianValue` returns 3, the upper of the two middle values
of 1, 2, 3, 4, and not the lower-middle value 2. -/
theorem medianValue_even_counterexample :
    medianValue evenColumn (SelectIndexes.create 4 true)
        (SortValueVector.sort evenColumn .kNumeric) = .ok (numericCell 3) ∧
      SortValueVector.sort evenColumn .kNumeric = [1, 3, 0, 2] ∧
      selectedValuesAscending evenColumn (SelectIndexes.create 4 true) = [1, 2, 3, 4] ∧
      (selectedValuesAscending evenColumn (SelectIndexes.create 4 true))[4 / 2 - 1]? = some 2 ∧
      (numericCell 3).number.d ≠ 2 := by
  refine ⟨by decide!, by decide!, by decide!, by decide!, by decide!⟩

/-- C11, amended. For a numeric column, a selection and an index table that is in the order of
the sorted-index tables, holds only rows in range and holds every selected row with a value:
`medianValue` returns NA when no selected row holds a value, and otherwise the entry `k / 2`,
counting from 0, of the `k` selected values in ascending order, which is the middle value for
odd `k` and the upper-middle value for even `k`. -/
theorem medianValue_entry_half (valuesColumn : List Value) (selectRows : SelectIndexes)
    (sortedIndexes : List Nat)
    (hsorted : sortedIndexes.Pairwise (naFirstAscending valuesColumn .kNumeric))
    (hrange : ∀ row ∈ sortedIndexes,
      row < valuesColumn.length ∧ row < selectRows.boolVector.length)
    (hall : ∀ row ∈ selectedValueRows valuesColumn selectRows, row ∈ sortedIndexes) :
    ∃ v, medianValue valuesColumn selectRows sortedIndexes = .ok v ∧
      (selectedValuesAscending valuesColumn selectRows = [] → v = gNaValue) ∧
      (selectedValuesAscending valuesColumn selectRows ≠ [] → v.na = false ∧
        (selectedValuesAscending valuesColumn selectRows)[
          (selectedValuesAscending valuesColumn selectRows).length / 2]? = some v.number.d) := by
  have hvals := sorted_values_of_table valuesColumn selectRows sortedIndexes hsorted
    (fun row hr => (hrange row hr).1) hall
  have hrows := medianValueRows_eq_filter valuesColumn selectRows.boolVector sortedIndexes hrange
  have hfilter : ∀ row ∈ sortedIndexes.filter (fun row =>
      selectRows.boolVector.getD row false && !(valuesColumn.getD row gNaValue).na),
      row < valuesColumn.length ∧ (valuesColumn.getD row gNaValue).na = false := by
    intro row hrow
    obtain ⟨h1, h2⟩ := List.mem_filter.1 hrow
    simp only [Bool.and_eq_true, Bool.not_eq_true'] at h2
    exact ⟨(hrange row h1).1, h2.2⟩
  unfold medianValue
  rw [hrows]
  simp only []
  generalize sortedIndexes.filter (fun row =>
    selectRows.boolVector.getD row false && !(valuesColumn.getD row gNaValue).na) = valueRows
    at hvals hfilter
  have hlen : (selectedValuesAscending valuesColumn selectRows).length = valueRows.length := by
    rw [← hvals, List.length_map]
  by_cases hzero : valueRows.length = 0
  · rw [if_pos hzero]
    refine ⟨gNaValue, rfl, fun _ => rfl, fun hne => ?_⟩
    exact absurd (List.length_eq_zero.1 (hlen.trans hzero)) hne
  · rw [if_neg hzero]
    have hhalf : valueRows.length / 2 < valueRows.length :=
      Nat.div_lt_self (Nat.pos_of_ne_zero hzero) (by decide)
    obtain ⟨hlt, hna⟩ := hfilter _ (List.getElem_mem hhalf)
    have hd : valuesColumn.getD (valueRows[valueRows.length / 2]) gNaValue =
        valuesColumn[valueRows[valueRows.length / 2]] := by
      simp [List.getD_eq_getElem?_getD, List.getElem?_eq_getElem hlt]
    refine ⟨valuesColumn[valueRows[valueRows.length / 2]], ?_, ?_, ?_⟩
    · simp [vecGet, List.getElem?_eq_getElem hhalf, List.getElem?_eq_getElem hlt]
    · intro hnil
      rw [hnil] at hlen
      exact absurd hlen.symm hzero
    · intro _
      constructor
      · rw [← hd]; exact hna
      · rw [hlen, ← hvals, List.getElem?_map, List.getElem?_eq_getElem hhalf]
        simp [List.getElem?_eq_getElem hlt]

/-- The amended statement at the first column of the coverage test of the source (NA, 1, 3, 2,
NA, 2) with every row selected: the four values are 1, 2, 2, 3 and the median is 2. -/
theorem medianValue_entry_half_witness :
    medianValue fillNumeric (SelectIndexes.create 6 true)
        (SortValueVector.sort fillNumeric .kNumeric) = .ok (numericCell 2) ∧
      ∃ v, medianValue fillNumeric (SelectIndexes.create 6 true)
          (SortValueVector.sort fillNumeric .kNumeric) = .ok v ∧
        (selectedValuesAscending fillNumeric (SelectIndexes.create 6 true) = [] →
          v = gNaValue) ∧
        (selectedValuesAscending fillNumeric (SelectIndexes.create 6 true) ≠ [] →
          v.na = false ∧
          (selectedValuesAscending fillNumeric (SelectIndexes.create 6 true))[
            (selectedValuesAscending fillNumeric (SelectIndexes.create 6 true)).length / 2]? =
              some v.number.d) :=
  ⟨by decide!,
    medianValue_entry_half fillNumeric (SelectIndexes.create 6 true)
      (SortValueVector.sort fillNumeric .kNumeric)
      (sortIndexes_pairwise fillNumeric .kNumeric (List.range fillNumeric.length)
        (List.nodup_range _))
      (by decide!) (by decide!)⟩

/-- C12. For a categorical column whose selected rows are in range and whose selected non-NA
values are indexes of named levels of the category map, `modeValue` returns NA exactly when no
selected row holds a value; otherwise it returns a named level that occurs at least as often
among the selected rows as every other level and whose name is the smallest among the levels
that occur equally often. -/
theorem modeValue_most_frequent_level (valuesColumn : List Value) (selectRows : SelectIndexes)
    (categoryMaps : CategoryMaps)
    (hrows : ∀ row ∈ selectRows.indexVector, row < valuesColumn.length)
    (hinside : ∀ row ∈ selectRows.indexVector, (valuesColumn.getD row gNaValue).na = false →
      0 ≤ (valuesColumn.getD row gNaValue).number.i ∧
        (valuesColumn.getD row gNaValue).number.i < (categoryMaps.countNamedCategories : Int)) :
    ∃ v, modeValue valuesColumn selectRows categoryMaps = .ok v ∧
      (v.na = true ↔
        ∀ row ∈ selectRows.indexVector, (valuesColumn.getD row gNaValue).na = true) ∧
      (v.na = true → v = gNaValue) ∧
      (v.na = false →
        0 ≤ v.number.i ∧ v.number.i < (categoryMaps.countNamedCategories : Int) ∧
        0 < levelCount valuesColumn selectRows.indexVector v.number.i ∧
        (∀ c : Int, levelCount valuesColumn selectRows.indexVector c ≤
          levelCount valuesColumn selectRows.indexVector v.number.i) ∧
        ∀ c : Int, 0 ≤ c → c < (categoryMaps.countNamedCategories : Int) →
          levelCount valuesColumn selectRows.indexVector c =
            levelCount valuesColumn selectRows.indexVector v.number.i →
          levelName categoryMaps v.number.i ≤ levelName categoryMaps c) :=
  modeValue_spec valuesColumn selectRows categoryMaps hrows hinside

/-- The mode at the column 0, 1, NA with the levels `B`, `A`, `C` and every row selected: the
levels 0 (`B`) and 1 (`A`) occur once each and the mode is level 1, whose name is smaller. -/
theorem modeValue_most_frequent_level_witness :
    modeValue tieColumn (SelectIndexes.create 3 true) fillCategoryMap =
        .ok (categoricalCell 1) ∧
      ∃ v, modeValue tieColumn (SelectIndexes.create 3 true) fillCategoryMap = .ok v ∧
        (v.na = true ↔ ∀ row ∈ (SelectIndexes.create 3 true).indexVector,
          (tieColumn.getD row gNaValue).na = true) ∧
        (v.na = true → v = gNaValue) ∧
        (v.na = false →
          0 ≤ v.number.i ∧ v.number.i < (fillCategoryMap.countNamedCategories : Int) ∧
          0 < levelCount tieColumn (SelectIndexes.create 3 true).indexVector v.number.i ∧
          (∀ c : Int, levelCount tieColumn (SelectIndexes.create 3 true).indexVector c ≤
            levelCount tieColumn (SelectIndexes.create 3 true).indexVector v.number.i) ∧
          ∀ c : Int, 0 ≤ c → c < (fillCategoryMap.countNamedCategories : Int) →
            levelCount tieColumn (SelectIndexes.create 3 true).indexVector c =
              levelCount tieColumn (SelectIndexes.create 3 true).indexVector v.number.i →
            levelName fillCategoryMap v.number.i ≤ levelName fillCategoryMap c) :=
  ⟨by decide!,
    modeValue_most_frequent_level tieColumn (SelectIndexes.create 3 true) fillCategoryMap
      (by decide) (by decide!)⟩

/-- C13. When `imputeValues` returns, on a selection of columns without duplicates: the array
keeps its shape; for a selected column whose option is not none, the imputed value recorded for
the column is `imputedValue` of the column on the values on entry; a cell that was NA and lies
in a selected row of such a column holds that imputed value, and every other cell holds what
it held on entry; so an NA that remains in a selected row of such a column means an imputed
value that is itself NA. -/
theorem imputeValues_frame (convertTypes : List ImputeOption) (valueTypes : List ValueType)
    (values : List (List Value)) (selectRows selectColumns : SelectIndexes)
    (categoryMaps : List CategoryMaps) (sortedIndexes : List (List Nat)) (st : ImputeState)
    (hnodup : selectColumns.indexVector.Nodup)
    (hcount : selectColumns.countSelected = selectColumns.indexVector.length)
    (h : imputeValues convertTypes valueTypes values selectRows selectColumns categoryMaps
      sortedIndexes = .ok st) :
    st.values.length = values.length ∧
      (∀ (col : Nat) (column : List Value), values[col]? = some column →
        ∃ column', st.values[col]? = some column' ∧ column'.length = column.length) ∧
      (∀ col ∈ selectColumns.indexVector, convertTypes[col]? ≠ some .kNoImpute →
        imputedValue col convertTypes values valueTypes selectRows categoryMaps sortedIndexes =
          .ok (st.imputedValues.getD col gNaValue)) ∧
      (∀ col row v, cell values col row = .ok v →
        cell st.values col row =
          .ok (if col ∈ selectColumns.indexVector ∧ convertTypes[col]? ≠ some .kNoImpute ∧
              row ∈ selectRows.indexVector ∧ v.na = true then
            st.imputedValues.getD col gNaValue else v)) ∧
      (∀ col row v, col ∈ selectColumns.indexVector → convertTypes[col]? ≠ some .kNoImpute →
        row ∈ selectRows.indexVector → cell st.values col row = .ok v → v.na = true →
        (st.imputedValues.getD col gNaValue).na = true) := by
  obtain ⟨hvl, -, hun, hpr⟩ := imputeValues_inv convertTypes valueTypes values selectRows
    selectColumns categoryMaps sortedIndexes st hnodup hcount h
  have hshape : ∀ (col : Nat) (column : List Value), values[col]? = some column →
      ∃ column', st.values[col]? = some column' ∧ column'.length = column.length := by
    intro col column hcol
    by_cases hin : col ∈ selectColumns.indexVector
    · obtain ⟨column0, column', ct, g1, g2, -, g4, -, -⟩ := hpr col hin
      rw [hcol] at g1
      cases g1
      exact ⟨column', g2, g4⟩
    · exact ⟨column, by rw [(hun col hin).1]; exact hcol, rfl⟩
  have hcells : ∀ col row v, cell values col row = .ok v →
      cell st.values col row =
        .ok (if col ∈ selectColumns.indexVector ∧ convertTypes[col]? ≠ some .kNoImpute ∧
            row ∈ selectRows.indexVector ∧ v.na = true then
          st.imputedValues.getD col gNaValue else v) := by
    intro col row v hcell
    obtain ⟨column, hcol, hrow⟩ := (cell_eq_ok_iff _ _ _ _).1 hcell
    rw [cell_eq_ok_iff]
    by_cases hin : col ∈ selectColumns.indexVector
    · obtain ⟨column0, column', ct, g1, g2, g3, -, g5, g6⟩ := hpr col hin
      rw [hcol] at g1
      cases g1
      refine ⟨column', g2, ?_⟩
      by_cases hno : ct = .kNoImpute
      · rw [(g5 hno).1, hrow, if_neg]
        rintro ⟨-, hne, -⟩
        exact hne (by rw [g3, hno])
      · obtain ⟨imputed, -, i2, i3⟩ := g6 hno
        rw [i3 row v hrow]
        have hget : st.imputedValues.getD col gNaValue = imputed := by
          simp [List.getD_eq_getElem?_getD, i2]
        have hne : convertTypes[col]? ≠ some .kNoImpute := by
          rw [g3]
          intro e
          exact hno (Option.some.inj e)
        rw [hget]
        by_cases hc : row ∈ selectRows.indexVector ∧ v.na = true
        · rw [if_pos hc, if_pos ⟨hin, hne, hc⟩]
        · rw [if_neg hc, if_neg (fun hh => hc hh.2.2)]
    · refine ⟨column, by rw [(hun col hin).1]; exact hcol, ?_⟩
      rw [hrow, if_neg (fun hh => hin hh.1)]
  refine ⟨hvl, hshape, ?_, hcells, ?_⟩
  · intro col hin hne
    obtain ⟨column0, column', ct, -, -, g3, -, -, g6⟩ := hpr col hin
    have hno : ct ≠ .kNoImpute := by
      intro e
      exact hne (by rw [g3, e])
    obtain ⟨imputed, i1, i2, -⟩ := g6 hno
    rw [i1]
    simp [List.getD_eq_getElem?_getD, i2]
  · intro col row v hin hne hrow hcell hna
    obtain ⟨column', hcol', hrow'⟩ := (cell_eq_ok_iff _ _ _ _).1 hcell
    obtain ⟨column0, column1, ct, g1, g2, -, g4, -, -⟩ := hpr col hin
    rw [hcol'] at g2
    cases g2
    have hlt : row < column0.length := by
      rw [← g4]
      exact (List.getElem?_eq_some.1 hrow').1
    have h0 : cell values col row = .ok column0[row] :=
      (cell_eq_ok_iff _ _ _ _).2 ⟨column0, g1, List.getElem?_eq_getElem hlt⟩
    have h1 := hcells col row _ h0
    rw [hcell] at h1
    have h2 := Except.ok.inj h1
    by_cases hc : column0[row].na = true
    · rw [if_pos ⟨hin, hne, hrow, hc⟩] at h2
      rw [← h2]
      exact hna
    · rw [if_neg (fun hh => hc hh.2.2.2)] at h2
      rw [h2] at hna
      exact absurd hna hc

/-- The frame statement at the column 7, NA, 3 with the rows 1 and 2 selected and the option
median: the NA of row 1 becomes the median 3 and the other cells stay. -/
theorem imputeValues_frame_witness :
    imputeValues [.kToMedian] [.kNumeric] partValues partSelectRows (SelectIndexes.create 1 true)
        [CategoryMaps.create] partSortedIndexes = .ok partImputed ∧
      partImputed.values.length = partValues.length ∧
      (∀ (col : Nat) (column : List Value), partValues[col]? = some column →
        ∃ column', partImputed.values[col]? = some column' ∧ column'.length = column.length) ∧
      (∀ col ∈ (SelectIndexes.create 1 true).indexVector,
        ([.kToMedian] : List ImputeOption)[col]? ≠ some .kNoImpute →
        imputedValue col [.kToMedian] partValues [.kNumeric] partSelectRows
            [CategoryMaps.create] partSortedIndexes =
          .ok (partImputed.imputedValues.getD col gNaValue)) ∧
      (∀ col row v, cell partValues col row = .ok v →
        cell partImputed.values col row =
          .ok (if col ∈ (SelectIndexes.create 1 true).indexVector ∧
              ([.kToMedian] : List ImputeOption)[col]? ≠ some .kNoImpute ∧
              row ∈ partSelectRows.indexVector ∧ v.na = true then
            partImputed.imputedValues.getD col gNaValue else v)) ∧
      (∀ col row v, col ∈ (SelectIndexes.create 1 true).indexVector →
        ([.kToMedian] : List ImputeOption)[col]? ≠ some .kNoImpute →
        row ∈ partSelectRows.indexVector → cell partImputed.values col row = .ok v →
        v.na = true → (partImputed.imputedValues.getD col gNaValue).na = true) :=
  ⟨by decide!,
    imputeValues_frame [.kToMedian] [.kNumeric] partValues partSelectRows
      (SelectIndexes.create 1 true) [CategoryMaps.create] partSortedIndexes partImputed
      (by decide) (by decide) (by decide!)⟩

/-- C14, the code at a selection that is a strict subset of the rows: on the column 7, NA, 3
with the rows 1 and 2 selected and the option median, the NA of row 1 is replaced by 3 and the
sorted-index table of the column becomes `1, 0`. The table on entry is the one that
`makeSortedIndexes` builds. The new table holds the unselected row 0 and lacks the selected
row 2: the selection-aware sort numbers its entries `0 .. k-1` instead of keeping the selected
rows. -/
theorem imputeValues_table_partial_selection :
    makeSortedIndexes partValues [.kNumeric] (SelectIndexes.create 1 true) =
        .ok partSortedIndexes ∧
      imputeValues [.kToMedian] [.kNumeric] partValues partSelectRows
        (SelectIndexes.create 1 true) [CategoryMaps.create] partSortedIndexes =
        .ok partImputed ∧
      partImputed.sortedIndexes = [[1, 0]] ∧
      partSelectRows.indexVector = [1, 2] ∧
      (2 ∈ partSelectRows.indexVector ∧ 2 ∉ partImputed.sortedIndexes.getD 0 []) ∧
      (0 ∉ partSelectRows.indexVector ∧ 0 ∈ partImputed.sortedIndexes.getD 0 []) ∧
      SortValueVector.sortSelected (partImputed.values.getD 0 []) .kNumeric partSelectRows =
        [1, 0] := by
  refine ⟨by decide!, by decide!, by decide, by decide, by decide, by decide, by decide!⟩

/-- C20, the claim as stated fails: on the grid `A`, empty / `NA`, `"B"` of two categorical
columns (only `B` quoted, NA string `NA`) the round trip returns `"A"`, `NA` / `NA`, `"B"`:
the unquoted `A` comes back quoted, and the unquoted empty cell comes back as the NA string. -/
theorem cells_round_trip_counterexample :
    cellsToValues plainNumberText mixedCells mixedQuoted [.kCategorical, .kCategorical] true
        "NA" false [] =
      .ok ([[categoricalCell 0, gNaValue], [gNaValue, categoricalCell 0]],
        [⟨false, ["A"], [("A", 0)]⟩, ⟨false, ["B"], [("B", 0)]⟩]) ∧
      valuesToCells plainNumberText [[categoricalCell 0, gNaValue], [gNaValue, categoricalCell 0]]
        [.kCategorical, .kCategorical]
        [⟨false, ["A"], [("A", 0)]⟩, ⟨false, ["B"], [("B", 0)]⟩] true "NA" =
      .ok ([["A", "NA"], ["NA", "B"]], [[true, false], [false, true]]) ∧
      ([["A", "NA"], ["NA", "B"]] : List (List String)) ≠ mixedCells ∧
      ([[true, false], [false, true]] : List (List Bool)) ≠ mixedQuoted := by
  refine ⟨by decide, by decide, by decide, by decide⟩

/-- C20, amended. For a grid of at least one row and one column whose columns are all
categorical, `cellsToValues` from empty category maps (`constCategories` false, `interpretNA`
true, NA string `s`) followed by `valuesToCells` (`writeNA` true, the same `s`) returns a grid
of the same shape in which an unquoted cell that was `s` or empty is the unquoted `s`, and
every other cell has its original text and is quoted; so a grid in which every cell is quoted
or is the unquoted `s` comes back with its original texts and quoted flags. -/
theorem cellsToValues_valuesToCells_round_trip (numberText : NumberText) (naString : String)
    (cells : List (List String)) (quoted : List (List Bool)) (valueTypes : List ValueType)
    (numRows numCols : Nat) (hrows : 0 < numRows) (hcols : 0 < numCols)
    (hcells : IsGrid cells numRows numCols) (hquoted : IsGrid quoted numRows numCols)
    (htypes : valueTypes = List.replicate numCols .kCategorical) :
    ∃ values maps cells' quoted',
      cellsToValues numberText cells quoted valueTypes true naString false [] =
          .ok (values, maps) ∧
        valuesToCells numberText values valueTypes maps true naString = .ok (cells', quoted') ∧
        IsGrid cells' numRows numCols ∧ IsGrid quoted' numRows numCols ∧
        (∀ row col, row < numRows → col < numCols →
          gridCell cells' quoted' row col =
            roundTripCell naString (gridCell cells quoted row col).1
              (gridCell cells quoted row col).2) ∧
        ((∀ row col, row < numRows → col < numCols →
            (gridCell cells quoted row col).2 = true ∨
              (gridCell cells quoted row col).1 = naString) →
          cells' = cells ∧ quoted' = quoted) := by
  obtain ⟨values, maps, cells', quoted', h1, h2, h3, h4, h5⟩ :=
    cells_round_trip numberText naString cells quoted valueTypes numRows numCols hrows hcols
      hcells hquoted htypes
  refine ⟨values, maps, cells', quoted', h1, h2, h3, h4, h5, fun hfix => ?_⟩
  have hpoint : ∀ row col, row < numRows → col < numCols →
      gridCell cells' quoted' row col = gridCell cells quoted row col := by
    intro row col hrow hcol
    rw [h5 row col hrow hcol, roundTripCell_fixed _ _ _ (hfix row col hrow hcol)]
  constructor
  · apply grid_ext cells' cells numRows numCols "" h3 hcells
    intro row col hrow hcol
    exact congrArg Prod.fst (hpoint row col hrow hcol)
  · apply grid_ext quoted' quoted numRows numCols false h4 hquoted
    intro row col hrow hcol
    exact congrArg Prod.snd (hpoint row col hrow hcol)

/-- The amended round trip at the grid `"A"`, `NA` / `NA`, `"B"`, in which every cell is
quoted or the unquoted NA string. -/
theorem cellsToValues_valuesToCells_round_trip_witness :
    ∃ values maps cells' quoted',
      cellsToValues plainNumberText quotedCells quotedFlags
          [.kCategorical, .kCategorical] true "NA" false [] = .ok (values, maps) ∧
        valuesToCells plainNumberText values [.kCategorical, .kCategorical] maps true "NA" =
          .ok (cells', quoted') ∧
        IsGrid cells' 2 2 ∧ IsGrid quoted' 2 2 ∧
        (∀ row col, row < 2 → col < 2 →
          gridCell cells' quoted' row col =
            roundTripCell "NA" (gridCell quotedCells quotedFlags row col).1
              (gridCell quotedCells quotedFlags row col).2) ∧
        ((∀ row col, row < 2 → col < 2 →
            (gridCell quotedCells quotedFlags row col).2 = true ∨
              (gridCell quotedCells quotedFlags row col).1 = "NA") →
          cells' = quotedCells ∧ quoted' = quotedFlags) :=
  cellsToValues_valuesToCells_round_trip plainNumberText "NA" quotedCells quotedFlags
    [.kCategorical, .kCategorical] 2 2 (by decide) (by decide) ⟨rfl, by decide⟩
    ⟨rfl, by decide⟩ rfl

/-- C26, the code on a selection that is a strict subset of the rows: on two equal vectors of
two rows with only row 0 selected, the one selected row matches, so the fraction of matches
between the selected rows is 1, but `compareMatch` divides the count of matches by
`values1.size()` and returns 1/2. -/
theorem compareMatch_partial_selection :
    compareMatch matchColumn matchColumn matchSelectRows = .ok (1 / 2) ∧
    matchFraction matchColumn matchColumn matchSelectRows = 1 := by
  decide!

/-- C24, the code when no column is a candidate: on two rows whose only attribute is constant,
`train` with `columnsPerTree = 1` passes the test "no useful columns", clamps `columnsPerTree`
to the number 0 of candidate columns and calls `makeSelectColSubsets(0, 0, maxTrees)`, which
divides by zero; with `columnsPerTree = 0` the same input raises "no useful columns". -/
theorem train_no_candidate_columns :
    (candidateColumns constantValues numericThenCategorical (SelectIndexes.create 2 true)
      firstOfTwo.indexVector (List.range firstOfTwo.countSelected)
      (SelectIndexes.clear firstOfTwo firstOfTwo.boolVector.length)).map
        SelectIndexes.countSelected = .ok 0 ∧
    train rationalLibm 1 100 0 false 0 1 (-1) 1 100 (SelectIndexes.create 2 true) firstOfTwo
      constantValues numericThenCategorical [noCategories, twoLevels] 1 twoDefaults =
        .error .divideByZero ∧
    makeSelectColSubsets 0 0 1 = .error .divideByZero ∧
    train rationalLibm 0 100 0 false 0 1 (-1) 1 100 (SelectIndexes.create 2 true) firstOfTwo
      constantValues numericThenCategorical [noCategories, twoLevels] 1 twoDefaults =
        .error (.runtimeError "no useful columns") := by
  decide!

/-- C22, the code on a target column with an NA cell: the two training inputs
`naTargetValues 0` and `naTargetValues 1` differ only in the payload of the NA cell of the
target in row 3, and `train` returns a single leaf for the first and a root with two leaves
for the second. -/
theorem train_reads_na_target_payload :
    (train rationalLibm 1 100 0 false 0 1 (-1) 1 100 (SelectIndexes.create 4 true) firstOfTwo
      (naTargetValues 0) numericThenCategorical [noCategories, twoLevels] 1 twoDefaults).map
        (fun trained => trained.trees) = .ok [singleLeaf ⟨0, 0⟩] ∧
    (train rationalLibm 1 100 0 false 0 1 (-1) 1 100 (SelectIndexes.create 4 true) firstOfTwo
      (naTargetValues 1) numericThenCategorical [noCategories, twoLevels] 1 twoDefaults).map
        (fun trained => trained.trees) = .ok [oneSplit 0 false ⟨0, 0⟩ ⟨0, 0⟩] ∧
    (cell (naTargetValues 0) 1 3).map (fun v => v.na) = .ok true ∧
    (cell (naTargetValues 1) 1 3).map (fun v => v.na) = .ok true := by
  decide!

/-- C28, the code at a node whose first subset column has no split: at the less-or-equal
child of the root for `blockedValues` (rows 0 and 1, targets `X` and `Y`) column 0 is constant
and yields no split, column 1 yields the split at 3/2 of impurity 0, and the choice, which
starts from the measure -1 of entry 0, finds no best column; the child stays a leaf and
`train` returns a root with two leaves. -/
theorem improveImperfectLeaf_first_column_blocks :
    columnSplits rationalLibm blockedChildRows [0] blockedValues twoNumericThenCategorical
      [noCategories, noCategories, threeLevels] [0, 1] 2 [[0, 1, 2, 3], [0, 2, 1, 3], []] (-1)
      .kCategorical 4 [0, 1] =
        .ok [⟨gNaValue, gNaValue, gNaValue, -1⟩,
          ⟨numericCell (3 / 2), categoricalCell 0, categoricalCell 1, 0⟩] ∧
    pickBestColumn [⟨gNaValue, gNaValue, gNaValue, -1⟩,
      ⟨numericCell (3 / 2), categoricalCell 0, categoricalCell 1, 0⟩] = .ok ⟨0, -1, false⟩ ∧
    (train rationalLibm 2 100 0 false 0 1 (-1) 1 100 (SelectIndexes.create 4 true)
      firstTwoOfThree blockedValues twoNumericThenCategorical
      [noCategories, noCategories, threeLevels] 2 xorImputeOptions).map
        (fun trained => trained.trees) = .ok [oneSplit 0 false ⟨0, 0⟩ ⟨0, 2⟩] := by
  decide!

/-- C29, the code at a root whose two children differ: for `lopsidedValues` (categorical
target) and for `lopsidedNumericValues` (numeric target) the test of the source, which takes
the less-or-equal child for both terms of the weighted child estimate, replaces the root by a
leaf, while the test with the term of the greater-or-not child keeps it; `train` with pruning
returns a single leaf for both. -/
theorem testReplaceSubtree_ignores_right_child :
    lopsidedUpdated.bind (testReplaceSubtreeCategorical bisectLibm) = .ok true ∧
    lopsidedUpdated.bind (specReplaceSubtreeCategorical bisectLibm) = .ok false ∧
    lopsidedNumericUpdated.bind (testReplaceSubtreeNumeric bisectLibm) = .ok true ∧
    lopsidedNumericUpdated.bind (specReplaceSubtreeNumeric bisectLibm) = .ok false ∧
    (train bisectLibm 1 100 0 true 0 1 (-1) 1 100 (SelectIndexes.create 10 true) firstOfTwo
      lopsidedValues numericThenCategorical [noCategories, twoLevels] 1 twoDefaults).map
        (fun trained => trained.trees) = .ok [singleLeaf ⟨0, 0⟩] ∧
    (train bisectLibm 1 100 0 true 0 1 (-1) 1 100 (SelectIndexes.create 16 true) firstOfTwo
      lopsidedNumericValues sdValueTypes sdCategoryMaps 1 twoDefaults).map
        (fun trained => trained.trees) = .ok [singleLeaf ⟨9 / 4, 0⟩] := by
  decide!

/-- C30, the code when a child was replaced by a leaf earlier in the pass: for `staleValues`
the loop of `pruneTree` visits the less-or-equal child of the root first and replaces it by a
leaf; that leaf keeps `branchCorrectCount = 8`, the sum over the two leaves it had, while its
`leafLessOrEqualCount`, the sum over the leaves now in its subtree, is 6. The test of the root
then reads 8 and keeps the root; with the value 6 it would replace the root. -/
theorem pruneTree_stale_branchCorrectCount :
    staleUpdated.map (fun root => sortByDepth (findBranchNodes 0 root [])) =
      .ok [(1, [false]), (0, [])] ∧
    staleUpdated.bind (fun root => testReplaceSubtreeCategorical bisectLibm
      (nodeAt root [false])) = .ok true ∧
    staleUpdated.map (fun root =>
      ((nodeAt (replaceWithLeaf root [false]) [false]).data?.map
          (fun data => data.branchCorrectCount),
        leafCorrectSum (nodeAt (replaceWithLeaf root [false]) [false]))) = .ok (some 8, 6) ∧
    staleUpdated.bind (fun root => testReplaceSubtreeCategorical bisectLibm
      (replaceWithLeaf root [false])) = .ok false ∧
    staleUpdated.bind (fun root => testReplaceSubtreeCategorical bisectLibm
      (withConsistentChild (replaceWithLeaf root [false]))) = .ok true := by
  decide!

/-- C31, the code at `maxNodes = 1`: for `separableValues` the tree holds one node, the root,
when the builder tests `gNextIndex < maxNodes`; `gNextIndex` was set back to 0 after the root
took its index, so the test reads 0 < 1, the root is split, and `train` returns a tree of
three nodes. -/
theorem improveSubtree_maxNodes_one :
    (growTree rationalLibm 100 (intCast 1) 0 1 (-1) separableValues numericThenCategorical
      [noCategories, twoLevels] [0] (SelectIndexes.create 4 true) firstOfTwo 1
      [[0, 1, 2, 3], []] [numericCell 2, gNaValue]).map (fun grown => countNodes grown.1) =
        .ok 3 ∧
    (train rationalLibm 1 100 0 false 0 1 (-1) 1 1 (SelectIndexes.create 4 true) firstOfTwo
      separableValues numericThenCategorical [noCategories, twoLevels] 1 twoDefaults).map
        (fun trained => trained.trees) = .ok [oneSplit 0 false ⟨0, 0⟩ ⟨0, 1⟩] := by
  decide!

/-- C37, the code for a categorical target and a selection that is a strict subset of the
rows: with rows 0 and 2 selected, `predict` sets the target cells of the unselected rows 1 and
3, which held `X` and `Y`, to NA; for a numeric target the unselected rows keep 6 and 8. -/
theorem predict_resets_unselected_rows :
    (predict 10 separableValues numericThenCategorical [noCategories, twoLevels] 1 evenRows
      firstOfTwo [oneSplit 0 false ⟨0, 0⟩ ⟨0, 1⟩]).map (fun result => result.getD 1 []) =
        .ok [categoricalCell 0, gNaValue, categoricalCell 1, gNaValue] ∧
    separableValues.getD 1 [] =
      [categoricalCell 0, categoricalCell 0, categoricalCell 1, categoricalCell 1] ∧
    (predict 10 separableNumericValues sdValueTypes sdCategoryMaps 1 evenRows firstOfTwo
      [oneSplit 0 false ⟨10, 0⟩ ⟨20, 0⟩]).map (fun result => result.getD 1 []) =
        .ok [numericCell 10, numericCell 6, numericCell 20, numericCell 8] := by
  decide!

/-- C33, the claim as stated fails: on the column 7, NA, 3 with rows 1 and 2 selected, the
selection-aware sort returns the two indexes 1, 0 and the unconstrained sort the three
indexes 1, 2, 0. -/
theorem sortSelected_counterexample :
    SortValueVector.sortSelected [numericCell 7, gNaValue, numericCell 3] .kNumeric
      partSelectRows = [1, 0] ∧
    SortValueVector.sort [numericCell 7, gNaValue, numericCell 3] .kNumeric = [1, 2, 0] := by
  decide!

/-- C33, amended. For a selection whose index vector has as many entries as the value vector
(every row selected), `SortValueVector::sort(indexVector, selectRows)` produces the same index
list as `SortValueVector::sort(indexVector)`. -/
theorem sortSelected_eq_sort_of_all_rows (valueVector : List Value) (valueType : ValueType)
    (selectRows : SelectIndexes) (h : selectRows.indexVector.length = valueVector.length) :
    SortValueVector.sortSelected valueVector valueType selectRows =
      SortValueVector.sort valueVector valueType := by
  unfold SortValueVector.sortSelected SortValueVector.sort
  rw [h]

/-- C33, amended, on the column 3, 1, 4, 2 with all four rows selected. -/
theorem sortSelected_eq_sort_of_all_rows_witness :
    (SelectIndexes.create 4 true).indexVector.length = evenColumn.length ∧
    SortValueVector.sortSelected evenColumn .kNumeric (SelectIndexes.create 4 true) =
      SortValueVector.sort evenColumn .kNumeric :=
  ⟨by decide, sortSelected_eq_sort_of_all_rows evenColumn .kNumeric (SelectIndexes.create 4 true)
    (by decide)⟩

/-- C40. `makeSelectColSubsets(C, K, maxSubsets)` with `K ≥ 1` raises exactly when `K > C`,
and then it is the logic error of its first check. For `1 ≤ K ≤ C` and every `maxSubsets` it
returns: the group-size search settles on a group size between 1 and `K` (no division by a
group size of zero), the layout has a full group and enough groups to choose its combinations
from, there is one subset per combination, and every combination supplies at least `K`
columns, so the check of the subset loop does not fire. -/
theorem makeSelectColSubsets_raises_iff (C K : Nat) (M : Int) (h1 : 1 ≤ K) :
    ((∃ e, makeSelectColSubsets C K M = .error e) ↔ C < K) ∧
    (C < K → makeSelectColSubsets C K M =
      .error (.logicError "makeSelectColSubsets: columnsPerSubset > columnsCount")) ∧
    (K ≤ C → ∃ layout subsets, chooseLayout C K M = .ok layout ∧
      makeSelectColSubsets C K M = .ok subsets ∧
      1 ≤ layout.columnsPerFullGroup ∧ layout.columnsPerFullGroup ≤ K ∧
      1 ≤ layout.nFullGroups ∧
      (layout.specialCaseShortGroup = true → layout.kChoose ≤ layout.nFullGroups) ∧
      (layout.columnsPerShortGroup ≠ 0 → layout.kChoose ≤ layout.nFullGroups + 1) ∧
      (layout.columnsPerShortGroup = 0 → layout.kChoose ≤ layout.nFullGroups) ∧
      subsets.length = (collectCombinations layout M).length ∧
      ∀ c ∈ collectCombinations layout M,
        K ≤ (combinationColumns C layout.columnsPerFullGroup c).length) := by
  have herr : C < K → makeSelectColSubsets C K M =
      .error (.logicError "makeSelectColSubsets: columnsPerSubset > columnsCount") := by
    intro h
    unfold makeSelectColSubsets
    rw [if_pos h]
  refine ⟨⟨?_, fun h => ⟨_, herr h⟩⟩, herr, ?_⟩
  · rintro ⟨e, he⟩
    by_contra hlt
    obtain ⟨_, subsets, _, _, hok, _⟩ := makeSelectColSubsets_ok C K M h1 (Nat.le_of_not_lt hlt)
    rw [hok] at he
    cases he
  · intro h2
    obtain ⟨layout, subsets, hv, hlayout, hok, hall⟩ := makeSelectColSubsets_ok C K M h1 h2
    obtain ⟨e1, e2, e3, e4⟩ := validLayout_enough_groups C K layout h2 hv
    exact ⟨layout, subsets, hlayout, hok, hv.1, hv.2.1, e4, e1, e2, e3, hall.length_eq.symm,
      fun c hc => (collectCombinations_good C K M layout hv c hc).2.2⟩

/-- C40 on the call `makeSelectColSubsets(8, 6, 3, subsets)` of the coverage driver. -/
theorem makeSelectColSubsets_raises_iff_witness :
    (1 ≤ 6) ∧
    ((∃ e, makeSelectColSubsets 8 6 3 = .error e) ↔ 8 < 6) ∧
    (8 < 6 → makeSelectColSubsets 8 6 3 =
      .error (.logicError "makeSelectColSubsets: columnsPerSubset > columnsCount")) ∧
    (6 ≤ 8 → ∃ layout subsets, chooseLayout 8 6 3 = .ok layout ∧
      makeSelectColSubsets 8 6 3 = .ok subsets ∧
      1 ≤ layout.columnsPerFullGroup ∧ layout.columnsPerFullGroup ≤ 6 ∧
      1 ≤ layout.nFullGroups ∧
      (layout.specialCaseShortGroup = true → layout.kChoose ≤ layout.nFullGroups) ∧
      (layout.columnsPerShortGroup ≠ 0 → layout.kChoose ≤ layout.nFullGroups + 1) ∧
      (layout.columnsPerShortGroup = 0 → layout.kChoose ≤ layout.nFullGroups) ∧
      subsets.length = (collectCombinations layout 3).length ∧
      ∀ c ∈ collectCombinations layout 3,
        6 ≤ (combinationColumns 8 layout.columnsPerFullGroup c).length) :=
  ⟨by decide, makeSelectColSubsets_raises_iff 8 6 3 (by decide)⟩

/-- C38. For every working tree in which each node has zero or two children and every row
whose cells in the split columns on its way exist, `makeCompactTree` returns, the routing rule
of the predictor takes the row from node 0 of the compact tree to a leaf (and so does the loop
of `predictOne`, given fuel for the nodes of the tree), and the value stored at that leaf is
the `leafValue` payload of the leaf that the same rule (`splitValue`, `splitColIndex`,
`toLessOrEqualIfNA`) reaches in the working tree. -/
theorem makeCompactTree_preserves_prediction (ct0 : CompactTree) (root : TreeNode)
    (values : List (List Value)) (valueTypes : List ValueType) (selectColumnIndexes : List Nat)
    (row : Nat) (hz : zeroOrTwoChildren root = true)
    (hroute : RouteOK values valueTypes selectColumnIndexes row root) :
    ∃ ct leaf steps data, makeCompactTree ct0 root = .ok ct ∧
      RoutesTo values valueTypes selectColumnIndexes ct row 0 leaf steps ∧
      predictOneRoute values valueTypes selectColumnIndexes ct values.length row
        (countNodes root) 0 = .ok leaf ∧
      treeLeaf values valueTypes selectColumnIndexes root row = some data ∧
      ct.value[leaf]? = some data.leafValue.number := by
  obtain ⟨leaf, steps, data, hr, hsteps, hleaf, hvalue⟩ :=
    routesTo_of_tree values valueTypes selectColumnIndexes (preorderRows root 0) row root 0 hz
      (fun j _ => by rw [Nat.zero_add]) hroute
  exact ⟨_, leaf, steps, data, makeCompactTree_eq ct0 root hz, hr,
    predictOneRoute_of_routesTo values valueTypes selectColumnIndexes _ row hr _ hsteps, hleaf,
    hvalue⟩

/-- C38 on the sample tree and row 1 of the sample values. -/
theorem makeCompactTree_preserves_prediction_witness :
    zeroOrTwoChildren sampleTree = true ∧
    RouteOK sampleValues sampleValueTypes sampleSelectColumns.indexVector 1 sampleTree ∧
    ∃ ct leaf steps data, makeCompactTree ⟨[], [], [], [], []⟩ sampleTree = .ok ct ∧
      RoutesTo sampleValues sampleValueTypes sampleSelectColumns.indexVector ct 1 0 leaf steps ∧
      predictOneRoute sampleValues sampleValueTypes sampleSelectColumns.indexVector ct
        sampleValues.length 1 (countNodes sampleTree) 0 = .ok leaf ∧
      treeLeaf sampleValues sampleValueTypes sampleSelectColumns.indexVector sampleTree 1 =
        some data ∧
      ct.value[leaf]? = some data.leafValue.number :=
  ⟨by decide, sample_routeOK,
    makeCompactTree_preserves_prediction _ sampleTree sampleValues sampleValueTypes
      sampleSelectColumns.indexVector 1 (by decide) sample_routeOK⟩

/-- C39. In the compact tree that `makeCompactTree` produces from a working tree in which each
node has zero or two children, both child indexes of an internal node are strictly greater
than the node's own index and smaller than the number of nodes; so the loop of `predictOne`
visits strictly increasing node indexes, and for every row whose cells in the split columns on
its way exist it reaches a leaf after fewer steps than the tree has nodes. -/
theorem makeCompactTree_indexes_increase (ct0 : CompactTree) (root : TreeNode)
    (hz : zeroOrTwoChildren root = true) :
    ∃ ct, makeCompactTree ct0 root = .ok ct ∧
      (∀ (i : Nat) (node : CompactNode), ct.row? i = some node →
        node.lessOrEqualIndex ≠ NO_INDEX →
          (i : Int) < node.lessOrEqualIndex ∧ (i : Int) < node.greaterOrNotIndex ∧
          node.lessOrEqualIndex < (countNodes root : Int) ∧
          node.greaterOrNotIndex < (countNodes root : Int)) ∧
      ∀ (values : List (List Value)) (valueTypes : List ValueType)
        (selectColumnIndexes : List Nat) (row : Nat),
        RouteOK values valueTypes selectColumnIndexes row root →
        ∃ leaf steps, RoutesTo values valueTypes selectColumnIndexes ct row 0 leaf steps ∧
          steps < countNodes root ∧
          predictOneRoute values valueTypes selectColumnIndexes ct values.length row
            (countNodes root) 0 = .ok leaf := by
  refine ⟨_, makeCompactTree_eq ct0 root hz, ?_, ?_⟩
  · intro i node hnode hinternal
    rw [ofRows_row?, preorderRows_getElem?] at hnode
    cases hsub : (preorder root)[i]? with
    | none => simp [hsub] at hnode
    | some sub =>
      simp only [hsub, Option.map_some', Nat.zero_add, Option.some.injEq] at hnode
      obtain ⟨hzsub, hle⟩ := preorder_sub root i sub hsub hz
      cases sub with
      | null => simp [zeroOrTwoChildren] at hzsub
      | node data l r =>
        cases l with
        | null =>
          subst hnode
          simp [compactNodeAt] at hinternal
        | node ld l1 l2 =>
          cases r with
          | null => simp [zeroOrTwoChildren] at hzsub
          | node gd g1 g2 =>
            subst hnode
            simp only [compactNodeAt]
            simp only [countNodes] at hle ⊢
            push_cast
            refine ⟨by omega, by omega, by omega, by omega⟩
  · intro values valueTypes selectColumnIndexes row hroute
    obtain ⟨leaf, steps, data, hr, hsteps, -, -⟩ :=
      routesTo_of_tree values valueTypes selectColumnIndexes (preorderRows root 0) row root 0 hz
        (fun j _ => by rw [Nat.zero_add]) hroute
    exact ⟨leaf, steps, hr, hsteps,
      predictOneRoute_of_routesTo values valueTypes selectColumnIndexes _ row hr _ hsteps⟩

/-- C39 on the sample tree. -/
theorem makeCompactTree_indexes_increase_witness :
    zeroOrTwoChildren sampleTree = true ∧
    ∃ ct, makeCompactTree ⟨[], [], [], [], []⟩ sampleTree = .ok ct ∧
      (∀ (i : Nat) (node : CompactNode), ct.row? i = some node →
        node.lessOrEqualIndex ≠ NO_INDEX →
          (i : Int) < node.lessOrEqualIndex ∧ (i : Int) < node.greaterOrNotIndex ∧
          node.lessOrEqualIndex < (countNodes sampleTree : Int) ∧
          node.greaterOrNotIndex < (countNodes sampleTree : Int)) ∧
      ∀ (values : List (List Value)) (valueTypes : List ValueType)
        (selectColumnIndexes : List Nat) (row : Nat),
        RouteOK values valueTypes selectColumnIndexes row sampleTree →
        ∃ leaf steps, RoutesTo values valueTypes selectColumnIndexes ct row 0 leaf steps ∧
          steps < countNodes sampleTree ∧
          predictOneRoute values valueTypes selectColumnIndexes ct values.length row
            (countNodes sampleTree) 0 = .ok leaf :=
  ⟨by decide, makeCompactTree_indexes_increase _ sampleTree (by decide)⟩

/-- C32: a tree built by `evaluateTree` has at most max(`maxDepth`, 1) levels, the root being
level 1; the `maxDepthUsed` reported with it is the number of levels of the tree as grown,
before pruning; and with `maxDepth ≤ 1` the tree is a single leaf. -/
theorem evaluateTree_maxDepth_bound {libm : Libm} {ct0 ct : CompactTree}
    {maxDepth maxNodes : Int} {doPrune : Bool} {minImprovement : ℚ}
    {minLeafCount maxSplitsPerNumericAttribute : Int} {values : List (List Value)}
    {valueTypes : List ValueType} {categoryMaps : List CategoryMaps} {subsetIndexes : List Nat}
    {selectRows selectColumns : SelectIndexes} {targetColumn : Nat}
    {sortedIndexes : List (List Nat)} {imputedValues : List Value} {maxDepthUsed : Int}
    (h : evaluateTree libm ct0 maxDepth maxNodes doPrune minImprovement minLeafCount
      maxSplitsPerNumericAttribute values valueTypes categoryMaps subsetIndexes selectRows
      selectColumns targetColumn sortedIndexes imputedValues = .ok (ct, maxDepthUsed)) :
    (compactLevels ct : Int) ≤ max maxDepth 1 ∧
    (∃ grown, growTree libm maxDepth maxNodes minImprovement minLeafCount
        maxSplitsPerNumericAttribute values valueTypes categoryMaps subsetIndexes selectRows
        selectColumns targetColumn sortedIndexes imputedValues = .ok (grown, maxDepthUsed) ∧
      maxDepthUsed = (treeLevels grown : Int) ∧
      (doPrune = false → compactLevels ct = treeLevels grown)) ∧
    (maxDepth ≤ 1 → ∃ value, ct = singleLeaf value) := by
  obtain ⟨grown, final, hg, hz, hsame, hle, hct⟩ := evaluateTree_paths h
  obtain ⟨hzg, hd, hcap, -⟩ := growTree_paths hg
  have hlev : compactLevels ct = treeLevels final := by
    rw [hct]
    exact compactLevels_eq final hz
  have hfin : treeLevels final ≤ treeLevels grown := by
    unfold treeLevels
    have := hle (fun _ => true)
    omega
  have hpos := treeLevels_pos final
  refine ⟨?_, ⟨grown, hg, hd, ?_⟩, ?_⟩
  · rw [hlev]
    rcases hcap with h1 | h1 <;> omega
  · intro hf
    rw [hlev, hsame hf]
  · intro hm
    have h1 : treeLevels final = 1 := by
      rcases hcap with h1 | h1 <;> omega
    obtain ⟨data, hdata⟩ := single_of_levels hz h1
    exact ⟨data.leafValue.number, by rw [hct, hdata, ofRows_single]⟩

/-- C32 at `maxDepth = 2` on `zigzagValues`, whose tree has three levels when the depth is
not bounded: the tree built has two levels. -/
theorem evaluateTree_maxDepth_bound_witness :
    (compactLevels zigzagCapped : Int) ≤ max 2 1 ∧
    (∃ grown, growTree rationalLibm 2 (intCast 100) 0 1 (-1) zigzagValues
        numericThenCategorical [noCategories, threeLevels] [0] (SelectIndexes.create 3 true)
        firstOfTwo 1 [[0, 1, 2], []] [numericCell 2, gNaValue] = .ok (grown, 2) ∧
      (2 : Int) = (treeLevels grown : Int) ∧
      (false = false → compactLevels zigzagCapped = treeLevels grown)) ∧
    ((2 : Int) ≤ 1 → ∃ value, zigzagCapped = singleLeaf value) :=
  evaluateTree_maxDepth_bound
    (show evaluateTree rationalLibm ⟨[], [], [], [], []⟩ 2 (intCast 100) false 0 1 (-1)
      zigzagValues numericThenCategorical [noCategories, threeLevels] [0]
      (SelectIndexes.create 3 true) firstOfTwo 1 [[0, 1, 2], []] [numericCell 2, gNaValue] =
        .ok (zigzagCapped, 2) by decide!)

/-- C25: in a tree built by `evaluateTree` with `maxSplitsPerNumericAttribute = m ≥ 0`, along
every path from the root to a leaf a numeric column is the split column of at most `m`
nodes. -/
theorem evaluateTree_numeric_split_cap {libm : Libm} {ct0 ct : CompactTree}
    {maxDepth maxNodes : Int} {doPrune : Bool} {minImprovement : ℚ}
    {minLeafCount maxSplitsPerNumericAttribute : Int} {values : List (List Value)}
    {valueTypes : List ValueType} {categoryMaps : List CategoryMaps} {subsetIndexes : List Nat}
    {selectRows selectColumns : SelectIndexes} {targetColumn : Nat}
    {sortedIndexes : List (List Nat)} {imputedValues : List Value} {maxDepthUsed : Int}
    (h : evaluateTree libm ct0 maxDepth maxNodes doPrune minImprovement minLeafCount
      maxSplitsPerNumericAttribute values valueTypes categoryMaps subsetIndexes selectRows
      selectColumns targetColumn sortedIndexes imputedValues = .ok (ct, maxDepthUsed))
    (hm : 0 ≤ maxSplitsPerNumericAttribute) (col : Nat)
    (hcol : valueTypes[col]? = some .kNumeric) :
    (compactMaxPathCount (splitsOn selectColumns.indexVector col) ct ct.value.length 0 : Int) ≤
      maxSplitsPerNumericAttribute := by
  obtain ⟨grown, final, hg, hz, -, hle, hct⟩ := evaluateTree_paths h
  obtain ⟨-, -, -, hcap⟩ := growTree_paths hg
  have h1 := hcap col hcol hm
  have h2 := hle (splitsOn selectColumns.indexVector col)
  rw [hct, compact_paths _ final hz]
  omega

/-- C25 at `m = 1` on `zigzagValues`, whose tree splits twice on column 0 along one path when
there is no cap: the tree built splits once. -/
theorem evaluateTree_numeric_split_cap_witness :
    (compactMaxPathCount (splitsOn firstOfTwo.indexVector 0) zigzagCapped
      zigzagCapped.value.length 0 : Int) ≤ 1 :=
  evaluateTree_numeric_split_cap
    (show evaluateTree rationalLibm ⟨[], [], [], [], []⟩ 100 (intCast 100) false 0 1 1
      zigzagValues numericThenCategorical [noCategories, threeLevels] [0]
      (SelectIndexes.create 3 true) firstOfTwo 1 [[0, 1, 2], []] [numericCell 2, gNaValue] =
        .ok (zigzagCapped, 2) by decide!)
    (by decide) 0 (by decide)

/-- C23, the claim as stated fails with `doPrune` on: for `agreeingValues` and `minDepth = 2`
the tree is grown to two levels, passes the filter, and is pruned to a single leaf, so the
ensemble holds a tree of one level. -/
theorem train_minDepth_counterexample :
    (train bisectLibm 1 100 2 true 0 1 (-1) 1 100 (SelectIndexes.create 7 true) firstOfTwo
      agreeingValues numericThenCategorical [noCategories, twoLevels] 1 twoDefaults).map
        (fun trained => trained.trees) = .ok [singleLeaf ⟨0, 0⟩] ∧
    compactLevels (singleLeaf ⟨0, 0⟩) = 1 := by
  decide!

/-- C23, amended: the filter on `minDepth` reads `maxDepthUsed`, the number of levels of the tree
as grown, before pruning. Every tree `ct` of the ensemble returned by `train` is the compact
form of a tree `final` obtained from a tree `grown` that `growTree` grew on one of the column
subsets to at least `minDepth` levels: `final` is `grown` itself with `doPrune` off and the
result of `pruneTree` on `grown` with `doPrune` on. The levels of `ct` are those of `final`, at
most those of `grown`, and with `doPrune` off at least `minDepth`. -/
theorem train_minDepth_filter {libm : Libm} {columnsPerTree maxDepth minDepth : Int}
    {doPrune : Bool} {minImprovement : ℚ}
    {minLeafCount maxSplitsPerNumericAttribute maxTrees maxNodes : Int}
    {selectRows availableColumns : SelectIndexes} {values : List (List Value)}
    {valueTypes : List ValueType} {categoryMaps : List CategoryMaps} {targetColumn : Nat}
    {imputeOptions : List ImputeOption} {trained : Trained}
    (h : train libm columnsPerTree maxDepth minDepth doPrune minImprovement minLeafCount
      maxSplitsPerNumericAttribute maxTrees maxNodes selectRows availableColumns values
      valueTypes categoryMaps targetColumn imputeOptions = .ok trained) :
    ∀ ct ∈ trained.trees,
      ∃ setup subset grown final, trainSetup libm columnsPerTree maxTrees selectRows
          availableColumns values valueTypes categoryMaps targetColumn imputeOptions =
            .ok setup ∧ subset ∈ setup.subsets ∧
        growTree libm maxDepth (intCast maxNodes) minImprovement minLeafCount
          maxSplitsPerNumericAttribute setup.values valueTypes setup.categoryMaps subset
          selectRows setup.selectColumns targetColumn setup.sortedIndexes
          setup.imputedValues = .ok (grown, (treeLevels grown : Int)) ∧
        minDepth ≤ (treeLevels grown : Int) ∧
        (if doPrune = true then pruneTree libm grown valueTypes targetColumn = .ok final
          else final = grown) ∧
        ct = CompactTree.ofRows (preorderRows final 0) ∧
        compactLevels ct = treeLevels final ∧ treeLevels final ≤ treeLevels grown ∧
        (doPrune = false → minDepth ≤ (compactLevels ct : Int)) := by
  obtain ⟨setup, hs, -, hall⟩ := train_mem h
  intro ct hct
  obtain ⟨subset, hsub, d, hev, hd⟩ := hall ct hct
  obtain ⟨grown, final, hg, hlink, hz, hle, hfinal⟩ := evaluateTree_final hev
  obtain ⟨-, hlev, -, -⟩ := growTree_paths hg
  have hcl : compactLevels ct = treeLevels final := by
    rw [hfinal, compactLevels_eq final hz]
  have hfl : treeLevels final ≤ treeLevels grown := by
    have := hle (fun _ => true)
    unfold treeLevels
    omega
  refine ⟨setup, subset, grown, final, hs, hsub, ?_, ?_, hlink, hfinal, hcl, hfl, ?_⟩
  · rw [← hlev]
    exact hg
  · omega
  · intro hf
    subst hf
    simp only [Bool.false_eq_true, if_false] at hlink
    rw [hcl, hlink]
    omega

/-- C23, amended, on `agreeingValues` with `doPrune` on and `minDepth = 2`, at the one tree of
the ensemble, a single leaf: it is the compact form of the pruned tree, and the tree that was
grown has at least two levels. -/
theorem train_minDepth_filter_witness :
    ∃ setup subset grown final, trainSetup bisectLibm 1 1 (SelectIndexes.create 7 true)
        firstOfTwo agreeingValues numericThenCategorical [noCategories, twoLevels] 1
        twoDefaults = .ok setup ∧ subset ∈ setup.subsets ∧
      growTree bisectLibm 100 (intCast 100) 0 1 (-1) setup.values numericThenCategorical
        setup.categoryMaps subset (SelectIndexes.create 7 true) setup.selectColumns 1
        setup.sortedIndexes setup.imputedValues = .ok (grown, (treeLevels grown : Int)) ∧
      (2 : Int) ≤ (treeLevels grown : Int) ∧
      (if true = true then pruneTree bisectLibm grown numericThenCategorical 1 = .ok final
        else final = grown) ∧
      singleLeaf ⟨0, 0⟩ = CompactTree.ofRows (preorderRows final 0) ∧
      compactLevels (singleLeaf ⟨0, 0⟩) = treeLevels final ∧
      treeLevels final ≤ treeLevels grown ∧
      (true = false → (2 : Int) ≤ (compactLevels (singleLeaf ⟨0, 0⟩) : Int)) :=
  train_minDepth_filter
    (show train bisectLibm 1 100 2 true 0 1 (-1) 1 100 (SelectIndexes.create 7 true)
      firstOfTwo agreeingValues numericThenCategorical [noCategories, twoLevels] 1
      twoDefaults = .ok agreeingPruned by decide!)
    (singleLeaf ⟨0, 0⟩) (List.mem_singleton_self _)

/-- C35: when `improveLeaf` splits a node on column `col` with split value `s`, the node's
`toLessOrEqualIfNA` is true iff the imputed value `v` recorded for `col` is not NA and `v ≤ s`
(numeric column) or `v = s` (categorical column). Hence a training row of the node whose cell
in `col` holds the imputed value, not NA, is put among the rows of the less-or-equal child iff
the routing rule of the predictor sends an NA in `col` to the less-or-equal child, and among
the rows of the other child iff not. -/
theorem improveLeaf_toLessOrEqualIfNA {libm : Libm} {data : NodeData}
    {lessOrEqualNode greaterOrNotNode node1 : TreeNode} {ancestors : List Int}
    {subsetIndexes : List Nat} {values : List (List Value)} {valueTypes : List ValueType}
    {categoryMaps : List CategoryMaps} {selectColumns : SelectIndexes} {targetColumn : Nat}
    {sortedIndexes : List (List Nat)} {minImprovement : ℚ}
    {minLeafCount maxSplitsPerNumericAttribute : Int} {imputedValues : List Value}
    {gNextIndex gNextIndex1 : Nat} (hnd : data.selectRows.indexes.Nodup)
    (h : improveLeaf libm (.node data lessOrEqualNode greaterOrNotNode) ancestors
      subsetIndexes values valueTypes categoryMaps selectColumns targetColumn sortedIndexes
      minImprovement minLeafCount maxSplitsPerNumericAttribute imputedValues gNextIndex =
        .ok (true, node1, gNextIndex1)) :
    ∃ (data1 ld gd : NodeData) (col : Nat) (colType : ValueType) (imputed : Value),
      node1 = .node data1 (.node ld .null .null) (.node gd .null .null) ∧
      0 ≤ data1.splitColIndex ∧
      selectColumns.indexVector[data1.splitColIndex.toNat]? = some col ∧
      valueTypes[col]? = some colType ∧ imputedValues[col]? = some imputed ∧
      (data1.toLessOrEqualIfNA = true ↔ imputed.na = false ∧
        match colType with
        | .kNumeric => imputed.number.d ≤ data1.splitValue.number.d
        | .kCategorical => imputed.number.i = data1.splitValue.number.i) ∧
      ∀ row ∈ data.selectRows.indexes,
        (values.getD col []).getD row gNaValue = imputed → imputed.na = false →
        ∀ naCell : Value, naCell.na = true →
          (row ∈ ld.selectRows.indexes ↔
            takesLessOrEqual naCell colType data1.toLessOrEqualIfNA
              data1.splitValue.number = true) ∧
          (row ∈ gd.selectRows.indexes ↔
            takesLessOrEqual naCell colType data1.toLessOrEqualIfNA
              data1.splitValue.number = false) := by
  obtain ⟨splitValue, leafL, leafG, splitColIndex, col, numRows, colType, targetValueType,
    imputed, ld, gd, hcol, hct, himp, hd, hnode, -⟩ := improveLeaf_split h
  have hspec := distributeRows_spec targetValueType values valueTypes col targetColumn
    splitValue colType (vecGet_of_getElem? hct) data.selectRows.indexVector _ _ ld gd
    hnd (by intro r _; simp [newLeaf, SelectIndexes.clear])
    (selOK_clear ⟨[], [], 0⟩ numRows) (selOK_clear ⟨[], [], 0⟩ numRows) hd
  obtain ⟨a1, a2, -, -⟩ := hspec
  refine ⟨_, ld, gd, col, colType, imputed, hnode, ?_, ?_, hct, himp, ?_, ?_⟩
  · simp
  · simpa using hcol
  · cases colType <;> cases hna : imputed.na <;> simp [isLessOrEqual, hna]
  · intro row hrow hcell hna naCell hcellna
    have h1 : row ∈ ld.selectRows.indexes ↔ isLessOrEqual colType splitValue imputed = true := by
      rw [a1]
      simp only [newLeaf, SelectIndexes.clear, SelectIndexes.indexVector, List.nil_append,
        List.mem_filter, hcell]
      exact ⟨fun hmem => hmem.2, fun hle => ⟨hrow, hle⟩⟩
    have h2 : row ∈ gd.selectRows.indexes ↔ isLessOrEqual colType splitValue imputed = false := by
      rw [a2]
      simp only [newLeaf, SelectIndexes.clear, SelectIndexes.indexVector, List.nil_append,
        List.mem_filter, hcell]
      simp [hrow]
    have h3 : takesLessOrEqual naCell colType
        (!imputed.na && isLessOrEqual colType splitValue imputed) splitValue.number =
          isLessOrEqual colType splitValue imputed := by
      simp [takesLessOrEqual, hcellna, hna]
    exact ⟨by rw [h1, h3], by rw [h2, h3]⟩

/-- C35 on `separableValues` with the imputed value 2 for column 0: the split value is 3/2, so
`toLessOrEqualIfNA` is false, and rows 2 and 3, which hold 2, are in the greater-or-not
leaf. -/
theorem improveLeaf_toLessOrEqualIfNA_witness :
    ∃ (data1 ld gd : NodeData) (col : Nat) (colType : ValueType) (imputed : Value),
      separableSplit = .node data1 (.node ld .null .null) (.node gd .null .null) ∧
      0 ≤ data1.splitColIndex ∧
      firstOfTwo.indexVector[data1.splitColIndex.toNat]? = some col ∧
      numericThenCategorical[col]? = some colType ∧
      [numericCell 2, gNaValue][col]? = some imputed ∧
      (data1.toLessOrEqualIfNA = true ↔ imputed.na = false ∧
        match colType with
        | .kNumeric => imputed.number.d ≤ data1.splitValue.number.d
        | .kCategorical => imputed.number.i = data1.splitValue.number.i) ∧
      ∀ row ∈ (SelectIndexes.create 4 true).indexes,
        (separableValues.getD col []).getD row gNaValue = imputed → imputed.na = false →
        ∀ naCell : Value, naCell.na = true →
          (row ∈ ld.selectRows.indexes ↔
            takesLessOrEqual naCell colType data1.toLessOrEqualIfNA
              data1.splitValue.number = true) ∧
          (row ∈ gd.selectRows.indexes ↔
            takesLessOrEqual naCell colType data1.toLessOrEqualIfNA
              data1.splitValue.number = false) :=
  improveLeaf_toLessOrEqualIfNA (by decide)
    (show improveLeaf rationalLibm separableRoot [] [0] separableValues numericThenCategorical
      [noCategories, twoLevels] firstOfTwo 1 [[0, 1, 2, 3], []] 0 1 (-1)
      [numericCell 2, gNaValue] 1 = .ok (true, separableSplit, 3) by decide!)

/-- C21, the claim as stated fails for a level whose name is the NA string: with the level
`NA` in the map (index 0), the unquoted cell `NA` is converted to NA, not to the index of the
level. -/
theorem cellsToValues_constCategories_counterexample :
    cellsToValues plainNumberText [["NA"]] [[false]] [.kCategorical] true "NA" true
        [naLevelMap] = .ok ([[gNaValue]], [naLevelMap]) ∧
      naLevelMap.findIndexForCategory "NA" = (true, 0) ∧ "NA" ∈ naLevelMap.categories := by
  refine ⟨by decide, by decide, by decide⟩

/-- C21, amended. On a grid of at least one row whose width is the number of value types and of
category maps, `cellsToValues` with `constCategories = true` returns values and leaves every
category map unchanged; in a categorical column a cell read as NA (unquoted and empty, or
unquoted and the NA string when `interpretNA`) is NA, and of the other cells one whose text is
a level of the column's map gets the index of that level, and one whose text is not a level is
NA. -/
theorem cellsToValues_constCategories (numberText : NumberText) (cells : List (List String))
    (quoted : List (List Bool)) (valueTypes : List ValueType) (interpretNA : Bool)
    (naString : String) (categoryMaps : List CategoryMaps) (numRows numCols : Nat)
    (hrows : 0 < numRows) (hcells : IsGrid cells numRows numCols)
    (hquoted : IsGrid quoted numRows numCols) (htypes : valueTypes.length = numCols)
    (hmaps : categoryMaps.length = numCols) :
    ∃ values, cellsToValues numberText cells quoted valueTypes interpretNA naString true
        categoryMaps = .ok (values, categoryMaps) ∧ values.length = numCols ∧
      ∀ (col row : Nat) (map : CategoryMaps), row < numRows →
        valueTypes[col]? = some .kCategorical →
        categoryMaps[col]? = some map →
        ∃ vals v, values[col]? = some vals ∧ vals.length = numRows ∧ vals[row]? = some v ∧
          (readAsNA interpretNA naString (gridCell cells quoted row col).1
              (gridCell cells quoted row col).2 = true → v = gNaValue) ∧
          (readAsNA interpretNA naString (gridCell cells quoted row col).1
              (gridCell cells quoted row col).2 = false →
            (∀ index, map.findIndexForCategory (gridCell cells quoted row col).1 =
                (true, index) → v.na = false ∧ v.number.i = index) ∧
            ((map.findIndexForCategory (gridCell cells quoted row col).1).1 = false →
              v.na = true)) := by
  have h0 : 0 < cells.length := by rw [hcells.1]; exact hrows
  have hfirst : (cells[0]).length = numCols := hcells.2 _ (List.getElem_mem h0)
  obtain ⟨values, hloop, hlen, hall⟩ := cellsToValuesLoop_const numberText cells quoted
    valueTypes interpretNA naString numRows numCols hcells hquoted htypes categoryMaps hmaps
    (List.range numCols) (fun col hc => List.mem_range.1 hc)
  refine ⟨values, ?_, by simpa using hlen, ?_⟩
  · unfold cellsToValues
    rw [vecGet_of_getElem? (List.getElem?_eq_getElem h0)]
    simp only [hfirst, htypes, hmaps, ne_eq, not_true_eq_false, if_false, and_false]
    rw [hcells.1]
    exact hloop
  · intro col row map hrow hc hm
    have hcol : col < numCols := by
      have := (List.getElem?_eq_some.1 hm).1
      omega
    have hj : (List.range numCols)[col]? = some col := by
      rw [List.getElem?_range hcol]
    have hv := hall col col map hj hc hm
    refine ⟨_, constCategoryValue interpretNA naString map (gridCell cells quoted row col),
      hv, by simp, ?_, ?_, ?_⟩
    · rw [List.getElem?_map, List.getElem?_range hrow]
      rfl
    · intro hna
      simp [constCategoryValue, hna]
    · intro hna
      constructor
      · intro index hfound
        unfold CategoryMaps.findIndexForCategory at hfound
        cases hl : map.categoryToIndex.lookup (gridCell cells quoted row col).1 with
        | none => simp [hl] at hfound
        | some i =>
          simp only [hl, Prod.mk.injEq, true_and] at hfound
          subst hfound
          simp [constCategoryValue, hna, hl]
      · intro hnot
        unfold CategoryMaps.findIndexForCategory at hnot
        cases hl : map.categoryToIndex.lookup (gridCell cells quoted row col).1 with
        | none => simp [constCategoryValue, hna, hl]
        | some i => simp [hl] at hnot

/-- C21, amended, on the grid `A`, empty / `NA`, `"B"` with the levels `A` for column 0 and `C`
for column 1. -/
theorem cellsToValues_constCategories_witness :
    ∃ values, cellsToValues plainNumberText mixedCells mixedQuoted
        [.kCategorical, .kCategorical] true "NA" true [levelA, levelC] =
          .ok (values, [levelA, levelC]) ∧ values.length = 2 ∧
      ∀ (col row : Nat) (map : CategoryMaps), row < 2 →
        [ValueType.kCategorical, .kCategorical][col]? =
          some .kCategorical → [levelA, levelC][col]? = some map →
        ∃ vals v, values[col]? = some vals ∧ vals.length = 2 ∧ vals[row]? = some v ∧
          (readAsNA true "NA" (gridCell mixedCells mixedQuoted row col).1
              (gridCell mixedCells mixedQuoted row col).2 = true → v = gNaValue) ∧
          (readAsNA true "NA" (gridCell mixedCells mixedQuoted row col).1
              (gridCell mixedCells mixedQuoted row col).2 = false →
            (∀ index, map.findIndexForCategory (gridCell mixedCells mixedQuoted row col).1 =
                (true, index) → v.na = false ∧ v.number.i = index) ∧
            ((map.findIndexForCategory (gridCell mixedCells mixedQuoted row col).1).1 = false →
              v.na = true)) :=
  cellsToValues_constCategories plainNumberText mixedCells mixedQuoted
    [.kCategorical, .kCategorical] true "NA" [levelA, levelC] 2 2 (by decide) ⟨rfl, by decide⟩
    ⟨rfl, by decide⟩ rfl rfl

/-- C27: for a non-empty list of cells without a line feed, the line that writes each cell
between double quotes, with every double quote inside doubled, and joins the cells with
commas is read by `nextCsvLine` as exactly those cells, in order, each flagged as quoted; the
line may end the stream or be followed by a line feed and further content, which is left
unread. -/
theorem nextCsvLine_quoted_round_trip (cells : List String) (more : List Char)
    (hne : cells ≠ []) (hnl : ∀ cell ∈ cells, newlineChar ∉ cell.data)
    (hmore : more = [] ∨ more.head? = some newlineChar) :
    nextCsvLine (String.mk (quotedLine cells ++ more)) =
      .ok (true, cells, List.replicate cells.length true, String.mk (more.drop 1)) := by
  have hget := getline_append (quotedLine cells) more (quotedLine_no_newline cells hnl) hmore
  obtain ⟨init, hinit⟩ := quotedLine_last cells hne
  have hlen := length_le_quotedLine cells
  have hpos : 0 < cells.length := List.length_pos.2 hne
  have hcr : ¬ ((quotedLine cells).length > 0 ∧
      strAt (quotedLine cells) ((quotedLine cells).length - 1) = returnChar) := by
    intro h
    have h1 : (quotedLine cells).length - 1 = init.length := by rw [hinit]; simp
    rw [h1, hinit, strAt_append] at h
    exact absurd h.2 (by decide)
  unfold nextCsvLine
  simp only [hget, if_neg hcr]
  have hloop := cellsLoop_spec cells hne [] [] [] ((quotedLine cells).length + 1)
    (quotedLine cells) (by simp) (by omega)
  simp only [List.length_nil, List.nil_append] at hloop
  rw [hloop]
  have hsucc : decide ((quotedLine cells).length > 0) = true := by
    simp only [gt_iff_lt, decide_eq_true_eq]
    omega
  simp only [hsucc]

/-- C27 on the cells `a"b`, empty, `c,d`, followed by a line feed and `x`. -/
theorem nextCsvLine_quoted_round_trip_witness :
    nextCsvLine (String.mk (quotedLine [quoteInside, "", commaInside] ++
        [newlineChar, 'x'])) =
      .ok (true, [quoteInside, "", commaInside],
        List.replicate [quoteInside, "", commaInside].length true,
        String.mk ([newlineChar, 'x'].drop 1)) :=
  nextCsvLine_quoted_round_trip [quoteInside, "", commaInside] [newlineChar, 'x'] (by decide)
    (by decide) (Or.inr rfl)

/-- C36: for 1 ≤ K ≤ C, `makeSelectColSubsets` returns one subset per collected combination,
and subset number `i` is the first `K` entries of the columns contained in the groups of
combination number `i`, sorted ascending by (number of the earlier subsets that contain the
column, column index). -/
theorem makeSelectColSubsets_least_used (C K : Nat) (M : Int) (h1 : 1 ≤ K) (h2 : K ≤ C) :
    ∃ layout subsets, chooseLayout C K M = .ok layout ∧
      makeSelectColSubsets C K M = .ok subsets ∧
      subsets.length = (collectCombinations layout M).length ∧
      ∀ (i : Nat) (c s : List Nat), (collectCombinations layout M)[i]? = some c →
        subsets[i]? = some s →
        ∃ sorted : List Nat, sorted.Perm (combinationColumns C layout.columnsPerFullGroup c) ∧
          sorted.Pairwise (usageLess (subsets.take i)) ∧ s = sorted.take K :=
  makeSelectColSubsets_sorted C K M h1 h2

/-- C36 on the call `makeSelectColSubsets(8, 6, 3, subsets)` of the coverage driver. -/
theorem makeSelectColSubsets_least_used_witness :
    ∃ layout subsets, chooseLayout 8 6 3 = .ok layout ∧
      makeSelectColSubsets 8 6 3 = .ok subsets ∧
      subsets.length = (collectCombinations layout 3).length ∧
      ∀ (i : Nat) (c s : List Nat), (collectCombinations layout 3)[i]? = some c →
        subsets[i]? = some s →
        ∃ sorted : List Nat, sorted.Perm (combinationColumns 8 layout.columnsPerFullGroup c) ∧
          sorted.Pairwise (usageLess (subsets.take i)) ∧ s = sorted.take 6 :=
  makeSelectColSubsets_least_used 8 6 3 (by decide) (by decide)

end Entree
